import Mathlib

/-! # PRTS native core: ring buffer, memory pool, metrics, log parser, indexer, thread pool

A shallow embedding of the C sources under `native/src` together with theorems about them.
Machine integers (`size_t`, `uint64_t`) are natural numbers reduced modulo `2^64` wherever the
C arithmetic can wrap.  Nullable pointers are `Option`s, raw memory is a list of bytes.
-/

namespace PRTS

/-! ## Common types (`types.h`) -/

/-- Result codes of `prts_result_t`. -/
inductive prts_result_t where
  | PRTS_OK
  | PRTS_ERROR
  | PRTS_ERROR_NOMEM
  | PRTS_ERROR_INVALID
  | PRTS_ERROR_TIMEOUT
  | PRTS_ERROR_FULL
  | PRTS_ERROR_EMPTY
  deriving DecidableEq, Repr

open prts_result_t

/-- Numeric value of a result code. -/
def prts_result_t.code : prts_result_t → Int
  | PRTS_OK => 0
  | PRTS_ERROR => -1
  | PRTS_ERROR_NOMEM => -2
  | PRTS_ERROR_INVALID => -3
  | PRTS_ERROR_TIMEOUT => -4
  | PRTS_ERROR_FULL => -5
  | PRTS_ERROR_EMPTY => -6

/-- Number of values of a 64-bit `size_t` / `uint64_t`. -/
def SIZE_MOD : Nat := 2 ^ 64

/-- Wrapping addition on `size_t`. -/
def size_add (a b : Nat) : Nat := (a + b) % SIZE_MOD

/-- Wrapping subtraction on `size_t` (both operands below `2^64`). -/
def size_sub (a b : Nat) : Nat := (a + SIZE_MOD - b) % SIZE_MOD

/-- Wrapping multiplication on `size_t`. -/
def size_mul (a b : Nat) : Nat := (a * b) % SIZE_MOD

/-- The bytes `memcpy(dst + off, src, n)` leaves in `dst`. -/
def memcpy_to (dst : List Nat) (off : Nat) (src : List Nat) (n : Nat) : List Nat :=
  dst.take off ++ src.take n ++ dst.drop (off + n)

/-- The bytes `memcpy(out, src + off, n)` stores in `out`. -/
def memcpy_from (src : List Nat) (off n : Nat) : List Nat :=
  (src.drop off).take n

/-! ## Ring buffer (`core/ring_buffer.c`) -/

/-- The struct `prts_ring_buffer`; `buffer` is the malloc-ed backing storage, byte by byte. -/
structure prts_ring_buffer where
  buffer : List Nat
  capacity : Nat
  element_size : Nat
  head : Nat
  tail : Nat
  deriving DecidableEq, Repr

/-- The rounding loop `while (actual_capacity < capacity) actual_capacity <<= 1;` of
`prts_ringbuf_create`; `none` when the fuel runs out before the loop exits. -/
def round_capacity : Nat → Nat → Nat → Option Nat
  | 0, _, _ => none
  | fuel + 1, actual_capacity, capacity =>
    if actual_capacity < capacity then
      round_capacity fuel ((actual_capacity <<< 1) % SIZE_MOD) capacity
    else some actual_capacity

/-- The function `prts_ringbuf_create`.  `buf_out` tells whether the output pointer is non-null,
`malloc_struct` and `malloc_buffer` whether the two allocations succeed, and `raw` gives the
(uninitialised) bytes of the fresh backing storage.  The result is `none` when the rounding
loop does not exit within `fuel` iterations. -/
def prts_ringbuf_create (fuel : Nat) (capacity element_size : Nat) (buf_out : Bool)
    (malloc_struct malloc_buffer : Bool) (raw : Nat → Nat) :
    Option (prts_result_t × Option prts_ring_buffer) :=
  if !buf_out || capacity = 0 || element_size = 0 then
    some (PRTS_ERROR_INVALID, none)
  else
    match round_capacity fuel 1 capacity with
    | none => none
    | some actual_capacity =>
      if !malloc_struct then some (PRTS_ERROR_NOMEM, none)
      else if !malloc_buffer then some (PRTS_ERROR_NOMEM, none)
      else
        some (PRTS_OK, some
          { buffer := (List.range (size_mul actual_capacity element_size)).map raw
            capacity := actual_capacity
            element_size := element_size
            head := 0
            tail := 0 })

/-- The function `prts_ringbuf_push` on a non-null buffer; `element = none` is a null pointer,
`some e` points at the bytes `e`. -/
def prts_ringbuf_push (buf : prts_ring_buffer) (element : Option (List Nat)) :
    prts_result_t × prts_ring_buffer :=
  match element with
  | none => (PRTS_ERROR_INVALID, buf)
  | some e =>
    let head := buf.head
    let next_head := size_add head 1 &&& size_sub buf.capacity 1
    if next_head = buf.tail then (PRTS_ERROR_FULL, buf)
    else
      (PRTS_OK,
        { buf with
          buffer := memcpy_to buf.buffer (head * buf.element_size) e buf.element_size
          head := next_head })

/-- The function `prts_ringbuf_pop` on a non-null buffer; `element_out` tells whether the output
pointer is non-null.  The middle component is what was copied to `element_out`. -/
def prts_ringbuf_pop (buf : prts_ring_buffer) (element_out : Bool) :
    prts_result_t × Option (List Nat) × prts_ring_buffer :=
  if !element_out then (PRTS_ERROR_INVALID, none, buf)
  else
    let tail := buf.tail
    if tail = buf.head then (PRTS_ERROR_EMPTY, none, buf)
    else
      (PRTS_OK,
        some (memcpy_from buf.buffer (tail * buf.element_size) buf.element_size),
        { buf with tail := size_add tail 1 &&& size_sub buf.capacity 1 })

/-- The function `prts_ringbuf_size` on a non-null buffer. -/
def prts_ringbuf_size (buf : prts_ring_buffer) : Nat :=
  size_sub buf.head buf.tail &&& size_sub buf.capacity 1

/-- The function `prts_ringbuf_empty` on a non-null buffer. -/
def prts_ringbuf_empty (buf : prts_ring_buffer) : Bool :=
  buf.head = buf.tail

/-- The function `prts_ringbuf_full` on a non-null buffer. -/
def prts_ringbuf_full (buf : prts_ring_buffer) : Bool :=
  (size_add buf.head 1 &&& size_sub buf.capacity 1) = buf.tail

/-- One call made on a ring buffer. -/
inductive RingOp where
  | push (element : Option (List Nat))
  | pop (element_out : Bool)
  deriving DecidableEq, Repr

/-- A ring buffer together with the history of what its calls accepted and returned. -/
structure RingTrace where
  buf : prts_ring_buffer
  pushed : List (List Nat)
  popped : List (List Nat)
  results : List prts_result_t
  deriving DecidableEq, Repr

/-- Perform one call and record its outcome: an accepted push appends the pushed element to
`pushed`, a successful pop appends the returned element to `popped`. -/
def ring_step (t : RingTrace) : RingOp → RingTrace
  | RingOp.push element =>
    let r := prts_ringbuf_push t.buf element
    { buf := r.2
      pushed :=
        match r.1, element with
        | PRTS_OK, some e => t.pushed ++ [e]
        | _, _ => t.pushed
      popped := t.popped
      results := t.results ++ [r.1] }
  | RingOp.pop element_out =>
    let r := prts_ringbuf_pop t.buf element_out
    { buf := r.2.2
      pushed := t.pushed
      popped :=
        match r.2.1 with
        | some e => t.popped ++ [e]
        | none => t.popped
      results := t.results ++ [r.1] }

/-- Apply a sequence of calls, in order, to a buffer with an empty history. -/
def ring_run (buf : prts_ring_buffer) (ops : List RingOp) : RingTrace :=
  ops.foldl ring_step { buf := buf, pushed := [], popped := [], results := [] }

/-- Little-endian bytes of a 4-byte integer. -/
def le32 (v : Nat) : List Nat :=
  [v % 256, v / 256 % 256, v / 65536 % 256, v / 16777216 % 256]

/-- The `n` elements stored in the slots `tail, tail+1, ...` (indices taken modulo the capacity):
what the buffer currently holds, oldest first. -/
def ring_slots (buf : prts_ring_buffer) (n : Nat) : List (List Nat) :=
  (List.range n).map (fun j =>
    memcpy_from buf.buffer (((buf.tail + j) % buf.capacity) * buf.element_size) buf.element_size)

/-- Representation invariant of a ring buffer with element size `es` and its history: the
capacity is a power of two, both indices are in range, `head` is `n` slots ahead of `tail`, and
the accepted elements are the returned ones followed by the `n` stored ones. -/
def RingInv (es : Nat) (t : RingTrace) : Prop :=
  ∃ k n, k ≤ 63 ∧ t.buf.capacity = 2 ^ k ∧ t.buf.element_size = es ∧
    t.buf.buffer.length = t.buf.capacity * es ∧ t.buf.tail < t.buf.capacity ∧
    n < t.buf.capacity ∧ t.buf.head = (t.buf.tail + n) % t.buf.capacity ∧
    t.pushed = t.popped ++ ring_slots t.buf n

/-- The ring-wrap scenario: push 1, 2, 3; pop; push 4, 5; pop three times. -/
def ring_scenario : List RingOp :=
  [RingOp.push (some (le32 1)), RingOp.push (some (le32 2)), RingOp.push (some (le32 3)),
   RingOp.pop true, RingOp.push (some (le32 4)), RingOp.push (some (le32 5)),
   RingOp.pop true, RingOp.pop true, RingOp.pop true]

/-- The buffer `prts_ringbuf_create(3, 4)` returns when the fresh storage reads as zeros. -/
def ring_fresh : prts_ring_buffer :=
  { buffer := List.replicate 16 0, capacity := 4, element_size := 4, head := 0, tail := 0 }

/-! ## Memory pool (`core/memory_pool.c`) -/

/-- The value of `sizeof(block_header_t)`: one pointer on the 64-bit target. -/
def HEADER_SIZE : Nat := 8

/-- The struct `prts_pool_config_t`. -/
structure prts_pool_config_t where
  block_size : Nat
  initial_blocks : Nat
  max_blocks : Nat
  thread_safe : Bool
  deriving DecidableEq, Repr

/-- The struct `prts_pool_stats_t`. -/
structure prts_pool_stats_t where
  total_blocks : Nat
  used_blocks : Nat
  free_blocks : Nat
  total_bytes : Nat
  used_bytes : Nat
  alloc_count : Nat
  free_count : Nat
  deriving DecidableEq, Repr

/-- The struct `prts_memory_pool`.  Pointers are addresses, `0` being `NULL`; `heap_next a` is
the `next` field of the block header stored at address `a`. -/
structure prts_memory_pool where
  block_size : Nat
  initial_blocks : Nat
  max_blocks : Nat
  thread_safe : Bool
  free_list : Nat
  memory : Nat
  memory_size : Nat
  total_blocks : Nat
  used_blocks : Nat
  alloc_count : Nat
  free_count : Nat
  heap_next : Nat → Nat

/-- The function `align_size`: `(size + 7) & ~7` on a 64-bit `size_t`. -/
def align_size (size : Nat) : Nat :=
  size_add size 7 &&& (SIZE_MOD - 8)

/-- The loop that threads the slab onto the free list, shared by `prts_pool_create` and
`prts_pool_reset`: `n` iterations of
`block = ptr; block->next = free_list; free_list = block; ptr += aligned_size`. -/
def pool_build_free_list (aligned_size : Nat) :
    Nat → Nat → Nat → (Nat → Nat) → Nat × (Nat → Nat)
  | 0, _, free_list, heap_next => (free_list, heap_next)
  | n + 1, ptr, free_list, heap_next =>
    pool_build_free_list aligned_size n (ptr + aligned_size) ptr
      (Function.update heap_next ptr free_list)

/-- The function `prts_pool_create`.  `config = none` is a null pointer, `pool_out` tells whether
the output pointer is non-null, `calloc_pool` whether the struct allocation succeeds,
`malloc_memory` is the address `malloc(memory_size)` returns (`0` on failure) and `heap` the
contents of memory before the call. -/
def prts_pool_create (config : Option prts_pool_config_t) (pool_out : Bool)
    (calloc_pool : Bool) (malloc_memory : Nat) (heap : Nat → Nat) :
    prts_result_t × Option prts_memory_pool :=
  match config with
  | none => (PRTS_ERROR_INVALID, none)
  | some config =>
    if !pool_out || config.block_size = 0 then (PRTS_ERROR_INVALID, none)
    else if !calloc_pool then (PRTS_ERROR_NOMEM, none)
    else
      let aligned_size := align_size (size_add config.block_size HEADER_SIZE)
      let initial_blocks := if config.initial_blocks > 0 then config.initial_blocks else 64
      let memory_size := size_mul aligned_size initial_blocks
      if malloc_memory = 0 then (PRTS_ERROR_NOMEM, none)
      else
        let r := pool_build_free_list aligned_size initial_blocks malloc_memory 0 heap
        (PRTS_OK, some
          { block_size := config.block_size
            initial_blocks := initial_blocks
            max_blocks := config.max_blocks
            thread_safe := config.thread_safe
            free_list := r.1
            memory := malloc_memory
            memory_size := memory_size
            total_blocks := initial_blocks
            used_blocks := 0
            alloc_count := 0
            free_count := 0
            heap_next := r.2 })

/-- The tail of `prts_pool_alloc`: unlink the first free block and return the address just
after its header. -/
def pool_take_block (pool : prts_memory_pool) : Nat × prts_memory_pool :=
  let block := pool.free_list
  (block + HEADER_SIZE,
    { pool with
      free_list := pool.heap_next block
      used_blocks := size_add pool.used_blocks 1
      alloc_count := size_add pool.alloc_count 1 })

/-- The function `prts_pool_alloc` on a non-null pool.  `malloc_block` is the address the system
allocator returns if it is asked for a new block (`0` on failure).  The first component is the
returned pointer, `0` being `NULL`. -/
def prts_pool_alloc (pool : prts_memory_pool) (malloc_block : Nat) : Nat × prts_memory_pool :=
  if pool.free_list = 0 then
    if pool.max_blocks > 0 ∧ pool.total_blocks ≥ pool.max_blocks then (0, pool)
    else
      let new_block := malloc_block
      if new_block = 0 then (0, pool)
      else
        pool_take_block
          { pool with
            heap_next := Function.update pool.heap_next new_block 0
            free_list := new_block
            total_blocks := size_add pool.total_blocks 1 }
  else pool_take_block pool

/-- The function `prts_pool_free` on a non-null pool. -/
def prts_pool_free (pool : prts_memory_pool) (ptr : Nat) : prts_memory_pool :=
  if ptr = 0 then pool
  else
    let block := ptr - HEADER_SIZE
    { pool with
      heap_next := Function.update pool.heap_next block pool.free_list
      free_list := block
      used_blocks := size_sub pool.used_blocks 1
      free_count := size_add pool.free_count 1 }

/-- The function `prts_pool_stats` on a non-null pool; `stats` tells whether the output pointer
is non-null. -/
def prts_pool_stats (pool : prts_memory_pool) (stats : Bool) :
    prts_result_t × Option prts_pool_stats_t :=
  if !stats then (PRTS_ERROR_INVALID, none)
  else
    (PRTS_OK, some
      { total_blocks := pool.total_blocks
        used_blocks := pool.used_blocks
        free_blocks := size_sub pool.total_blocks pool.used_blocks
        total_bytes := size_mul pool.total_blocks pool.block_size
        used_bytes := size_mul pool.used_blocks pool.block_size
        alloc_count := pool.alloc_count
        free_count := pool.free_count })

/-- The function `prts_pool_reset` on a non-null pool. -/
def prts_pool_reset (pool : prts_memory_pool) : prts_memory_pool :=
  let aligned_size := align_size (size_add pool.block_size HEADER_SIZE)
  let r := pool_build_free_list aligned_size pool.initial_blocks pool.memory 0 pool.heap_next
  { pool with
    free_list := r.1
    heap_next := r.2
    total_blocks := pool.initial_blocks
    used_blocks := 0 }

/-- One call made on a memory pool; `alloc` carries the address the system allocator would
hand out if the call has to grow the pool. -/
inductive PoolOp where
  | alloc (malloc_block : Nat)
  | free (ptr : Nat)
  | reset
  deriving DecidableEq, Repr

/-- A pool together with the bookkeeping of a client: the pointers currently outstanding, the
block addresses the pool has obtained from the system so far, the number of successful allocs,
the number of frees of a non-null pointer, and the pointer each alloc returned. -/
structure PoolTrace where
  pool : prts_memory_pool
  outstanding : List Nat
  blocks : List Nat
  allocs : Nat
  frees : Nat
  returned : List Nat

/-- Perform one call and update the bookkeeping. -/
def pool_step (t : PoolTrace) : PoolOp → PoolTrace
  | PoolOp.alloc malloc_block =>
    let r := prts_pool_alloc t.pool malloc_block
    { pool := r.2
      outstanding := if r.1 = 0 then t.outstanding else r.1 :: t.outstanding
      blocks := if r.1 ≠ 0 ∧ t.pool.free_list = 0 then malloc_block :: t.blocks else t.blocks
      allocs := if r.1 = 0 then t.allocs else t.allocs + 1
      frees := t.frees
      returned := t.returned ++ [r.1] }
  | PoolOp.free ptr =>
    { pool := prts_pool_free t.pool ptr
      outstanding := t.outstanding.erase ptr
      blocks := t.blocks
      allocs := t.allocs
      frees := if ptr = 0 then t.frees else t.frees + 1
      returned := t.returned }
  | PoolOp.reset =>
    { pool := prts_pool_reset t.pool
      outstanding := []
      blocks := t.blocks
      allocs := t.allocs
      frees := t.frees
      returned := t.returned }

/-- Apply a sequence of calls in order. -/
def pool_run (t : PoolTrace) (ops : List PoolOp) : PoolTrace :=
  ops.foldl pool_step t

/-- The addresses of the `n` slab blocks: `memory + i * aligned_size` for `i < n`. -/
def slab_blocks (memory aligned_size n : Nat) : List Nat :=
  (List.range n).map (fun i => memory + i * aligned_size)

/-- The bookkeeping of a freshly created pool. -/
def pool_fresh (pool : prts_memory_pool) : PoolTrace :=
  { pool := pool
    outstanding := []
    blocks := slab_blocks pool.memory (align_size (size_add pool.block_size HEADER_SIZE))
      pool.initial_blocks
    allocs := 0
    frees := 0
    returned := [] }

/-- A system allocation of `size` bytes at address `a` is well-formed when it is non-null, lies
inside the 64-bit address space and is disjoint from every block the pool already owns. -/
def fresh_region (blocks : List Nat) (size a : Nat) : Prop :=
  0 < a ∧ a + size ≤ SIZE_MOD ∧ ∀ b ∈ blocks, a + size ≤ b ∨ b + size ≤ a

/-- Valid use of a pool by its client and by the system allocator: a free returns a pointer that
is currently outstanding, and an address handed out by the system allocator is a fresh region.
A reset ends the life of every outstanding pointer. -/
def pool_valid : PoolTrace → List PoolOp → Prop
  | _, [] => True
  | t, op :: rest =>
    (match op with
      | PoolOp.alloc malloc_block =>
        malloc_block ≠ 0 →
          fresh_region t.blocks (align_size (size_add t.pool.block_size HEADER_SIZE)) malloc_block
      | PoolOp.free ptr => ptr ∈ t.outstanding
      | PoolOp.reset => True) ∧
    pool_valid (pool_step t op) rest

/-- The free list as a linked structure: following `next` from `head` visits exactly the blocks
of the list, in order, and ends at `NULL`. -/
def chain (next : Nat → Nat) : Nat → List Nat → Prop
  | h, [] => h = 0
  | h, b :: l => h = b ∧ b ≠ 0 ∧ chain next (next b) l

/-- The per-block stride of a pool: `align_size(block_size + sizeof(block_header_t))`. -/
def pool_stride (pool : prts_memory_pool) : Nat :=
  align_size (size_add pool.block_size HEADER_SIZE)

/-- Representation invariant of a pool and its bookkeeping: the free list is a chain of blocks
`fl`, the outstanding pointers are the payloads of blocks `ob`, no block occurs twice among
`fl ++ ob`, all of them are blocks the pool owns, and the counters count them. -/
def PoolInv (t : PoolTrace) : Prop :=
  0 < pool_stride t.pool ∧
  (∀ b ∈ t.blocks, 0 < b ∧ b + pool_stride t.pool ≤ SIZE_MOD) ∧
  (∀ b ∈ slab_blocks t.pool.memory (pool_stride t.pool) t.pool.initial_blocks, b ∈ t.blocks) ∧
  ∃ fl ob : List Nat,
    chain t.pool.heap_next t.pool.free_list fl ∧
    t.outstanding = ob.map (fun b => b + HEADER_SIZE) ∧
    (fl ++ ob).Nodup ∧
    (∀ b ∈ fl ++ ob, b ∈ t.blocks) ∧
    t.pool.used_blocks = ob.length ∧
    t.pool.total_blocks = fl.length + ob.length

/-- The call counters agree with the bookkeeping, and every successful alloc has either been
freed or is still outstanding. -/
def PoolCountInv (t : PoolTrace) : Prop :=
  t.pool.alloc_count = t.allocs % SIZE_MOD ∧
  t.pool.free_count = t.frees % SIZE_MOD ∧
  t.allocs = t.frees + t.outstanding.length

/-- What a configuration and the slab allocation must satisfy for `prts_pool_create` to carve
the slab inside the memory it obtained: neither the stride nor the slab size wraps around, and
the slab is a non-null region inside the address space. -/
def pool_create_ok (config : prts_pool_config_t) (malloc_memory : Nat) : Prop :=
  config.block_size + HEADER_SIZE + 7 < SIZE_MOD ∧
  0 < malloc_memory ∧
  malloc_memory +
    align_size (size_add config.block_size HEADER_SIZE) *
      (if config.initial_blocks > 0 then config.initial_blocks else 64) ≤ SIZE_MOD

/-- The pool-overflow configuration: `block_size = 64`, `initial_blocks = 4`, `max_blocks = 4`. -/
def pool_cfg : prts_pool_config_t :=
  { block_size := 64, initial_blocks := 4, max_blocks := 4, thread_safe := false }

/-- The pool `prts_pool_create` builds from `pool_cfg` when the slab is placed at address 4096. -/
def pool_created : prts_memory_pool :=
  { block_size := 64
    initial_blocks := 4
    max_blocks := 4
    thread_safe := false
    free_list := (pool_build_free_list 72 4 4096 0 (fun _ => 0)).1
    memory := 4096
    memory_size := 288
    total_blocks := 4
    used_blocks := 0
    alloc_count := 0
    free_count := 0
    heap_next := (pool_build_free_list 72 4 4096 0 (fun _ => 0)).2 }

/-- The first four allocs of the pool-overflow scenario. -/
def pool_four_allocs : List PoolOp :=
  [PoolOp.alloc 9000, PoolOp.alloc 9000, PoolOp.alloc 9000, PoolOp.alloc 9000]

/-- The whole pool-overflow scenario: five allocs, one free, one more alloc. -/
def pool_scenario : List PoolOp :=
  pool_four_allocs ++ [PoolOp.alloc 9000, PoolOp.free 4104, PoolOp.alloc 9000]

/-! ## Metrics collector (`metrics/collector.c`) -/

/-- The constant `MAX_METRICS`. -/
def MAX_METRICS : Nat := 256

/-- The constant `MAX_LABEL_VALUES`. -/
def MAX_LABEL_VALUES : Nat := 16

/-- The constant `MAX_NAME_LEN`. -/
def MAX_NAME_LEN : Nat := 128

/-- The terminating byte of a C string. -/
def NUL : Char := Char.ofNat 0

/-- The C string stored in a sequence of bytes: the bytes before the first `NUL`. -/
def c_str (s : List Char) : List Char :=
  s.takeWhile (fun c => c != NUL)

/-- The contents of `dst` after `strncpy(dst, src, n)`: the string `src`, cut at `n` bytes and
padded with `NUL` up to `n` bytes, followed by the untouched rest of `dst`. -/
def strncpy (dst src : List Char) (n : Nat) : List Char :=
  (c_str src).take n ++ List.replicate (n - (c_str src).length) NUL ++ dst.drop n

/-- The result of `strcmp(a, b) == 0`. -/
def strcmp_eq (a b : List Char) : Bool :=
  c_str a = c_str b

/-- The enum `prts_metric_type_t`. -/
inductive prts_metric_type_t where
  | PRTS_METRIC_COUNTER
  | PRTS_METRIC_GAUGE
  | PRTS_METRIC_HISTOGRAM
  deriving DecidableEq, Repr

open prts_metric_type_t

/-- The struct `prts_metric_config_t`; `none` is a null pointer. -/
structure prts_metric_config_t where
  name : Option (List Char)
  description : Option (List Char)
  type : prts_metric_type_t
  labels : Option (List (List Char))
  num_labels : Nat

/-- One element of `entries[]` in `metric_entry_t`.  The members of the C union are kept as
separate fields: a metric's type is fixed at registration and every update function touches
only the member of its own type. -/
structure metric_slot_t where
  label_values : Option (List (List Char))
  counter : Nat
  gauge : Float
  histogram_count : Nat
  histogram_sum : Float

/-- The struct `metric_entry_t`; `name` and `description` are the two fixed-size `char` arrays. -/
structure metric_entry_t where
  name : List Char
  description : List Char
  type : prts_metric_type_t
  labels : Option (List (List Char))
  num_labels : Nat
  entries : List metric_slot_t
  num_entries : Nat

/-- The struct `prts_metrics_collector`: the array of `MAX_METRICS` entries and the count. -/
structure prts_metrics_collector where
  metrics : List metric_entry_t
  num_metrics : Nat

/-- An all-zero `entries[]` element, as `calloc` leaves it. -/
def metric_slot_zero : metric_slot_t :=
  { label_values := none, counter := 0, gauge := 0, histogram_count := 0, histogram_sum := 0 }

/-- An all-zero `metric_entry_t`, as `calloc` leaves it. -/
def metric_entry_zero : metric_entry_t :=
  { name := List.replicate MAX_NAME_LEN NUL
    description := List.replicate 256 NUL
    type := PRTS_METRIC_COUNTER
    labels := none
    num_labels := 0
    entries := List.replicate MAX_LABEL_VALUES metric_slot_zero
    num_entries := 0 }

/-- The function `prts_metrics_create`; `collector_out` tells whether the output pointer is
non-null and `calloc_ok` whether the allocation succeeds. -/
def prts_metrics_create (collector_out calloc_ok : Bool) :
    prts_result_t × Option prts_metrics_collector :=
  if !collector_out then (PRTS_ERROR_INVALID, none)
  else if !calloc_ok then (PRTS_ERROR_NOMEM, none)
  else (PRTS_OK, some { metrics := List.replicate MAX_METRICS metric_entry_zero, num_metrics := 0 })

/-- The loop of `find_metric`, with `remaining` iterations left, the next index being `i`; the
result is the index of the entry found. -/
def find_metric_loop (metrics : List metric_entry_t) (name : List Char) : Nat → Nat → Option Nat
  | 0, _ => none
  | remaining + 1, i =>
    if strcmp_eq (metrics.getD i metric_entry_zero).name name then some i
    else find_metric_loop metrics name remaining (i + 1)

/-- The function `find_metric`: the index of the first registered entry with that name. -/
def find_metric (collector : prts_metrics_collector) (name : List Char) : Option Nat :=
  find_metric_loop collector.metrics name collector.num_metrics 0

/-- The function `prts_metrics_register` on a non-null collector.  The label array and the
label copies are assumed to be allocated successfully. -/
def prts_metrics_register (collector : prts_metrics_collector)
    (config : Option prts_metric_config_t) : prts_result_t × prts_metrics_collector :=
  match config with
  | none => (PRTS_ERROR_INVALID, collector)
  | some config =>
    match config.name with
    | none => (PRTS_ERROR_INVALID, collector)
    | some name =>
      if collector.num_metrics ≥ MAX_METRICS then (PRTS_ERROR_FULL, collector)
      else if (find_metric collector name).isSome then (PRTS_ERROR_INVALID, collector)
      else
        let idx := collector.num_metrics
        let m := collector.metrics.getD idx metric_entry_zero
        let m := { m with name := strncpy m.name name (MAX_NAME_LEN - 1) }
        let m :=
          match config.description with
          | some description => { m with description := strncpy m.description description (256 - 1) }
          | none => m
        let m := { m with type := config.type, num_entries := 0 }
        let m :=
          match config.labels with
          | some labels =>
            if config.num_labels > 0 then
              { m with labels := some (labels.take config.num_labels)
                       num_labels := config.num_labels }
            else m
          | none => m
        (PRTS_OK,
          { metrics := collector.metrics.set idx m
            num_metrics := size_add collector.num_metrics 1 })

/-- The common tail of the three update functions: `if (m->num_entries == 0) m->num_entries = 1;`
followed by the update `f` of `m->entries[0]`. -/
def metric_update_slot0 (m : metric_entry_t) (f : metric_slot_t → metric_slot_t) :
    metric_entry_t :=
  let entry_idx := 0
  { m with
    num_entries := if m.num_entries = 0 then 1 else m.num_entries
    entries := m.entries.set entry_idx (f (m.entries.getD entry_idx metric_slot_zero)) }

/-- The function `prts_metrics_counter_inc` on a non-null collector. -/
def prts_metrics_counter_inc (collector : prts_metrics_collector) (name : Option (List Char))
    (label_values : Option (List (List Char))) (delta : Nat) :
    prts_result_t × prts_metrics_collector :=
  match name with
  | none => (PRTS_ERROR_INVALID, collector)
  | some name =>
    match find_metric collector name with
    | none => (PRTS_ERROR_INVALID, collector)
    | some i =>
      let m := collector.metrics.getD i metric_entry_zero
      if m.type ≠ PRTS_METRIC_COUNTER then (PRTS_ERROR_INVALID, collector)
      else
        (PRTS_OK,
          { collector with
            metrics := collector.metrics.set i
              (metric_update_slot0 m (fun e => { e with counter := size_add e.counter delta })) })

/-- The function `prts_metrics_gauge_set` on a non-null collector. -/
def prts_metrics_gauge_set (collector : prts_metrics_collector) (name : Option (List Char))
    (label_values : Option (List (List Char))) (value : Float) :
    prts_result_t × prts_metrics_collector :=
  match name with
  | none => (PRTS_ERROR_INVALID, collector)
  | some name =>
    match find_metric collector name with
    | none => (PRTS_ERROR_INVALID, collector)
    | some i =>
      let m := collector.metrics.getD i metric_entry_zero
      if m.type ≠ PRTS_METRIC_GAUGE then (PRTS_ERROR_INVALID, collector)
      else
        (PRTS_OK,
          { collector with
            metrics := collector.metrics.set i
              (metric_update_slot0 m (fun e => { e with gauge := value })) })

/-- The function `prts_metrics_histogram_observe` on a non-null collector. -/
def prts_metrics_histogram_observe (collector : prts_metrics_collector)
    (name : Option (List Char)) (label_values : Option (List (List Char))) (value : Float) :
    prts_result_t × prts_metrics_collector :=
  match name with
  | none => (PRTS_ERROR_INVALID, collector)
  | some name =>
    match find_metric collector name with
    | none => (PRTS_ERROR_INVALID, collector)
    | some i =>
      let m := collector.metrics.getD i metric_entry_zero
      if m.type ≠ PRTS_METRIC_HISTOGRAM then (PRTS_ERROR_INVALID, collector)
      else
        (PRTS_OK,
          { collector with
            metrics := collector.metrics.set i
              (metric_update_slot0 m (fun e =>
                { e with
                  histogram_count := size_add e.histogram_count 1
                  histogram_sum := e.histogram_sum + value })) })

/-- Memory after storing the bytes `s` from offset `off` on; `mem i` is the byte at
`buffer + i`, also for offsets past the end of the caller's buffer. -/
def mem_write (mem : Nat → Char) (off : Nat) (s : List Char) : Nat → Char :=
  fun i => if off ≤ i ∧ i < off + s.length then s.getD (i - off) NUL else mem i

/-- The `n` bytes of memory from offset `off` on. -/
def mem_read (mem : Nat → Char) (off n : Nat) : List Char :=
  (List.range n).map (fun i => mem (off + i))

/-- The call `snprintf(buffer + off, size, ...)` whose formatted text is `s`: with `size > 0` it
stores at most `size - 1` bytes of `s` and a terminating `NUL`; it returns the length of `s`
whether or not it was cut. -/
def snprintf (mem : Nat → Char) (off size : Nat) (s : List Char) : (Nat → Char) × Nat :=
  if size = 0 then (mem, s.length)
  else (mem_write mem off (s.take (size - 1) ++ [NUL]), s.length)

/-- The text of `type_str` in `prts_metrics_export_prometheus`. -/
def type_str (t : prts_metric_type_t) : List Char :=
  match t with
  | PRTS_METRIC_COUNTER => "counter".toList
  | PRTS_METRIC_GAUGE => "gauge".toList
  | PRTS_METRIC_HISTOGRAM => "histogram".toList

/-- The text one sample line (or pair of lines) is formatted to; `fmt_g` renders a double the
way `%g` does, `%llu` is the decimal numeral. -/
def sample_text (fmt_g : Float → List Char) (m : metric_entry_t) (e : metric_slot_t) :
    List Char :=
  match m.type with
  | PRTS_METRIC_COUNTER => c_str m.name ++ " ".toList ++ Nat.toDigits 10 e.counter ++ "\n".toList
  | PRTS_METRIC_GAUGE => c_str m.name ++ " ".toList ++ fmt_g e.gauge ++ "\n".toList
  | PRTS_METRIC_HISTOGRAM =>
    c_str m.name ++ "_count ".toList ++ Nat.toDigits 10 e.histogram_count ++ "\n".toList ++
      c_str m.name ++ "_sum ".toList ++ fmt_g e.histogram_sum ++ "\n".toList

/-- The inner loop of `prts_metrics_export_prometheus` over the entries `j` of one metric, with
`remaining = num_entries - j` iterations left; it stops early once `offset >= buffer_size`. -/
def export_entries (fmt_g : Float → List Char) (buffer_size : Nat) (m : metric_entry_t) :
    Nat → Nat → (Nat → Char) → Nat → (Nat → Char) × Nat
  | 0, _, mem, offset => (mem, offset)
  | remaining + 1, j, mem, offset =>
    if offset < buffer_size then
      let r := snprintf mem offset (size_sub buffer_size offset)
        (sample_text fmt_g m (m.entries.getD j metric_slot_zero))
      export_entries fmt_g buffer_size m remaining (j + 1) r.1 (size_add offset r.2)
    else (mem, offset)

/-- The outer loop of `prts_metrics_export_prometheus` over the metrics `i`, with
`remaining = num_metrics - i` iterations left; it stops early once `offset >= buffer_size`. -/
def export_metrics (fmt_g : Float → List Char) (buffer_size : Nat)
    (metrics : List metric_entry_t) : Nat → Nat → (Nat → Char) → Nat → (Nat → Char) × Nat
  | 0, _, mem, offset => (mem, offset)
  | remaining + 1, i, mem, offset =>
    if offset < buffer_size then
      let m := metrics.getD i metric_entry_zero
      let r1 := snprintf mem offset (size_sub buffer_size offset)
        ("# HELP ".toList ++ c_str m.name ++ " ".toList ++ c_str m.description ++ "\n".toList)
      let offset := size_add offset r1.2
      let r2 := snprintf r1.1 offset (size_sub buffer_size offset)
        ("# TYPE ".toList ++ c_str m.name ++ " ".toList ++ type_str m.type ++ "\n".toList)
      let offset := size_add offset r2.2
      let r3 := export_entries fmt_g buffer_size m m.num_entries 0 r2.1 offset
      export_metrics fmt_g buffer_size metrics remaining (i + 1) r3.1 r3.2
    else (mem, offset)

/-- The function `prts_metrics_export_prometheus` on a non-null collector.  `buffer` is the
memory starting at the caller's buffer (`none` for a null pointer), `written_out` tells whether
that output pointer is non-null, `fmt_g` renders a double the way `%g` does.  The result is the
return code, the memory afterwards and the value stored in `*written_out`. -/
def prts_metrics_export_prometheus (fmt_g : Float → List Char)
    (collector : prts_metrics_collector) (buffer : Option (Nat → Char)) (buffer_size : Nat)
    (written_out : Bool) : prts_result_t × Option ((Nat → Char) × Nat) :=
  match buffer with
  | none => (PRTS_ERROR_INVALID, none)
  | some mem =>
    if !written_out then (PRTS_ERROR_INVALID, none)
    else
      (PRTS_OK,
        some (export_metrics fmt_g buffer_size collector.metrics collector.num_metrics 0 mem 0))

/-- Apply `prts_metrics_counter_inc` on `name` once per `(label_values, delta)` pair, in order,
collecting the return codes. -/
def counter_inc_all (name : List Char) :
    prts_metrics_collector → List (Option (List (List Char)) × Nat) →
      List prts_result_t × prts_metrics_collector
  | c, [] => ([], c)
  | c, (lv, delta) :: rest =>
    let r := prts_metrics_counter_inc c (some name) lv delta
    let rs := counter_inc_all name r.2 rest
    (r.1 :: rs.1, rs.2)

/-- The exposition text of a single counter named `N` with description `D` and value `S`. -/
def counter_exposition (N D : List Char) (S : Nat) : List Char :=
  "# HELP ".toList ++ N ++ " ".toList ++ D ++ "\n# TYPE ".toList ++ N ++ " counter\n".toList ++
    N ++ " ".toList ++ Nat.toDigits 10 S ++ "\n".toList

/-- What is known of a collector holding the single counter `N`, `D` with value `v`. -/
def SingleCounter (N D : List Char) (v : Nat) (c : prts_metrics_collector) : Prop :=
  c.num_metrics = 1 ∧ 0 < c.metrics.length ∧
  c_str (c.metrics.getD 0 metric_entry_zero).name = N ∧
  c_str (c.metrics.getD 0 metric_entry_zero).description = D ∧
  (c.metrics.getD 0 metric_entry_zero).type = PRTS_METRIC_COUNTER ∧
  0 < (c.metrics.getD 0 metric_entry_zero).entries.length ∧
  ((c.metrics.getD 0 metric_entry_zero).entries.getD 0 metric_slot_zero).counter = v ∧
  (c.metrics.getD 0 metric_entry_zero).num_entries ≤ 1

/-- The configuration of the metrics-export scenario: counter `http_requests`, description `n`. -/
def http_requests_cfg : prts_metric_config_t :=
  { name := some "http_requests".toList
    description := some "n".toList
    type := PRTS_METRIC_COUNTER
    labels := none
    num_labels := 0 }

/-! ## Log parser (`log/parser.c`)

The caller's buffer is a list of bytes followed by a terminating `NUL`; a pointer into it is an
offset, `none` being `NULL`.  Reading at or past the end of the list reads the terminator. -/

/-- The enum `prts_log_level_t`. -/
inductive prts_log_level_t where
  | PRTS_LOG_TRACE
  | PRTS_LOG_DEBUG
  | PRTS_LOG_INFO
  | PRTS_LOG_WARN
  | PRTS_LOG_ERROR
  | PRTS_LOG_FATAL
  deriving DecidableEq, Repr

open prts_log_level_t

/-- Numeric value of a log level. -/
def prts_log_level_t.toNat : prts_log_level_t → Nat
  | PRTS_LOG_TRACE => 0
  | PRTS_LOG_DEBUG => 1
  | PRTS_LOG_INFO => 2
  | PRTS_LOG_WARN => 3
  | PRTS_LOG_ERROR => 4
  | PRTS_LOG_FATAL => 5

/-- The cast `(prts_log_level_t)i` for the index `i` of the `levels[]` table. -/
def level_of_index : Nat → prts_log_level_t
  | 0 => PRTS_LOG_TRACE
  | 1 => PRTS_LOG_DEBUG
  | 2 => PRTS_LOG_INFO
  | 3 => PRTS_LOG_WARN
  | 4 => PRTS_LOG_ERROR
  | _ => PRTS_LOG_FATAL

/-- The enum `prts_log_format_t`. -/
inductive prts_log_format_t where
  | PRTS_LOG_FORMAT_JSON
  | PRTS_LOG_FORMAT_TEXT
  | PRTS_LOG_FORMAT_SYSLOG
  | PRTS_LOG_FORMAT_AUTO
  deriving DecidableEq, Repr

open prts_log_format_t

/-- The struct `prts_log_entry_t`; the three views are offsets into the caller's buffer. -/
structure prts_log_entry_t where
  timestamp : Nat
  level : prts_log_level_t
  message : Option Nat
  message_len : Nat
  source : Option Nat
  source_len : Nat
  raw : Option Nat
  raw_len : Nat
  num_fields : Nat
  deriving DecidableEq, Repr

/-- The struct behind `prts_log_parser_t` (the scratch buffer is never read or written by parsing). -/
structure prts_log_parser_t where
  format : prts_log_format_t
  timestamp_format : List Char
  parse_json_fields : Bool
  temp_buffer_size : Nat
  deriving DecidableEq, Repr

/-- The struct `prts_parser_config_t`. -/
structure prts_parser_config_t where
  format : prts_log_format_t
  timestamp_format : Option (List Char)
  parse_json_fields : Bool
  deriving DecidableEq, Repr

/-- The function `prts_parser_create`; `config = none` is a null pointer, `parser_out` tells
whether the output pointer is non-null, the two flags whether the allocations succeed. -/
def prts_parser_create (config : Option prts_parser_config_t) (parser_out : Bool)
    (calloc_struct malloc_temp : Bool) : prts_result_t × Option prts_log_parser_t :=
  match config with
  | none => (PRTS_ERROR_INVALID, none)
  | some config =>
    if !parser_out then (PRTS_ERROR_INVALID, none)
    else if !calloc_struct then (PRTS_ERROR_NOMEM, none)
    else if !malloc_temp then (PRTS_ERROR_NOMEM, none)
    else
      (PRTS_OK, some
        { format := config.format
          timestamp_format :=
            match config.timestamp_format with
            | some f => strncpy (List.replicate 64 NUL) f (64 - 1)
            | none => List.replicate 64 NUL
          parse_json_fields := config.parse_json_fields
          temp_buffer_size := 4096 })

/-- The library function `strstr(s, needle)` on the C string starting at `s`: the offset of the
first occurrence of `needle` (the text of a C string) before the terminator, if any. -/
def strstr : List Char → List Char → Option Nat
  | [], needle => if needle = [] then some 0 else none
  | c :: cs, needle =>
    if needle.isPrefixOf (c :: cs) then some 0
    else if c = NUL then none
    else (strstr cs needle).map (fun k => k + 1)

/-- The library function `strchr(s, ch)` for a non-`NUL` byte `ch`: the offset of its first
occurrence before the terminator, if any. -/
def strchr : List Char → Char → Option Nat
  | [], _ => none
  | c :: cs, ch =>
    if c = ch then some 0
    else if c = NUL then none
    else (strchr cs ch).map (fun k => k + 1)

/-- The library function `tolower` in the C locale: `A`..`Z` become `a`..`z`. -/
def c_tolower (c : Char) : Char :=
  if 65 ≤ c.toNat ∧ c.toNat ≤ 90 then Char.ofNat (c.toNat + 32) else c

/-- The library function `isdigit`. -/
def c_isdigit (c : Char) : Bool :=
  48 ≤ c.toNat && c.toNat ≤ 57

/-- The library function `isspace` in the C locale: space, `\t`, `\n`, `\v`, `\f`, `\r`. -/
def c_isspace (c : Char) : Bool :=
  c = ' ' || (9 ≤ c.toNat && c.toNat ≤ 13)

/-- The test `strncasecmp(a, b, n) == 0`: the first `n` bytes agree up to letter case, the
comparison ending early at a common terminator. -/
def strncasecmp_eq : List Char → List Char → Nat → Bool
  | _, _, 0 => true
  | a, b, n + 1 =>
    if c_tolower (a.headD NUL) ≠ c_tolower (b.headD NUL) then false
    else if a.headD NUL = NUL then true
    else strncasecmp_eq a.tail b.tail n

/-- The function `parse_level`. -/
def parse_level (str : List Char) (len : Nat) : prts_log_level_t :=
  if len ≥ 5 && strncasecmp_eq str "TRACE".toList 5 then PRTS_LOG_TRACE
  else if len ≥ 5 && strncasecmp_eq str "DEBUG".toList 5 then PRTS_LOG_DEBUG
  else if len ≥ 4 && strncasecmp_eq str "INFO".toList 4 then PRTS_LOG_INFO
  else if len ≥ 4 && strncasecmp_eq str "WARN".toList 4 then PRTS_LOG_WARN
  else if len ≥ 5 && strncasecmp_eq str "ERROR".toList 5 then PRTS_LOG_ERROR
  else if len ≥ 5 && strncasecmp_eq str "FATAL".toList 5 then PRTS_LOG_FATAL
  else PRTS_LOG_INFO

/-- The function `detect_format`; `line` is the memory from the line start on. -/
def detect_format (line : List Char) (len : Nat) : prts_log_format_t :=
  if len > 0 && line.headD NUL = '{' then PRTS_LOG_FORMAT_JSON
  else if len > 0 && line.headD NUL = '<' then PRTS_LOG_FORMAT_SYSLOG
  else PRTS_LOG_FORMAT_TEXT

/-- How far a loop `while (*q && pred(*q)) q++` advances `q` over the memory `s`. -/
def skip_str (pred : Char → Bool) : List Char → Nat
  | [] => 0
  | c :: cs => if c ≠ NUL ∧ pred c then skip_str pred cs + 1 else 0

/-- How far a loop `while (remaining > 0 && pred(*p)) { p++; remaining--; }` advances `p` over
the memory `s`; `pred` is false on the terminator. -/
def skip_n (pred : Char → Bool) : List Char → Nat → Nat
  | [], _ => 0
  | c :: cs, remaining =>
    if remaining > 0 ∧ pred c then skip_n pred cs (remaining - 1) + 1 else 0

/-- The bytes a timestamp may consist of in the text path. -/
def is_timestamp_char (c : Char) : Bool :=
  c_isdigit c || c = '-' || c = ':' || c = 'T' || c = 'Z' || c = '.' || c = ' '

/-- The table `levels[]` of the text path. -/
def level_names : List (List Char) :=
  ["TRACE".toList, "DEBUG".toList, "INFO".toList, "WARN".toList, "ERROR".toList, "FATAL".toList]

/-- The `for` loop over `levels[]` in the text path, from index `i` on: the index and length of
the first name that `remaining` has room for and that matches at `p` up to letter case. -/
def match_level_name (p : List Char) (remaining : Nat) : List (List Char) → Nat → Option (Nat × Nat)
  | [], _ => none
  | name :: rest, i =>
    if remaining ≥ name.length ∧ strncasecmp_eq p name name.length then some (i, name.length)
    else match_level_name p remaining rest (i + 1)

/-- The JSON case of `prts_parser_parse`: fills `level` and `message` of the entry. -/
def parse_json (mem : List Char) (line : Nat) (entry : prts_log_entry_t) : prts_log_entry_t :=
  let entry :=
    match strstr (mem.drop line) "\"level\"".toList with
    | none => entry
    | some k =>
      let level_key := line + k
      match strchr (mem.drop level_key) ':' with
      | none => entry
      | some c =>
        let colon := level_key + c
        let colon := colon +
          skip_str (fun ch => ch = ':' || ch = ' ' || ch = '"') (mem.drop colon)
        let e := colon +
          skip_str (fun ch => ch ≠ '"' && ch ≠ ',' && ch ≠ '}') (mem.drop colon)
        { entry with level := parse_level (mem.drop colon) (e - colon) }
  let msg_key :=
    match strstr (mem.drop line) "\"message\"".toList with
    | some k => some (line + k)
    | none => (strstr (mem.drop line) "\"msg\"".toList).map (fun k => line + k)
  match msg_key with
  | none => entry
  | some msg_key =>
    match strchr (mem.drop msg_key) ':' with
    | none => entry
    | some c =>
      let colon := msg_key + c
      let colon := colon + skip_str (fun ch => ch = ':' || ch = ' ') (mem.drop colon)
      if mem.getD colon NUL = '"' then
        let colon := colon + 1
        let e := colon + skip_str (fun ch => ch ≠ '"') (mem.drop colon)
        { entry with message := some colon, message_len := e - colon }
      else entry

/-- The text (and default) case of `prts_parser_parse`: fills `level` and `message`. -/
def parse_text (mem : List Char) (line line_len : Nat) (entry : prts_log_entry_t) :
    prts_log_entry_t :=
  let p := line
  let remaining := line_len
  let k := skip_n is_timestamp_char (mem.drop p) remaining
  let p := p + k
  let remaining := remaining - k
  let k := skip_n c_isspace (mem.drop p) remaining
  let p := p + k
  let remaining := remaining - k
  let r : prts_log_entry_t × Nat × Nat :=
    if mem.getD p NUL = '[' then
      let p := p + 1
      let remaining := size_sub remaining 1
      match strchr (mem.drop p) ']' with
      | some k =>
        let level_end := p + k
        ({ entry with level := parse_level (mem.drop p) (level_end - p) },
          level_end + 1, size_sub line_len (level_end + 1 - line))
      | none => (entry, p, remaining)
    else
      match match_level_name (mem.drop p) remaining level_names 0 with
      | some (i, level_len) =>
        ({ entry with level := level_of_index i },
          p + level_len, size_sub line_len (p + level_len - line))
      | none => (entry, p, remaining)
  let entry := r.1
  let p := r.2.1
  let remaining := r.2.2
  let k := skip_n c_isspace (mem.drop p) remaining
  { entry with message := some (p + k), message_len := remaining - k }

/-- The function `prts_parser_parse` on a non-null parser.  `mem` is the caller's buffer,
`line` the offset of the line in it (`none` for a null pointer) and `entry_out` tells whether
the output pointer is non-null.  The second component is the entry stored in `*entry_out`. -/
def prts_parser_parse (parser : prts_log_parser_t) (mem : List Char) (line : Option Nat)
    (line_len : Nat) (entry_out : Bool) : prts_result_t × Option prts_log_entry_t :=
  match line with
  | none => (PRTS_ERROR_INVALID, none)
  | some line =>
    if !entry_out then (PRTS_ERROR_INVALID, none)
    else
      let format :=
        if parser.format = PRTS_LOG_FORMAT_AUTO then detect_format (mem.drop line) line_len
        else parser.format
      let entry : prts_log_entry_t :=
        { timestamp := 0
          level := PRTS_LOG_INFO
          message := none
          message_len := 0
          source := none
          source_len := 0
          raw := some line
          raw_len := line_len
          num_fields := 0 }
      match format with
      | PRTS_LOG_FORMAT_JSON => (PRTS_OK, some (parse_json mem line entry))
      | _ => (PRTS_OK, some (parse_text mem line line_len entry))

/-- The loop of `prts_parser_parse_batch`, with `end_` for `data + data_len`; `none` when the
fuel runs out before the loop exits. -/
def parse_batch_loop (parser : prts_log_parser_t) (mem : List Char) (end_ max_entries : Nat) :
    Nat → Nat → List prts_log_entry_t → Option (List prts_log_entry_t)
  | 0, _, _ => none
  | fuel + 1, line_start, entries =>
    if line_start < end_ ∧ entries.length < max_entries then
      let line_end := line_start +
        skip_n (fun c => c ≠ '\n') (mem.drop line_start) (end_ - line_start)
      let entries :=
        if line_end > line_start then
          match prts_parser_parse parser mem (some line_start) (line_end - line_start) true with
          | (PRTS_OK, some entry) => entries ++ [entry]
          | _ => entries
        else entries
      parse_batch_loop parser mem end_ max_entries fuel (line_end + 1) entries
    else some entries

/-- The function `prts_parser_parse_batch` on a non-null parser.  `mem` is the caller's buffer,
`data` the offset of the data in it (`none` for a null pointer), `entries_out` and `count_out`
tell whether the output pointers are non-null.  The result is the return code with the entries
stored in `entries_out[0 .. count)` and the value stored in `*count_out`; `none` when the loop
does not exit within `fuel` iterations. -/
def prts_parser_parse_batch (fuel : Nat) (parser : prts_log_parser_t) (mem : List Char)
    (data : Option Nat) (data_len : Nat) (entries_out : Bool) (max_entries : Nat)
    (count_out : Bool) : Option (prts_result_t × List prts_log_entry_t × Nat) :=
  match data with
  | none => some (PRTS_ERROR_INVALID, [], 0)
  | some data =>
    if !entries_out || !count_out then some (PRTS_ERROR_INVALID, [], 0)
    else
      match parse_batch_loop parser mem (data + data_len) max_entries fuel data [] with
      | none => none
      | some entries => some (PRTS_OK, entries, entries.length)

/-- The bytes of a view `(ptr, len)` into the caller's buffer. -/
def view (mem : List Char) (ptr : Option Nat) (len : Nat) : List Char :=
  match ptr with
  | none => []
  | some p => (mem.drop p).take len

/-- The six level names with their levels. -/
def level_table : List (List Char × prts_log_level_t) :=
  [("TRACE".toList, PRTS_LOG_TRACE), ("DEBUG".toList, PRTS_LOG_DEBUG),
   ("INFO".toList, PRTS_LOG_INFO), ("WARN".toList, PRTS_LOG_WARN),
   ("ERROR".toList, PRTS_LOG_ERROR), ("FATAL".toList, PRTS_LOG_FATAL)]

/-- The text `L` is the name of level `lvl` in some letter case. -/
def is_level_name (L : List Char) (lvl : prts_log_level_t) : Prop :=
  ∃ name, (name, lvl) ∈ level_table ∧ L.map c_tolower = name.map c_tolower

/-- The double-quote byte. -/
def QUOTE : Char := '"'

/-- The byte is an ASCII letter. -/
def is_letter (c : Char) : Bool :=
  (65 ≤ c.toNat && c.toNat ≤ 90) || (97 ≤ c.toNat && c.toNat ≤ 122)

/-- The JSON line `{"level":"L","msg":"M"}`. -/
def json_line (L M : List Char) : List Char :=
  "\x7b\"level\":\"".toList ++ (L ++ ("\",\"msg\":\"".toList ++ (M ++ "\"\x7d".toList)))

/-- The text line `[L] m`. -/
def text_line (L m : List Char) : List Char :=
  '[' :: (L ++ (']' :: ' ' :: m))

/-- A parser with the given format. -/
def parser_with (format : prts_log_format_t) : prts_log_parser_t :=
  { format := format, timestamp_format := List.replicate 64 NUL, parse_json_fields := false,
    temp_buffer_size := 4096 }

/-- The newline byte. -/
def NEWLINE : Char := '\n'

/-- The data made of the given lines, each terminated by a newline. -/
def batch_data : List (List Char) → List Char
  | [] => []
  | l :: rest => l ++ NEWLINE :: batch_data rest

/-- The non-empty lines among the given ones. -/
def nonempty_lines (lines : List (List Char)) : List (List Char) :=
  lines.filter (fun l => l ≠ [])

/-! ## Log indexer (`log/indexer.c`) -/

/-- The struct `prts_indexer_config_t`. -/
structure prts_indexer_config_t where
  index_path : Option (List Char)
  memory_limit : Nat
  enable_compression : Bool
  shard_size : Nat
  deriving DecidableEq, Repr

/-- The struct `prts_log_indexer`: `buffer` holds the `buffer_capacity` allocated slots, of which
the first `buffer_count` are in use. -/
structure prts_log_indexer_t where
  index_path : Option (List Char)
  memory_limit : Nat
  enable_compression : Bool
  shard_size : Nat
  buffer : List prts_log_entry_t
  buffer_count : Nat
  buffer_capacity : Nat
  deriving DecidableEq, Repr

/-- The struct `prts_search_query_t`. -/
structure prts_search_query_t where
  query : Option (List Char)
  start_time : Nat
  end_time : Nat
  min_level : prts_log_level_t
  source_filter : Option (List Char)
  offset : Nat
  limit : Nat
  deriving DecidableEq, Repr

/-- The struct `prts_search_result_t`; `entries` lists the `count` filled slots of the result
array (the remaining slots stay zeroed). -/
structure prts_search_result_t where
  entries : List prts_log_entry_t
  count : Nat
  total_matches : Nat
  search_time_ns : Nat
  deriving DecidableEq, Repr

/-- An all-zero `prts_log_entry_t`, as `calloc` leaves it. -/
def log_entry_zero : prts_log_entry_t :=
  { timestamp := 0, level := PRTS_LOG_TRACE, message := none, message_len := 0, source := none,
    source_len := 0, raw := none, raw_len := 0, num_fields := 0 }

/-- The function `prts_indexer_create`; `config = none` is a null pointer, `indexer_out` tells
whether the output pointer is non-null, the two flags whether the allocations succeed. -/
def prts_indexer_create (config : Option prts_indexer_config_t) (indexer_out : Bool)
    (calloc_struct calloc_buffer : Bool) : prts_result_t × Option prts_log_indexer_t :=
  match config with
  | none => (PRTS_ERROR_INVALID, none)
  | some config =>
    if !indexer_out then (PRTS_ERROR_INVALID, none)
    else if !calloc_struct then (PRTS_ERROR_NOMEM, none)
    else if !calloc_buffer then (PRTS_ERROR_NOMEM, none)
    else
      (PRTS_OK, some
        { index_path := config.index_path
          memory_limit := if config.memory_limit > 0 then config.memory_limit else 64 * 1024 * 1024
          enable_compression := config.enable_compression
          shard_size := if config.shard_size > 0 then config.shard_size else 10000
          buffer := List.replicate 1024 log_entry_zero
          buffer_count := 0
          buffer_capacity := 1024 })

/-- The function `prts_indexer_flush` on a non-null indexer. -/
def prts_indexer_flush (indexer : prts_log_indexer_t) : prts_result_t × prts_log_indexer_t :=
  (PRTS_OK, { indexer with buffer_count := 0 })

/-- The function `prts_indexer_compact` on a non-null indexer. -/
def prts_indexer_compact (indexer : prts_log_indexer_t) : prts_result_t × prts_log_indexer_t :=
  (PRTS_OK, indexer)

/-- The function `prts_indexer_add` on a non-null indexer; `entry = none` is a null pointer,
`realloc_ok` tells whether a needed `realloc` succeeds and `fresh i` is what the `i`-th slot
added by it holds. -/
def prts_indexer_add (indexer : prts_log_indexer_t) (entry : Option prts_log_entry_t)
    (realloc_ok : Bool) (fresh : Nat → prts_log_entry_t) : prts_result_t × prts_log_indexer_t :=
  match entry with
  | none => (PRTS_ERROR_INVALID, indexer)
  | some entry =>
    let grown : Option prts_log_indexer_t :=
      if indexer.buffer_count ≥ indexer.buffer_capacity then
        let new_capacity := size_mul indexer.buffer_capacity 2
        if !realloc_ok then none
        else some
          { indexer with
            buffer := indexer.buffer.take new_capacity ++
              (List.range (new_capacity - indexer.buffer.length)).map fresh
            buffer_capacity := new_capacity }
      else some indexer
    match grown with
    | none => (PRTS_ERROR_NOMEM, indexer)
    | some indexer =>
      let indexer :=
        { indexer with
          buffer := indexer.buffer.set indexer.buffer_count entry
          buffer_count := size_add indexer.buffer_count 1 }
      if indexer.buffer_count ≥ indexer.shard_size then prts_indexer_flush indexer
      else (PRTS_OK, indexer)

/-- The body of the search loop for one entry: `false` when one of the `continue` statements is
taken, `true` when the entry is copied to the result.  `mem` is the memory the entries' views
point into. -/
def search_keeps (mem : List Char) (query : prts_search_query_t) (entry : prts_log_entry_t) :
    Bool :=
  if entry.level.toNat < query.min_level.toNat then false
  else if query.start_time > 0 ∧ entry.timestamp < query.start_time then false
  else if query.end_time > 0 ∧ entry.timestamp > query.end_time then false
  else
    match query.query, entry.message with
    | some q, some m => if (strstr (mem.drop m) q).isNone then false else true
    | _, _ => true

/-- The loop `for (i = query->offset; i < buffer_count && matches < max_results; i++)` of
`prts_indexer_search`, with `remaining = buffer_count - i` iterations left at most. -/
def search_loop (mem : List Char) (query : prts_search_query_t) (indexer : prts_log_indexer_t)
    (max_results : Nat) : Nat → Nat → List prts_log_entry_t → List prts_log_entry_t
  | 0, _, result => result
  | remaining + 1, i, result =>
    if i < indexer.buffer_count ∧ result.length < max_results then
      let entry := indexer.buffer.getD i log_entry_zero
      if search_keeps mem query entry then
        search_loop mem query indexer max_results remaining (i + 1) (result ++ [entry])
      else search_loop mem query indexer max_results remaining (i + 1) result
    else result

/-- The function `prts_indexer_search` on a non-null indexer.  `query = none` is a null pointer,
`result_out` tells whether the output pointer is non-null, the two flags whether the allocations
succeed.  The result is the return code, the search result and the indexer afterwards. -/
def prts_indexer_search (indexer : prts_log_indexer_t) (mem : List Char)
    (query : Option prts_search_query_t) (result_out : Bool) (calloc_result calloc_entries : Bool) :
    prts_result_t × Option prts_search_result_t × prts_log_indexer_t :=
  match query with
  | none => (PRTS_ERROR_INVALID, none, indexer)
  | some query =>
    if !result_out then (PRTS_ERROR_INVALID, none, indexer)
    else if !calloc_result then (PRTS_ERROR_NOMEM, none, indexer)
    else
      let max_results := if query.limit > 0 then query.limit else 100
      if !calloc_entries then (PRTS_ERROR_NOMEM, none, indexer)
      else
        let entries := search_loop mem query indexer max_results
          (indexer.buffer_count - query.offset) query.offset []
        (PRTS_OK,
          some
            { entries := entries
              count := entries.length
              total_matches := entries.length
              search_time_ns := 0 },
          indexer)

/-- The filters of a search as the specification words them: the level is at least `min_level`,
the timestamp lies in the time range (a bound of `0` meaning no bound), and the text filter
passes, that is, when both the query text and the entry's message are non-null the query text
occurs in the C string at the message pointer. -/
def search_match (mem : List Char) (query : prts_search_query_t) (entry : prts_log_entry_t) :
    Bool :=
  decide (entry.level.toNat ≥ query.min_level.toNat) &&
  (!decide (query.start_time > 0) || decide (entry.timestamp ≥ query.start_time)) &&
  (!decide (query.end_time > 0) || decide (entry.timestamp ≤ query.end_time)) &&
  (match query.query, entry.message with
    | some q, some m => (strstr (mem.drop m) q).isSome
    | _, _ => true)

/-- The memory of the search scenario: the two C strings `disk full` and `cpu hot`. -/
def search_mem : List Char :=
  "disk full".toList ++ NUL :: "cpu hot".toList

/-- The indexer of the search scenario: three buffered entries in four slots. -/
def search_indexer : prts_log_indexer_t :=
  { index_path := none
    memory_limit := 1024
    enable_compression := false
    shard_size := 10000
    buffer :=
      [{ log_entry_zero with timestamp := 5, level := PRTS_LOG_WARN, message := some 0,
                             message_len := 9 },
       { log_entry_zero with timestamp := 6, level := PRTS_LOG_ERROR, message := some 10,
                             message_len := 7 },
       { log_entry_zero with timestamp := 7, level := PRTS_LOG_INFO, message := some 0,
                             message_len := 9 },
       log_entry_zero]
    buffer_count := 3
    buffer_capacity := 4 }

/-- The query of the search scenario: text `disk`, minimum level WARN, default limit. -/
def search_query : prts_search_query_t :=
  { query := some "disk".toList, start_time := 0, end_time := 0, min_level := PRTS_LOG_WARN,
    source_filter := none, offset := 0, limit := 0 }

/-! ## Thread pool (`core/thread_pool.c`)

Every critical section of the C code is one atomic step of the model; a step that the C code
would block in (a condition wait) is not enabled and yields `none`. -/

/-- The struct `prts_threadpool_config_t`. -/
structure prts_threadpool_config_t where
  num_threads : Nat
  queue_size : Nat
  allow_grow : Bool
  max_threads : Nat
  deriving DecidableEq, Repr

/-- The struct `prts_threadpool_stats_t`. -/
structure prts_threadpool_stats_t where
  active_threads : Nat
  idle_threads : Nat
  pending_tasks : Nat
  completed_tasks : Nat
  total_wait_ns : Nat
  total_exec_ns : Nat
  deriving DecidableEq, Repr

/-- The struct `task_node_t`; pointers are addresses, `0` being `NULL`. -/
structure task_node_t where
  fn : Nat
  arg : Nat
  next : Nat
  wait_handle : Nat
  deriving DecidableEq, Repr

/-- Where a worker thread stands in `worker_thread`: at the top of its loop (possibly waiting on
`not_empty`), holding a dequeued task it has not run yet, past the task and about to update the
counters, or returned. -/
inductive worker_pc where
  | idle
  | running (task : Nat)
  | done
  | exited
  deriving DecidableEq, Repr

/-- The struct `prts_thread_pool` with the memory it points into: `nodes a` is the task node
allocated at address `a`, `handles a` the `completed` flag of the wait handle allocated at `a`,
and `workers` the control state of each thread of `threads[]`. -/
structure prts_thread_pool where
  num_threads : Nat
  queue_size : Nat
  max_threads : Nat
  allow_grow : Bool
  shutdown : Bool
  head : Nat
  tail : Nat
  task_count : Nat
  active_count : Nat
  completed_count : Nat
  total_wait_ns : Nat
  total_exec_ns : Nat
  nodes : Nat → Option task_node_t
  handles : Nat → Option Bool
  workers : List worker_pc

/-- The function `prts_threadpool_create`.  `config = none` is a null pointer, `pool_out` tells
whether the output pointer is non-null, `calloc_pool` and `calloc_threads` whether the
allocations succeed, `nprocs` is the number of online processors and `threads_started` the number
of consecutive `pthread_create` calls that succeed.  A failed start joins the threads started so
far and frees the pool. -/
def prts_threadpool_create (config : Option prts_threadpool_config_t) (pool_out : Bool)
    (calloc_pool : Bool) (nprocs : Nat) (calloc_threads : Bool) (threads_started : Nat)
    (nodes : Nat → Option task_node_t) (handles : Nat → Option Bool) :
    prts_result_t × Option prts_thread_pool :=
  match config with
  | none => (PRTS_ERROR_INVALID, none)
  | some config =>
    if !pool_out then (PRTS_ERROR_INVALID, none)
    else if !calloc_pool then (PRTS_ERROR_NOMEM, none)
    else
      let num_threads := if config.num_threads = 0 then nprocs else config.num_threads
      if !calloc_threads then (PRTS_ERROR_NOMEM, none)
      else if threads_started < num_threads then (PRTS_ERROR, none)
      else
        (PRTS_OK, some
          { num_threads := num_threads
            queue_size := if config.queue_size > 0 then config.queue_size else 1024
            max_threads := config.max_threads
            allow_grow := config.allow_grow
            shutdown := false
            head := 0
            tail := 0
            task_count := 0
            active_count := 0
            completed_count := 0
            total_wait_ns := 0
            total_exec_ns := 0
            nodes := nodes
            handles := handles
            workers := List.replicate num_threads worker_pc.idle })

/-- The function `prts_threadpool_submit_wait` on a non-null pool.  `fn = none` is a null
function pointer, `task_out` tells whether a wait handle is requested, `malloc_task` and
`malloc_handle` are the addresses the two allocations return (`0` on failure).  The result is
`none` while the call blocks on `not_full`; otherwise the return code, the pool afterwards and the
handle stored in `*task_out`. -/
def prts_threadpool_submit_wait (pool : prts_thread_pool) (fn : Option Nat) (arg : Nat)
    (task_out : Bool) (malloc_task malloc_handle : Nat) :
    Option (prts_result_t × prts_thread_pool × Option Nat) :=
  match fn with
  | none => some (PRTS_ERROR_INVALID, pool, none)
  | some fn =>
    let task := malloc_task
    if task = 0 then some (PRTS_ERROR_NOMEM, pool, none)
    else if task_out ∧ malloc_handle = 0 then some (PRTS_ERROR_NOMEM, pool, none)
    else
      let node : task_node_t :=
        { fn := fn, arg := arg, next := 0, wait_handle := if task_out then malloc_handle else 0 }
      let handle_out := if task_out then some malloc_handle else none
      let pool :=
        { pool with
          nodes := Function.update pool.nodes task (some node)
          handles :=
            if task_out then Function.update pool.handles malloc_handle (some false)
            else pool.handles }
      if pool.task_count ≥ pool.queue_size ∧ ¬ pool.shutdown then none
      else if pool.shutdown then
        some (PRTS_ERROR, { pool with nodes := Function.update pool.nodes task none }, handle_out)
      else
        let pool :=
          if pool.tail ≠ 0 then
            { pool with
              nodes := Function.update pool.nodes pool.tail
                ((pool.nodes pool.tail).map (fun n => { n with next := task })) }
          else { pool with head := task }
        some (PRTS_OK,
          { pool with tail := task, task_count := size_add pool.task_count 1 }, handle_out)

/-- The function `prts_threadpool_submit`. -/
def prts_threadpool_submit (pool : prts_thread_pool) (fn : Option Nat) (arg : Nat)
    (malloc_task : Nat) : Option (prts_result_t × prts_thread_pool × Option Nat) :=
  prts_threadpool_submit_wait pool fn arg false malloc_task 0

/-- The first critical section of `worker_thread` for worker `w` when it dequeues: enabled once
the wait loop is over and the thread does not return, that is when `task_count != 0`.  It
unlinks the head node, updates the counters and leaves the worker holding the node. -/
def worker_dequeue (pool : prts_thread_pool) (w : Nat) : Option prts_thread_pool :=
  if pool.workers.getD w worker_pc.exited ≠ worker_pc.idle then none
  else if pool.task_count = 0 then none
  else
    let task := pool.head
    let head := ((pool.nodes task).map (fun n => n.next)).getD 0
    some
      { pool with
        head := head
        tail := if head = 0 then 0 else pool.tail
        task_count := size_sub pool.task_count 1
        active_count := size_add pool.active_count 1
        workers := pool.workers.set w (worker_pc.running task) }

/-- The first critical section of `worker_thread` for worker `w` when it returns: enabled when
`shutdown` is set and `task_count == 0`. -/
def worker_exit (pool : prts_thread_pool) (w : Nat) : Option prts_thread_pool :=
  if pool.workers.getD w worker_pc.exited ≠ worker_pc.idle then none
  else if pool.shutdown ∧ pool.task_count = 0 then
    some { pool with workers := pool.workers.set w worker_pc.exited }
  else none

/-- The unlocked part of `worker_thread` for worker `w`: run the task, signal its wait handle if
it has one, free the node. -/
def worker_execute (pool : prts_thread_pool) (w : Nat) : Option prts_thread_pool :=
  match pool.workers.getD w worker_pc.exited with
  | worker_pc.running task =>
    let wait_handle := ((pool.nodes task).map (fun n => n.wait_handle)).getD 0
    some
      { pool with
        handles :=
          if wait_handle ≠ 0 then Function.update pool.handles wait_handle (some true)
          else pool.handles
        nodes := Function.update pool.nodes task none
        workers := pool.workers.set w worker_pc.done }
  | _ => none

/-- The second critical section of `worker_thread` for worker `w`:
`active_count--; completed_count++`. -/
def worker_finish (pool : prts_thread_pool) (w : Nat) : Option prts_thread_pool :=
  if pool.workers.getD w worker_pc.exited ≠ worker_pc.done then none
  else
    some
      { pool with
        active_count := size_sub pool.active_count 1
        completed_count := size_add pool.completed_count 1
        workers := pool.workers.set w worker_pc.idle }

/-- The critical section of `prts_threadpool_destroy`: set `shutdown` (and wake the workers). -/
def destroy_begin (pool : prts_thread_pool) : prts_thread_pool :=
  { pool with shutdown := true }

/-- The function `prts_threadpool_stats` on a non-null pool; `stats` tells whether the output
pointer is non-null. -/
def prts_threadpool_stats (pool : prts_thread_pool) (stats : Bool) :
    prts_result_t × Option prts_threadpool_stats_t :=
  if !stats then (PRTS_ERROR_INVALID, none)
  else
    (PRTS_OK, some
      { active_threads := pool.active_count
        idle_threads := size_sub pool.num_threads pool.active_count
        pending_tasks := pool.task_count
        completed_tasks := pool.completed_count
        total_wait_ns := pool.total_wait_ns
        total_exec_ns := pool.total_exec_ns })

/-- The condition on which the wait loop of `prts_threadpool_wait_all` ends. -/
def wait_all_returns (pool : prts_thread_pool) : Prop :=
  ¬ (pool.task_count > 0 ∨ pool.active_count > 0)

/-- One atomic step of the system made of the pool, its workers and its clients. -/
inductive TpEvent where
  | submit (fn : Option Nat) (arg : Nat) (task_out : Bool) (malloc_task malloc_handle : Nat)
  | dequeue (w : Nat)
  | execute (w : Nat)
  | finish (w : Nat)
  | exit (w : Nat)
  | destroy
  deriving DecidableEq, Repr

/-- What identifies a task: its function, its argument and its wait handle. -/
def task_payload (n : task_node_t) : Nat × Nat × Nat :=
  (n.fn, n.arg, n.wait_handle)

/-- A pool together with the history of its steps: the tasks of the successful submits, the
tasks dequeued by workers (both in order) and the return codes of the submit calls. -/
structure TpTrace where
  pool : prts_thread_pool
  submitted : List (Nat × Nat × Nat)
  dequeued : List (Nat × Nat × Nat)
  results : List prts_result_t

/-- Perform one step and record it; `none` when the step is not enabled. -/
def tp_step (t : TpTrace) : TpEvent → Option TpTrace
  | TpEvent.submit fn arg task_out malloc_task malloc_handle =>
    match prts_threadpool_submit_wait t.pool fn arg task_out malloc_task malloc_handle with
    | none => none
    | some (r, pool, _) =>
      some
        { pool := pool
          submitted :=
            if r = PRTS_OK then
              t.submitted ++ [(fn.getD 0, arg, if task_out then malloc_handle else 0)]
            else t.submitted
          dequeued := t.dequeued
          results := t.results ++ [r] }
  | TpEvent.dequeue w =>
    match worker_dequeue t.pool w with
    | none => none
    | some pool =>
      some
        { t with
          pool := pool
          dequeued := t.dequeued ++
            [((t.pool.nodes t.pool.head).map task_payload).getD (0, 0, 0)] }
  | TpEvent.execute w => (worker_execute t.pool w).map (fun pool => { t with pool := pool })
  | TpEvent.finish w => (worker_finish t.pool w).map (fun pool => { t with pool := pool })
  | TpEvent.exit w => (worker_exit t.pool w).map (fun pool => { t with pool := pool })
  | TpEvent.destroy => some { t with pool := destroy_begin t.pool }

/-- Perform a sequence of steps in order; `none` when one of them is not enabled. -/
def tp_run : TpTrace → List TpEvent → Option TpTrace
  | t, [] => some t
  | t, ev :: rest =>
    match tp_step t ev with
    | none => none
    | some t2 => tp_run t2 rest

/-- The history of a freshly created pool. -/
def tp_fresh (pool : prts_thread_pool) : TpTrace :=
  { pool := pool, submitted := [], dequeued := [], results := [] }

/-- The system allocator behaves: the address it returns for a task node, if not null, is not
the address of a task node that is currently allocated. -/
def tp_malloc_ok : TpTrace → List TpEvent → Bool
  | _, [] => true
  | t, ev :: rest =>
    (match ev with
      | TpEvent.submit _ _ _ malloc_task _ =>
        malloc_task == 0 || (t.pool.nodes malloc_task).isNone
      | _ => true) &&
    (match tp_step t ev with
      | none => true
      | some t2 => tp_malloc_ok t2 rest)

/-- A worker that has dequeued a task and not yet updated the counters after it. -/
def worker_active : worker_pc → Bool
  | worker_pc.running _ => true
  | worker_pc.done => true
  | _ => false

/-- Counter invariant of a pool and its history, `c` being the number of tasks completed so
far: every successfully submitted task is pending, active or completed, and the three counters
of the pool hold these numbers (`completed_count` modulo `2^64`). -/
def TpCountInv (t : TpTrace) (c : Nat) : Prop :=
  t.pool.task_count + t.pool.active_count + c = t.submitted.length ∧
  t.pool.active_count = t.pool.workers.countP worker_active ∧
  t.pool.completed_count = c % SIZE_MOD ∧
  t.pool.queue_size < SIZE_MOD ∧ t.pool.workers.length < SIZE_MOD ∧
  t.pool.task_count ≤ t.pool.queue_size

/-- What identifies the task stored in the node at address `a` (zeros when no node is there). -/
def payload_at (nodes : Nat → Option task_node_t) (a : Nat) : Nat × Nat × Nat :=
  ((nodes a).map task_payload).getD (0, 0, 0)

/-- The nodes at the addresses `Q`, in this order, form the linked list that starts at `h`:
each address is non-null and allocated, each `next` is the following address, and the last
`next` is `NULL`. -/
def qchain (nodes : Nat → Option task_node_t) : Nat → List Nat → Prop
  | h, [] => h = 0
  | h, a :: rest => h = a ∧ a ≠ 0 ∧ ∃ n, nodes a = some n ∧ qchain nodes n.next rest

/-- The last address of a list of addresses, `NULL` for the empty list. -/
def qlast : List Nat → Nat
  | [] => 0
  | [a] => a
  | _ :: b :: rest => qlast (b :: rest)

/-- The nodes held by the workers: a worker that is running a task holds an allocated node that
is not in the queue `Q`, and no two workers hold the same node. -/
def workers_ok (ws : List worker_pc) (nodes : Nat → Option task_node_t) (Q : List Nat) : Prop :=
  (∀ w a, ws.getD w worker_pc.exited = worker_pc.running a → a ∉ Q ∧ nodes a ≠ none) ∧
  (∀ w1 w2 a, ws.getD w1 worker_pc.exited = worker_pc.running a →
    ws.getD w2 worker_pc.exited = worker_pc.running a → w1 = w2)

/-- Queue invariant on the fields of a pool and the history: the queue is the linked list of the
nodes at `Q`, `tail` is its last node, `task_count` its length, and the tasks submitted so far are
the tasks dequeued so far followed by the tasks in the queue. -/
def QueueInv (nodes : Nat → Option task_node_t) (head tail task_count queue_size : Nat)
    (workers : List worker_pc) (submitted dequeued : List (Nat × Nat × Nat)) (Q : List Nat) :
    Prop :=
  qchain nodes head Q ∧ Q.Nodup ∧ tail = qlast Q ∧ task_count = Q.length ∧
  queue_size < SIZE_MOD ∧ task_count ≤ queue_size ∧
  submitted = dequeued ++ Q.map (payload_at nodes) ∧ workers_ok workers nodes Q

/-- Queue invariant of a pool and its history, `Q` being the addresses of the queued nodes. -/
def TpQueueInv (t : TpTrace) (Q : List Nat) : Prop :=
  QueueInv t.pool.nodes t.pool.head t.pool.tail t.pool.task_count t.pool.queue_size
    t.pool.workers t.submitted t.dequeued Q

/-- The configuration of the thread-pool scenarios: two workers, a queue of four tasks. -/
def tp_cfg : prts_threadpool_config_t :=
  { num_threads := 2, queue_size := 4, allow_grow := false, max_threads := 2 }

/-- The pool `prts_threadpool_create` builds from `tp_cfg` in an empty heap. -/
def tp_created : prts_thread_pool :=
  { num_threads := 2
    queue_size := 4
    max_threads := 2
    allow_grow := false
    shutdown := false
    head := 0
    tail := 0
    task_count := 0
    active_count := 0
    completed_count := 0
    total_wait_ns := 0
    total_exec_ns := 0
    nodes := fun _ => none
    handles := fun _ => none
    workers := [worker_pc.idle, worker_pc.idle] }

/-- Two tasks are submitted (the second with a wait handle), both workers take one and run it to
completion; a submit with a null function is rejected in between. -/
def tp_quiet_scenario : List TpEvent :=
  [TpEvent.submit (some 7) 1 false 4096 0, TpEvent.submit none 5 false 0 0,
   TpEvent.submit (some 8) 2 true 4128 4160, TpEvent.dequeue 0, TpEvent.dequeue 1,
   TpEvent.execute 1, TpEvent.finish 1, TpEvent.execute 0, TpEvent.finish 0]

/-- The state and history at the end of `tp_quiet_scenario`. -/
def tp_quiet_end : TpTrace :=
  (tp_run (tp_fresh tp_created) tp_quiet_scenario).getD (tp_fresh tp_created)

/-- Four tasks are submitted while two workers dequeue three of them; the fourth node reuses the
address of the first one, which was freed after its task ran. -/
def tp_fifo_scenario : List TpEvent :=
  [TpEvent.submit (some 7) 1 false 4096 0, TpEvent.submit (some 8) 2 false 4128 0,
   TpEvent.dequeue 0, TpEvent.submit (some 9) 3 false 4160 0, TpEvent.dequeue 1,
   TpEvent.execute 0, TpEvent.finish 0, TpEvent.dequeue 0,
   TpEvent.submit (some 7) 4 false 4096 0]

/-- The state and history at the end of `tp_fifo_scenario`. -/
def tp_fifo_end : TpTrace :=
  (tp_run (tp_fresh tp_created) tp_fifo_scenario).getD (tp_fresh tp_created)

/-! ## Ring buffer: index invariant and scenarios -/

/-- Index invariant of a ring buffer: the capacity is a power of two that fits a `size_t` and
both indices are below it. -/
def RingIdx (buf : prts_ring_buffer) : Prop :=
  ∃ k, k ≤ 63 ∧ buf.capacity = 2 ^ k ∧ buf.head < buf.capacity ∧ buf.tail < buf.capacity

/-- Three pushes into a buffer of capacity four, which fill it. -/
def ring_three_pushes : List RingOp :=
  [RingOp.push (some (le32 1)), RingOp.push (some (le32 2)), RingOp.push (some (le32 3))]

/-! ## Memory pool: further scenarios -/

/-- A configuration whose initial block count exceeds its maximum: `block_size = 64`,
`initial_blocks = 8`, `max_blocks = 4`. -/
def pool_cfg_over : prts_pool_config_t :=
  { block_size := 64, initial_blocks := 8, max_blocks := 4, thread_safe := false }

/-- The calls before the reset of the pool-reset scenario: four allocs and one free. -/
def pool_before_reset : List PoolOp :=
  pool_four_allocs ++ [PoolOp.free 4104]

/-! ## Metrics collector: call sequences and shape invariant -/

/-- One call made on a metrics collector. -/
inductive MetricsOp where
  | register (config : Option prts_metric_config_t)
  | counter_inc (name : Option (List Char)) (label_values : Option (List (List Char)))
      (delta : Nat)
  | gauge_set (name : Option (List Char)) (label_values : Option (List (List Char)))
      (value : Float)
  | histogram_observe (name : Option (List Char)) (label_values : Option (List (List Char)))
      (value : Float)

/-- The collector after one call. -/
def metrics_step (c : prts_metrics_collector) : MetricsOp → prts_metrics_collector
  | MetricsOp.register config => (prts_metrics_register c config).2
  | MetricsOp.counter_inc name lv delta => (prts_metrics_counter_inc c name lv delta).2
  | MetricsOp.gauge_set name lv value => (prts_metrics_gauge_set c name lv value).2
  | MetricsOp.histogram_observe name lv value => (prts_metrics_histogram_observe c name lv value).2

/-- The collector after a sequence of calls, in order. -/
def metrics_run (c : prts_metrics_collector) (ops : List MetricsOp) : prts_metrics_collector :=
  ops.foldl metrics_step c

/-- The element `entries[0]` of the metric at index `i`: the slot every update function uses. -/
def metric_slot0 (c : prts_metrics_collector) (i : Nat) : metric_slot_t :=
  (c.metrics.getD i metric_entry_zero).entries.getD 0 metric_slot_zero

/-- Shape invariant of a collector after at most `n` calls: the two arrays have their declared
sizes, `num_metrics` does not exceed `MAX_METRICS`, and no histogram has counted more than `n`
observations. -/
def MetricsInv (n : Nat) (c : prts_metrics_collector) : Prop :=
  c.metrics.length = MAX_METRICS ∧ c.num_metrics ≤ MAX_METRICS ∧
  ∀ j, (c.metrics.getD j metric_entry_zero).entries.length = MAX_LABEL_VALUES ∧
    (metric_slot0 c j).histogram_count ≤ n

/-- The collector `prts_metrics_create` returns. -/
def metrics_fresh : prts_metrics_collector :=
  { metrics := List.replicate MAX_METRICS metric_entry_zero, num_metrics := 0 }

/-- The collector after a successful update of the metric at index `i`: `entries[0]` of that
metric is changed by `f` (and `num_entries` raised from 0 to 1). -/
def metrics_updated (c : prts_metrics_collector) (i : Nat) (f : metric_slot_t → metric_slot_t) :
    prts_metrics_collector :=
  { c with
    metrics := c.metrics.set i (metric_update_slot0 (c.metrics.getD i metric_entry_zero) f) }

/-- A gauge named `temperature`. -/
def temperature_cfg : prts_metric_config_t :=
  { name := some "temperature".toList
    description := some "t".toList
    type := PRTS_METRIC_GAUGE
    labels := none
    num_labels := 0 }

/-- A histogram named `latency`. -/
def latency_cfg : prts_metric_config_t :=
  { name := some "latency".toList
    description := some "l".toList
    type := PRTS_METRIC_HISTOGRAM
    labels := none
    num_labels := 0 }

/-- The calls that register the counter `http_requests`, the gauge `temperature` and the
histogram `latency`, and increment the counter by 1. -/
def metrics_three_ops : List MetricsOp :=
  [MetricsOp.register (some http_requests_cfg), MetricsOp.register (some temperature_cfg),
   MetricsOp.register (some latency_cfg),
   MetricsOp.counter_inc (some "http_requests".toList) none 1]

/-! ## Metrics collector: registry capacity, name uniqueness, export into small buffers -/

/-- Slot shape of a collector: every metric has `num_entries <= 1` and its slots other than
`entries[0]` are as `calloc` left them. -/
def SlotInv (c : prts_metrics_collector) : Prop :=
  ∀ j, (c.metrics.getD j metric_entry_zero).num_entries ≤ 1 ∧
    ∀ k, 0 < k →
      (c.metrics.getD j metric_entry_zero).entries.getD k metric_slot_zero = metric_slot_zero

/-- The call does not register a name of `MAX_NAME_LEN` bytes or more. -/
def op_name_short : MetricsOp → Prop
  | MetricsOp.register (some cfg) =>
    match cfg.name with
    | some nm => (c_str nm).length < MAX_NAME_LEN
    | none => True
  | _ => True

/-- The stored names of the registered metrics are pairwise distinct, and every `name[]` array
ends in the `NUL` byte that `calloc` left at its last position. -/
def NamesUnique (c : prts_metrics_collector) : Prop :=
  (∀ j, (c.metrics.getD j metric_entry_zero).name.drop (MAX_NAME_LEN - 1) = [NUL]) ∧
  ∀ i j, i < j → j < c.num_metrics →
    c_str (c.metrics.getD i metric_entry_zero).name
      ≠ c_str (c.metrics.getD j metric_entry_zero).name

/-- A counter whose name is 128 bytes long: one byte more than `name[]` can hold. -/
def long_name_cfg : prts_metric_config_t :=
  { name := some (List.replicate 128 'a')
    description := none
    type := PRTS_METRIC_COUNTER
    labels := none
    num_labels := 0 }

/-- The collector `prts_metrics_create` returns after `long_name_cfg` was registered twice. -/
def metrics_long_twice : prts_result_t × prts_result_t × prts_metrics_collector :=
  let r1 := prts_metrics_register metrics_fresh (some long_name_cfg)
  let r2 := prts_metrics_register r1.2 (some long_name_cfg)
  (r1.1, r2.1, r2.2)

/-- The collector holding the single counter `http_requests`, never incremented. -/
def metrics_one_counter : prts_metrics_collector :=
  (prts_metrics_register metrics_fresh (some http_requests_cfg)).2

/-- The result of exporting `metrics_one_counter` into a 10-byte buffer filled with dots. -/
def export_small : prts_result_t × Option ((Nat → Char) × Nat) :=
  prts_metrics_export_prometheus (fun _ => []) metrics_one_counter (some (fun _ => '.')) 10 true

/-! ## Log parser: further lines and buffers -/

/-- The text line `ts L m`: a timestamp `ts`, the bare level name `L`, a space and the message
`m`, followed by the terminator. -/
def bare_line (ts L m : List Char) : List Char :=
  ts ++ (L ++ (' ' :: (m ++ [NUL])))

/-- The NUL-terminated text line `TRACE boom`. -/
def trace_line : List Char := "TRACE boom".toList ++ [NUL]

/-- Two JSON lines as handed to `prts_parser_parse_batch`; the first has no message key. -/
def json_two_lines : List Char := "\x7b\x7d\n\x7b\"msg\":\"x\"\x7d\n".toList

/-! ## Log indexer: text filter, appends and flushes -/

/-- The level and time filters of a search: the `continue` tests before the text test. -/
def search_level_time (query : prts_search_query_t) (entry : prts_log_entry_t) : Prop :=
  entry.level.toNat ≥ query.min_level.toNat ∧
  (query.start_time > 0 → entry.timestamp ≥ query.start_time) ∧
  (query.end_time > 0 → entry.timestamp ≤ query.end_time)

/-- The message view of an entry is a C string: the `message_len` bytes hold no `NUL` and are
followed by one. -/
def message_terminated (mem : List Char) (entry : prts_log_entry_t) : Prop :=
  ∃ m, entry.message = some m ∧ NUL ∉ view mem entry.message entry.message_len ∧
    mem.getD (m + entry.message_len) NUL = NUL

/-- Two buffered entries over `search_mem`: one with a null message, one whose message view is
the first 4 bytes `disk` of the C string `disk full`. -/
def search_odd_indexer : prts_log_indexer_t :=
  { index_path := none
    memory_limit := 1024
    enable_compression := false
    shard_size := 10000
    buffer :=
      [{ log_entry_zero with timestamp := 5, level := PRTS_LOG_ERROR },
       { log_entry_zero with timestamp := 6, level := PRTS_LOG_WARN, message := some 0,
                             message_len := 4 }]
    buffer_count := 2
    buffer_capacity := 2 }

/-- A query for the text `full` with no other filter and the default limit. -/
def search_full_query : prts_search_query_t :=
  { query := some "full".toList, start_time := 0, end_time := 0, min_level := PRTS_LOG_TRACE,
    source_filter := none, offset := 0, limit := 0 }

/-- A query for the text `disk` with no other filter and a limit of one result. -/
def search_one_query : prts_search_query_t :=
  { query := some "disk".toList, start_time := 0, end_time := 0, min_level := PRTS_LOG_TRACE,
    source_filter := none, offset := 0, limit := 1 }

/-- The loop of `prts_indexer_add_batch` from index `i` on: `realloc_ok i` and `fresh i` are what
the `i`-th call of `prts_indexer_add` meets if it has to grow the buffer. -/
def indexer_add_batch_loop (realloc_ok : Nat → Bool) (fresh : Nat → Nat → prts_log_entry_t) :
    List prts_log_entry_t → Nat → prts_log_indexer_t → prts_result_t × prts_log_indexer_t
  | [], _, indexer => (PRTS_OK, indexer)
  | entry :: rest, i, indexer =>
    let r := prts_indexer_add indexer (some entry) (realloc_ok i) (fresh i)
    if r.1 ≠ PRTS_OK then r
    else indexer_add_batch_loop realloc_ok fresh rest (i + 1) r.2

/-- The function `prts_indexer_add_batch` on a non-null indexer; `entries = none` is a null
pointer, otherwise the array holds at least `count` entries. -/
def prts_indexer_add_batch (indexer : prts_log_indexer_t)
    (entries : Option (List prts_log_entry_t)) (count : Nat) (realloc_ok : Nat → Bool)
    (fresh : Nat → Nat → prts_log_entry_t) : prts_result_t × prts_log_indexer_t :=
  match entries with
  | none => (PRTS_ERROR_INVALID, indexer)
  | some entries => indexer_add_batch_loop realloc_ok fresh (entries.take count) 0 indexer

/-- One call made on a log indexer, with what the allocator does during it. -/
inductive IndexerOp where
  | add (entry : Option prts_log_entry_t) (realloc_ok : Bool) (fresh : Nat → prts_log_entry_t)
  | add_batch (entries : Option (List prts_log_entry_t)) (count : Nat)
      (realloc_ok : Nat → Bool) (fresh : Nat → Nat → prts_log_entry_t)
  | flush
  | search (mem : List Char) (query : Option prts_search_query_t) (result_out : Bool)
      (calloc_result calloc_entries : Bool)
  | compact

/-- The indexer after one call. -/
def indexer_step (indexer : prts_log_indexer_t) : IndexerOp → prts_log_indexer_t
  | IndexerOp.add entry realloc_ok fresh => (prts_indexer_add indexer entry realloc_ok fresh).2
  | IndexerOp.add_batch entries count realloc_ok fresh =>
    (prts_indexer_add_batch indexer entries count realloc_ok fresh).2
  | IndexerOp.flush => (prts_indexer_flush indexer).2
  | IndexerOp.search mem query result_out calloc_result calloc_entries =>
    (prts_indexer_search indexer mem query result_out calloc_result calloc_entries).2.2
  | IndexerOp.compact => (prts_indexer_compact indexer).2

/-- The indexer after a sequence of calls, in order. -/
def indexer_run (indexer : prts_log_indexer_t) (ops : List IndexerOp) : prts_log_indexer_t :=
  ops.foldl indexer_step indexer

/-- The number of entries a call offers to the buffer. -/
def op_entries : IndexerOp → Nat
  | IndexerOp.add _ _ _ => 1
  | IndexerOp.add_batch entries count _ _ => ((entries.getD []).take count).length
  | _ => 0

/-- The number of entries a sequence of calls offers to the buffer. -/
def ops_entries (ops : List IndexerOp) : Nat :=
  (ops.map op_entries).sum

/-- Shape invariant of an indexer to which at most `n` entries have been offered: the shard
threshold is positive and not reached, the buffer holds `buffer_capacity` slots of which
`buffer_count` are in use, and at most `n` entries are buffered. -/
def IndexerInv (n : Nat) (indexer : prts_log_indexer_t) : Prop :=
  0 < indexer.shard_size ∧ indexer.buffer_count < indexer.shard_size ∧
  indexer.buffer_count ≤ indexer.buffer_capacity ∧
  indexer.buffer.length = indexer.buffer_capacity ∧ 0 < indexer.buffer_capacity ∧
  indexer.buffer_count ≤ n

/-- An indexer configuration with a shard threshold of two entries. -/
def indexer_small_cfg : prts_indexer_config_t :=
  { index_path := none, memory_limit := 0, enable_compression := false, shard_size := 2 }

/-- The indexer `prts_indexer_create` builds from `indexer_small_cfg`. -/
def indexer_small : prts_log_indexer_t :=
  { index_path := none
    memory_limit := 64 * 1024 * 1024
    enable_compression := false
    shard_size := 2
    buffer := List.replicate 1024 log_entry_zero
    buffer_count := 0
    buffer_capacity := 1024 }

/-- One add of an INFO entry with timestamp 5. -/
def indexer_one_add : List IndexerOp :=
  [IndexerOp.add (some { log_entry_zero with timestamp := 5, level := PRTS_LOG_INFO }) true
    (fun _ => log_entry_zero)]

/-! ## Memory pool: distinct outstanding blocks -/

/-- The blocks a pool owns lie apart: a block has room for its header and payload within the
stride, and any two different blocks are at least one stride apart. -/
def PoolApart (t : PoolTrace) : Prop :=
  t.pool.block_size + HEADER_SIZE ≤ pool_stride t.pool ∧
  ∀ b1 ∈ t.blocks, ∀ b2 ∈ t.blocks, b1 ≠ b2 →
    b1 + pool_stride t.pool ≤ b2 ∨ b2 + pool_stride t.pool ≤ b1

/-! ## Metrics collector: exposition in registration order -/

/-- The text of the HELP line of a metric. -/
def help_line (m : metric_entry_t) : List Char :=
  "# HELP ".toList ++ c_str m.name ++ " ".toList ++ c_str m.description ++ "\n".toList

/-- The text of the TYPE line of a metric. -/
def type_line (m : metric_entry_t) : List Char :=
  "# TYPE ".toList ++ c_str m.name ++ " ".toList ++ type_str m.type ++ "\n".toList

/-- The sample lines of the entries `j, j + 1, ...` of a metric, `remaining` of them. -/
def samples_text (fmt_g : Float → List Char) (m : metric_entry_t) : Nat → Nat → List Char
  | 0, _ => []
  | remaining + 1, j =>
    sample_text fmt_g m (m.entries.getD j metric_slot_zero) ++
      samples_text fmt_g m remaining (j + 1)

/-- The exposition text of one metric: its HELP line, its TYPE line and one sample text for each
of its `num_entries` entries. -/
def metric_exposition (fmt_g : Float → List Char) (m : metric_entry_t) : List Char :=
  help_line m ++ (type_line m ++ samples_text fmt_g m m.num_entries 0)

/-- The exposition texts of the metrics `i, i + 1, ...`, `remaining` of them, in index order. -/
def exposition (fmt_g : Float → List Char) (metrics : List metric_entry_t) :
    Nat → Nat → List Char
  | 0, _ => []
  | remaining + 1, i =>
    metric_exposition fmt_g (metrics.getD i metric_entry_zero) ++
      exposition fmt_g metrics remaining (i + 1)

/-- The memory `mem2` is `mem` with the text `s` and a terminator stored from offset `off` on
(nothing at all being stored for an empty text). -/
def mem_appended (mem mem2 : Nat → Char) (off : Nat) (s : List Char) : Prop :=
  mem_read mem2 off s.length = s ∧ (s ≠ [] → mem2 (off + s.length) = NUL) ∧
  (s = [] → mem2 = mem) ∧ ∀ i, i < off → mem2 i = mem i

/-- The collector holding the single gauge `temperature`, never set. -/
def metrics_one_gauge : prts_metrics_collector :=
  metrics_run metrics_fresh [MetricsOp.register (some temperature_cfg)]

/-! ## Thread pool: shutdown, submit, task wait and wait_all -/

/-- The final loop of `prts_threadpool_destroy`, `while (pool->head) { ... free(task); }`, run
for at most `fuel` iterations: the pool afterwards and the addresses of the nodes it freed, in
order; `none` when the loop has not ended within `fuel` iterations. -/
def destroy_free_tasks : Nat → prts_thread_pool → Option (prts_thread_pool × List Nat)
  | 0, pool => if pool.head ≠ 0 then none else some (pool, [])
  | fuel + 1, pool =>
    if pool.head ≠ 0 then
      let task := pool.head
      let pool :=
        { pool with
          head := ((pool.nodes task).map (fun n => n.next)).getD 0
          nodes := Function.update pool.nodes task none }
      (destroy_free_tasks fuel pool).map (fun r => (r.1, task :: r.2))
    else some (pool, [])

/-- A worker that holds a dequeued task whose function it has not called yet. -/
def worker_running : worker_pc → Bool
  | worker_pc.running _ => true
  | _ => false

/-- The number of task executions (calls `task->fn(task->arg)`) in a sequence of steps. -/
def executions : List TpEvent → Nat
  | [] => 0
  | TpEvent.execute _ :: rest => executions rest + 1
  | _ :: rest => executions rest

/-- Every thread of `threads[]` has returned, and there is at least one: the state in which the
join loop of `prts_threadpool_destroy` is over. -/
def all_joined (pool : prts_thread_pool) : Bool :=
  !pool.workers.isEmpty && pool.workers.all (fun p => decide (p = worker_pc.exited))

/-- Exit invariant of a pool: if some worker has returned, then `shutdown` is set and the queue
is empty. -/
def ExitInv (t : TpTrace) : Prop :=
  worker_pc.exited ∈ t.pool.workers → t.pool.shutdown = true ∧ t.pool.task_count = 0

/-- One task is submitted and `prts_threadpool_destroy` sets `shutdown` while it is still in the
queue. -/
def tp_shutdown_scenario : List TpEvent :=
  [TpEvent.submit (some 7) 1 false 4096 0, TpEvent.destroy]

/-- The state and history at the end of `tp_shutdown_scenario`. -/
def tp_shutdown_end : TpTrace :=
  (tp_run (tp_fresh tp_created) tp_shutdown_scenario).getD (tp_fresh tp_created)

/-- After `tp_shutdown_scenario`, worker 0 takes the queued task and runs it, and both workers
return. -/
def tp_drain_scenario : List TpEvent :=
  tp_shutdown_scenario ++
    [TpEvent.dequeue 0, TpEvent.execute 0, TpEvent.finish 0, TpEvent.exit 1, TpEvent.exit 0]

/-- The state and history at the end of `tp_drain_scenario`. -/
def tp_drain_end : TpTrace :=
  (tp_run (tp_fresh tp_created) tp_drain_scenario).getD (tp_fresh tp_created)

/-- The entry of `prts_threadpool_submit_wait` with its pool pointer (`none` for a null
pointer): the guard `if (!pool || !fn) return PRTS_ERROR_INVALID;` followed by the function on a
non-null pool. -/
def submit_wait_call (pool : Option prts_thread_pool) (fn : Option Nat) (arg : Nat)
    (task_out : Bool) (malloc_task malloc_handle : Nat) :
    Option (prts_result_t × Option prts_thread_pool × Option Nat) :=
  match pool with
  | none => some (PRTS_ERROR_INVALID, none, none)
  | some pool =>
    (prts_threadpool_submit_wait pool fn arg task_out malloc_task malloc_handle).map
      (fun r => (r.1, some r.2.1, r.2.2))

/-- The pool `tp_created` after `prts_threadpool_destroy` has set `shutdown`. -/
def tp_closed : prts_thread_pool :=
  destroy_begin tp_created

/-- The loop `while (!task->completed) pthread_cond_wait(&task->cond, &task->mutex);` of
`prts_task_wait`.  The first argument is the `completed` flag read under the mutex; `wakes` lists,
for each successive return of the wait, its return code and the flag found on return.  The
result is the flag on leaving the loop, `none` while the thread stays blocked. -/
def task_wait_forever : Bool → List (Nat × Bool) → Option Bool
  | true, _ => some true
  | false, [] => none
  | false, (_, completed) :: rest => task_wait_forever completed rest

/-- The loop of `prts_task_wait` around `pthread_cond_timedwait`: a non-zero return code makes
the function return `PRTS_ERROR_TIMEOUT` at once.  The result is that early return code, if any,
and the flag read last; `none` while the thread stays blocked. -/
def task_wait_timed : Bool → List (Nat × Bool) → Option (Option prts_result_t × Bool)
  | true, _ => some (none, true)
  | false, [] => none
  | false, (rc, completed) :: rest =>
    if rc ≠ 0 then some (some PRTS_ERROR_TIMEOUT, completed)
    else task_wait_timed completed rest

/-- The function `prts_task_wait` (POSIX branch).  `task = none` is a null handle, otherwise
the `completed` flag of the handle when the mutex is taken.  The result is the return code and
the flag of the handle at the return (`none` without a handle); it is `none` while the call
stays blocked. -/
def prts_task_wait (task : Option Bool) (timeout_ms : Int) (wakes : List (Nat × Bool)) :
    Option (prts_result_t × Option Bool) :=
  match task with
  | none => some (PRTS_ERROR_INVALID, none)
  | some completed =>
    if timeout_ms < 0 then
      (task_wait_forever completed wakes).map
        (fun c => (if c then PRTS_OK else PRTS_ERROR_TIMEOUT, some c))
    else if timeout_ms > 0 then
      (task_wait_timed completed wakes).map
        (fun r =>
          match r.1 with
          | some e => (e, some r.2)
          | none => (if r.2 then PRTS_OK else PRTS_ERROR_TIMEOUT, some r.2))
    else some (if completed then PRTS_OK else PRTS_ERROR_TIMEOUT, some completed)

/-- The two condition variables of a pool. -/
inductive tp_cond where
  | not_empty
  | not_full
  deriving DecidableEq, Repr

/-- The condition variable that the critical section of a step signals (or broadcasts), if
any: a successful submit signals `not_empty`, a dequeue signals `not_full`, destroy broadcasts
`not_empty`; the critical section after a task (`active_count--; completed_count++`) signals
nothing, and running a task signals only the condition of its wait handle. -/
def tp_signal (pool : prts_thread_pool) : TpEvent → Option tp_cond
  | TpEvent.submit fn arg task_out malloc_task malloc_handle =>
    match prts_threadpool_submit_wait pool fn arg task_out malloc_task malloc_handle with
    | some (PRTS_OK, _, _) => some tp_cond.not_empty
    | _ => none
  | TpEvent.dequeue _ => some tp_cond.not_full
  | TpEvent.execute _ => none
  | TpEvent.finish _ => none
  | TpEvent.exit _ => none
  | TpEvent.destroy => some tp_cond.not_empty

/-- Where a thread stands in `prts_threadpool_wait_all`: blocked in `pthread_cond_wait` on
`not_full`, or returned. -/
inductive wait_all_pc where
  | blocked
  | returned
  deriving DecidableEq, Repr

/-- The test of the loop of `prts_threadpool_wait_all`, made under the lock on entry and after
each wake: block while `task_count > 0 || active_count > 0`. -/
def wait_all_enter (pool : prts_thread_pool) : wait_all_pc :=
  if pool.task_count > 0 ∨ pool.active_count > 0 then wait_all_pc.blocked
  else wait_all_pc.returned

/-- A thread in `prts_threadpool_wait_all` after a step that signalled `sig`, `pool` being the
pool after that step: a blocked thread is woken by a signal on `not_full` only, and tests the
loop condition again. -/
def wait_all_wake (pool : prts_thread_pool) (pc : wait_all_pc) (sig : Option tp_cond) :
    wait_all_pc :=
  match pc, sig with
  | wait_all_pc.blocked, some tp_cond.not_full => wait_all_enter pool
  | pc, _ => pc

/-- Perform a sequence of steps of the pool while one thread is in
`prts_threadpool_wait_all`. -/
def wait_all_run : TpTrace → wait_all_pc → List TpEvent → Option (TpTrace × wait_all_pc)
  | t, pc, [] => some (t, pc)
  | t, pc, ev :: rest =>
    match tp_step t ev with
    | none => none
    | some t2 => wait_all_run t2 (wait_all_wake t2.pool pc (tp_signal t.pool ev)) rest

/-- One task is submitted and worker 0 dequeues it. -/
def tp_busy_scenario : List TpEvent :=
  [TpEvent.submit (some 7) 1 false 4096 0, TpEvent.dequeue 0]

/-- The state and history at the end of `tp_busy_scenario`: the task is being run. -/
def tp_busy_end : TpTrace :=
  (tp_run (tp_fresh tp_created) tp_busy_scenario).getD (tp_fresh tp_created)

/-- The state and history after worker 0 has run the task of `tp_busy_scenario` and updated
the counters. -/
def tp_idle_end : TpTrace :=
  (tp_run tp_busy_end [TpEvent.execute 0, TpEvent.finish 0]).getD tp_busy_end

/-! # Theorems -/

/-! ## Ring buffer -/

theorem round_capacity_zero (fuel c : Nat) (hc : 0 < c) : round_capacity fuel 0 c = none := by
  induction fuel with
  | zero => rfl
  | succ n ih => simp [round_capacity, hc, ih]

theorem round_capacity_pow (fuel : Nat) : ∀ (j c r : Nat), j ≤ 63 →
    round_capacity fuel (2 ^ j) c = some r → ∃ k, k ≤ 63 ∧ r = 2 ^ k := by
  induction fuel with
  | zero => intro j c r _ h; simp [round_capacity] at h
  | succ n ih =>
    intro j c r hj h
    simp only [round_capacity] at h
    split at h
    · rename_i hlt
      by_cases hj63 : j = 63
      · subst hj63
        have h0 : (2 ^ 63 <<< 1) % SIZE_MOD = 0 := by decide
        rw [h0, round_capacity_zero n c (by omega)] at h
        cases h
      · have h1 : (2 ^ j <<< 1) % SIZE_MOD = 2 ^ (j + 1) := by
          rw [Nat.shiftLeft_eq, ← Nat.pow_succ]
          apply Nat.mod_eq_of_lt
          unfold SIZE_MOD
          exact Nat.pow_lt_pow_right (by decide) (by omega)
        rw [h1] at h
        exact ih (j + 1) c r (by omega) h
    · cases h
      exact ⟨j, hj, rfl⟩

theorem memcpy_to_length (dst src : List Nat) (off n : Nat) (hs : src.length = n)
    (hb : off + n ≤ dst.length) : (memcpy_to dst off src n).length = dst.length := by
  simp [memcpy_to, hs]
  omega

theorem memcpy_from_to_same (dst src : List Nat) (off n : Nat) (hs : src.length = n)
    (hb : off + n ≤ dst.length) : memcpy_from (memcpy_to dst off src n) off n = src := by
  subst hs
  have h1 : (dst.take off).length = off := by simp; omega
  simp only [memcpy_from, memcpy_to, List.append_assoc]
  rw [List.drop_append_of_le_length (by omega), List.drop_of_length_le (by omega)]
  simp

theorem memcpy_from_to_disjoint (dst src : List Nat) (off n off2 : Nat) (hs : src.length = n)
    (hb : off + n ≤ dst.length) (hd : off2 + n ≤ off ∨ off + n ≤ off2) :
    memcpy_from (memcpy_to dst off src n) off2 n = memcpy_from dst off2 n := by
  subst hs
  apply List.ext_getElem?
  intro i
  simp only [memcpy_from, memcpy_to, List.getElem?_take, List.getElem?_drop, List.take_length]
  by_cases hi : i < src.length
  · simp only [hi, if_true]
    rcases hd with hd | hd
    · rw [List.append_assoc, List.getElem?_append_left (by simp; omega)]
      simp [List.getElem?_take]; omega
    · rw [List.getElem?_append_right (by simp; omega)]
      simp [List.getElem?_drop]
      congr 1; omega
  · simp [hi]

theorem ring_mask (k x : Nat) (hk : k ≤ 63) (hx : x < 2 ^ k) :
    size_add x 1 &&& size_sub (2 ^ k) 1 = (x + 1) % 2 ^ k := by
  have hp : 2 ^ k ≤ 2 ^ 63 := Nat.pow_le_pow_right (by decide) hk
  have hpos : 0 < 2 ^ k := Nat.two_pow_pos k
  have h1 : size_add x 1 = x + 1 := by
    unfold size_add SIZE_MOD
    apply Nat.mod_eq_of_lt
    omega
  have h2 : size_sub (2 ^ k) 1 = 2 ^ k - 1 := by
    unfold size_sub SIZE_MOD
    have : 2 ^ k + 2 ^ 64 - 1 = (2 ^ k - 1) + 2 ^ 64 := by omega
    rw [this, Nat.add_mod_right]
    apply Nat.mod_eq_of_lt
    omega
  rw [h1, h2, Nat.and_pow_two_sub_one_eq_mod]

theorem slot_disjoint (i j es : Nat) (h : i ≠ j) :
    i * es + es ≤ j * es ∨ j * es + es ≤ i * es := by
  rcases Nat.lt_or_gt_of_ne h with h | h
  · left
    have := Nat.mul_le_mul_right es (Nat.succ_le_of_lt h)
    rw [Nat.succ_mul] at this
    exact this
  · right
    have := Nat.mul_le_mul_right es (Nat.succ_le_of_lt h)
    rw [Nat.succ_mul] at this
    exact this

theorem slot_in_bounds (i cap es : Nat) (h : i < cap) : i * es + es ≤ cap * es := by
  have := Nat.mul_le_mul_right es (Nat.succ_le_of_lt h)
  rw [Nat.succ_mul] at this
  exact this

theorem mod_add_inj (c t j n : Nat) (hj : j < c) (hn : n < c)
    (h : (t + j) % c = (t + n) % c) : j = n := by
  have h1 : Nat.ModEq c (t + j) (t + n) := h
  have h2 : Nat.ModEq c j n := Nat.ModEq.add_left_cancel' t h1
  have h3 : j % c = n % c := h2
  rwa [Nat.mod_eq_of_lt hj, Nat.mod_eq_of_lt hn] at h3

theorem ring_step_inv (es : Nat) (t : RingTrace) (op : RingOp)
    (hop : ∀ e, op = RingOp.push (some e) → e.length = es) (hinv : RingInv es t) :
    RingInv es (ring_step t op) := by
  obtain ⟨k, n, hk, hcap, hes, hlen, htail, hn, hhead, hhist⟩ := hinv
  have hpos : 0 < t.buf.capacity := by omega
  have hheadlt : t.buf.head < t.buf.capacity := by rw [hhead]; exact Nat.mod_lt _ hpos
  cases op with
  | push element =>
    cases element with
    | none =>
      exact ⟨k, n, hk, hcap, hes, hlen, htail, hn, hhead, hhist⟩
    | some e =>
      have hel : e.length = es := hop e rfl
      have hmask : size_add t.buf.head 1 &&& size_sub t.buf.capacity 1
          = (t.buf.tail + (n + 1)) % t.buf.capacity := by
        rw [hcap, ring_mask k _ hk (by rw [← hcap]; exact hheadlt), ← hcap, hhead,
          Nat.mod_add_mod, Nat.add_assoc]
      by_cases hfull : (t.buf.tail + (n + 1)) % t.buf.capacity = t.buf.tail
      · have hstep : ring_step t (RingOp.push (some e)) =
            { t with results := t.results ++ [PRTS_ERROR_FULL] } := by
          simp [ring_step, prts_ringbuf_push, hmask, hfull]
        rw [hstep]
        exact ⟨k, n, hk, hcap, hes, hlen, htail, hn, hhead, hhist⟩
      · have hn1 : n + 1 < t.buf.capacity := by
          by_contra hcon
          have : n + 1 = t.buf.capacity := by omega
          apply hfull
          rw [this, Nat.add_mod_right, Nat.mod_eq_of_lt htail]
        have hstep : ring_step t (RingOp.push (some e)) =
            { buf := { t.buf with
                buffer := memcpy_to t.buf.buffer (t.buf.head * t.buf.element_size) e
                  t.buf.element_size
                head := (t.buf.tail + (n + 1)) % t.buf.capacity }
              pushed := t.pushed ++ [e]
              popped := t.popped
              results := t.results ++ [PRTS_OK] } := by
          simp [ring_step, prts_ringbuf_push, hmask, hfull]
        rw [hstep]
        have hb := slot_in_bounds _ _ es hheadlt
        refine ⟨k, n + 1, hk, hcap, hes, ?_, htail, hn1, rfl, ?_⟩
        · show (memcpy_to t.buf.buffer (t.buf.head * t.buf.element_size) e
            t.buf.element_size).length = t.buf.capacity * es
          rw [memcpy_to_length _ _ _ _ (by rw [hes, hel])]
          · exact hlen
          · rw [hes]; omega
        · show t.pushed ++ [e] = t.popped ++ ring_slots _ (n + 1)
          rw [hhist, List.append_assoc]
          congr 1
          simp only [ring_slots, List.range_succ, List.map_append, List.map_cons, List.map_nil]
          congr 1
          · apply List.map_congr_left
            intro j hj
            rw [List.mem_range] at hj
            rw [hes]
            symm
            apply memcpy_from_to_disjoint _ _ _ _ _ hel
            · omega
            · have hne : (t.buf.tail + j) % t.buf.capacity ≠ t.buf.head := by
                intro h
                rw [hhead] at h
                have := mod_add_inj _ _ _ _ (by omega) hn h
                omega
              rcases slot_disjoint _ _ es hne with h | h
              · left; exact h
              · right; exact h
          · rw [hes, ← hhead, memcpy_from_to_same _ _ _ _ hel]
            omega
  | pop element_out =>
    cases element_out with
    | false =>
      exact ⟨k, n, hk, hcap, hes, hlen, htail, hn, hhead, hhist⟩
    | true =>
      by_cases hempty : t.buf.tail = t.buf.head
      · have hstep : ring_step t (RingOp.pop true) =
            { t with results := t.results ++ [PRTS_ERROR_EMPTY] } := by
          simp [ring_step, prts_ringbuf_pop, hempty]
        rw [hstep]
        exact ⟨k, n, hk, hcap, hes, hlen, htail, hn, hhead, hhist⟩
      · have hn0 : n ≠ 0 := by
          intro h0
          apply hempty
          rw [hhead, h0, Nat.add_zero, Nat.mod_eq_of_lt htail]
        obtain ⟨m, rfl⟩ := Nat.exists_eq_succ_of_ne_zero hn0
        have hmask : size_add t.buf.tail 1 &&& size_sub t.buf.capacity 1
            = (t.buf.tail + 1) % t.buf.capacity := by
          rw [hcap, ring_mask k _ hk (by rw [← hcap]; exact htail)]
        have hstep : ring_step t (RingOp.pop true) =
            { buf := { t.buf with tail := (t.buf.tail + 1) % t.buf.capacity }
              pushed := t.pushed
              popped := t.popped ++
                [memcpy_from t.buf.buffer (t.buf.tail * t.buf.element_size) t.buf.element_size]
              results := t.results ++ [PRTS_OK] } := by
          simp [ring_step, prts_ringbuf_pop, hmask, hempty]
        rw [hstep]
        have hm : m < t.buf.capacity := by omega
        refine ⟨k, m, hk, hcap, hes, hlen, Nat.mod_lt _ hpos, hm, ?_, ?_⟩
        · show t.buf.head = ((t.buf.tail + 1) % t.buf.capacity + m) % t.buf.capacity
          rw [hhead, Nat.mod_add_mod]
          congr 1
          omega
        · show t.pushed = (t.popped ++ [_]) ++ ring_slots _ m
          rw [hhist, List.append_assoc]
          congr 1
          simp only [ring_slots, List.range_succ_eq_map, List.map_cons, List.map_map,
            List.singleton_append, Nat.add_zero]
          congr 1
          · rw [Nat.mod_eq_of_lt htail]
          · apply List.map_congr_left
            intro j _
            simp only [Function.comp]
            rw [Nat.mod_add_mod]
            congr 3
            omega

theorem ring_run_inv (es : Nat) (ops : List RingOp) : ∀ (t : RingTrace),
    (∀ e, RingOp.push (some e) ∈ ops → e.length = es) → RingInv es t →
    RingInv es (ops.foldl ring_step t) := by
  induction ops with
  | nil => intro t _ h; exact h
  | cons op rest ih =>
    intro t hops hinv
    simp only [List.foldl_cons]
    apply ih
    · intro e he
      exact hops e (List.mem_cons_of_mem _ he)
    · apply ring_step_inv es t op _ hinv
      intro e he
      exact hops e (by rw [he]; exact List.mem_cons_self _ _)

theorem ring_create_inv (fuel c es : Nat) (bo m1 m2 : Bool) (raw : Nat → Nat)
    (b : prts_ring_buffer)
    (hc : prts_ringbuf_create fuel c es bo m1 m2 raw = some (PRTS_OK, some b))
    (hsz : b.capacity * b.element_size < SIZE_MOD) :
    RingInv es { buf := b, pushed := [], popped := [], results := [] } := by
  unfold prts_ringbuf_create at hc
  split at hc
  · cases hc
  · split at hc
    · cases hc
    · rename_i a ha
      split at hc
      · cases hc
      · split at hc
        · cases hc
        · simp only [Option.some.injEq, Prod.mk.injEq, true_and] at hc
          subst hc
          obtain ⟨k, hk, rfl⟩ := round_capacity_pow fuel 0 c a (by decide) ha
          refine ⟨k, 0, hk, rfl, rfl, ?_, Nat.two_pow_pos k, Nat.two_pow_pos k, ?_, ?_⟩
          · simp only [List.length_map, List.length_range, size_mul]
            exact Nat.mod_eq_of_lt hsz
          · show 0 = (0 + 0) % 2 ^ k
            simp
          · simp [ring_slots]

/-- C1: for every sequence of `prts_ringbuf_push` and `prts_ringbuf_pop` calls applied in order
to a freshly created ring buffer (every pushed element being `element_size` bytes long), the
elements returned by the successful pops are, in order, a prefix of the elements accepted by the
successful pushes, also across index wrap-around. -/
theorem ringbuf_fifo_prefix (fuel c es : Nat) (buf_out m1 m2 : Bool) (raw : Nat → Nat)
    (b : prts_ring_buffer) (ops : List RingOp)
    (hc : prts_ringbuf_create fuel c es buf_out m1 m2 raw = some (PRTS_OK, some b))
    (hsz : b.capacity * b.element_size < SIZE_MOD)
    (hops : ∀ e, RingOp.push (some e) ∈ ops → e.length = es) :
    (ring_run b ops).popped <+: (ring_run b ops).pushed := by
  obtain ⟨k, n, _, _, _, _, _, _, _, hh⟩ :=
    ring_run_inv es ops _ hops (ring_create_inv fuel c es buf_out m1 m2 raw b hc hsz)
  exact ⟨_, hh.symm⟩

/-- The ring-wrap scenario for C1: requested capacity 3 is stored as 4; push 1, 2, 3 succeed, the
pop gives 1, push 4 succeeds, push 5 returns full, and the remaining pops give 2, 3, 4. -/
theorem ringbuf_fifo_prefix_witness :
    prts_ringbuf_create 65 3 4 true true true (fun _ => 0) = some (PRTS_OK, some ring_fresh) ∧
    ring_fresh.capacity * ring_fresh.element_size < SIZE_MOD ∧
    (∀ e, RingOp.push (some e) ∈ ring_scenario → e.length = 4) ∧
    (ring_run ring_fresh ring_scenario).results =
      [PRTS_OK, PRTS_OK, PRTS_OK, PRTS_OK, PRTS_OK, PRTS_ERROR_FULL, PRTS_OK, PRTS_OK, PRTS_OK] ∧
    (ring_run ring_fresh ring_scenario).popped = [le32 1, le32 2, le32 3, le32 4] ∧
    (ring_run ring_fresh ring_scenario).popped <+: (ring_run ring_fresh ring_scenario).pushed :=
  have h1 : prts_ringbuf_create 65 3 4 true true true (fun _ => 0)
      = some (PRTS_OK, some ring_fresh) := by decide
  have h2 : ring_fresh.capacity * ring_fresh.element_size < SIZE_MOD := by decide
  have h3 : ∀ e, RingOp.push (some e) ∈ ring_scenario → e.length = 4 := by
    intro e he
    simp only [ring_scenario, List.mem_cons, RingOp.push.injEq, Option.some.injEq,
      List.mem_singleton, reduceCtorEq, or_false, false_or, List.not_mem_nil] at he
    rcases he with h | h | h | h | h <;> (subst h; rfl)
  ⟨h1, h2, h3, by decide, by decide, ringbuf_fifo_prefix 65 3 4 true true true _ _ _ h1 h2 h3⟩

/-! ## Memory pool -/

theorem and_not7 (x : Nat) (hx : x < 2 ^ 64) : x &&& (2 ^ 64 - 8) = x / 8 * 8 := by
  apply Nat.eq_of_testBit_eq
  intro i
  have h8 : (2 : Nat) ^ 64 - 8 = (2 ^ 61 - 1) <<< 3 := by decide
  have hd : x / 8 * 8 = (x >>> 3) <<< 3 := by
    rw [Nat.shiftLeft_eq, Nat.shiftRight_eq_div_pow]
  rw [hd, Nat.testBit_and, h8, Nat.testBit_shiftLeft, Nat.testBit_shiftLeft,
    Nat.testBit_two_pow_sub_one, Nat.testBit_shiftRight]
  by_cases h3 : 3 ≤ i
  · have e : 3 + (i - 3) = i := by omega
    rw [e]
    by_cases h64 : i < 64
    · have : i - 3 < 61 := by omega
      simp [h3, this]
    · have hlt : x < 2 ^ i := lt_of_lt_of_le hx (Nat.pow_le_pow_right (by decide) (by omega))
      simp [Nat.testBit_lt_two_pow hlt]
  · simp [h3]

theorem align_size_eq (n : Nat) (hn : n + 7 < SIZE_MOD) : align_size n = (n + 7) / 8 * 8 := by
  unfold align_size size_add
  rw [Nat.mod_eq_of_lt hn]
  exact and_not7 _ hn

theorem align_size_ge (n : Nat) (hn : n + 7 < SIZE_MOD) : n ≤ align_size n := by
  rw [align_size_eq n hn]
  omega

theorem chain_update (next : Nat → Nat) (a v : Nat) : ∀ (l : List Nat) (h : Nat),
    a ∉ l → chain next h l → chain (Function.update next a v) h l := by
  intro l
  induction l with
  | nil => intro h _ hc; exact hc
  | cons b l ih =>
    intro h ha hc
    obtain ⟨h1, h2, h3⟩ := hc
    have hab : b ≠ a := fun e => ha (by rw [e]; exact List.mem_cons_self _ _)
    refine ⟨h1, h2, ?_⟩
    rw [Function.update_noteq hab]
    exact ih _ (fun hm => ha (List.mem_cons_of_mem _ hm)) h3

theorem chain_nil_of_zero (next : Nat → Nat) (l : List Nat) (hc : chain next 0 l) : l = [] := by
  cases l with
  | nil => rfl
  | cons b l =>
    obtain ⟨h1, h2, _⟩ := hc
    exact absurd h1.symm h2

theorem chain_cons_of_ne (next : Nat → Nat) (h : Nat) (l : List Nat) (hh : h ≠ 0)
    (hc : chain next h l) : ∃ l2, l = h :: l2 ∧ chain next (next h) l2 := by
  cases l with
  | nil => exact absurd hc hh
  | cons b l =>
    obtain ⟨h1, _, h3⟩ := hc
    subst h1
    exact ⟨l, rfl, h3⟩

theorem nodup_length_lt (l : List Nat) (N : Nat) (hN : 0 < N) (hn : l.Nodup)
    (hb : ∀ b ∈ l, 0 < b ∧ b < N) : l.length < N := by
  have hsub : l.toFinset ⊆ Finset.Ico 1 N := by
    intro x hx
    rw [List.mem_toFinset] at hx
    rw [Finset.mem_Ico]
    have := hb x hx
    omega
  have hcard := Finset.card_le_card hsub
  rw [List.toFinset_card_of_nodup hn, Nat.card_Ico] at hcard
  by_cases hl : l = []
  · subst hl
    exact hN
  · obtain ⟨x, hx⟩ := List.exists_mem_of_ne_nil l hl
    have := hb x hx
    omega

theorem slab_blocks_succ (p s n : Nat) :
    slab_blocks p s (n + 1) = p :: slab_blocks (p + s) s n := by
  simp only [slab_blocks, List.range_succ_eq_map, List.map_cons, List.map_map, Nat.zero_mul,
    Nat.add_zero]
  congr 1
  apply List.map_congr_left
  intro i _
  simp only [Function.comp, Nat.succ_mul]
  omega

theorem mem_slab_blocks (p s n b : Nat) : b ∈ slab_blocks p s n ↔ ∃ i, i < n ∧ b = p + i * s := by
  simp only [slab_blocks, List.mem_map, List.mem_range]
  constructor
  · rintro ⟨i, hi, rfl⟩; exact ⟨i, hi, rfl⟩
  · rintro ⟨i, hi, rfl⟩; exact ⟨i, hi, rfl⟩

theorem slab_blocks_nodup (p s n : Nat) (hs : 0 < s) : (slab_blocks p s n).Nodup := by
  induction n generalizing p with
  | zero => simp [slab_blocks]
  | succ n ih =>
    rw [slab_blocks_succ, List.nodup_cons]
    refine ⟨?_, ih _⟩
    rw [mem_slab_blocks]
    rintro ⟨i, _, hi⟩
    have : 0 ≤ i * s := Nat.zero_le _
    omega

theorem chain_build (s : Nat) (hs : 0 < s) : ∀ (n ptr fl : Nat) (heap : Nat → Nat) (L : List Nat),
    0 < ptr → chain heap fl L → (∀ b ∈ slab_blocks ptr s n, b ∉ L) →
    chain (pool_build_free_list s n ptr fl heap).2 (pool_build_free_list s n ptr fl heap).1
      ((slab_blocks ptr s n).reverse ++ L) := by
  intro n
  induction n with
  | zero =>
    intro ptr fl heap L _ hc _
    simpa [pool_build_free_list, slab_blocks] using hc
  | succ n ih =>
    intro ptr fl heap L hp hc hL
    simp only [pool_build_free_list]
    rw [slab_blocks_succ, List.reverse_cons, List.append_assoc, List.singleton_append]
    have hpL : ptr ∉ L := hL ptr (by rw [slab_blocks_succ]; exact List.mem_cons_self _ _)
    apply ih (ptr + s) ptr (Function.update heap ptr fl) (ptr :: L) (by omega)
    · refine ⟨rfl, by omega, ?_⟩
      rw [Function.update_same]
      exact chain_update heap ptr fl L fl hpL hc
    · intro b hb
      rw [List.mem_cons, not_or]
      constructor
      · rw [mem_slab_blocks] at hb
        obtain ⟨i, _, hi⟩ := hb
        have : 0 ≤ i * s := Nat.zero_le _
        omega
      · exact hL b (by rw [slab_blocks_succ]; exact List.mem_cons_of_mem _ hb)

theorem pool_inv_length_lt (blocks l : List Nat) (s : Nat) (hs : 0 < s)
    (hb : ∀ b ∈ blocks, 0 < b ∧ b + s ≤ SIZE_MOD) (hn : l.Nodup) (hsub : ∀ b ∈ l, b ∈ blocks) :
    l.length < SIZE_MOD := by
  apply nodup_length_lt l SIZE_MOD (by decide) hn
  intro b hbl
  have := hb b (hsub b hbl)
  omega

theorem pool_step_inv (t : PoolTrace) (op : PoolOp) (rest : List PoolOp)
    (hv : pool_valid t (op :: rest)) (hinv : PoolInv t) : PoolInv (pool_step t op) := by
  obtain ⟨hs, hb, hslab, fl, ob, hchain, hout, hnd, hsub, hused, htotal⟩ := hinv
  obtain ⟨hvop, _⟩ := hv
  cases op with
  | alloc m =>
    by_cases hfl : t.pool.free_list = 0
    · -- free list empty
      rw [hfl] at hchain
      have hnil := chain_nil_of_zero _ _ hchain
      subst hnil
      by_cases hmax : t.pool.max_blocks > 0 ∧ t.pool.total_blocks ≥ t.pool.max_blocks
      · have hstep : pool_step t (PoolOp.alloc m) =
            { t with returned := t.returned ++ [0] } := by
          simp [pool_step, prts_pool_alloc, hfl, hmax]
        rw [hstep]
        exact ⟨hs, hb, hslab, [], ob, by rw [hfl]; exact hchain, hout, hnd, hsub, hused, htotal⟩
      · by_cases hm : m = 0
        · have hstep : pool_step t (PoolOp.alloc m) =
              { t with returned := t.returned ++ [0] } := by
            simp [pool_step, prts_pool_alloc, hfl, hmax, hm]
          rw [hstep]
          exact ⟨hs, hb, hslab, [], ob, by rw [hfl]; exact hchain, hout, hnd, hsub, hused,
            htotal⟩
        · obtain ⟨hm0, hmb, hmd⟩ := hvop hm
          have hmnot : m ∉ t.blocks := by
            intro hmem
            have := hmd m hmem
            change 0 < pool_stride t.pool at hs
            change m + pool_stride t.pool ≤ m ∨ m + pool_stride t.pool ≤ m at this
            omega
          have hmob : m ∉ ob := fun h => hmnot (hsub m (by simpa using h))
          have hnd2 : (m :: ob).Nodup := List.nodup_cons.mpr ⟨hmob, by simpa using hnd⟩
          have hsub2 : ∀ b ∈ m :: ob, b ∈ m :: t.blocks := by
            intro b hbm
            rcases List.mem_cons.mp hbm with h | h
            · rw [h]; exact List.mem_cons_self _ _
            · exact List.mem_cons_of_mem _ (hsub b (by simpa using h))
          have hb2 : ∀ b ∈ m :: t.blocks, 0 < b ∧ b + pool_stride t.pool ≤ SIZE_MOD := by
            intro b hbm
            rcases List.mem_cons.mp hbm with h | h
            · rw [h]; exact ⟨hm0, hmb⟩
            · exact hb b h
          have hlen := pool_inv_length_lt _ _ _ hs hb2 hnd2 hsub2
          simp only [List.length_cons] at hlen
          have hstep : pool_step t (PoolOp.alloc m) =
              { pool := { t.pool with
                  heap_next := Function.update t.pool.heap_next m 0
                  free_list := 0
                  total_blocks := size_add t.pool.total_blocks 1
                  used_blocks := size_add t.pool.used_blocks 1
                  alloc_count := size_add t.pool.alloc_count 1 }
                outstanding := (m + HEADER_SIZE) :: t.outstanding
                blocks := m :: t.blocks
                allocs := t.allocs + 1
                frees := t.frees
                returned := t.returned ++ [m + HEADER_SIZE] } := by
            simp [pool_step, prts_pool_alloc, pool_take_block, hfl, hmax, hm, HEADER_SIZE]
          rw [hstep]
          refine ⟨hs, hb2, fun b hbs => List.mem_cons_of_mem _ (hslab b hbs), [], m :: ob,
            rfl, ?_, by simpa using hnd2, by simpa using hsub2, ?_, ?_⟩
          · simp [hout]
          · show size_add t.pool.used_blocks 1 = (m :: ob).length
            rw [hused]
            simp only [size_add, List.length_cons]
            exact Nat.mod_eq_of_lt hlen
          · show size_add t.pool.total_blocks 1 = 0 + (m :: ob).length
            rw [htotal]
            simp only [size_add, List.length_cons, List.length_nil, Nat.zero_add]
            exact Nat.mod_eq_of_lt hlen
    · -- take the first free block
      obtain ⟨fl2, rfl, hchain2⟩ := chain_cons_of_ne _ _ _ hfl hchain
      have hlen := pool_inv_length_lt _ _ _ hs hb hnd hsub
      simp only [List.length_append, List.length_cons] at hlen
      have hstep : pool_step t (PoolOp.alloc m) =
          { pool := { t.pool with
              free_list := t.pool.heap_next t.pool.free_list
              used_blocks := size_add t.pool.used_blocks 1
              alloc_count := size_add t.pool.alloc_count 1 }
            outstanding := (t.pool.free_list + HEADER_SIZE) :: t.outstanding
            blocks := t.blocks
            allocs := t.allocs + 1
            frees := t.frees
            returned := t.returned ++ [t.pool.free_list + HEADER_SIZE] } := by
        simp [pool_step, prts_pool_alloc, pool_take_block, hfl, HEADER_SIZE]
      rw [hstep]
      have hperm : List.Perm (fl2 ++ t.pool.free_list :: ob) (t.pool.free_list :: fl2 ++ ob) := by
        simp
      refine ⟨hs, hb, hslab, fl2, t.pool.free_list :: ob, hchain2, ?_, ?_, ?_, ?_, ?_⟩
      · simp [hout]
      · exact hperm.nodup_iff.mpr hnd
      · intro b hbm
        exact hsub b (hperm.mem_iff.mp hbm)
      · show size_add t.pool.used_blocks 1 = (t.pool.free_list :: ob).length
        rw [hused]
        simp only [size_add, List.length_cons]
        apply Nat.mod_eq_of_lt
        omega
      · show t.pool.total_blocks = fl2.length + (t.pool.free_list :: ob).length
        rw [htotal]
        simp only [List.length_cons]
        omega
  | free ptr =>
    have hptr : ptr ∈ t.outstanding := hvop
    rw [hout, List.mem_map] at hptr
    obtain ⟨b, hbob, rfl⟩ := hptr
    have hbpos : 0 < b := (hb b (hsub b (List.mem_append_right _ hbob))).1
    have hbfl : b ∉ fl := by
      intro h
      exact (List.nodup_append.mp hnd).2.2 h hbob
    have hstep : pool_step t (PoolOp.free (b + HEADER_SIZE)) =
        { pool := { t.pool with
            heap_next := Function.update t.pool.heap_next b t.pool.free_list
            free_list := b
            used_blocks := size_sub t.pool.used_blocks 1
            free_count := size_add t.pool.free_count 1 }
          outstanding := t.outstanding.erase (b + HEADER_SIZE)
          blocks := t.blocks
          allocs := t.allocs
          frees := t.frees + 1
          returned := t.returned } := by
      simp [pool_step, prts_pool_free, HEADER_SIZE]
    rw [hstep]
    have hinj : Function.Injective (fun b : Nat => b + HEADER_SIZE) := by
      intro x y hxy
      simpa using hxy
    have hperm : List.Perm (b :: fl ++ ob.erase b) (fl ++ ob) := by
      have h1 : List.Perm ob (b :: ob.erase b) := List.perm_cons_erase hbob
      have h2 : List.Perm (fl ++ ob) (fl ++ b :: ob.erase b) := List.Perm.append_left fl h1
      have h3 : List.Perm (fl ++ b :: ob.erase b) (b :: fl ++ ob.erase b) := by
        simp
      exact (h2.trans h3).symm
    have hoblen : 0 < ob.length := List.length_pos_of_mem hbob
    have hlen := pool_inv_length_lt _ _ _ hs hb hnd hsub
    simp only [List.length_append] at hlen
    refine ⟨hs, hb, hslab, b :: fl, ob.erase b, ?_, ?_, ?_, ?_, ?_, ?_⟩
    · refine ⟨rfl, by omega, ?_⟩
      show chain _ (Function.update t.pool.heap_next b t.pool.free_list b) fl
      rw [Function.update_same]
      exact chain_update _ _ _ _ _ hbfl hchain
    · show t.outstanding.erase (b + HEADER_SIZE) = _
      rw [hout, List.map_erase hinj]
    · exact hperm.nodup_iff.mpr hnd
    · intro x hx
      exact hsub x (hperm.mem_iff.mp hx)
    · show size_sub t.pool.used_blocks 1 = (ob.erase b).length
      rw [hused, List.length_erase_of_mem hbob]
      simp only [size_sub, SIZE_MOD] at hlen ⊢
      omega
    · show t.pool.total_blocks = (b :: fl).length + (ob.erase b).length
      rw [htotal, List.length_erase_of_mem hbob]
      simp only [List.length_cons]
      omega
  | reset =>
    have hstep : pool_step t PoolOp.reset =
        { pool := prts_pool_reset t.pool
          outstanding := []
          blocks := t.blocks
          allocs := t.allocs
          frees := t.frees
          returned := t.returned } := rfl
    rw [hstep]
    have hnds := slab_blocks_nodup t.pool.memory (pool_stride t.pool) t.pool.initial_blocks hs
    refine ⟨hs, hb, hslab, (slab_blocks t.pool.memory (pool_stride t.pool)
      t.pool.initial_blocks).reverse, [], ?_, rfl, ?_, ?_, rfl, ?_⟩
    · by_cases hn : t.pool.initial_blocks = 0
      · show chain (prts_pool_reset t.pool).heap_next (prts_pool_reset t.pool).free_list _
        simp [prts_pool_reset, hn, pool_build_free_list, slab_blocks, chain]
      · have hmem : 0 < t.pool.memory := by
          have h0 : t.pool.memory ∈ slab_blocks t.pool.memory (pool_stride t.pool)
              t.pool.initial_blocks := by
            rw [mem_slab_blocks]
            exact ⟨0, by omega, by simp⟩
          exact (hb _ (hslab _ h0)).1
        have := chain_build (pool_stride t.pool) hs t.pool.initial_blocks t.pool.memory 0
          t.pool.heap_next [] hmem rfl (by simp)
        simpa using this
    · simpa using hnds
    · intro x hx
      exact hslab x (by simpa using hx)
    · show t.pool.initial_blocks = _
      simp [slab_blocks]

theorem pool_step_count (t : PoolTrace) (op : PoolOp) (rest : List PoolOp)
    (hv : pool_valid t (op :: rest)) (hinv : PoolInv t) (hc : PoolCountInv t)
    (hop : op ≠ PoolOp.reset) : PoolCountInv (pool_step t op) := by
  obtain ⟨ha, hf, hcnt⟩ := hc
  obtain ⟨hvop, _⟩ := hv
  cases op with
  | alloc m =>
    simp only [PoolCountInv, pool_step, prts_pool_alloc, pool_take_block]
    split_ifs <;> simp_all [size_add, SIZE_MOD, HEADER_SIZE] <;> omega
  | free ptr =>
    obtain ⟨_, _, _, fl, ob, _, hout, _⟩ := hinv
    have hptr : ptr ∈ t.outstanding := hvop
    have hne : ptr ≠ 0 := by
      rw [hout, List.mem_map] at hptr
      obtain ⟨b, _, rfl⟩ := hptr
      simp [HEADER_SIZE]
    have hpos : 0 < t.outstanding.length := List.length_pos_of_mem hptr
    simp only [PoolCountInv, pool_step, prts_pool_free, hne, if_false]
    rw [List.length_erase_of_mem hptr]
    refine ⟨ha, ?_, by omega⟩
    simp only [size_add, SIZE_MOD, hf]
    omega
  | reset => exact absurd rfl hop

theorem pool_run_inv (ops : List PoolOp) : ∀ (t : PoolTrace), pool_valid t ops → PoolInv t →
    PoolInv (pool_run t ops) := by
  induction ops with
  | nil => intro t _ h; exact h
  | cons op rest ih =>
    intro t hv hinv
    exact ih (pool_step t op) hv.2 (pool_step_inv t op rest hv hinv)

theorem pool_run_count (ops : List PoolOp) : ∀ (t : PoolTrace), pool_valid t ops → PoolInv t →
    PoolCountInv t → PoolOp.reset ∉ ops → PoolCountInv (pool_run t ops) := by
  induction ops with
  | nil => intro t _ _ h _; exact h
  | cons op rest ih =>
    intro t hv hinv hc hnr
    exact ih (pool_step t op) hv.2 (pool_step_inv t op rest hv hinv)
      (pool_step_count t op rest hv hinv hc (fun h => hnr (by rw [h]; exact List.mem_cons_self _ _)))
      (fun h => hnr (List.mem_cons_of_mem _ h))

theorem pool_create_inv (config : prts_pool_config_t) (pool_out calloc_pool : Bool)
    (malloc_memory : Nat) (heap : Nat → Nat) (pool : prts_memory_pool)
    (hc : prts_pool_create (some config) pool_out calloc_pool malloc_memory heap
      = (PRTS_OK, some pool))
    (hok : pool_create_ok config malloc_memory) :
    PoolInv (pool_fresh pool) ∧ PoolCountInv (pool_fresh pool) := by
  obtain ⟨h1, h2, h3⟩ := hok
  unfold prts_pool_create at hc
  simp only at hc
  split at hc
  · cases hc
  rename_i c1
  split at hc
  · cases hc
  split at hc
  · cases hc
  simp only [Prod.mk.injEq, Option.some.injEq, true_and] at hc
  have hbs : 0 < config.block_size := by
    simp only [Bool.or_eq_true, Bool.not_eq_true', decide_eq_true_eq, not_or] at c1
    omega
  have hsa : size_add config.block_size HEADER_SIZE = config.block_size + HEADER_SIZE := by
    unfold size_add
    apply Nat.mod_eq_of_lt
    omega
  have hal := align_size_ge (config.block_size + HEADER_SIZE) h1
  rw [← hsa] at hal
  set s := align_size (size_add config.block_size HEADER_SIZE) with hsdef
  set n := (if config.initial_blocks > 0 then config.initial_blocks else 64) with hndef
  have hs : 0 < s := by simp only [HEADER_SIZE] at hsa hal; omega
  have hstride : pool_stride pool = s := by rw [← hc]; rfl
  have hmem : pool.memory = malloc_memory := by rw [← hc]
  have hinit : pool.initial_blocks = n := by rw [← hc]
  have hblocks : (pool_fresh pool).blocks = slab_blocks malloc_memory s n := by
    show slab_blocks pool.memory (pool_stride pool) pool.initial_blocks = _
    rw [hstride, hmem, hinit]
  refine ⟨⟨?_, ?_, ?_, (slab_blocks malloc_memory s n).reverse, [], ?_, rfl, ?_, ?_, ?_, ?_⟩, ?_⟩
  · show 0 < pool_stride pool
    rw [hstride]; exact hs
  · intro b hb
    rw [hblocks, mem_slab_blocks] at hb
    obtain ⟨i, hi, rfl⟩ := hb
    show 0 < _ ∧ _ + pool_stride pool ≤ SIZE_MOD
    rw [hstride]
    have : (i + 1) * s ≤ n * s := Nat.mul_le_mul_right s hi
    rw [Nat.succ_mul] at this
    have h4 : s * n = n * s := Nat.mul_comm _ _
    omega
  · intro b hb
    rw [hblocks]
    show b ∈ slab_blocks malloc_memory s n
    have : (pool_fresh pool).pool = pool := rfl
    rw [this, hstride, hmem, hinit] at hb
    exact hb
  · have := chain_build s hs n malloc_memory 0 heap [] h2 rfl (by simp)
    rw [← hc]
    simpa using this
  · simpa using slab_blocks_nodup malloc_memory s n hs
  · intro x hx
    rw [hblocks]
    simpa using hx
  · rw [← hc]; rfl
  · rw [← hc]
    simp [slab_blocks, pool_fresh]
  · rw [← hc]
    exact ⟨rfl, rfl, rfl⟩

theorem pool_valid_append (ops : List PoolOp) (op : PoolOp) : ∀ (t : PoolTrace),
    pool_valid t (ops ++ [op]) → pool_valid t ops ∧ pool_valid (pool_run t ops) [op] := by
  induction ops with
  | nil => intro t h; exact ⟨trivial, h⟩
  | cons o rest ih =>
    intro t h
    obtain ⟨h1, h2⟩ := h
    obtain ⟨h3, h4⟩ := ih (pool_step t o) h2
    exact ⟨⟨h1, h3⟩, h4⟩

/-- C2: in every pool state reached from `prts_pool_create` by valid calls, and assuming the
system allocator succeeds (hands out a fresh non-null block), `prts_pool_alloc` returns `NULL`
exactly when the free list is empty, `max_blocks > 0` and `total_blocks >= max_blocks`; a failed
alloc leaves the whole pool unchanged; and with an empty free list and `max_blocks == 0` or
`total_blocks < max_blocks` it succeeds and grows `total_blocks` by one. -/
theorem pool_alloc_nil_iff (config : prts_pool_config_t) (pool_out calloc_pool : Bool)
    (malloc_memory : Nat) (heap : Nat → Nat) (pool : prts_memory_pool) (ops : List PoolOp)
    (malloc_block : Nat)
    (hc : prts_pool_create (some config) pool_out calloc_pool malloc_memory heap
      = (PRTS_OK, some pool))
    (hok : pool_create_ok config malloc_memory)
    (hv : pool_valid (pool_fresh pool) (ops ++ [PoolOp.alloc malloc_block]))
    (hm : malloc_block ≠ 0) :
    ((prts_pool_alloc (pool_run (pool_fresh pool) ops).pool malloc_block).1 = 0 ↔
      (pool_run (pool_fresh pool) ops).pool.free_list = 0 ∧
      (pool_run (pool_fresh pool) ops).pool.max_blocks > 0 ∧
      (pool_run (pool_fresh pool) ops).pool.total_blocks ≥
        (pool_run (pool_fresh pool) ops).pool.max_blocks) ∧
    ((prts_pool_alloc (pool_run (pool_fresh pool) ops).pool malloc_block).1 = 0 →
      (prts_pool_alloc (pool_run (pool_fresh pool) ops).pool malloc_block).2 =
        (pool_run (pool_fresh pool) ops).pool) ∧
    ((pool_run (pool_fresh pool) ops).pool.free_list = 0 ∧
      ((pool_run (pool_fresh pool) ops).pool.max_blocks = 0 ∨
        (pool_run (pool_fresh pool) ops).pool.total_blocks <
          (pool_run (pool_fresh pool) ops).pool.max_blocks) →
      (prts_pool_alloc (pool_run (pool_fresh pool) ops).pool malloc_block).1 ≠ 0 ∧
      (prts_pool_alloc (pool_run (pool_fresh pool) ops).pool malloc_block).2.total_blocks =
        (pool_run (pool_fresh pool) ops).pool.total_blocks + 1) := by
  obtain ⟨hv1, hv2⟩ := pool_valid_append ops _ _ hv
  obtain ⟨hinv0, _⟩ := pool_create_inv config pool_out calloc_pool malloc_memory heap pool hc hok
  have hinv := pool_run_inv ops _ hv1 hinv0
  generalize pool_run (pool_fresh pool) ops = t at hinv hv2 ⊢
  obtain ⟨hs, hb, _, fl, ob, hchain, _, hnd, hsub, _, htot⟩ := hinv
  refine ⟨?_, ?_, ?_⟩
  · simp only [prts_pool_alloc, pool_take_block]
    split_ifs <;> simp_all [HEADER_SIZE]
  · simp only [prts_pool_alloc, pool_take_block]
    split_ifs <;> simp_all [HEADER_SIZE]
  · rintro ⟨hfl, hmax⟩
    have hcond : ¬(t.pool.max_blocks > 0 ∧ t.pool.total_blocks ≥ t.pool.max_blocks) := by omega
    rw [hfl] at hchain
    have hnil := chain_nil_of_zero _ _ hchain
    subst hnil
    obtain ⟨hm0, hmb, hmd⟩ := hv2.1 hm
    have hmnot : malloc_block ∉ t.blocks := by
      intro hmem
      have := hmd malloc_block hmem
      change 0 < pool_stride t.pool at hs
      change malloc_block + pool_stride t.pool ≤ malloc_block ∨
        malloc_block + pool_stride t.pool ≤ malloc_block at this
      omega
    have hnd2 : (malloc_block :: ob).Nodup :=
      List.nodup_cons.mpr ⟨fun h => hmnot (hsub _ (by simpa using h)), by simpa using hnd⟩
    have hlen2 := nodup_length_lt _ SIZE_MOD (by decide) hnd2 (by
      intro b hbm
      rcases List.mem_cons.mp hbm with h | h
      · rw [h]
        change 0 < pool_stride t.pool at hs
        change malloc_block + pool_stride t.pool ≤ SIZE_MOD at hmb
        omega
      · have := hb b (hsub b (by simpa using h))
        omega)
    simp only [List.length_cons] at hlen2
    simp only [prts_pool_alloc, pool_take_block, hfl, hcond, hm, if_true, if_false]
    refine ⟨by simp [HEADER_SIZE], ?_⟩
    show size_add t.pool.total_blocks 1 = t.pool.total_blocks + 1
    rw [htot]
    simp only [size_add, List.length_nil, Nat.zero_add]
    exact Nat.mod_eq_of_lt hlen2

theorem pool_scenario_create :
    prts_pool_create (some pool_cfg) true true 4096 (fun _ => 0) = (PRTS_OK, some pool_created) := by
  rfl

theorem pool_scenario_ok : pool_create_ok pool_cfg 4096 := by
  refine ⟨by decide, by decide, by decide⟩

theorem pool_scenario_valid : pool_valid (pool_fresh pool_created) pool_scenario := by
  simp only [pool_scenario, pool_four_allocs, List.cons_append, List.nil_append, pool_valid,
    fresh_region]
  decide

/-- The pool-overflow scenario for C2 (`block_size = 64`, `initial_blocks = 4`, `max_blocks = 4`):
the first four allocs succeed, the fifth returns `NULL`, and after one free the next alloc
succeeds. -/
theorem pool_alloc_nil_iff_witness :
    pool_valid (pool_fresh pool_created) (pool_four_allocs ++ [PoolOp.alloc 9000]) ∧
    (pool_run (pool_fresh pool_created) pool_scenario).returned
      = [4320, 4248, 4176, 4104, 0, 4104] ∧
    ((prts_pool_alloc (pool_run (pool_fresh pool_created) pool_four_allocs).pool 9000).1 = 0 ↔
      (pool_run (pool_fresh pool_created) pool_four_allocs).pool.free_list = 0 ∧
      (pool_run (pool_fresh pool_created) pool_four_allocs).pool.max_blocks > 0 ∧
      (pool_run (pool_fresh pool_created) pool_four_allocs).pool.total_blocks ≥
        (pool_run (pool_fresh pool_created) pool_four_allocs).pool.max_blocks) :=
  have hv : pool_valid (pool_fresh pool_created) (pool_four_allocs ++ [PoolOp.alloc 9000]) := by
    simp only [pool_four_allocs, List.cons_append, List.nil_append, pool_valid, fresh_region]
    decide
  ⟨hv, by decide,
    (pool_alloc_nil_iff pool_cfg true true 4096 (fun _ => 0) pool_created pool_four_allocs 9000
      pool_scenario_create pool_scenario_ok hv (by decide)).1⟩

/-- C3: for every sequence of `prts_pool_alloc` and `prts_pool_free` calls on a created pool, each
free returning a currently outstanding block and without reset, the `used_blocks` reported by
`prts_pool_stats` equals the number of successful allocs minus the number of frees, which is
also `alloc_count - free_count` as the statistics report them. -/
theorem pool_used_blocks_eq (config : prts_pool_config_t) (pool_out calloc_pool : Bool)
    (malloc_memory : Nat) (heap : Nat → Nat) (pool : prts_memory_pool) (ops : List PoolOp)
    (hc : prts_pool_create (some config) pool_out calloc_pool malloc_memory heap
      = (PRTS_OK, some pool))
    (hok : pool_create_ok config malloc_memory)
    (hv : pool_valid (pool_fresh pool) ops)
    (hnr : PoolOp.reset ∉ ops) :
    ∃ s, prts_pool_stats (pool_run (pool_fresh pool) ops).pool true = (PRTS_OK, some s) ∧
      (pool_run (pool_fresh pool) ops).frees ≤ (pool_run (pool_fresh pool) ops).allocs ∧
      s.used_blocks =
        (pool_run (pool_fresh pool) ops).allocs - (pool_run (pool_fresh pool) ops).frees ∧
      s.used_blocks = size_sub s.alloc_count s.free_count := by
  obtain ⟨hinv0, hcnt0⟩ :=
    pool_create_inv config pool_out calloc_pool malloc_memory heap pool hc hok
  have hinv := pool_run_inv ops _ hv hinv0
  have hcnt := pool_run_count ops _ hv hinv0 hcnt0 hnr
  generalize pool_run (pool_fresh pool) ops = t at hinv hcnt ⊢
  obtain ⟨hs, hb, _, fl, ob, _, hout, hnd, hsub, hused, _⟩ := hinv
  obtain ⟨ha, hf, hcount⟩ := hcnt
  have hlen := pool_inv_length_lt _ _ _ hs hb hnd hsub
  simp only [List.length_append] at hlen
  have hol : t.outstanding.length = ob.length := by rw [hout, List.length_map]
  refine ⟨_, rfl, by omega, ?_, ?_⟩
  · show t.pool.used_blocks = _
    omega
  · show t.pool.used_blocks = size_sub t.pool.alloc_count t.pool.free_count
    rw [ha, hf, hused]
    simp only [size_sub, SIZE_MOD] at hlen ⊢
    omega

/-- The pool-overflow scenario for C3: five successful allocs and one free leave four blocks
in use. -/
theorem pool_used_blocks_eq_witness :
    pool_valid (pool_fresh pool_created) pool_scenario ∧ PoolOp.reset ∉ pool_scenario ∧
    (pool_run (pool_fresh pool_created) pool_scenario).allocs = 5 ∧
    (pool_run (pool_fresh pool_created) pool_scenario).frees = 1 ∧
    ∃ s, prts_pool_stats (pool_run (pool_fresh pool_created) pool_scenario).pool true
        = (PRTS_OK, some s) ∧
      (pool_run (pool_fresh pool_created) pool_scenario).frees ≤
        (pool_run (pool_fresh pool_created) pool_scenario).allocs ∧
      s.used_blocks = (pool_run (pool_fresh pool_created) pool_scenario).allocs -
        (pool_run (pool_fresh pool_created) pool_scenario).frees ∧
      s.used_blocks = size_sub s.alloc_count s.free_count :=
  have hnr : PoolOp.reset ∉ pool_scenario := by decide
  ⟨pool_scenario_valid, hnr, by decide, by decide,
    pool_used_blocks_eq pool_cfg true true 4096 (fun _ => 0) pool_created pool_scenario
      pool_scenario_create pool_scenario_ok pool_scenario_valid hnr⟩

/-! ## Metrics collector -/

theorem c_str_append_nuls (s r : List Char) (hs : NUL ∉ s) (hr : ∀ x ∈ r, x = NUL) :
    c_str (s ++ r) = s := by
  induction s with
  | nil =>
    cases r with
    | nil => rfl
    | cons x r =>
      have : x = NUL := hr x (List.mem_cons_self _ _)
      subst this
      simp [c_str, List.takeWhile]
  | cons a s ih =>
    have ha : a ≠ NUL := fun h => hs (by rw [h]; exact List.mem_cons_self _ _)
    have hs2 : NUL ∉ s := fun h => hs (List.mem_cons_of_mem _ h)
    have := ih hs2
    have hb : (a != NUL) = true := by simpa using ha
    simp only [c_str] at this ⊢
    simp only [List.cons_append, List.takeWhile_cons, hb, if_true, this]

theorem c_str_of_no_nul (s : List Char) (hs : NUL ∉ s) : c_str s = s := by
  have := c_str_append_nuls s [] hs (by simp)
  simpa using this

theorem strncpy_zero (s : List Char) (n L : Nat) (hs : NUL ∉ s) (hl : s.length ≤ n) :
    c_str (strncpy (List.replicate L NUL) s n) = s := by
  unfold strncpy
  rw [c_str_of_no_nul s hs, List.take_of_length_le hl, List.append_assoc]
  apply c_str_append_nuls s _ hs
  intro x hx
  rw [List.mem_append] at hx
  rcases hx with h | h
  · exact List.eq_of_mem_replicate h
  · exact List.eq_of_mem_replicate (List.mem_of_mem_drop h)

theorem register_single (cfg : prts_metric_config_t) (N D : List Char) (c0 : prts_metrics_collector)
    (hc0 : prts_metrics_create true true = (PRTS_OK, some c0))
    (hname : cfg.name = some N) (hdesc : cfg.description = some D)
    (htype : cfg.type = PRTS_METRIC_COUNTER)
    (hN : NUL ∉ N) (hNl : N.length < MAX_NAME_LEN) (hD : NUL ∉ D) (hDl : D.length < 256) :
    (prts_metrics_register c0 (some cfg)).1 = PRTS_OK ∧
    SingleCounter N D 0 (prts_metrics_register c0 (some cfg)).2 ∧
    ((prts_metrics_register c0 (some cfg)).2.metrics.getD 0 metric_entry_zero).num_entries = 0 := by
  simp only [prts_metrics_create, Bool.not_true, Bool.false_eq_true, if_false, Prod.mk.injEq,
    Option.some.injEq, true_and] at hc0
  subst hc0
  have hrep : List.replicate MAX_METRICS metric_entry_zero
      = metric_entry_zero :: List.replicate 255 metric_entry_zero := rfl
  have h1 : c_str (strncpy metric_entry_zero.name N (MAX_NAME_LEN - 1)) = N :=
    strncpy_zero N _ _ hN (by simp only [MAX_NAME_LEN] at hNl ⊢; omega)
  have h2 : c_str (strncpy metric_entry_zero.description D (256 - 1)) = D :=
    strncpy_zero D _ _ hD (by omega)
  have h3 : 0 < metric_entry_zero.entries.length := by decide
  have h4 : (metric_entry_zero.entries.getD 0 metric_slot_zero).counter = 0 := by decide
  have h5 : ¬ (MAX_METRICS ≤ 0) := by decide
  have h6 : size_add 0 1 = 1 := by decide
  rcases hl : cfg.labels with _ | labels
  · simp only [prts_metrics_register, hname, hdesc, htype, hl, find_metric, find_metric_loop,
      SingleCounter, hrep, ge_iff_le, h5, h6, if_false, Option.isSome_none, Bool.false_eq_true,
      List.getD_cons_zero, List.set_cons_zero, List.length_cons, h1, h2, h3, h4]
    exact ⟨trivial, ⟨trivial, by omega, trivial, trivial, trivial, trivial, trivial,
      Nat.zero_le _⟩, trivial⟩
  · by_cases hnl : cfg.num_labels > 0
    · simp only [prts_metrics_register, hname, hdesc, htype, hl, hnl, find_metric,
        find_metric_loop, SingleCounter, hrep, ge_iff_le, h5, h6, if_false, if_true,
        Option.isSome_none, Bool.false_eq_true,
        List.getD_cons_zero, List.set_cons_zero, List.length_cons, h1, h2, h3, h4]
      exact ⟨trivial, ⟨trivial, by omega, trivial, trivial, trivial, trivial, trivial,
        Nat.zero_le _⟩, trivial⟩
    · simp only [prts_metrics_register, hname, hdesc, htype, hl, hnl, find_metric,
        find_metric_loop, SingleCounter, hrep, ge_iff_le, h5, h6, if_false,
        Option.isSome_none, Bool.false_eq_true,
        List.getD_cons_zero, List.set_cons_zero, List.length_cons, h1, h2, h3, h4]
      exact ⟨trivial, ⟨trivial, by omega, trivial, trivial, trivial, trivial, trivial,
        Nat.zero_le _⟩, trivial⟩

theorem inc_single (N D : List Char) (v : Nat) (c : prts_metrics_collector)
    (lv : Option (List (List Char))) (delta : Nat) (hN : NUL ∉ N)
    (h : SingleCounter N D v c) :
    (prts_metrics_counter_inc c (some N) lv delta).1 = PRTS_OK ∧
    SingleCounter N D (size_add v delta) (prts_metrics_counter_inc c (some N) lv delta).2 ∧
    ((prts_metrics_counter_inc c (some N) lv delta).2.metrics.getD 0 metric_entry_zero).num_entries
      = 1 := by
  obtain ⟨hnm, hlen, hname, hdesc, htype, helen, hval, hne⟩ := h
  obtain ⟨ms, nm⟩ := c
  simp only at hnm hlen hname hdesc htype helen hval hne
  subst hnm
  cases ms with
  | nil => simp at hlen
  | cons m rest =>
    simp only [List.getD_cons_zero] at hname hdesc htype helen hval hne
    have hfind : find_metric { metrics := m :: rest, num_metrics := 1 } N = some 0 := by
      simp [find_metric, find_metric_loop, strcmp_eq, hname, c_str_of_no_nul N hN]
    simp only [prts_metrics_counter_inc, hfind, List.getD_cons_zero, htype, ne_eq,
      not_true_eq_false, if_false, SingleCounter, List.set_cons_zero, metric_update_slot0,
      List.length_cons, List.length_set]
    cases he : m.entries with
    | nil => rw [he] at helen; simp at helen
    | cons e erest =>
      rw [he] at hval
      simp only [List.getD_cons_zero] at hval
      simp only [List.set_cons_zero, List.getD_cons_zero, List.length_cons]
      refine ⟨trivial, ⟨trivial, by omega, hname, hdesc, trivial, by omega, ?_, ?_⟩, ?_⟩
      · simp only [hval]
      · split_ifs <;> omega
      · split_ifs <;> omega

theorem inc_all_single (N D : List Char) (hN : NUL ∉ N) :
    ∀ (incs : List (Option (List (List Char)) × Nat)) (v : Nat) (c : prts_metrics_collector),
    v < SIZE_MOD → SingleCounter N D v c →
    (∀ r ∈ (counter_inc_all N c incs).1, r = PRTS_OK) ∧
    SingleCounter N D ((v + (incs.map Prod.snd).sum) % SIZE_MOD) (counter_inc_all N c incs).2 ∧
    (incs ≠ [] →
      ((counter_inc_all N c incs).2.metrics.getD 0 metric_entry_zero).num_entries = 1) := by
  intro incs
  induction incs with
  | nil =>
    intro v c hv h
    refine ⟨by simp [counter_inc_all], ?_, by simp⟩
    simp only [counter_inc_all, List.map_nil, List.sum_nil, Nat.add_zero, Nat.mod_eq_of_lt hv]
    exact h
  | cons p rest ih =>
    intro v c _ h
    obtain ⟨lv, delta⟩ := p
    obtain ⟨h1, h2, h3⟩ := inc_single N D v c lv delta hN h
    obtain ⟨i1, i2, i3⟩ := ih _ _ (Nat.mod_lt _ (by decide)) h2
    refine ⟨?_, ?_, ?_⟩
    · intro r hr
      simp only [counter_inc_all, List.mem_cons] at hr
      rcases hr with hr | hr
      · rw [hr]; exact h1
      · exact i1 r hr
    · simp only [counter_inc_all, List.map_cons, List.sum_cons]
      have e : (size_add v delta + (rest.map Prod.snd).sum) % SIZE_MOD
          = (v + (delta + (rest.map Prod.snd).sum)) % SIZE_MOD := by
        simp only [size_add, SIZE_MOD]
        omega
      rw [← e]
      exact i2
    · intro _
      simp only [counter_inc_all]
      by_cases hr : rest = []
      · subst hr
        simpa [counter_inc_all] using h3
      · exact i3 hr

theorem mem_read_add (mem : Nat → Char) (off a b : Nat) :
    mem_read mem off (a + b) = mem_read mem off a ++ mem_read mem (off + a) b := by
  simp only [mem_read, List.range_add, List.map_append, List.map_map]
  congr 1
  apply List.map_congr_left
  intro i _
  simp only [Function.comp, Nat.add_assoc]

theorem mem_read_write_prefix (mem : Nat → Char) (off : Nat) (s t : List Char) :
    mem_read (mem_write mem off (s ++ t)) off s.length = s := by
  apply List.ext_getElem
  · simp [mem_read]
  · intro i h1 h2
    simp only [mem_read, List.length_map, List.length_range] at h1
    simp only [mem_read, List.getElem_map, List.getElem_range, mem_write, List.length_append]
    have hc : off ≤ off + i ∧ off + i < off + (s.length + t.length) := by omega
    rw [if_pos hc, Nat.add_sub_cancel_left, List.getD_eq_getElem?_getD,
      List.getElem?_append_left h1, List.getElem?_eq_getElem h1]
    rfl

theorem mem_read_write_before (mem : Nat → Char) (off off2 n : Nat) (s : List Char)
    (h : off2 + n ≤ off) : mem_read (mem_write mem off s) off2 n = mem_read mem off2 n := by
  simp only [mem_read]
  apply List.map_congr_left
  intro i hi
  rw [List.mem_range] at hi
  simp only [mem_write]
  rw [if_neg (by omega)]

theorem mem_write_at_end (mem : Nat → Char) (off : Nat) (s : List Char) :
    mem_write mem off (s ++ [NUL]) (off + s.length) = NUL := by
  simp only [mem_write, List.length_append, List.length_singleton]
  rw [if_pos (by omega), Nat.add_sub_cancel_left, List.getD_eq_getElem?_getD,
    List.getElem?_append_right (Nat.le_refl _)]
  simp

theorem snprintf_fit (mem : Nat → Char) (off size : Nat) (s : List Char) (h : s.length < size) :
    snprintf mem off size s = (mem_write mem off (s ++ [NUL]), s.length) := by
  unfold snprintf
  rw [if_neg (by omega), List.take_of_length_le (by omega)]

theorem export_single (fmt_g : Float → List Char) (N D : List Char) (S : Nat)
    (c : prts_metrics_collector) (mem : Nat → Char) (buffer_size : Nat)
    (h : SingleCounter N D S c)
    (hne : (c.metrics.getD 0 metric_entry_zero).num_entries = 1)
    (hbs : buffer_size < SIZE_MOD) (hfit : (counter_exposition N D S).length < buffer_size) :
    ∃ mem2, prts_metrics_export_prometheus fmt_g c (some mem) buffer_size true
        = (PRTS_OK, some (mem2, (counter_exposition N D S).length)) ∧
      mem_read mem2 0 (counter_exposition N D S).length = counter_exposition N D S ∧
      mem2 (counter_exposition N D S).length = NUL := by
  obtain ⟨hnm, _, hname, hdesc, htype, _, hval, _⟩ := h
  set m := c.metrics.getD 0 metric_entry_zero with hm
  set s1 := "# HELP ".toList ++ N ++ " ".toList ++ D ++ "\n".toList with hs1
  set s2 := "# TYPE ".toList ++ N ++ " ".toList ++ "counter".toList ++ "\n".toList with hs2
  set s3 := N ++ " ".toList ++ Nat.toDigits 10 S ++ "\n".toList with hs3
  have hexp : counter_exposition N D S = s1 ++ (s2 ++ s3) := by
    simp [counter_exposition, hs1, hs2, hs3]
  have hlen : (counter_exposition N D S).length = s1.length + s2.length + s3.length := by
    rw [hexp]; simp only [List.length_append]; omega
  rw [hlen] at hfit
  have hsub : ∀ o, o < buffer_size → size_sub buffer_size o = buffer_size - o := by
    intro o ho
    simp only [size_sub, SIZE_MOD] at hbs ⊢
    omega
  have hadd : ∀ a b, a + b < buffer_size → size_add a b = a + b := by
    intro a b hab
    simp only [size_add, SIZE_MOD] at hbs ⊢
    omega
  have ho1 : size_add 0 s1.length = s1.length := by rw [hadd _ _ (by omega)]; omega
  have ho2 : size_add s1.length s2.length = s1.length + s2.length := hadd _ _ (by omega)
  have ho3 : size_add (s1.length + s2.length) s3.length = s1.length + s2.length + s3.length :=
    hadd _ _ (by omega)
  have hrun : export_metrics fmt_g buffer_size c.metrics c.num_metrics 0 mem 0 =
      (mem_write (mem_write (mem_write mem 0 (s1 ++ [NUL])) s1.length (s2 ++ [NUL]))
        (s1.length + s2.length) (s3 ++ [NUL]), s1.length + s2.length + s3.length) := by
    rw [hnm]
    simp only [export_metrics, ← hm, hname, hdesc, htype, hne, type_str, export_entries,
      sample_text, hval, ← hs1, ← hs2, ← hs3]
    rw [if_pos (by omega), snprintf_fit _ _ _ _ (by rw [hsub 0 (by omega)]; omega)]
    simp only [ho1]
    rw [snprintf_fit _ _ _ _ (by rw [hsub _ (by omega)]; omega)]
    simp only [ho2]
    rw [if_pos (by omega), snprintf_fit _ _ _ _ (by rw [hsub _ (by omega)]; omega)]
    simp only [ho3]
  refine ⟨mem_write (mem_write (mem_write mem 0 (s1 ++ [NUL])) s1.length (s2 ++ [NUL]))
    (s1.length + s2.length) (s3 ++ [NUL]), ?_, ?_, ?_⟩
  · simp only [prts_metrics_export_prometheus, Bool.not_true, Bool.false_eq_true, if_false, hrun,
      hlen]
  · rw [hlen, hexp, Nat.add_assoc, mem_read_add, mem_read_add, Nat.zero_add]
    congr 1
    · rw [mem_read_write_before _ _ _ _ _ (by omega), mem_read_write_before _ _ _ _ _ (by omega)]
      exact mem_read_write_prefix _ _ _ _
    · congr 1
      · rw [mem_read_write_before _ _ _ _ _ (by omega)]
        exact mem_read_write_prefix _ _ _ _
      · exact mem_read_write_prefix _ _ _ _
  · rw [hlen]
    exact mem_write_at_end _ _ _

/-- C4: in a fresh collector, register a single counter with name `N` (shorter than 128 bytes) and
description `D` (shorter than 256 bytes), then increment it by deltas `d1..dk` (`k >= 1`, sum
`S < 2^64`, any label values).  Every call returns ok, and `prts_metrics_export_prometheus` into
a buffer with room for the text and its terminator writes exactly
`# HELP N D\n# TYPE N counter\nN S\n` (`S` in decimal) and stores that text's length in
`written_out`. -/
theorem metrics_export_single_counter (fmt_g : Float → List Char) (cfg : prts_metric_config_t)
    (N D : List Char) (incs : List (Option (List (List Char)) × Nat)) (mem : Nat → Char)
    (buffer_size : Nat)
    (hname : cfg.name = some N) (hdesc : cfg.description = some D)
    (htype : cfg.type = PRTS_METRIC_COUNTER)
    (hN : NUL ∉ N) (hNl : N.length < MAX_NAME_LEN) (hD : NUL ∉ D) (hDl : D.length < 256)
    (hk : incs ≠ []) (hS : (incs.map Prod.snd).sum < SIZE_MOD)
    (hbs : buffer_size < SIZE_MOD)
    (hfit : (counter_exposition N D (incs.map Prod.snd).sum).length < buffer_size) :
    ∃ c0 mem2, prts_metrics_create true true = (PRTS_OK, some c0) ∧
      (prts_metrics_register c0 (some cfg)).1 = PRTS_OK ∧
      (∀ r ∈ (counter_inc_all N (prts_metrics_register c0 (some cfg)).2 incs).1, r = PRTS_OK) ∧
      prts_metrics_export_prometheus fmt_g
          (counter_inc_all N (prts_metrics_register c0 (some cfg)).2 incs).2 (some mem)
          buffer_size true
        = (PRTS_OK, some (mem2, (counter_exposition N D (incs.map Prod.snd).sum).length)) ∧
      mem_read mem2 0 (counter_exposition N D (incs.map Prod.snd).sum).length
        = counter_exposition N D (incs.map Prod.snd).sum ∧
      mem2 (counter_exposition N D (incs.map Prod.snd).sum).length = NUL := by
  obtain ⟨r1, r2, _⟩ := register_single cfg N D _ rfl hname hdesc htype hN hNl hD hDl
  obtain ⟨i1, i2, i3⟩ := inc_all_single N D hN incs 0 _ (by decide) r2
  rw [Nat.zero_add, Nat.mod_eq_of_lt hS] at i2
  obtain ⟨mem2, e1, e2, e3⟩ := export_single fmt_g N D _ _ mem buffer_size i2 (i3 hk) hbs hfit
  exact ⟨_, mem2, rfl, r1, i1, e1, e2, e3⟩

/-- The metrics-export scenario for C4: counter `http_requests` with description `n`, incremented
by 3 and by 2, is exported as the three lines ending in `http_requests 5`. -/
theorem metrics_export_single_counter_witness :
    counter_exposition "http_requests".toList "n".toList 5 =
      "# HELP http_requests n\n# TYPE http_requests counter\nhttp_requests 5\n".toList ∧
    ∃ c0 mem2, prts_metrics_create true true = (PRTS_OK, some c0) ∧
      (prts_metrics_register c0 (some http_requests_cfg)).1 = PRTS_OK ∧
      (∀ r ∈ (counter_inc_all "http_requests".toList
          (prts_metrics_register c0 (some http_requests_cfg)).2 [(none, 3), (none, 2)]).1,
        r = PRTS_OK) ∧
      prts_metrics_export_prometheus (fun _ => [])
          (counter_inc_all "http_requests".toList
            (prts_metrics_register c0 (some http_requests_cfg)).2 [(none, 3), (none, 2)]).2
          (some (fun _ => NUL)) 128 true
        = (PRTS_OK, some (mem2,
            (counter_exposition "http_requests".toList "n".toList 5).length)) ∧
      mem_read mem2 0 (counter_exposition "http_requests".toList "n".toList 5).length
        = counter_exposition "http_requests".toList "n".toList 5 ∧
      mem2 (counter_exposition "http_requests".toList "n".toList 5).length = NUL :=
  ⟨by decide,
    metrics_export_single_counter (fun _ => []) http_requests_cfg "http_requests".toList
      "n".toList [(none, 3), (none, 2)] (fun _ => NUL) 128 rfl rfl rfl (by decide) (by decide)
      (by decide) (by decide) (by decide) (by decide) (by decide) (by decide)⟩

/-! ## Log parser -/

theorem tolower_alpha (c x : Char) (h : c_tolower c = x) (hx : is_letter x = true) :
    is_letter c = true := by
  unfold c_tolower at h
  by_cases hu : 65 ≤ c.toNat ∧ c.toNat ≤ 90
  · simp [is_letter, hu.1, hu.2]
  · rw [if_neg hu] at h
    subst h
    exact hx

theorem level_name_cases (L : List Char) (lvl : prts_log_level_t) (h : is_level_name L lvl) :
    (∀ c ∈ L, is_letter c = true) ∧ 4 ≤ L.length ∧ L.length ≤ 5 := by
  obtain ⟨name, hmem, hmap⟩ := h
  have hlen : L.length = name.length := by
    have := congrArg List.length hmap
    simpa using this
  have hall : ∀ x ∈ name.map c_tolower, is_letter x = true := by
    simp only [level_table, List.mem_cons, Prod.mk.injEq, List.mem_singleton,
      List.not_mem_nil, or_false] at hmem
    rcases hmem with h | h | h | h | h | h <;> (rw [h.1]; decide)
  refine ⟨?_, ?_, ?_⟩
  · intro c hc
    apply tolower_alpha c (c_tolower c) rfl
    apply hall
    rw [← hmap]
    exact List.mem_map_of_mem _ hc
  · simp only [level_table, List.mem_cons, Prod.mk.injEq, List.mem_singleton,
      List.not_mem_nil, or_false] at hmem
    rcases hmem with h | h | h | h | h | h <;> (rw [hlen, h.1]; decide)
  · simp only [level_table, List.mem_cons, Prod.mk.injEq, List.mem_singleton,
      List.not_mem_nil, or_false] at hmem
    rcases hmem with h | h | h | h | h | h <;> (rw [hlen, h.1]; decide)

theorem alpha_ne (c x : Char) (h : is_letter c = true) (hx : is_letter x = false) : c ≠ x := by
  intro e
  rw [e, hx] at h
  cases h

theorem strstr_skip (pre rest w : List Char) (hq : QUOTE ∉ pre) (hn : NUL ∉ pre) :
    strstr (pre ++ rest) (QUOTE :: w) = (strstr rest (QUOTE :: w)).map (fun k => k + pre.length) := by
  induction pre with
  | nil => simp
  | cons a pre ih =>
    have ha : a ≠ QUOTE := fun e => hq (by rw [e]; exact List.mem_cons_self _ _)
    have ha0 : a ≠ NUL := fun e => hn (by rw [e]; exact List.mem_cons_self _ _)
    have hq2 : QUOTE ∉ pre := fun e => hq (List.mem_cons_of_mem _ e)
    have hn2 : NUL ∉ pre := fun e => hn (List.mem_cons_of_mem _ e)
    have hp : (QUOTE :: w).isPrefixOf (a :: (pre ++ rest)) = false := by
      simp [List.isPrefixOf, Ne.symm ha]
    rw [List.cons_append, strstr, hp, ih hq2 hn2]
    simp only [Bool.false_eq_true, if_false, ha0, Option.map_map, List.length_cons]
    congr 1

theorem prefix_quote (w seg r : List Char) (hw : QUOTE ∉ w) (hs : QUOTE ∉ seg) :
    (w ++ [QUOTE]).isPrefixOf (seg ++ QUOTE :: r) = decide (seg = w) := by
  induction w generalizing seg with
  | nil =>
    cases seg with
    | nil => simp [List.isPrefixOf]
    | cons a seg =>
      have ha : a ≠ QUOTE := fun e => hs (by rw [e]; exact List.mem_cons_self _ _)
      simp [List.isPrefixOf, Ne.symm ha]
  | cons b w ih =>
    have hb : b ≠ QUOTE := fun e => hw (by rw [e]; exact List.mem_cons_self _ _)
    cases seg with
    | nil => simp [List.isPrefixOf, hb]
    | cons a seg =>
      have := ih seg (fun e => hw (List.mem_cons_of_mem _ e))
        (fun e => hs (List.mem_cons_of_mem _ e))
      rw [List.cons_append, List.cons_append, List.isPrefixOf, this]
      by_cases hab : b = a
      · subst hab
        simp
      · have hab2 : ¬ a = b := fun e => hab e.symm
        simp [hab, hab2]

theorem strstr_segment (w seg r : List Char) (hw : QUOTE ∉ w) (hs : QUOTE ∉ seg)
    (hn : NUL ∉ seg) :
    strstr (QUOTE :: (seg ++ QUOTE :: r)) (QUOTE :: (w ++ [QUOTE])) =
      if seg = w then some 0
      else (strstr (QUOTE :: r) (QUOTE :: (w ++ [QUOTE]))).map
        (fun k => k + (seg.length + 1)) := by
  have hq0 : QUOTE ≠ NUL := by decide
  rw [strstr, List.isPrefixOf, prefix_quote w seg r hw hs]
  simp only [beq_self_eq_true, Bool.true_and, decide_eq_true_eq, hq0, if_false]
  split_ifs with h
  · rfl
  · rw [strstr_skip seg (QUOTE :: r) (w ++ [QUOTE]) hs hn, Option.map_map]
    congr 1

theorem strstr_last (w seg : List Char) (hs : QUOTE ∉ seg) (hn : NUL ∉ seg) :
    strstr (QUOTE :: seg) (QUOTE :: (w ++ [QUOTE])) = none := by
  have hq0 : QUOTE ≠ NUL := by decide
  have hp : (w ++ [QUOTE]).isPrefixOf seg = false := by
    rw [Bool.eq_false_iff]
    intro h
    rw [List.isPrefixOf_iff_prefix] at h
    obtain ⟨t, ht⟩ := h
    apply hs
    rw [← ht]
    simp
  have h0 := strstr_skip seg [] (w ++ [QUOTE]) hs hn
  simp only [List.append_nil] at h0
  rw [strstr, List.isPrefixOf, hp, h0]
  simp [strstr, hq0]

theorem strchr_skip (pre rest : List Char) (ch : Char) (hc : ch ∉ pre) (hn : NUL ∉ pre) :
    strchr (pre ++ ch :: rest) ch = some pre.length := by
  induction pre with
  | nil => simp [strchr]
  | cons a pre ih =>
    have ha : a ≠ ch := fun e => hc (by rw [e]; exact List.mem_cons_self _ _)
    have ha0 : a ≠ NUL := fun e => hn (by rw [e]; exact List.mem_cons_self _ _)
    simp [strchr, ha, ha0, ih (fun e => hc (List.mem_cons_of_mem _ e))
      (fun e => hn (List.mem_cons_of_mem _ e))]

theorem skip_str_run (pred : Char → Bool) (pre rest : List Char)
    (hp : ∀ c ∈ pre, c ≠ NUL ∧ pred c = true)
    (hr : rest = [] ∨ rest.headD NUL = NUL ∨ pred (rest.headD NUL) = false) :
    skip_str pred (pre ++ rest) = pre.length := by
  induction pre with
  | nil =>
    cases rest with
    | nil => rfl
    | cons a rest =>
      simp only [List.headD_cons, reduceCtorEq, false_or] at hr
      simp only [List.nil_append, skip_str, List.length_nil]
      rw [if_neg]
      rintro ⟨h1, h2⟩
      rcases hr with h | h
      · exact h1 h
      · rw [h] at h2; cases h2
  | cons a pre ih =>
    have := hp a (List.mem_cons_self _ _)
    rw [List.cons_append, skip_str, ih (fun c hc => hp c (List.mem_cons_of_mem _ hc))]
    simp only [this.1, this.2, ne_eq, not_false_eq_true, and_self, if_true, List.length_cons]

theorem skip_n_run (pred : Char → Bool) (pre rest : List Char) (n : Nat)
    (hp : ∀ c ∈ pre, pred c = true) (hn : pre.length ≤ n)
    (hr : n = pre.length ∨ rest = [] ∨ pred (rest.headD NUL) = false) :
    skip_n pred (pre ++ rest) n = pre.length := by
  induction pre generalizing n with
  | nil =>
    cases rest with
    | nil => rfl
    | cons a rest =>
      simp only [List.headD_cons, reduceCtorEq, false_or, List.length_nil] at hr
      simp only [List.nil_append, skip_n, List.length_nil]
      rw [if_neg]
      rintro ⟨h1, h2⟩
      rcases hr with h | h
      · omega
      · rw [h] at h2; cases h2
  | cons a pre ih =>
    have := hp a (List.mem_cons_self _ _)
    simp only [List.length_cons] at hn hr
    have hpos : n > 0 := by omega
    rw [List.cons_append, skip_n, ih (n - 1) (fun c hc => hp c (List.mem_cons_of_mem _ hc))
      (by omega)]
    · simp only [this, hpos, and_self, if_true, List.length_cons]
    · rcases hr with h | h
      · left; omega
      · right; exact h

theorem tolower_ne_nul (y : Char) (hy : y ≠ NUL) : c_tolower y ≠ NUL := by
  unfold c_tolower
  split_ifs with h
  · obtain ⟨h1, h2⟩ := h
    generalize y.toNat = n at h1 h2
    interval_cases n <;> decide
  · exact hy

theorem tolower_nul : c_tolower NUL = NUL := by decide

theorem strncasecmp_eq_spec (b : List Char) (hb : NUL ∉ b) : ∀ a : List Char,
    strncasecmp_eq a b b.length
      = decide ((a.take b.length).map c_tolower = b.map c_tolower) := by
  induction b with
  | nil => intro a; simp [strncasecmp_eq]
  | cons y b ih =>
    intro a
    have hy : y ≠ NUL := fun e => hb (by rw [e]; exact List.mem_cons_self _ _)
    have hb2 : NUL ∉ b := fun e => hb (List.mem_cons_of_mem _ e)
    have hty := tolower_ne_nul y hy
    cases a with
    | nil =>
      simp only [List.length_cons, strncasecmp_eq, List.headD_nil, List.headD_cons, tolower_nul,
        List.take_nil, List.map_nil, List.map_cons]
      rw [if_pos (fun e => hty e.symm)]
      simp
    | cons x a =>
      simp only [List.length_cons, strncasecmp_eq, List.headD_cons, List.tail_cons,
        List.take_succ_cons, List.map_cons, List.cons.injEq]
      by_cases hxy : c_tolower x = c_tolower y
      · have hx : x ≠ NUL := by
          intro e
          rw [e, tolower_nul] at hxy
          exact hty hxy.symm
        simp only [hxy, ne_eq, not_true_eq_false, if_false, hx, true_and, ih hb2 a]
      · simp [hxy]

theorem head_mismatch (c0 x : Char) (t name : List Char) (n : Nat) (hx : c_tolower c0 = x)
    (hname : (name.map c_tolower).headD NUL ≠ x) (hn : 0 < n) :
    decide (((c0 :: t).take n).map c_tolower = name.map c_tolower) = false := by
  apply decide_eq_false
  intro e
  obtain ⟨m, rfl⟩ := Nat.exists_eq_succ_of_ne_zero (Nat.pos_iff_ne_zero.mp hn)
  rw [List.take_succ_cons, List.map_cons] at e
  apply hname
  rw [← e, List.headD_cons, hx]

theorem parse_level_name (L rest : List Char) (lvl : prts_log_level_t)
    (h : is_level_name L lvl) : parse_level (L ++ rest) L.length = lvl := by
  obtain ⟨name, hmem, hmap⟩ := h
  have hlen : L.length = name.length := by
    have := congrArg List.length hmap
    simpa using this
  have htake : (L ++ rest).take L.length = L := by simp
  have hm : decide (((L ++ rest).take name.length).map c_tolower = name.map c_tolower)
      = true := by
    apply decide_eq_true
    rw [← hlen, htake, hmap]
  have e1 := strncasecmp_eq_spec "TRACE".toList (by decide) (L ++ rest)
  have e2 := strncasecmp_eq_spec "DEBUG".toList (by decide) (L ++ rest)
  have e3 := strncasecmp_eq_spec "INFO".toList (by decide) (L ++ rest)
  have e4 := strncasecmp_eq_spec "WARN".toList (by decide) (L ++ rest)
  have e5 := strncasecmp_eq_spec "ERROR".toList (by decide) (L ++ rest)
  have e6 := strncasecmp_eq_spec "FATAL".toList (by decide) (L ++ rest)
  cases L with
  | nil =>
    simp only [level_table, List.mem_cons, Prod.mk.injEq, List.mem_singleton,
      List.not_mem_nil, or_false] at hmem
    rcases hmem with h | h | h | h | h | h <;> (rw [h.1] at hlen; simp at hlen)
  | cons c0 L2 =>
    have hhead : c_tolower c0 = (name.map c_tolower).headD NUL := by
      rw [← hmap]; rfl
    rw [List.cons_append] at e1 e2 e3 e4 e5 e6 hm
    have m1 := fun x hx hne => head_mismatch c0 x (L2 ++ rest) "TRACE".toList
      "TRACE".toList.length hx hne (by decide)
    have m2 := fun x hx hne => head_mismatch c0 x (L2 ++ rest) "DEBUG".toList
      "DEBUG".toList.length hx hne (by decide)
    have m3 := fun x hx hne => head_mismatch c0 x (L2 ++ rest) "INFO".toList
      "INFO".toList.length hx hne (by decide)
    have m4 := fun x hx hne => head_mismatch c0 x (L2 ++ rest) "WARN".toList
      "WARN".toList.length hx hne (by decide)
    have m5 := fun x hx hne => head_mismatch c0 x (L2 ++ rest) "ERROR".toList
      "ERROR".toList.length hx hne (by decide)
    simp only [level_table, List.mem_cons, Prod.mk.injEq, List.mem_singleton,
      List.not_mem_nil, or_false] at hmem
    unfold parse_level
    rw [List.cons_append, hlen]
    have l1 : "TRACE".toList.length = 5 := rfl
    have l2 : "DEBUG".toList.length = 5 := rfl
    have l3 : "INFO".toList.length = 4 := rfl
    have l4 : "WARN".toList.length = 4 := rfl
    have l5 : "ERROR".toList.length = 5 := rfl
    have l6 : "FATAL".toList.length = 5 := rfl
    rw [l1] at e1 m1; rw [l2] at e2 m2; rw [l3] at e3 m3; rw [l4] at e4 m4; rw [l5] at e5 m5
    rw [l6] at e6
    rw [e1, e2, e3, e4, e5, e6]
    rcases hmem with h | h | h | h | h | h <;> obtain ⟨hn, hl⟩ := h <;> subst hn <;> subst hl
    · rw [l1] at hm ⊢
      rw [hm]
      rfl
    · rw [l2] at hm ⊢
      rw [hm, m1 _ hhead (by decide)]
      rfl
    · rw [l3] at hm ⊢
      rw [hm, m1 _ hhead (by decide), m2 _ hhead (by decide)]
      rfl
    · rw [l4] at hm ⊢
      rw [hm, m1 _ hhead (by decide), m2 _ hhead (by decide), m3 _ hhead (by decide)]
      rfl
    · rw [l5] at hm ⊢
      rw [hm, m1 _ hhead (by decide), m2 _ hhead (by decide), m3 _ hhead (by decide),
        m4 _ hhead (by decide)]
      rfl
    · rw [l6] at hm ⊢
      rw [hm, m1 _ hhead (by decide), m2 _ hhead (by decide), m3 _ hhead (by decide),
        m4 _ hhead (by decide), m5 _ hhead (by decide)]
      rfl

theorem json_line_segments (L M : List Char) :
    json_line L M = ['{'] ++ (QUOTE :: ("level".toList ++ QUOTE :: ([':'] ++ QUOTE ::
      (L ++ QUOTE :: ([','] ++ QUOTE :: ("msg".toList ++ QUOTE :: ([':'] ++ QUOTE ::
        (M ++ QUOTE :: ['}'])))))))) := rfl

theorem json_line_length (L M : List Char) :
    (json_line L M).length = 21 + L.length + M.length := by
  simp only [json_line, List.length_append]
  have h1 : "\x7b\"level\":\"".toList.length = 10 := rfl
  have h2 : "\",\"msg\":\"".toList.length = 9 := rfl
  have h3 : "\"\x7d".toList.length = 2 := rfl
  omega

theorem letter_facts (c : Char) (h : is_letter c = true) :
    c ≠ NUL ∧ c ≠ QUOTE ∧ c ≠ ':' ∧ c ≠ ' ' ∧ c ≠ ',' ∧ c ≠ '}' ∧ c ≠ ']' ∧ c ≠ '[' := by
  refine ⟨?_, ?_, ?_, ?_, ?_, ?_, ?_, ?_⟩ <;> exact alpha_ne c _ h (by decide)

theorem json_strstr_level (L M : List Char) :
    strstr (json_line L M) "\"level\"".toList = some 1 := rfl

theorem json_strstr_message (L M : List Char) (lvl : prts_log_level_t)
    (hL : is_level_name L lvl) (hq : QUOTE ∉ M) (hn : NUL ∉ M) (hmsg : M ≠ "message".toList) :
    strstr (json_line L M) "\"message\"".toList = none := by
  obtain ⟨hLl, hL4, hL5⟩ := level_name_cases L lvl hL
  have hLq : QUOTE ∉ L := fun h => (letter_facts _ (hLl _ h)).2.1 rfl
  have hLn : NUL ∉ L := fun h => (letter_facts _ (hLl _ h)).1 rfl
  have hLne : L ≠ "message".toList := by
    intro e
    rw [e] at hL5
    revert hL5
    decide
  have hneedle : "\"message\"".toList = QUOTE :: ("message".toList ++ [QUOTE]) := rfl
  rw [json_line_segments, hneedle, strstr_skip _ _ _ (by decide) (by decide),
    strstr_segment _ _ _ (by decide) (by decide) (by decide), if_neg (by decide),
    strstr_segment _ _ _ (by decide) (by decide) (by decide), if_neg (by decide),
    strstr_segment _ _ _ (by decide) hLq hLn, if_neg hLne,
    strstr_segment _ _ _ (by decide) (by decide) (by decide), if_neg (by decide),
    strstr_segment _ _ _ (by decide) (by decide) (by decide), if_neg (by decide),
    strstr_segment _ _ _ (by decide) (by decide) (by decide), if_neg (by decide),
    strstr_segment _ _ _ (by decide) hq hn, if_neg hmsg,
    strstr_last _ _ (by decide) (by decide)]
  rfl

theorem json_strstr_msg (L M : List Char) (lvl : prts_log_level_t)
    (hL : is_level_name L lvl) :
    strstr (json_line L M) "\"msg\"".toList = some (12 + L.length) := by
  obtain ⟨hLl, hL4, hL5⟩ := level_name_cases L lvl hL
  have hLq : QUOTE ∉ L := fun h => (letter_facts _ (hLl _ h)).2.1 rfl
  have hLn : NUL ∉ L := fun h => (letter_facts _ (hLl _ h)).1 rfl
  have hLne : L ≠ "msg".toList := by
    intro e
    rw [e] at hL4
    revert hL4
    decide
  have hneedle : "\"msg\"".toList = QUOTE :: ("msg".toList ++ [QUOTE]) := rfl
  rw [json_line_segments, hneedle, strstr_skip _ _ _ (by decide) (by decide),
    strstr_segment _ _ _ (by decide) (by decide) (by decide), if_neg (by decide),
    strstr_segment _ _ _ (by decide) (by decide) (by decide), if_neg (by decide),
    strstr_segment _ _ _ (by decide) hLq hLn, if_neg hLne,
    strstr_segment _ _ _ (by decide) (by decide) (by decide), if_neg (by decide),
    strstr_segment _ _ _ (by decide) (by decide) (by decide), if_pos rfl]
  simp only [Option.map_some', List.length_cons, List.length_nil, Option.some.injEq]
  have : "level".toList.length = 5 := rfl
  omega

theorem parse_json_eq (mem : List Char) (line : Nat) (entry : prts_log_entry_t)
    (k c s1 s2 km cm s3 s4 : Nat) (lvl : prts_log_level_t)
    (h1 : strstr (mem.drop line) "\"level\"".toList = some k)
    (h2 : strchr (mem.drop (line + k)) ':' = some c)
    (h3 : skip_str (fun ch => ch = ':' || ch = ' ' || ch = '"') (mem.drop (line + k + c)) = s1)
    (h4 : skip_str (fun ch => ch ≠ '"' && ch ≠ ',' && ch ≠ '}')
      (mem.drop (line + k + c + s1)) = s2)
    (h5 : parse_level (mem.drop (line + k + c + s1)) s2 = lvl)
    (h6 : strstr (mem.drop line) "\"message\"".toList = none)
    (h7 : strstr (mem.drop line) "\"msg\"".toList = some km)
    (h8 : strchr (mem.drop (line + km)) ':' = some cm)
    (h9 : skip_str (fun ch => ch = ':' || ch = ' ') (mem.drop (line + km + cm)) = s3)
    (h10 : mem.getD (line + km + cm + s3) NUL = '"')
    (h11 : skip_str (fun ch => ch ≠ '"') (mem.drop (line + km + cm + s3 + 1)) = s4) :
    parse_json mem line entry =
      { entry with level := lvl, message := some (line + km + cm + s3 + 1), message_len := s4 } := by
  unfold parse_json
  simp only [h1, h2, h3, h4, h6, h7, h8, h9, h10, h11, Option.map_some', if_true,
    Nat.add_sub_cancel_left, h5]

theorem getD_eq_headD_drop (l : List Char) (n : Nat) (d : Char) :
    l.getD n d = (l.drop n).headD d := by
  induction l generalizing n with
  | nil => simp
  | cons a l ih =>
    cases n with
    | zero => simp
    | succ n => simp [ih n]

theorem json_line_drop_mid (L M : List Char) (k : Nat) (hk : k ≤ 9) :
    (json_line L M).drop (10 + L.length + k) =
      "\",\"msg\":\"".toList.drop k ++ (M ++ "\"\x7d".toList) := by
  have h1 : "\x7b\"level\":\"".toList.length = 10 := rfl
  have h2 : "\",\"msg\":\"".toList.length = 9 := rfl
  unfold json_line
  rw [Nat.add_assoc, ← h1, List.drop_append, List.drop_append,
    List.drop_append_of_le_length (by omega)]

/-- C5 (amended): for every level name `L` among the six, in any letter case, and every message
`M` that contains no `"` byte and is not the text `message`, parsing the NUL-terminated line
`{"level":"L","msg":"M"}` with format json or auto returns ok with level `L`, a message view equal
to `M` (`message_len` the length of `M`) and `raw_len` equal to the line length. -/
theorem parse_json_level_msg (parser : prts_log_parser_t) (L M : List Char)
    (lvl : prts_log_level_t)
    (hfmt : parser.format = PRTS_LOG_FORMAT_JSON ∨ parser.format = PRTS_LOG_FORMAT_AUTO)
    (hL : is_level_name L lvl) (hq : QUOTE ∉ M) (hn : NUL ∉ M) (hmsg : M ≠ "message".toList) :
    ∃ e, prts_parser_parse parser (json_line L M) (some 0) (json_line L M).length true
        = (PRTS_OK, some e) ∧
      e.level = lvl ∧ view (json_line L M) e.message e.message_len = M ∧
      e.message_len = M.length ∧ e.raw = some 0 ∧ e.raw_len = (json_line L M).length := by
  obtain ⟨hLl, hL4, hL5⟩ := level_name_cases L lvl hL
  have hlen := json_line_length L M
  have hfmt2 : (if parser.format = PRTS_LOG_FORMAT_AUTO then
      detect_format ((json_line L M).drop 0) (json_line L M).length else parser.format)
      = PRTS_LOG_FORMAT_JSON := by
    rcases hfmt with h | h
    · rw [h]; rfl
    · rw [h, if_pos rfl, hlen, List.drop_zero]
      have : 21 + L.length + M.length > 0 := by omega
      simp only [detect_format, this, decide_True, Bool.true_and]
      rfl
  obtain ⟨c0, L2, rfl⟩ : ∃ c0 L2, L = c0 :: L2 := by
    cases L with
    | nil => simp at hL4
    | cons a l => exact ⟨a, l, rfl⟩
  have hc0 := letter_facts c0 (hLl c0 (List.mem_cons_self _ _))
  have d8 : (json_line (c0 :: L2) M).drop (0 + 1 + 7) = [':', QUOTE] ++
      ((c0 :: L2) ++ ("\",\"msg\":\"".toList ++ (M ++ "\"\x7d".toList))) := rfl
  have d10 : (json_line (c0 :: L2) M).drop (0 + 1 + 7 + 2) =
      (c0 :: L2) ++ ([QUOTE] ++ (",\"msg\":\"".toList ++ (M ++ "\"\x7d".toList))) := rfl
  have d12 : (json_line (c0 :: L2) M).drop (0 + (12 + (c0 :: L2).length)) =
      "\"msg\":\"".toList ++ (M ++ "\"\x7d".toList) := by
    have e : 0 + (12 + (c0 :: L2).length) = 10 + (c0 :: L2).length + 2 := by omega
    rw [e, json_line_drop_mid (c0 :: L2) M 2 (by omega)]
    rfl
  have d17 : (json_line (c0 :: L2) M).drop (0 + (12 + (c0 :: L2).length) + 5) =
      ":\"".toList ++ (M ++ "\"\x7d".toList) := by
    have e : 0 + (12 + (c0 :: L2).length) + 5 = 10 + (c0 :: L2).length + 7 := by omega
    rw [e, json_line_drop_mid (c0 :: L2) M 7 (by omega)]
    rfl
  have d18 : (json_line (c0 :: L2) M).drop (0 + (12 + (c0 :: L2).length) + 5 + 1) =
      [QUOTE] ++ (M ++ "\"\x7d".toList) := by
    have e : 0 + (12 + (c0 :: L2).length) + 5 + 1 = 10 + (c0 :: L2).length + 8 := by omega
    rw [e, json_line_drop_mid (c0 :: L2) M 8 (by omega)]
    rfl
  have d19 : (json_line (c0 :: L2) M).drop (0 + (12 + (c0 :: L2).length) + 5 + 1 + 1) =
      M ++ "\"\x7d".toList := by
    have e : 0 + (12 + (c0 :: L2).length) + 5 + 1 + 1 = 10 + (c0 :: L2).length + 9 := by omega
    rw [e, json_line_drop_mid (c0 :: L2) M 9 (by omega)]
    rfl
  have hpj := parse_json_eq (json_line (c0 :: L2) M) 0
    { timestamp := 0, level := PRTS_LOG_INFO, message := none, message_len := 0, source := none,
      source_len := 0, raw := some 0, raw_len := (json_line (c0 :: L2) M).length,
      num_fields := 0 }
    1 7 2 (c0 :: L2).length (12 + (c0 :: L2).length) 5 1 M.length lvl
    (json_strstr_level _ _) rfl
    (by
      rw [d8]
      apply skip_str_run
      · decide
      · right; right
        simp only [List.cons_append, List.headD_cons, hc0.2.2.1, hc0.2.2.2.1,
          show c0 ≠ '"' from hc0.2.1, decide_False, Bool.or_self])
    (by
      rw [d10]
      apply skip_str_run
      · intro c hc
        have := letter_facts c (hLl c hc)
        refine ⟨this.1, ?_⟩
        simp only [ne_eq, show c ≠ '"' from this.2.1, this.2.2.2.2.1, this.2.2.2.2.2.1,
          not_false_eq_true, decide_True, Bool.and_self]
      · right; right
        rfl)
    (by
      rw [d10]
      exact parse_level_name _ _ lvl hL)
    (json_strstr_message _ _ lvl hL hq hn hmsg)
    (json_strstr_msg _ _ lvl hL)
    (by rw [d12]; rfl)
    (by rw [d17]; rfl)
    (by rw [getD_eq_headD_drop, d18]; rfl)
    (by
      rw [d19]
      apply skip_str_run
      · intro c hc
        have h0 : c ≠ NUL := by intro e; subst e; exact hn hc
        have : c ≠ '"' := by intro e; subst e; exact hq hc
        refine ⟨h0, ?_⟩
        simp only [ne_eq, this, not_false_eq_true, decide_True]
      · right; right
        rfl)
  have hparse : prts_parser_parse parser (json_line (c0 :: L2) M) (some 0)
      (json_line (c0 :: L2) M).length true = (PRTS_OK, some
        { timestamp := 0, level := lvl,
          message := some (0 + (12 + (c0 :: L2).length) + 5 + 1 + 1),
          message_len := M.length, source := none, source_len := 0, raw := some 0,
          raw_len := (json_line (c0 :: L2) M).length, num_fields := 0 }) := by
    simp only [prts_parser_parse, Bool.not_true, Bool.false_eq_true, if_false, hfmt2]
    rw [hpj]
  refine ⟨_, hparse, rfl, ?_, rfl, rfl, rfl⟩
  show ((json_line (c0 :: L2) M).drop (0 + (12 + (c0 :: L2).length) + 5 + 1 + 1)).take M.length
    = M
  rw [d19]
  simp

theorem is_level_name_error : is_level_name "ERROR".toList PRTS_LOG_ERROR :=
  ⟨"ERROR".toList, by decide, rfl⟩

theorem is_level_name_warn : is_level_name "WARN".toList PRTS_LOG_WARN :=
  ⟨"WARN".toList, by decide, rfl⟩

/-- Counterexample to C5 as stated: in `{"level":"ERROR","msg":"message"}` the search for the key
`"message"` finds the quoted value, no colon follows it, and the message view stays `NULL` with
length 0 instead of being `message`. -/
theorem parse_json_message_counterexample :
    is_level_name "ERROR".toList PRTS_LOG_ERROR ∧ QUOTE ∉ "message".toList ∧
    NUL ∉ "message".toList ∧
    ¬ ∃ e, prts_parser_parse (parser_with PRTS_LOG_FORMAT_JSON)
          (json_line "ERROR".toList "message".toList) (some 0)
          (json_line "ERROR".toList "message".toList).length true = (PRTS_OK, some e) ∧
        e.level = PRTS_LOG_ERROR ∧
        view (json_line "ERROR".toList "message".toList) e.message e.message_len
          = "message".toList ∧
        e.message_len = "message".toList.length := by
  refine ⟨is_level_name_error, by decide, by decide, ?_⟩
  rintro ⟨e, h1, _, _, h4⟩
  have h : prts_parser_parse (parser_with PRTS_LOG_FORMAT_JSON)
      (json_line "ERROR".toList "message".toList) (some 0)
      (json_line "ERROR".toList "message".toList).length true =
      (PRTS_OK, some
        { timestamp := 0, level := PRTS_LOG_ERROR, message := none, message_len := 0,
          source := none, source_len := 0, raw := some 0, raw_len := 33, num_fields := 0 }) := by
    decide
  rw [h] at h1
  simp only [Prod.mk.injEq, Option.some.injEq, true_and] at h1
  rw [← h1] at h4
  revert h4
  decide

/-- The JSON scenario for C5: `{"level":"ERROR","msg":"boom"}` gives ERROR, `boom`, length 4. -/
theorem parse_json_level_msg_witness :
    is_level_name "ERROR".toList PRTS_LOG_ERROR ∧ QUOTE ∉ "boom".toList ∧ NUL ∉ "boom".toList ∧
    "boom".toList ≠ "message".toList ∧
    json_line "ERROR".toList "boom".toList
      = "\x7b\"level\":\"ERROR\",\"msg\":\"boom\"\x7d".toList ∧
    ∃ e, prts_parser_parse (parser_with PRTS_LOG_FORMAT_AUTO)
        (json_line "ERROR".toList "boom".toList) (some 0)
        (json_line "ERROR".toList "boom".toList).length true = (PRTS_OK, some e) ∧
      e.level = PRTS_LOG_ERROR ∧
      view (json_line "ERROR".toList "boom".toList) e.message e.message_len = "boom".toList ∧
      e.message_len = "boom".toList.length ∧ e.raw = some 0 ∧
      e.raw_len = (json_line "ERROR".toList "boom".toList).length :=
  ⟨is_level_name_error, by decide, by decide, by decide, by decide,
    parse_json_level_msg (parser_with PRTS_LOG_FORMAT_AUTO) "ERROR".toList "boom".toList
      PRTS_LOG_ERROR (Or.inr rfl) is_level_name_error (by decide) (by decide) (by decide)⟩

theorem parse_text_bracket_eq (mem : List Char) (line line_len : Nat) (entry : prts_log_entry_t)
    (k s3 : Nat) (lvl : prts_log_level_t)
    (h1 : skip_n is_timestamp_char (mem.drop line) line_len = 0)
    (h2 : skip_n c_isspace (mem.drop (line + 0)) (line_len - 0) = 0)
    (h3 : mem.getD (line + 0 + 0) NUL = '[')
    (h4 : strchr (mem.drop (line + 0 + 0 + 1)) ']' = some k)
    (h5 : parse_level (mem.drop (line + 0 + 0 + 1)) (line + 0 + 0 + 1 + k - (line + 0 + 0 + 1))
      = lvl)
    (h6 : skip_n c_isspace (mem.drop (line + 0 + 0 + 1 + k + 1))
      (size_sub line_len (line + 0 + 0 + 1 + k + 1 - line)) = s3) :
    parse_text mem line line_len entry =
      { entry with
        level := lvl
        message := some (line + 0 + 0 + 1 + k + 1 + s3)
        message_len := size_sub line_len (line + 0 + 0 + 1 + k + 1 - line) - s3 } := by
  unfold parse_text
  simp only [h1, h2, h3, h4, h5, h6, if_true]

theorem text_line_length (L m : List Char) :
    (text_line L m).length = L.length + m.length + 3 := by
  simp only [text_line, List.length_cons, List.length_append]
  omega

/-- C6: for every level name `L` among the six, in any letter case, and every message `m` that
does not begin with whitespace, parsing the NUL-terminated text line `[L] m` with format text or
auto returns ok with level `L` and a message view equal to `m` (`message_len` the length of
`m`). -/
theorem parse_text_bracket_level (parser : prts_log_parser_t) (L m : List Char)
    (lvl : prts_log_level_t)
    (hfmt : parser.format = PRTS_LOG_FORMAT_TEXT ∨ parser.format = PRTS_LOG_FORMAT_AUTO)
    (hL : is_level_name L lvl) (hm : m = [] ∨ c_isspace (m.headD NUL) = false)
    (hsize : (text_line L m).length < SIZE_MOD) :
    ∃ e, prts_parser_parse parser (text_line L m) (some 0) (text_line L m).length true
        = (PRTS_OK, some e) ∧
      e.level = lvl ∧ view (text_line L m) e.message e.message_len = m ∧
      e.message_len = m.length ∧ e.raw = some 0 ∧ e.raw_len = (text_line L m).length := by
  obtain ⟨hLl, hL4, hL5⟩ := level_name_cases L lvl hL
  have hlen := text_line_length L m
  have hfmt2 : (if parser.format = PRTS_LOG_FORMAT_AUTO then
      detect_format ((text_line L m).drop 0) (text_line L m).length else parser.format)
      = PRTS_LOG_FORMAT_TEXT := by
    rcases hfmt with h | h
    · rw [h]; rfl
    · rw [h, if_pos rfl, List.drop_zero]
      have h1 : (text_line L m).headD NUL = '[' := rfl
      have h2 : ('[' = '{') = False := by decide
      have h3 : ('[' = '<') = False := by decide
      simp only [detect_format, h1, h2, h3, decide_False, Bool.and_false, Bool.false_eq_true,
        if_false]
  have hpos : (text_line L m).length > 0 := by omega
  have d1 : (text_line L m).drop (0 + 0 + 0 + 1) = L ++ (']' :: ' ' :: m) := rfl
  have d2 : (text_line L m).drop (0 + 0 + 0 + 1 + L.length + 1) = ' ' :: m := by
    have e : 0 + 0 + 0 + 1 + L.length + 1 = (L.length + 1) + 1 := by omega
    rw [e, text_line, List.drop_succ_cons]
    have e2 : L ++ (']' :: ' ' :: m) = (L ++ [']']) ++ (' ' :: m) := by simp
    rw [e2, List.drop_left' (by simp)]
  have hsub : size_sub (text_line L m).length (0 + 0 + 0 + 1 + L.length + 1 - 0)
      = m.length + 1 := by
    rw [hlen] at hsize ⊢
    simp only [size_sub, SIZE_MOD] at hsize ⊢
    omega
  have hpt := parse_text_bracket_eq (text_line L m) 0 (text_line L m).length
    { timestamp := 0, level := PRTS_LOG_INFO, message := none, message_len := 0, source := none,
      source_len := 0, raw := some 0, raw_len := (text_line L m).length, num_fields := 0 }
    L.length 1 lvl
    (by
      rw [List.drop_zero, text_line, skip_n, if_neg]
      rintro ⟨_, h⟩
      revert h
      decide)
    (by
      rw [List.drop_zero, text_line, skip_n, if_neg]
      rintro ⟨_, h⟩
      revert h
      decide)
    rfl
    (by
      rw [d1]
      apply strchr_skip
      · intro h
        exact (letter_facts _ (hLl _ h)).2.2.2.2.2.2.1 rfl
      · intro h
        exact (letter_facts _ (hLl _ h)).1 rfl)
    (by
      rw [d1, Nat.add_sub_cancel_left]
      exact parse_level_name _ _ lvl hL)
    (by
      rw [d2, hsub]
      have := skip_n_run c_isspace [' '] m (m.length + 1) (by decide) (by simp)
        (by
          rcases hm with h | h
          · right; left; exact h
          · right; right; exact h)
      simpa using this)
  have hparse : prts_parser_parse parser (text_line L m) (some 0) (text_line L m).length true
      = (PRTS_OK, some
        { timestamp := 0, level := lvl,
          message := some (0 + 0 + 0 + 1 + L.length + 1 + 1),
          message_len := size_sub (text_line L m).length (0 + 0 + 0 + 1 + L.length + 1 - 0) - 1,
          source := none, source_len := 0, raw := some 0,
          raw_len := (text_line L m).length, num_fields := 0 }) := by
    simp only [prts_parser_parse, Bool.not_true, Bool.false_eq_true, if_false, hfmt2]
    rw [hpt]
  refine ⟨_, hparse, rfl, ?_, ?_, rfl, rfl⟩
  · show ((text_line L m).drop (0 + 0 + 0 + 1 + L.length + 1 + 1)).take
      (size_sub (text_line L m).length (0 + 0 + 0 + 1 + L.length + 1 - 0) - 1) = m
    rw [hsub]
    have e : 0 + 0 + 0 + 1 + L.length + 1 + 1 = (0 + 0 + 0 + 1 + L.length + 1) + 1 := rfl
    rw [e, ← List.drop_drop, d2]
    simp
  · show size_sub (text_line L m).length (0 + 0 + 0 + 1 + L.length + 1 - 0) - 1 = m.length
    rw [hsub]
    simp

/-- The text scenario for C6: `[WARN] disk full` gives WARN and `disk full`. -/
theorem parse_text_bracket_level_witness :
    is_level_name "WARN".toList PRTS_LOG_WARN ∧
    text_line "WARN".toList "disk full".toList = "[WARN] disk full".toList ∧
    ∃ e, prts_parser_parse (parser_with PRTS_LOG_FORMAT_AUTO)
        (text_line "WARN".toList "disk full".toList) (some 0)
        (text_line "WARN".toList "disk full".toList).length true = (PRTS_OK, some e) ∧
      e.level = PRTS_LOG_WARN ∧
      view (text_line "WARN".toList "disk full".toList) e.message e.message_len
        = "disk full".toList ∧
      e.message_len = "disk full".toList.length ∧ e.raw = some 0 ∧
      e.raw_len = (text_line "WARN".toList "disk full".toList).length :=
  ⟨is_level_name_warn, by decide,
    parse_text_bracket_level (parser_with PRTS_LOG_FORMAT_AUTO) "WARN".toList "disk full".toList
      PRTS_LOG_WARN (Or.inr rfl) is_level_name_warn (Or.inr (by decide)) (by decide)⟩

theorem parse_json_raw (mem : List Char) (line : Nat) (entry : prts_log_entry_t) :
    (parse_json mem line entry).raw = entry.raw ∧
    (parse_json mem line entry).raw_len = entry.raw_len := by
  unfold parse_json
  simp only []
  split <;> split <;> (try split) <;> (try split) <;> (try split) <;> exact ⟨rfl, rfl⟩

theorem parse_text_raw (mem : List Char) (line line_len : Nat) (entry : prts_log_entry_t) :
    (parse_text mem line line_len entry).raw = entry.raw ∧
    (parse_text mem line line_len entry).raw_len = entry.raw_len := by
  unfold parse_text
  simp only []
  split
  · split <;> exact ⟨rfl, rfl⟩
  · split <;> exact ⟨rfl, rfl⟩

theorem parse_raw (parser : prts_log_parser_t) (mem : List Char) (line line_len : Nat) :
    ∃ e, prts_parser_parse parser mem (some line) line_len true = (PRTS_OK, some e) ∧
      e.raw = some line ∧ e.raw_len = line_len := by
  simp only [prts_parser_parse, Bool.not_true, Bool.false_eq_true, if_false]
  split
  · exact ⟨_, rfl, (parse_json_raw _ _ _).1, (parse_json_raw _ _ _).2⟩
  · exact ⟨_, rfl, (parse_text_raw _ _ _ _).1, (parse_text_raw _ _ _ _).2⟩

theorem batch_loop_spec (parser : prts_log_parser_t) (post : List Char) (max_entries : Nat) :
    ∀ (lines : List (List Char)) (done : List Char) (acc : List prts_log_entry_t) (fuel : Nat),
    lines.length < fuel → (∀ l ∈ lines, NEWLINE ∉ l) →
    ∃ out, parse_batch_loop parser (done ++ (batch_data lines ++ post))
        (done.length + (batch_data lines).length) max_entries fuel done.length acc = some out ∧
      out.map (fun e => view (done ++ (batch_data lines ++ post)) e.raw e.raw_len)
        = acc.map (fun e => view (done ++ (batch_data lines ++ post)) e.raw e.raw_len) ++
          (nonempty_lines lines).take (max_entries - acc.length) := by
  intro lines
  induction lines with
  | nil =>
    intro done acc fuel hf _
    obtain ⟨f, rfl⟩ := Nat.exists_eq_succ_of_ne_zero (by omega : fuel ≠ 0)
    refine ⟨acc, ?_, by simp [nonempty_lines]⟩
    simp [parse_batch_loop, batch_data]
  | cons l rest ih =>
    intro done acc fuel hf hnl
    obtain ⟨f, rfl⟩ := Nat.exists_eq_succ_of_ne_zero (by omega : fuel ≠ 0)
    have hl : NEWLINE ∉ l := hnl l (List.mem_cons_self _ _)
    have hrest : ∀ x ∈ rest, NEWLINE ∉ x := fun x hx => hnl x (List.mem_cons_of_mem _ hx)
    have hmem : done ++ (batch_data (l :: rest) ++ post)
        = (done ++ l ++ [NEWLINE]) ++ (batch_data rest ++ post) := by
      simp [batch_data]
    have hend : done.length + (batch_data (l :: rest)).length
        = (done ++ l ++ [NEWLINE]).length + (batch_data rest).length := by
      simp [batch_data]
      omega
    by_cases hacc : acc.length < max_entries
    · have hskip : skip_n (fun c => c ≠ '\n')
          ((done ++ (batch_data (l :: rest) ++ post)).drop done.length)
          (done.length + (batch_data (l :: rest)).length - done.length) = l.length := by
        rw [List.drop_left, Nat.add_sub_cancel_left]
        have e : batch_data (l :: rest) ++ post = l ++ (NEWLINE :: (batch_data rest ++ post)) := by
          simp [batch_data]
        rw [e]
        apply skip_n_run
        · intro c hc
          have : c ≠ NEWLINE := by intro e; subst e; exact hl hc
          simpa using this
        · simp only [batch_data, List.length_append, List.length_cons]; omega
        · right; right
          show decide (NEWLINE ≠ '\n') = false
          decide
      have hcond : done.length < done.length + (batch_data (l :: rest)).length ∧
          acc.length < max_entries := by
        refine ⟨?_, hacc⟩
        simp [batch_data]
      by_cases hle : l = []
      · subst hle
        obtain ⟨out, ho1, ho2⟩ := ih (done ++ [] ++ [NEWLINE]) acc f (by simpa using hf) hrest
        refine ⟨out, ?_, ?_⟩
        · rw [parse_batch_loop, if_pos hcond, hskip]
          simp only [List.length_nil, Nat.add_zero, gt_iff_lt, Nat.lt_irrefl, if_false]
          rw [hmem, hend]
          simpa using ho1
        · rw [hmem]
          simpa [nonempty_lines] using ho2
      · have hlpos : 0 < l.length := List.length_pos.mpr hle
        obtain ⟨e, he1, he2, he3⟩ := parse_raw parser (done ++ (batch_data (l :: rest) ++ post))
          done.length l.length
        obtain ⟨out, ho1, ho2⟩ := ih (done ++ l ++ [NEWLINE]) (acc ++ [e]) f
          (by simpa using hf) hrest
        have hview : view (done ++ (batch_data (l :: rest) ++ post)) e.raw e.raw_len = l := by
          rw [he2, he3]
          simp [view, batch_data]
        refine ⟨out, ?_, ?_⟩
        · rw [parse_batch_loop, if_pos hcond, hskip]
          have hgt : done.length + l.length > done.length := by omega
          simp only [hgt, if_true, Nat.add_sub_cancel_left, he1]
          rw [hmem, hend]
          simpa using ho1
        · rw [← hmem] at ho2
          rw [ho2, List.map_append, List.map_cons, List.map_nil, hview, List.append_assoc]
          congr 1
          have hne : nonempty_lines (l :: rest) = l :: nonempty_lines rest := by
            simp [nonempty_lines, hle]
          obtain ⟨k, hk⟩ : ∃ k, max_entries - acc.length = k + 1 := ⟨max_entries - acc.length - 1,
            by omega⟩
          rw [hne, hk, List.take_succ_cons, List.length_append, List.length_singleton]
          have hk2 : max_entries - (acc.length + 1) = k := by omega
          rw [hk2]
          rfl
    · refine ⟨acc, ?_, ?_⟩
      · rw [parse_batch_loop, if_neg]
        rintro ⟨_, h⟩
        exact hacc h
      · have : max_entries - acc.length = 0 := by omega
        simp [this]

theorem nonempty_lines_all (lines : List (List Char)) (h : ∀ l ∈ lines, l ≠ []) :
    nonempty_lines lines = lines := by
  unfold nonempty_lines
  rw [List.filter_eq_self]
  intro l hl
  simpa using h l hl

/-- C7: for data made of lines that are each terminated by a newline, `prts_parser_parse_batch`
(given enough fuel for its loop) returns ok, the entries' raw views are the non-empty lines in
order, cut at `max_entries`, and `count_out` is the minimum of `max_entries` and the number of
non-empty lines; when every line is non-empty that is `min(n, max_entries)` and entry `i` views
the `i`-th line without its newline. -/
theorem parse_batch_counts_lines (parser : prts_log_parser_t) (lines : List (List Char))
    (pre post : List Char) (max_entries fuel : Nat)
    (hnl : ∀ l ∈ lines, NEWLINE ∉ l) (hf : lines.length < fuel) :
    ∃ entries,
      prts_parser_parse_batch fuel parser (pre ++ (batch_data lines ++ post)) (some pre.length)
          (batch_data lines).length true max_entries true
        = some (PRTS_OK, entries, min max_entries (nonempty_lines lines).length) ∧
      entries.length = min max_entries (nonempty_lines lines).length ∧
      entries.map (fun e => view (pre ++ (batch_data lines ++ post)) e.raw e.raw_len)
        = (nonempty_lines lines).take max_entries ∧
      ((∀ l ∈ lines, l ≠ []) →
        entries.length = min lines.length max_entries ∧
        entries.map (fun e => view (pre ++ (batch_data lines ++ post)) e.raw e.raw_len)
          = lines.take max_entries) := by
  obtain ⟨out, h1, h2⟩ := batch_loop_spec parser post max_entries lines pre [] fuel hf hnl
  simp only [List.map_nil, List.nil_append, List.length_nil, Nat.sub_zero] at h2
  have hlen : out.length = min max_entries (nonempty_lines lines).length := by
    have := congrArg List.length h2
    simpa using this
  refine ⟨out, ?_, hlen, h2, ?_⟩
  · simp only [prts_parser_parse_batch, Bool.not_true, Bool.or_self, Bool.false_eq_true,
      if_false, h1, hlen]
  · intro hall
    rw [nonempty_lines_all lines hall] at h2 hlen
    exact ⟨by rw [hlen, Nat.min_comm], h2⟩

/-- A batch for C7: the data `a\n\nbc\n` yields two entries viewing `a` and `bc`. -/
theorem parse_batch_counts_lines_witness :
    batch_data ["a".toList, [], "bc".toList] = "a\n\nbc\n".toList ∧
    (∀ l ∈ ["a".toList, [], "bc".toList], NEWLINE ∉ l) ∧
    nonempty_lines ["a".toList, [], "bc".toList] = ["a".toList, "bc".toList] ∧
    ∃ entries,
      prts_parser_parse_batch 7 (parser_with PRTS_LOG_FORMAT_AUTO)
          ([] ++ (batch_data ["a".toList, [], "bc".toList] ++ [])) (some 0)
          (batch_data ["a".toList, [], "bc".toList]).length true 10 true
        = some (PRTS_OK, entries, 2) ∧
      entries.length = 2 ∧
      entries.map (fun e =>
          view ([] ++ (batch_data ["a".toList, [], "bc".toList] ++ [])) e.raw e.raw_len)
        = ["a".toList, "bc".toList] :=
  have h := parse_batch_counts_lines (parser_with PRTS_LOG_FORMAT_AUTO)
    ["a".toList, [], "bc".toList] [] [] 10 7 (by decide) (by decide)
  ⟨by decide, by decide, by decide, h.imp (fun _ hh => ⟨hh.1, hh.2.1, hh.2.2.1⟩)⟩

/-! ## Log indexer -/

theorem search_keeps_eq (mem : List Char) (query : prts_search_query_t)
    (entry : prts_log_entry_t) :
    search_keeps mem query entry = search_match mem query entry := by
  unfold search_keeps search_match
  split_ifs with h1 h2 h3
  · have : ¬ entry.level.toNat ≥ query.min_level.toNat := by omega
    simp [this]
  · have : ¬ entry.timestamp ≥ query.start_time := by omega
    simp [h2.1, this]
  · have : ¬ entry.timestamp ≤ query.end_time := by omega
    simp [h3.1, this]
  · have e1 : entry.level.toNat ≥ query.min_level.toNat := by omega
    have e2 : (!decide (query.start_time > 0) || decide (entry.timestamp ≥ query.start_time))
        = true := by
      by_cases h : query.start_time > 0
      · have : entry.timestamp ≥ query.start_time := by
          by_contra hc
          exact h2 ⟨h, by omega⟩
        simp [this]
      · simp [h]
    have e3 : (!decide (query.end_time > 0) || decide (entry.timestamp ≤ query.end_time))
        = true := by
      by_cases h : query.end_time > 0
      · have : entry.timestamp ≤ query.end_time := by
          by_contra hc
          exact h3 ⟨h, by omega⟩
        simp [this]
      · simp [h]
    rw [decide_eq_true e1, e2, e3]
    simp only [Bool.and_self, Bool.true_and]
    split
    · rename_i q m _ _
      cases strstr (List.drop m mem) q <;> rfl
    · rfl

theorem search_loop_spec (mem : List Char) (query : prts_search_query_t)
    (indexer : prts_log_indexer_t) (max_results : Nat)
    (hcount : indexer.buffer_count ≤ indexer.buffer.length) :
    ∀ (remaining i : Nat) (result : List prts_log_entry_t),
    remaining = indexer.buffer_count - i →
    search_loop mem query indexer max_results remaining i result =
      result ++ ((((indexer.buffer.take indexer.buffer_count).drop i).filter
        (search_match mem query)).take (max_results - result.length)) := by
  intro remaining
  induction remaining with
  | zero =>
    intro i result h
    have : (indexer.buffer.take indexer.buffer_count).drop i = [] := by
      apply List.drop_of_length_le
      simp only [List.length_take]
      omega
    simp [search_loop, this]
  | succ r ih =>
    intro i result h
    have hi : i < indexer.buffer_count := by omega
    have hlen : i < (indexer.buffer.take indexer.buffer_count).length := by
      simp only [List.length_take]
      omega
    have hdrop : (indexer.buffer.take indexer.buffer_count).drop i =
        indexer.buffer.getD i log_entry_zero ::
          (indexer.buffer.take indexer.buffer_count).drop (i + 1) := by
      rw [List.drop_eq_getElem_cons hlen]
      congr 1
      rw [List.getElem_take, List.getD_eq_getElem?_getD, List.getElem?_eq_getElem (by omega)]
      rfl
    rw [search_loop, hdrop]
    by_cases hres : result.length < max_results
    · rw [if_pos ⟨hi, hres⟩]
      by_cases hk : search_keeps mem query (indexer.buffer.getD i log_entry_zero) = true
      · have hm : search_match mem query (indexer.buffer.getD i log_entry_zero) = true := by
          rw [← search_keeps_eq]; exact hk
        simp only [hk, if_true]
        rw [ih (i + 1) _ (by omega), List.filter_cons, if_pos hm, List.append_assoc]
        congr 1
        obtain ⟨k, hk2⟩ : ∃ k, max_results - result.length = k + 1 :=
          ⟨max_results - result.length - 1, by omega⟩
        rw [hk2, List.take_succ_cons, List.length_append, List.length_singleton]
        have : max_results - (result.length + 1) = k := by omega
        rw [this]
        rfl
      · have hm : ¬ search_match mem query (indexer.buffer.getD i log_entry_zero) = true := by
          rw [← search_keeps_eq]; exact hk
        simp only [hk, Bool.false_eq_true, if_false]
        rw [ih (i + 1) _ (by omega), List.filter_cons, if_neg hm]
    · rw [if_neg (fun h => hres h.2)]
      have : max_results - result.length = 0 := by omega
      simp [this]

/-- C8: `prts_indexer_search` returns ok and exactly the first `L` entries (`L = query.limit` if
that is positive, otherwise 100), in buffer order, among the buffered entries at index
`>= query.offset` that pass the level, time-range and text filters; `count` and `total_matches`
both equal the number of entries returned, which is at most `L`; the indexer is unchanged. -/
theorem indexer_search_first_matches (indexer : prts_log_indexer_t) (mem : List Char)
    (query : prts_search_query_t)
    (hcount : indexer.buffer_count ≤ indexer.buffer.length) :
    ∃ res, prts_indexer_search indexer mem (some query) true true true
        = (PRTS_OK, some res, indexer) ∧
      res.entries =
        (((indexer.buffer.take indexer.buffer_count).drop query.offset).filter
          (search_match mem query)).take (if query.limit > 0 then query.limit else 100) ∧
      res.count = res.entries.length ∧ res.total_matches = res.entries.length ∧
      res.entries.length ≤ (if query.limit > 0 then query.limit else 100) := by
  have h := search_loop_spec mem query indexer (if query.limit > 0 then query.limit else 100)
    hcount (indexer.buffer_count - query.offset) query.offset [] rfl
  simp only [List.nil_append, List.length_nil, Nat.sub_zero] at h
  refine ⟨_, rfl, h, rfl, rfl, ?_⟩
  show (search_loop mem query indexer _ _ _ []).length ≤ _
  rw [h]
  exact List.length_take_le _ _

/-- A search for C8: of three buffered entries only the WARN entry whose message contains `disk`
is returned. -/
theorem indexer_search_first_matches_witness :
    search_indexer.buffer_count ≤ search_indexer.buffer.length ∧
    (((search_indexer.buffer.take search_indexer.buffer_count).drop search_query.offset).filter
      (search_match search_mem search_query)).take 100 =
      [{ log_entry_zero with timestamp := 5, level := PRTS_LOG_WARN, message := some 0,
                             message_len := 9 }] ∧
    ∃ res, prts_indexer_search search_indexer search_mem (some search_query) true true true
        = (PRTS_OK, some res, search_indexer) ∧
      res.entries =
        (((search_indexer.buffer.take search_indexer.buffer_count).drop
          search_query.offset).filter (search_match search_mem search_query)).take
            (if search_query.limit > 0 then search_query.limit else 100) ∧
      res.count = res.entries.length ∧ res.total_matches = res.entries.length ∧
      res.entries.length ≤ (if search_query.limit > 0 then search_query.limit else 100) :=
  ⟨by decide, by decide,
    indexer_search_first_matches search_indexer search_mem search_query (by decide)⟩

theorem getD_lt_of_ne (ws : List worker_pc) (w : Nat) (h : ws.getD w worker_pc.exited
    ≠ worker_pc.exited) : w < ws.length := by
  by_contra hc
  apply h
  rw [List.getD_eq_getElem?_getD, List.getElem?_eq_none (by omega)]
  rfl

theorem countP_set (ws : List worker_pc) (w : Nat) (x : worker_pc) (hw : w < ws.length) :
    (ws.set w x).countP worker_active + (if worker_active (ws.getD w worker_pc.exited) then 1 else 0)
      = ws.countP worker_active + (if worker_active x then 1 else 0) := by
  induction ws generalizing w with
  | nil => simp at hw
  | cons a ws ih =>
    cases w with
    | zero =>
      simp only [List.set_cons_zero, List.countP_cons, List.getD_cons_zero]
      omega
    | succ w =>
      simp only [List.length_cons, Nat.add_lt_add_iff_right] at hw
      have := ih w hw
      simp only [List.set_cons_succ, List.countP_cons, List.getD_cons_succ]
      omega

theorem countP_le_length (ws : List worker_pc) : ws.countP worker_active ≤ ws.length :=
  List.countP_le_length _

theorem submit_counters (pool p2 : prts_thread_pool) (fn : Option Nat) (arg : Nat)
    (task_out : Bool) (malloc_task malloc_handle : Nat) (r : prts_result_t) (ho : Option Nat)
    (h : prts_threadpool_submit_wait pool fn arg task_out malloc_task malloc_handle
      = some (r, p2, ho)) :
    p2.active_count = pool.active_count ∧ p2.completed_count = pool.completed_count ∧
    p2.queue_size = pool.queue_size ∧ p2.workers = pool.workers ∧
    p2.shutdown = pool.shutdown ∧
    ((r ≠ PRTS_OK ∧ p2.task_count = pool.task_count) ∨
     (r = PRTS_OK ∧ pool.shutdown = false ∧ pool.task_count < pool.queue_size ∧
      p2.task_count = size_add pool.task_count 1)) := by
  unfold prts_threadpool_submit_wait at h
  cases fn with
  | none =>
    simp only [Option.some.injEq, Prod.mk.injEq] at h
    obtain ⟨rfl, rfl, _⟩ := h
    exact ⟨rfl, rfl, rfl, rfl, rfl, Or.inl ⟨by decide, rfl⟩⟩
  | some f =>
    simp only at h
    by_cases c1 : malloc_task = 0
    · rw [if_pos c1] at h
      simp only [Option.some.injEq, Prod.mk.injEq] at h
      obtain ⟨rfl, rfl, _⟩ := h
      exact ⟨rfl, rfl, rfl, rfl, rfl, Or.inl ⟨by decide, rfl⟩⟩
    · rw [if_neg c1] at h
      by_cases c2 : task_out = true ∧ malloc_handle = 0
      · rw [if_pos c2] at h
        simp only [Option.some.injEq, Prod.mk.injEq] at h
        obtain ⟨rfl, rfl, _⟩ := h
        exact ⟨rfl, rfl, rfl, rfl, rfl, Or.inl ⟨by decide, rfl⟩⟩
      · rw [if_neg c2] at h
        by_cases c3 : pool.task_count ≥ pool.queue_size ∧ ¬ pool.shutdown = true
        · rw [if_pos c3] at h
          cases h
        · rw [if_neg c3] at h
          by_cases c4 : pool.shutdown = true
          · rw [if_pos c4] at h
            simp only [Option.some.injEq, Prod.mk.injEq] at h
            obtain ⟨rfl, rfl, _⟩ := h
            exact ⟨rfl, rfl, rfl, rfl, rfl, Or.inl ⟨by decide, rfl⟩⟩
          · rw [if_neg c4] at h
            simp only [Option.some.injEq, Prod.mk.injEq] at h
            obtain ⟨rfl, rfl, _⟩ := h
            have hsd : pool.shutdown = false := by simpa using c4
            have hlt : pool.task_count < pool.queue_size := by
              by_contra hc
              exact c3 ⟨by omega, c4⟩
            refine ⟨?_, ?_, ?_, ?_, ?_, Or.inr ⟨rfl, hsd, hlt, ?_⟩⟩ <;>
              (split_ifs <;> rfl)

theorem size_add_one (a b : Nat) (h : a < b) (hb : b < SIZE_MOD) : size_add a 1 = a + 1 := by
  unfold size_add
  exact Nat.mod_eq_of_lt (by omega)

theorem size_sub_one (a : Nat) (h : 0 < a) (hb : a < SIZE_MOD) : size_sub a 1 = a - 1 := by
  unfold size_sub
  have : a + SIZE_MOD - 1 = (a - 1) + SIZE_MOD := by omega
  rw [this, Nat.add_mod_right]
  exact Nat.mod_eq_of_lt (by omega)

theorem size_add_one_mod (c : Nat) : size_add (c % SIZE_MOD) 1 = (c + 1) % SIZE_MOD := by
  unfold size_add
  exact Nat.mod_add_mod c SIZE_MOD 1

theorem worker_finish_spec (pool p2 : prts_thread_pool) (w : Nat)
    (h : worker_finish pool w = some p2) :
    pool.workers.getD w worker_pc.exited = worker_pc.done ∧
    p2 = { pool with
        active_count := size_sub pool.active_count 1
        completed_count := size_add pool.completed_count 1
        workers := pool.workers.set w worker_pc.idle } := by
  unfold worker_finish at h
  by_cases c : pool.workers.getD w worker_pc.exited = worker_pc.done
  · rw [if_neg (not_not.mpr c)] at h
    exact ⟨c, (Option.some.inj h).symm⟩
  · rw [if_pos c] at h
    cases h

theorem worker_dequeue_spec (pool p2 : prts_thread_pool) (w : Nat)
    (h : worker_dequeue pool w = some p2) :
    pool.workers.getD w worker_pc.exited = worker_pc.idle ∧ pool.task_count ≠ 0 ∧
    p2 = { pool with
        head := ((pool.nodes pool.head).map (fun n => n.next)).getD 0
        tail := if ((pool.nodes pool.head).map (fun n => n.next)).getD 0 = 0 then 0 else pool.tail
        task_count := size_sub pool.task_count 1
        active_count := size_add pool.active_count 1
        workers := pool.workers.set w (worker_pc.running pool.head) } := by
  unfold worker_dequeue at h
  by_cases c : pool.workers.getD w worker_pc.exited = worker_pc.idle
  · rw [if_neg (not_not.mpr c)] at h
    by_cases c2 : pool.task_count = 0
    · rw [if_pos c2] at h
      cases h
    · rw [if_neg c2] at h
      exact ⟨c, c2, (Option.some.inj h).symm⟩
  · rw [if_pos c] at h
    cases h

theorem worker_exit_spec (pool p2 : prts_thread_pool) (w : Nat)
    (h : worker_exit pool w = some p2) :
    pool.workers.getD w worker_pc.exited = worker_pc.idle ∧
    p2 = { pool with workers := pool.workers.set w worker_pc.exited } := by
  unfold worker_exit at h
  by_cases c : pool.workers.getD w worker_pc.exited = worker_pc.idle
  · rw [if_neg (not_not.mpr c)] at h
    by_cases c2 : pool.shutdown = true ∧ pool.task_count = 0
    · rw [if_pos c2] at h
      exact ⟨c, (Option.some.inj h).symm⟩
    · rw [if_neg c2] at h
      cases h
  · rw [if_pos c] at h
    cases h

theorem worker_execute_spec (pool p2 : prts_thread_pool) (w : Nat)
    (h : worker_execute pool w = some p2) :
    ∃ task, pool.workers.getD w worker_pc.exited = worker_pc.running task ∧
    p2 = { pool with
        handles :=
          if ((pool.nodes task).map (fun n => n.wait_handle)).getD 0 ≠ 0 then
            Function.update pool.handles
              (((pool.nodes task).map (fun n => n.wait_handle)).getD 0) (some true)
          else pool.handles
        nodes := Function.update pool.nodes task none
        workers := pool.workers.set w worker_pc.done } := by
  unfold worker_execute at h
  cases hc : pool.workers.getD w worker_pc.exited with
  | running task =>
    rw [hc] at h
    exact ⟨task, rfl, (Option.some.inj h).symm⟩
  | idle => rw [hc] at h; cases h
  | done => rw [hc] at h; cases h
  | exited => rw [hc] at h; cases h

theorem count_inv_finish (pool : prts_thread_pool) (sub deq : List (Nat × Nat × Nat))
    (res : List prts_result_t) (a cc c2 : Nat) (ws : List worker_pc)
    (h1 : pool.task_count + a + c2 = sub.length) (h2 : a = ws.countP worker_active)
    (h3 : cc = c2 % SIZE_MOD) (h4 : pool.queue_size < SIZE_MOD) (h5 : ws.length < SIZE_MOD)
    (h6 : pool.task_count ≤ pool.queue_size) :
    TpCountInv
      { pool := { pool with active_count := a, completed_count := cc, workers := ws }
        submitted := sub, dequeued := deq, results := res } c2 :=
  ⟨h1, h2, h3, h4, h5, h6⟩

theorem tp_step_count (t t2 : TpTrace) (ev : TpEvent) (c : Nat) (h : tp_step t ev = some t2)
    (hinv : TpCountInv t c) : ∃ c2, TpCountInv t2 c2 := by
  obtain ⟨h1, h2, h3, h4, h5, h6⟩ := hinv
  have hal := countP_le_length t.pool.workers
  cases ev with
  | submit fn arg task_out malloc_task malloc_handle =>
    simp only [tp_step] at h
    cases hs : prts_threadpool_submit_wait t.pool fn arg task_out malloc_task malloc_handle with
    | none => rw [hs] at h; cases h
    | some r =>
      obtain ⟨r, pool, ho⟩ := r
      rw [hs] at h
      simp only [Option.some.injEq] at h
      subst h
      obtain ⟨e1, e2, e3, e4, e5, e6⟩ := submit_counters _ _ _ _ _ _ _ _ _ hs
      rcases e6 with ⟨hr, e6⟩ | ⟨hr, hsd, hlt, e6⟩
      · refine ⟨c, ?_, ?_, ?_, ?_, ?_, ?_⟩
        · simp only [e1, e6, hr, if_false]; exact h1
        · simp only [e1, e4]; exact h2
        · simp only [e2]; exact h3
        · simp only [e3]; exact h4
        · simp only [e4]; exact h5
        · simp only [e5, e6, e3]; exact h6
      · have hadd : size_add t.pool.task_count 1 = t.pool.task_count + 1 :=
          size_add_one _ _ hlt h4
        refine ⟨c, ?_, ?_, ?_, ?_, ?_, ?_⟩
        · simp only [e1, e6, hr, if_true, hadd, List.length_append, List.length_singleton]
          omega
        · simp only [e1, e4]; exact h2
        · simp only [e2]; exact h3
        · simp only [e3]; exact h4
        · simp only [e4]; exact h5
        · simp only [e6, e3, hadd]
          omega
  | dequeue w =>
    simp only [tp_step] at h
    cases hs : worker_dequeue t.pool w with
    | none => rw [hs] at h; cases h
    | some pool =>
      rw [hs] at h
      simp only [Option.some.injEq] at h
      subst h
      obtain ⟨hidle, hne, rfl⟩ := worker_dequeue_spec _ _ _ hs
      have hw : w < t.pool.workers.length := getD_lt_of_ne _ _ (by rw [hidle]; decide)
      have hcp := countP_set t.pool.workers w (worker_pc.running t.pool.head) hw
      rw [hidle] at hcp
      simp only [worker_active, Bool.false_eq_true, if_false, if_true, Nat.add_zero] at hcp
      have hle := countP_le_length (t.pool.workers.set w (worker_pc.running t.pool.head))
      rw [List.length_set] at hle
      have hsub : size_sub t.pool.task_count 1 = t.pool.task_count - 1 :=
        size_sub_one _ (Nat.pos_of_ne_zero hne) (by omega)
      have hadd : size_add t.pool.active_count 1 = t.pool.active_count + 1 :=
        size_add_one _ t.pool.workers.length (by omega) h5
      refine ⟨c, ?_, ?_, h3, h4, ?_, ?_⟩
      · show size_sub t.pool.task_count 1 + size_add t.pool.active_count 1 + c = _
        rw [hsub, hadd]
        show _ = t.submitted.length
        omega
      · show size_add t.pool.active_count 1 = _
        rw [hadd, hcp, h2]
      · show (t.pool.workers.set w (worker_pc.running t.pool.head)).length < SIZE_MOD
        rw [List.length_set]
        exact h5
      · show size_sub t.pool.task_count 1 ≤ t.pool.queue_size
        rw [hsub]
        omega
  | execute w =>
    simp only [tp_step] at h
    cases hs : worker_execute t.pool w with
    | none => rw [hs] at h; cases h
    | some pool =>
      rw [hs] at h
      simp only [Option.map_some', Option.some.injEq] at h
      subst h
      obtain ⟨task, hrun, rfl⟩ := worker_execute_spec _ _ _ hs
      have hw : w < t.pool.workers.length := getD_lt_of_ne _ _ (by rw [hrun]; simp)
      have hcp := countP_set t.pool.workers w worker_pc.done hw
      rw [hrun] at hcp
      simp only [worker_active, if_true, Nat.add_right_cancel_iff] at hcp
      refine ⟨c, h1, ?_, h3, h4, ?_, h6⟩
      · show t.pool.active_count = (t.pool.workers.set w worker_pc.done).countP worker_active
        rw [hcp, h2]
      · show (t.pool.workers.set w worker_pc.done).length < SIZE_MOD
        rw [List.length_set]
        exact h5
  | finish w =>
    simp only [tp_step] at h
    cases hs : worker_finish t.pool w with
    | none => rw [hs] at h; cases h
    | some pool =>
      rw [hs] at h
      simp only [Option.map_some', Option.some.injEq] at h
      subst h
      obtain ⟨hdone, rfl⟩ := worker_finish_spec _ _ _ hs
      have hw : w < t.pool.workers.length := getD_lt_of_ne _ _ (by rw [hdone]; decide)
      have hcp := countP_set t.pool.workers w worker_pc.idle hw
      rw [hdone] at hcp
      simp only [worker_active, Bool.false_eq_true, if_false, if_true, Nat.add_zero] at hcp
      have hsub : size_sub t.pool.active_count 1 = t.pool.active_count - 1 :=
        size_sub_one _ (by omega) (by omega)
      have hmod : size_add t.pool.completed_count 1 = (c + 1) % SIZE_MOD := by
        rw [h3]
        exact size_add_one_mod c
      refine ⟨c + 1, count_inv_finish t.pool t.submitted t.dequeued t.results _ _ _ _ ?_ ?_ hmod
        h4 ?_ h6⟩
      · rw [hsub]
        omega
      · rw [hsub]
        omega
      · rw [List.length_set]
        exact h5
  | exit w =>
    simp only [tp_step] at h
    cases hs : worker_exit t.pool w with
    | none => rw [hs] at h; cases h
    | some pool =>
      rw [hs] at h
      simp only [Option.map_some', Option.some.injEq] at h
      subst h
      obtain ⟨hidle, rfl⟩ := worker_exit_spec _ _ _ hs
      have hw : w < t.pool.workers.length := getD_lt_of_ne _ _ (by rw [hidle]; decide)
      have hcp := countP_set t.pool.workers w worker_pc.exited hw
      rw [hidle] at hcp
      simp only [worker_active, Bool.false_eq_true, if_false, Nat.add_zero] at hcp
      refine ⟨c, h1, ?_, h3, h4, ?_, h6⟩
      · show t.pool.active_count = (t.pool.workers.set w worker_pc.exited).countP worker_active
        rw [hcp, h2]
      · show (t.pool.workers.set w worker_pc.exited).length < SIZE_MOD
        rw [List.length_set]
        exact h5
  | destroy =>
    simp only [tp_step, Option.some.injEq] at h
    subst h
    exact ⟨c, h1, h2, h3, h4, h5, h6⟩

theorem qchain_congr (nodes nodes2 : Nat → Option task_node_t) (Q : List Nat) :
    ∀ h, (∀ a ∈ Q, nodes2 a = nodes a) → qchain nodes h Q → qchain nodes2 h Q := by
  induction Q with
  | nil => intro h _ hq; exact hq
  | cons a rest ih =>
    intro h hn hq
    obtain ⟨e, ha, n, hn1, hq1⟩ := hq
    refine ⟨e, ha, n, ?_, ih _ (fun b hb => hn b (List.mem_cons_of_mem _ hb)) hq1⟩
    rw [hn a (List.mem_cons_self _ _)]
    exact hn1

theorem qchain_mem (nodes : Nat → Option task_node_t) (Q : List Nat) :
    ∀ h, qchain nodes h Q → ∀ a ∈ Q, a ≠ 0 ∧ nodes a ≠ none := by
  induction Q with
  | nil => intro h _ a ha; cases ha
  | cons b rest ih =>
    intro h hq a ha
    obtain ⟨_, hb, n, hn1, hq1⟩ := hq
    rcases List.mem_cons.mp ha with rfl | hmem
    · refine ⟨hb, ?_⟩
      rw [hn1]
      exact Option.some_ne_none n
    · exact ih _ hq1 a hmem

theorem qlast_mem (Q : List Nat) : Q ≠ [] → qlast Q ∈ Q := by
  induction Q with
  | nil => intro h; exact absurd rfl h
  | cons a rest ih =>
    intro _
    cases rest with
    | nil => exact List.mem_cons_self _ _
    | cons b rest2 =>
      exact List.mem_cons_of_mem _ (ih (List.cons_ne_nil _ _))

theorem qlast_snoc (Q : List Nat) (x : Nat) : qlast (Q ++ [x]) = x := by
  induction Q with
  | nil => rfl
  | cons a rest ih =>
    cases rest with
    | nil => rfl
    | cons b rest2 => exact ih

theorem qlast_ne_zero (nodes : Nat → Option task_node_t) (h : Nat) (Q : List Nat)
    (hq : qchain nodes h Q) (hne : Q ≠ []) : qlast Q ≠ 0 :=
  (qchain_mem nodes Q h hq _ (qlast_mem Q hne)).1

theorem qchain_snoc (nodes : Nat → Option task_node_t) (task : Nat) (node : task_node_t)
    (hnext : node.next = 0) (ht : task ≠ 0) (Q : List Nat) :
    ∀ h, Q ≠ [] → task ∉ Q → Q.Nodup → qchain nodes h Q →
    qchain (Function.update (Function.update nodes task (some node)) (qlast Q)
        (((Function.update nodes task (some node)) (qlast Q)).map
          (fun n => { n with next := task }))) h (Q ++ [task]) := by
  induction Q with
  | nil => intro h hne; exact absurd rfl hne
  | cons a rest ih =>
    intro h _ hnot hnd hq
    obtain ⟨e, ha, n, hn1, hq1⟩ := hq
    have hat : a ≠ task := fun e2 => hnot (e2 ▸ List.mem_cons_self _ _)
    cases rest with
    | nil =>
      have h1 : Function.update nodes task (some node) a = some n := by
        rw [Function.update_noteq hat]
        exact hn1
      rw [show qlast [a] = a from rfl]
      refine ⟨e, ha, { n with next := task }, ?_, rfl, ht, node, ?_, hnext⟩
      · show Function.update _ a _ a = _
        rw [Function.update_same, h1]
        rfl
      · show Function.update _ a _ task = _
        rw [Function.update_noteq (Ne.symm hat), Function.update_same]
    | cons b rest2 =>
      have hnd2 := List.nodup_cons.mp hnd
      have hlast : qlast (b :: rest2) ∈ b :: rest2 := qlast_mem _ (List.cons_ne_nil _ _)
      have hal : a ≠ qlast (b :: rest2) := fun e2 => hnd2.1 (e2 ▸ hlast)
      rw [show qlast (a :: b :: rest2) = qlast (b :: rest2) from rfl]
      refine ⟨e, ha, n, ?_, ?_⟩
      · show Function.update _ (qlast (b :: rest2)) _ a = _
        rw [Function.update_noteq hal, Function.update_noteq hat]
        exact hn1
      · exact ih _ (List.cons_ne_nil _ _) (fun hm => hnot (List.mem_cons_of_mem _ hm))
          hnd2.2 hq1

theorem payload_update_next (nodes : Nat → Option task_node_t) (l task a : Nat) :
    payload_at (Function.update nodes l ((nodes l).map (fun n => { n with next := task }))) a
      = payload_at nodes a := by
  unfold payload_at
  by_cases h : a = l
  · subst h
    rw [Function.update_same]
    cases nodes a with
    | none => rfl
    | some n => rfl
  · rw [Function.update_noteq h]

theorem payload_update_other (nodes : Nat → Option task_node_t) (task a : Nat)
    (v : Option task_node_t) (h : a ≠ task) :
    payload_at (Function.update nodes task v) a = payload_at nodes a := by
  unfold payload_at
  rw [Function.update_noteq h]

theorem getD_set_self (ws : List worker_pc) (w : Nat) (x : worker_pc) (hw : w < ws.length) :
    (ws.set w x).getD w worker_pc.exited = x := by
  rw [List.getD_eq_getElem?_getD, List.getElem?_set, if_pos rfl, if_pos hw]
  rfl

theorem getD_set_other (ws : List worker_pc) (w i : Nat) (x : worker_pc) (h : w ≠ i) :
    (ws.set w x).getD i worker_pc.exited = ws.getD i worker_pc.exited := by
  rw [List.getD_eq_getElem?_getD, List.getElem?_set, if_neg h, List.getD_eq_getElem?_getD]

theorem getD_set_running (ws : List worker_pc) (w i : Nat) (x : worker_pc) (a : Nat)
    (hx : x ≠ worker_pc.running a)
    (h : (ws.set w x).getD i worker_pc.exited = worker_pc.running a) :
    w ≠ i ∧ ws.getD i worker_pc.exited = worker_pc.running a := by
  by_cases e : w = i
  · subst e
    exfalso
    by_cases hw : w < ws.length
    · rw [getD_set_self ws w x hw] at h
      exact hx h
    · rw [List.set_eq_of_length_le (by omega)] at h
      have : w < ws.length := getD_lt_of_ne ws w (by rw [h]; simp)
      exact hw this
  · rw [getD_set_other ws w i x e] at h
    exact ⟨e, h⟩

theorem workers_ok_set (ws : List worker_pc) (nodes : Nat → Option task_node_t) (Q : List Nat)
    (w : Nat) (x : worker_pc) (hx : ∀ a, x ≠ worker_pc.running a) (h : workers_ok ws nodes Q) :
    workers_ok (ws.set w x) nodes Q := by
  refine ⟨?_, ?_⟩
  · intro i a hi
    exact h.1 i a (getD_set_running ws w i x a (hx a) hi).2
  · intro i j a hi hj
    exact h.2 i j a (getD_set_running ws w i x a (hx a) hi).2
      (getD_set_running ws w j x a (hx a) hj).2

theorem workers_ok_congr (ws : List worker_pc) (nodes nodes2 : Nat → Option task_node_t)
    (Q : List Nat) (hn : ∀ a, nodes a ≠ none → nodes2 a ≠ none) (h : workers_ok ws nodes Q) :
    workers_ok ws nodes2 Q :=
  ⟨fun w a hw => ⟨(h.1 w a hw).1, hn a (h.1 w a hw).2⟩, h.2⟩

theorem queue_inv_submit (nodes : Nat → Option task_node_t) (head tail tc qs : Nat)
    (ws : List worker_pc) (sub deq : List (Nat × Nat × Nat)) (Q : List Nat)
    (task : Nat) (node : task_node_t) (hnext : node.next = 0) (ht : task ≠ 0)
    (hfresh : nodes task = none) (hlt : tc < qs)
    (h : QueueInv nodes head tail tc qs ws sub deq Q) :
    QueueInv
      (if tail ≠ 0 then
        Function.update (Function.update nodes task (some node)) tail
          (((Function.update nodes task (some node)) tail).map
            (fun n => { n with next := task }))
       else Function.update nodes task (some node))
      (if tail ≠ 0 then head else task) task (size_add tc 1) qs ws
      (sub ++ [task_payload node]) deq (Q ++ [task]) := by
  obtain ⟨hq, hnd, htail, htc, hqs, hle, hsub, hw⟩ := h
  have hnot : task ∉ Q := fun hm => (qchain_mem nodes Q head hq task hm).2 hfresh
  have hadd : size_add tc 1 = tc + 1 := size_add_one tc qs hlt hqs
  have hpay : ∀ a ∈ Q, payload_at
      (if tail ≠ 0 then
        Function.update (Function.update nodes task (some node)) tail
          (((Function.update nodes task (some node)) tail).map
            (fun n => { n with next := task }))
       else Function.update nodes task (some node)) a = payload_at nodes a := by
    intro a ha
    have hat : a ≠ task := fun e => hnot (e ▸ ha)
    by_cases c : tail ≠ 0
    · rw [if_pos c, payload_update_next, payload_update_other _ _ _ _ hat]
    · rw [if_neg c, payload_update_other _ _ _ _ hat]
  have hpt : payload_at
      (if tail ≠ 0 then
        Function.update (Function.update nodes task (some node)) tail
          (((Function.update nodes task (some node)) tail).map
            (fun n => { n with next := task }))
       else Function.update nodes task (some node)) task = task_payload node := by
    by_cases c : tail ≠ 0
    · rw [if_pos c, payload_update_next]
      unfold payload_at
      rw [Function.update_same]
      rfl
    · rw [if_neg c]
      unfold payload_at
      rw [Function.update_same]
      rfl
  have hsome : ∀ a, nodes a ≠ none →
      (if tail ≠ 0 then
        Function.update (Function.update nodes task (some node)) tail
          (((Function.update nodes task (some node)) tail).map
            (fun n => { n with next := task }))
       else Function.update nodes task (some node)) a ≠ none := by
    intro a ha
    have hat : a ≠ task := fun e => ha (e ▸ hfresh)
    have h1 : Function.update nodes task (some node) a = nodes a := Function.update_noteq hat _ _
    by_cases c : tail ≠ 0
    · rw [if_pos c]
      by_cases e : a = tail
      · subst e
        rw [Function.update_same, h1]
        cases hn : nodes a with
        | none => exact absurd hn ha
        | some n => exact Option.some_ne_none _
      · rw [Function.update_noteq e, h1]
        exact ha
    · rw [if_neg c, h1]
      exact ha
  refine ⟨?_, ?_, (qlast_snoc Q task).symm, ?_, hqs, ?_, ?_, ?_⟩
  · cases hQ : Q with
    | nil =>
      rw [hQ] at htail hq
      have ht0 : tail = 0 := htail
      have c : ¬ tail ≠ 0 := fun c => c ht0
      rw [if_neg c, if_neg c]
      exact ⟨rfl, ht, node, Function.update_same _ _ _, hnext⟩
    | cons a rest =>
      have hne : Q ≠ [] := by rw [hQ]; exact List.cons_ne_nil _ _
      have c : tail ≠ 0 := by rw [htail]; exact qlast_ne_zero nodes head Q hq hne
      rw [if_pos c, if_pos c, ← hQ, htail]
      exact qchain_snoc nodes task node hnext ht Q head hne hnot hnd hq
  · rw [List.nodup_append]
    refine ⟨hnd, List.nodup_singleton _, ?_⟩
    intro a ha ha2
    rw [List.mem_singleton] at ha2
    exact hnot (ha2 ▸ ha)
  · rw [hadd, htc, List.length_append, List.length_singleton]
  · rw [hadd]
    omega
  · rw [List.map_append, List.map_singleton, hpt, List.map_congr_left hpay, hsub,
      List.append_assoc]
  · refine ⟨?_, hw.2⟩
    intro w a hwa
    obtain ⟨h1, h2⟩ := hw.1 w a hwa
    refine ⟨?_, hsome a h2⟩
    intro hm
    rcases List.mem_append.mp hm with hm | hm
    · exact h1 hm
    · rw [List.mem_singleton] at hm
      exact h2 (hm ▸ hfresh)

theorem queue_inv_dequeue (nodes : Nat → Option task_node_t) (head tail tc qs : Nat)
    (ws : List worker_pc) (sub deq : List (Nat × Nat × Nat)) (Q : List Nat) (w : Nat)
    (hidle : ws.getD w worker_pc.exited = worker_pc.idle) (hne : tc ≠ 0)
    (h : QueueInv nodes head tail tc qs ws sub deq Q) :
    QueueInv nodes (((nodes head).map (fun n => n.next)).getD 0)
      (if ((nodes head).map (fun n => n.next)).getD 0 = 0 then 0 else tail)
      (size_sub tc 1) qs (ws.set w (worker_pc.running head)) sub
      (deq ++ [payload_at nodes head]) Q.tail := by
  obtain ⟨hq, hnd, htail, htc, hqs, hle, hsub, hw⟩ := h
  have hwl : w < ws.length := getD_lt_of_ne ws w (by rw [hidle]; decide)
  have hsubc : size_sub tc 1 = tc - 1 := size_sub_one tc (Nat.pos_of_ne_zero hne) (by omega)
  cases Q with
  | nil => exact absurd htc hne
  | cons a rest =>
    obtain ⟨e, ha, n, hn1, hq1⟩ := hq
    subst e
    have hnd2 := List.nodup_cons.mp hnd
    have hhead : ((nodes head).map (fun n => n.next)).getD 0 = n.next := by
      rw [hn1]
      rfl
    rw [hhead]
    refine ⟨hq1, hnd2.2, ?_, ?_, hqs, ?_, ?_, ?_, ?_⟩
    · cases rest with
      | nil =>
        have h0 : n.next = 0 := hq1
        rw [if_pos h0]
        rfl
      | cons b rest2 =>
        have hb : n.next ≠ 0 := by
          obtain ⟨e2, hb, _⟩ := hq1
          rw [e2]
          exact hb
        rw [if_neg hb, htail]
        rfl
    · rw [hsubc, htc]
      rfl
    · rw [hsubc]
      omega
    · rw [hsub, List.append_assoc]
      rfl
    · intro i b hi
      by_cases e : w = i
      · subst e
        rw [getD_set_self ws w _ hwl] at hi
        have hb : head = b := worker_pc.running.inj hi
        subst hb
        refine ⟨hnd2.1, ?_⟩
        rw [hn1]
        exact Option.some_ne_none n
      · rw [getD_set_other ws w i _ e] at hi
        obtain ⟨h1, h2⟩ := hw.1 i b hi
        exact ⟨fun hm => h1 (List.mem_cons_of_mem _ hm), h2⟩
    · intro i j b hi hj
      by_cases e : w = i
      · by_cases e2 : w = j
        · rw [← e, ← e2]
        · exfalso
          subst e
          rw [getD_set_self ws w _ hwl] at hi
          have hb : head = b := worker_pc.running.inj hi
          subst hb
          rw [getD_set_other ws w j _ e2] at hj
          exact (hw.1 j head hj).1 (List.mem_cons_self _ _)
      · by_cases e2 : w = j
        · exfalso
          subst e2
          rw [getD_set_self ws w _ hwl] at hj
          have hb : head = b := worker_pc.running.inj hj
          subst hb
          rw [getD_set_other ws w i _ e] at hi
          exact (hw.1 i head hi).1 (List.mem_cons_self _ _)
        · rw [getD_set_other ws w i _ e] at hi
          rw [getD_set_other ws w j _ e2] at hj
          exact hw.2 i j b hi hj

theorem queue_inv_execute (nodes : Nat → Option task_node_t) (head tail tc qs : Nat)
    (ws : List worker_pc) (sub deq : List (Nat × Nat × Nat)) (Q : List Nat) (w task : Nat)
    (hrun : ws.getD w worker_pc.exited = worker_pc.running task)
    (h : QueueInv nodes head tail tc qs ws sub deq Q) :
    QueueInv (Function.update nodes task none) head tail tc qs (ws.set w worker_pc.done)
      sub deq Q := by
  obtain ⟨hq, hnd, htail, htc, hqs, hle, hsub, hw⟩ := h
  have hnot : task ∉ Q := (hw.1 w task hrun).1
  have hsame : ∀ a ∈ Q, Function.update nodes task none a = nodes a := by
    intro a ha
    have hat : a ≠ task := fun e => hnot (e ▸ ha)
    exact Function.update_noteq hat _ _
  refine ⟨qchain_congr nodes _ Q head hsame hq, hnd, htail, htc, hqs, hle, ?_, ?_, ?_⟩
  · rw [hsub]
    congr 1
    apply List.map_congr_left
    intro a ha
    exact (payload_update_other nodes task a none (fun e => hnot (e ▸ ha))).symm
  · intro i b hi
    obtain ⟨hwi, hib⟩ := getD_set_running ws w i worker_pc.done b (by simp) hi
    obtain ⟨h1, h2⟩ := hw.1 i b hib
    refine ⟨h1, ?_⟩
    have hbt : b ≠ task := by
      intro e
      subst e
      exact hwi (hw.2 w i b hrun hib)
    rw [Function.update_noteq hbt]
    exact h2
  · intro i j b hi hj
    exact hw.2 i j b (getD_set_running ws w i worker_pc.done b (by simp) hi).2
      (getD_set_running ws w j worker_pc.done b (by simp) hj).2

theorem queue_inv_workers (nodes : Nat → Option task_node_t) (head tail tc qs : Nat)
    (ws : List worker_pc) (sub deq : List (Nat × Nat × Nat)) (Q : List Nat) (w : Nat)
    (x : worker_pc) (hx : ∀ a, x ≠ worker_pc.running a)
    (h : QueueInv nodes head tail tc qs ws sub deq Q) :
    QueueInv nodes head tail tc qs (ws.set w x) sub deq Q := by
  obtain ⟨hq, hnd, htail, htc, hqs, hle, hsub, hw⟩ := h
  exact ⟨hq, hnd, htail, htc, hqs, hle, hsub, workers_ok_set ws nodes Q w x hx hw⟩

theorem update_fresh_none (nodes : Nat → Option task_node_t) (task : Nat)
    (v : Option task_node_t) (hfresh : nodes task = none) :
    Function.update (Function.update nodes task v) task none = nodes := by
  funext a
  by_cases e : a = task
  · subst e
    rw [Function.update_same, hfresh]
  · rw [Function.update_noteq e, Function.update_noteq e]

theorem submit_queue_spec (pool p2 : prts_thread_pool) (fn : Option Nat) (arg : Nat)
    (task_out : Bool) (malloc_task malloc_handle : Nat) (r : prts_result_t) (ho : Option Nat)
    (h : prts_threadpool_submit_wait pool fn arg task_out malloc_task malloc_handle
      = some (r, p2, ho)) :
    p2.queue_size = pool.queue_size ∧ p2.workers = pool.workers ∧
    ((r ≠ PRTS_OK ∧ p2.head = pool.head ∧ p2.tail = pool.tail ∧
        p2.task_count = pool.task_count ∧
        (p2.nodes = pool.nodes ∨ (malloc_task ≠ 0 ∧ ∃ v, p2.nodes =
          Function.update (Function.update pool.nodes malloc_task v) malloc_task none))) ∨
     (r = PRTS_OK ∧ malloc_task ≠ 0 ∧ pool.task_count < pool.queue_size ∧
      ∃ node : task_node_t, node.next = 0 ∧
        task_payload node = (fn.getD 0, arg, if task_out then malloc_handle else 0) ∧
        p2.tail = malloc_task ∧ p2.task_count = size_add pool.task_count 1 ∧
        p2.head = (if pool.tail ≠ 0 then pool.head else malloc_task) ∧
        p2.nodes =
          (if pool.tail ≠ 0 then
            Function.update (Function.update pool.nodes malloc_task (some node)) pool.tail
              (((Function.update pool.nodes malloc_task (some node)) pool.tail).map
                (fun n => { n with next := malloc_task }))
           else Function.update pool.nodes malloc_task (some node)))) := by
  unfold prts_threadpool_submit_wait at h
  cases fn with
  | none =>
    simp only [Option.some.injEq, Prod.mk.injEq] at h
    obtain ⟨rfl, rfl, _⟩ := h
    exact ⟨rfl, rfl, Or.inl ⟨by decide, rfl, rfl, rfl, Or.inl rfl⟩⟩
  | some f =>
    simp only at h
    by_cases c1 : malloc_task = 0
    · rw [if_pos c1] at h
      simp only [Option.some.injEq, Prod.mk.injEq] at h
      obtain ⟨rfl, rfl, _⟩ := h
      exact ⟨rfl, rfl, Or.inl ⟨by decide, rfl, rfl, rfl, Or.inl rfl⟩⟩
    · rw [if_neg c1] at h
      by_cases c2 : task_out = true ∧ malloc_handle = 0
      · rw [if_pos c2] at h
        simp only [Option.some.injEq, Prod.mk.injEq] at h
        obtain ⟨rfl, rfl, _⟩ := h
        exact ⟨rfl, rfl, Or.inl ⟨by decide, rfl, rfl, rfl, Or.inl rfl⟩⟩
      · rw [if_neg c2] at h
        by_cases c3 : pool.task_count ≥ pool.queue_size ∧ ¬ pool.shutdown = true
        · rw [if_pos c3] at h
          cases h
        · rw [if_neg c3] at h
          by_cases c4 : pool.shutdown = true
          · rw [if_pos c4] at h
            simp only [Option.some.injEq, Prod.mk.injEq] at h
            obtain ⟨rfl, rfl, _⟩ := h
            exact ⟨rfl, rfl, Or.inl ⟨by decide, rfl, rfl, rfl, Or.inr ⟨c1, _, rfl⟩⟩⟩
          · rw [if_neg c4] at h
            simp only [Option.some.injEq, Prod.mk.injEq] at h
            obtain ⟨rfl, rfl, _⟩ := h
            have hlt : pool.task_count < pool.queue_size := by
              by_contra hc
              exact c3 ⟨by omega, c4⟩
            refine ⟨?_, ?_, Or.inr ⟨rfl, c1, hlt,
              { fn := f, arg := arg, next := 0,
                wait_handle := if task_out = true then malloc_handle else 0 }, rfl, rfl,
              ?_, ?_, ?_, ?_⟩⟩
            all_goals
              by_cases c : pool.tail ≠ 0
              · simp only [if_pos c]
              · simp only [if_neg c]

theorem queue_inv_lit_dequeue (pool : prts_thread_pool) (sub deq : List (Nat × Nat × Nat))
    (res : List prts_result_t) (hd tl tc ac : Nat) (ws : List worker_pc) (Q : List Nat)
    (h : QueueInv pool.nodes hd tl tc pool.queue_size ws sub deq Q) :
    TpQueueInv
      { pool := { pool with head := hd, tail := tl, task_count := tc, active_count := ac,
                            workers := ws }
        submitted := sub, dequeued := deq, results := res } Q :=
  h

theorem queue_inv_lit_execute (pool : prts_thread_pool) (sub deq : List (Nat × Nat × Nat))
    (res : List prts_result_t) (ns : Nat → Option task_node_t) (hs : Nat → Option Bool)
    (ws : List worker_pc) (Q : List Nat)
    (h : QueueInv ns pool.head pool.tail pool.task_count pool.queue_size ws sub deq Q) :
    TpQueueInv
      { pool := { pool with handles := hs, nodes := ns, workers := ws }
        submitted := sub, dequeued := deq, results := res } Q :=
  h

theorem queue_inv_lit_finish (pool : prts_thread_pool) (sub deq : List (Nat × Nat × Nat))
    (res : List prts_result_t) (a cc : Nat) (ws : List worker_pc) (Q : List Nat)
    (h : QueueInv pool.nodes pool.head pool.tail pool.task_count pool.queue_size ws sub deq Q) :
    TpQueueInv
      { pool := { pool with active_count := a, completed_count := cc, workers := ws }
        submitted := sub, dequeued := deq, results := res } Q :=
  h

theorem queue_inv_lit_exit (pool : prts_thread_pool) (sub deq : List (Nat × Nat × Nat))
    (res : List prts_result_t) (ws : List worker_pc) (Q : List Nat)
    (h : QueueInv pool.nodes pool.head pool.tail pool.task_count pool.queue_size ws sub deq Q) :
    TpQueueInv
      { pool := { pool with workers := ws }
        submitted := sub, dequeued := deq, results := res } Q :=
  h

theorem queue_inv_lit_destroy (pool : prts_thread_pool) (sub deq : List (Nat × Nat × Nat))
    (res : List prts_result_t) (sd : Bool) (Q : List Nat)
    (h : QueueInv pool.nodes pool.head pool.tail pool.task_count pool.queue_size pool.workers
      sub deq Q) :
    TpQueueInv
      { pool := { pool with shutdown := sd }
        submitted := sub, dequeued := deq, results := res } Q :=
  h

theorem tp_step_queue (t t2 : TpTrace) (ev : TpEvent) (Q : List Nat)
    (h : tp_step t ev = some t2) (hinv : TpQueueInv t Q)
    (hfresh : ∀ fn arg task_out malloc_task malloc_handle,
      ev = TpEvent.submit fn arg task_out malloc_task malloc_handle →
      malloc_task ≠ 0 → t.pool.nodes malloc_task = none) :
    ∃ Q2, TpQueueInv t2 Q2 := by
  have hinv2 : QueueInv t.pool.nodes t.pool.head t.pool.tail t.pool.task_count
      t.pool.queue_size t.pool.workers t.submitted t.dequeued Q := hinv
  cases ev with
  | submit fn arg task_out malloc_task malloc_handle =>
    simp only [tp_step] at h
    cases hs : prts_threadpool_submit_wait t.pool fn arg task_out malloc_task malloc_handle with
    | none => rw [hs] at h; cases h
    | some r =>
      obtain ⟨r, pool, ho⟩ := r
      rw [hs] at h
      simp only [Option.some.injEq] at h
      subst h
      obtain ⟨e1, e2, e3⟩ := submit_queue_spec _ _ _ _ _ _ _ _ _ hs
      rcases e3 with ⟨hr, eh, et, ec, en⟩ | ⟨hr, c1, hlt, node, hnext, hpay, et, ec, eh, en⟩
      · refine ⟨Q, ?_⟩
        show QueueInv pool.nodes pool.head pool.tail pool.task_count pool.queue_size
          pool.workers (if r = PRTS_OK then _ else t.submitted) t.dequeued Q
        rw [if_neg hr, e1, e2, eh, et, ec]
        rcases en with en | ⟨c1, v, en⟩
        · rw [en]
          exact hinv2
        · rw [en, update_fresh_none _ _ _ (hfresh _ _ _ _ _ rfl c1)]
          exact hinv2
      · refine ⟨Q ++ [malloc_task], ?_⟩
        show QueueInv pool.nodes pool.head pool.tail pool.task_count pool.queue_size
          pool.workers (if r = PRTS_OK then _ else t.submitted) t.dequeued _
        rw [if_pos hr, e1, e2, eh, et, ec, en, ← hpay]
        exact queue_inv_submit _ _ _ _ _ _ _ _ _ _ node hnext c1 (hfresh _ _ _ _ _ rfl c1) hlt hinv2
  | dequeue w =>
    simp only [tp_step] at h
    cases hs : worker_dequeue t.pool w with
    | none => rw [hs] at h; cases h
    | some pool =>
      rw [hs] at h
      simp only [Option.some.injEq] at h
      subst h
      obtain ⟨hidle, hne, rfl⟩ := worker_dequeue_spec _ _ _ hs
      exact ⟨Q.tail, queue_inv_lit_dequeue t.pool t.submitted _ t.results _ _ _ _ _ _
        (queue_inv_dequeue _ _ _ _ _ _ _ _ Q w hidle hne hinv2)⟩
  | execute w =>
    simp only [tp_step] at h
    cases hs : worker_execute t.pool w with
    | none => rw [hs] at h; cases h
    | some pool =>
      rw [hs] at h
      simp only [Option.map_some', Option.some.injEq] at h
      subst h
      obtain ⟨task, hrun, rfl⟩ := worker_execute_spec _ _ _ hs
      exact ⟨Q, queue_inv_lit_execute t.pool t.submitted t.dequeued t.results _ _ _ _
        (queue_inv_execute _ _ _ _ _ _ _ _ Q w task hrun hinv2)⟩
  | finish w =>
    simp only [tp_step] at h
    cases hs : worker_finish t.pool w with
    | none => rw [hs] at h; cases h
    | some pool =>
      rw [hs] at h
      simp only [Option.map_some', Option.some.injEq] at h
      subst h
      obtain ⟨hdone, rfl⟩ := worker_finish_spec _ _ _ hs
      exact ⟨Q, queue_inv_lit_finish t.pool t.submitted t.dequeued t.results _ _ _ _
        (queue_inv_workers _ _ _ _ _ _ _ _ Q w worker_pc.idle (by simp) hinv2)⟩
  | exit w =>
    simp only [tp_step] at h
    cases hs : worker_exit t.pool w with
    | none => rw [hs] at h; cases h
    | some pool =>
      rw [hs] at h
      simp only [Option.map_some', Option.some.injEq] at h
      subst h
      obtain ⟨hidle, rfl⟩ := worker_exit_spec _ _ _ hs
      exact ⟨Q, queue_inv_lit_exit t.pool t.submitted t.dequeued t.results _ _
        (queue_inv_workers _ _ _ _ _ _ _ _ Q w worker_pc.exited (by simp) hinv2)⟩
  | destroy =>
    simp only [tp_step, Option.some.injEq] at h
    subst h
    exact ⟨Q, queue_inv_lit_destroy t.pool t.submitted t.dequeued t.results true Q hinv2⟩

theorem tp_run_count (evs : List TpEvent) : ∀ (t t2 : TpTrace) (c : Nat),
    tp_run t evs = some t2 → TpCountInv t c → ∃ c2, TpCountInv t2 c2 := by
  induction evs with
  | nil =>
    intro t t2 c h hinv
    simp only [tp_run, Option.some.injEq] at h
    subst h
    exact ⟨c, hinv⟩
  | cons ev rest ih =>
    intro t t2 c h hinv
    simp only [tp_run] at h
    cases hs : tp_step t ev with
    | none => rw [hs] at h; cases h
    | some t1 =>
      rw [hs] at h
      obtain ⟨c1, h1⟩ := tp_step_count t t1 ev c hs hinv
      exact ih t1 t2 c1 h h1

theorem tp_step_results (t t2 : TpTrace) (ev : TpEvent) (h : tp_step t ev = some t2)
    (hr : t.submitted.length = (t.results.filter (fun r => r = PRTS_OK)).length) :
    t2.submitted.length = (t2.results.filter (fun r => r = PRTS_OK)).length := by
  cases ev with
  | submit fn arg task_out malloc_task malloc_handle =>
    simp only [tp_step] at h
    cases hs : prts_threadpool_submit_wait t.pool fn arg task_out malloc_task malloc_handle with
    | none => rw [hs] at h; cases h
    | some r =>
      obtain ⟨r, pool, ho⟩ := r
      rw [hs] at h
      simp only [Option.some.injEq] at h
      subst h
      by_cases hok : r = PRTS_OK
      · simp [hok, hr]
      · simp [hok, hr]
  | dequeue w =>
    simp only [tp_step] at h
    cases hs : worker_dequeue t.pool w with
    | none => rw [hs] at h; cases h
    | some pool =>
      rw [hs] at h
      simp only [Option.some.injEq] at h
      subst h
      exact hr
  | execute w =>
    simp only [tp_step, Option.map_eq_some'] at h
    obtain ⟨p, _, rfl⟩ := h
    exact hr
  | finish w =>
    simp only [tp_step, Option.map_eq_some'] at h
    obtain ⟨p, _, rfl⟩ := h
    exact hr
  | exit w =>
    simp only [tp_step, Option.map_eq_some'] at h
    obtain ⟨p, _, rfl⟩ := h
    exact hr
  | destroy =>
    simp only [tp_step, Option.some.injEq] at h
    subst h
    exact hr

theorem tp_run_results (evs : List TpEvent) : ∀ (t t2 : TpTrace),
    tp_run t evs = some t2 →
    t.submitted.length = (t.results.filter (fun r => r = PRTS_OK)).length →
    t2.submitted.length = (t2.results.filter (fun r => r = PRTS_OK)).length := by
  induction evs with
  | nil =>
    intro t t2 h hr
    simp only [tp_run, Option.some.injEq] at h
    subst h
    exact hr
  | cons ev rest ih =>
    intro t t2 h hr
    simp only [tp_run] at h
    cases hs : tp_step t ev with
    | none => rw [hs] at h; cases h
    | some t1 =>
      rw [hs] at h
      exact ih t1 t2 h (tp_step_results t t1 ev hs hr)

theorem tp_create_fields (config : prts_threadpool_config_t) (pool_out calloc_pool : Bool)
    (nprocs : Nat) (calloc_threads : Bool) (threads_started : Nat)
    (nodes : Nat → Option task_node_t) (handles : Nat → Option Bool) (pool : prts_thread_pool)
    (hc : prts_threadpool_create (some config) pool_out calloc_pool nprocs calloc_threads
      threads_started nodes handles = (PRTS_OK, some pool)) :
    pool.task_count = 0 ∧ pool.active_count = 0 ∧ pool.completed_count = 0 ∧
    pool.head = 0 ∧ pool.tail = 0 ∧ pool.shutdown = false ∧ pool.nodes = nodes ∧
    pool.queue_size = (if config.queue_size > 0 then config.queue_size else 1024) ∧
    pool.workers = List.replicate
      (if config.num_threads = 0 then nprocs else config.num_threads) worker_pc.idle := by
  unfold prts_threadpool_create at hc
  dsimp only at hc
  by_cases c1 : (!pool_out) = true
  · rw [if_pos c1] at hc
    cases hc
  rw [if_neg c1] at hc
  by_cases c2 : (!calloc_pool) = true
  · rw [if_pos c2] at hc
    cases hc
  rw [if_neg c2] at hc
  by_cases c3 : (!calloc_threads) = true
  · rw [if_pos c3] at hc
    cases hc
  rw [if_neg c3] at hc
  by_cases c4 : threads_started < (if config.num_threads = 0 then nprocs else config.num_threads)
  · rw [if_pos c4] at hc
    cases hc
  rw [if_neg c4] at hc
  have hp := Option.some.inj (Prod.mk.inj hc).2
  subst hp
  exact ⟨rfl, rfl, rfl, rfl, rfl, rfl, rfl, rfl, rfl⟩

/-- C9: in every state reached from a pool built by `prts_threadpool_create` through any
sequence of submit calls and worker steps (dequeue, execute, finish, exit) and the start of a
destroy, the successful submits are the submit calls that returned `PRTS_OK`, and
`task_count + active_count + completed_count` equals their number; consequently, when
`task_count == 0` and `active_count == 0` (the condition on which `prts_threadpool_wait_all`
returns), `completed_count` equals the number of successful submits.  The number of successful
submits is below `2^64`, the range of the counters. -/
theorem threadpool_counters_sum (config : prts_threadpool_config_t) (pool_out calloc_pool : Bool)
    (nprocs : Nat) (calloc_threads : Bool) (threads_started : Nat)
    (nodes : Nat → Option task_node_t) (handles : Nat → Option Bool) (pool : prts_thread_pool)
    (events : List TpEvent) (t2 : TpTrace)
    (hc : prts_threadpool_create (some config) pool_out calloc_pool nprocs calloc_threads
      threads_started nodes handles = (PRTS_OK, some pool))
    (hsz : config.num_threads < SIZE_MOD ∧ config.queue_size < SIZE_MOD ∧ nprocs < SIZE_MOD)
    (hrun : tp_run (tp_fresh pool) events = some t2)
    (hn : t2.submitted.length < SIZE_MOD) :
    t2.submitted.length = (t2.results.filter (fun r => r = PRTS_OK)).length ∧
    t2.pool.task_count + t2.pool.active_count + t2.pool.completed_count
      = t2.submitted.length ∧
    (wait_all_returns t2.pool → t2.pool.completed_count = t2.submitted.length) := by
  obtain ⟨f1, f2, f3, _, _, _, _, f8, f9⟩ := tp_create_fields config pool_out calloc_pool nprocs
    calloc_threads threads_started nodes handles pool hc
  have hinv0 : TpCountInv (tp_fresh pool) 0 := by
    refine ⟨?_, ?_, ?_, ?_, ?_, ?_⟩
    · show pool.task_count + pool.active_count + 0 = 0
      omega
    · show pool.active_count = pool.workers.countP worker_active
      rw [f2, f9, List.countP_replicate]
      simp [worker_active]
    · show pool.completed_count = 0 % SIZE_MOD
      rw [f3]
      exact (Nat.zero_mod _).symm
    · show pool.queue_size < SIZE_MOD
      rw [f8]
      split_ifs
      · exact hsz.2.1
      · decide
    · show pool.workers.length < SIZE_MOD
      rw [f9, List.length_replicate]
      split_ifs
      · exact hsz.2.2
      · exact hsz.1
    · show pool.task_count ≤ pool.queue_size
      omega
  obtain ⟨c, h1, h2, h3, _, _, _⟩ := tp_run_count events _ t2 0 hrun hinv0
  have hres := tp_run_results events _ t2 hrun rfl
  have hcc : t2.pool.completed_count = c := by
    rw [h3]
    apply Nat.mod_eq_of_lt
    omega
  refine ⟨hres, by omega, ?_⟩
  intro hw
  unfold wait_all_returns at hw
  omega

theorem tp_run_queue (evs : List TpEvent) : ∀ (t t2 : TpTrace) (Q : List Nat),
    tp_run t evs = some t2 → tp_malloc_ok t evs = true → TpQueueInv t Q →
    ∃ Q2, TpQueueInv t2 Q2 := by
  induction evs with
  | nil =>
    intro t t2 Q h _ hinv
    simp only [tp_run, Option.some.injEq] at h
    subst h
    exact ⟨Q, hinv⟩
  | cons ev rest ih =>
    intro t t2 Q h hm hinv
    simp only [tp_run] at h
    simp only [tp_malloc_ok, Bool.and_eq_true] at hm
    obtain ⟨hm1, hm2⟩ := hm
    cases hs : tp_step t ev with
    | none => rw [hs] at h; cases h
    | some t1 =>
      rw [hs] at h hm2
      have hfresh : ∀ fn arg task_out malloc_task malloc_handle,
          ev = TpEvent.submit fn arg task_out malloc_task malloc_handle →
          malloc_task ≠ 0 → t.pool.nodes malloc_task = none := by
        intro fn arg task_out malloc_task malloc_handle e hne
        subst e
        simp only [Bool.or_eq_true, beq_iff_eq, Option.isNone_iff_eq_none] at hm1
        rcases hm1 with h0 | h1
        · exact absurd h0 hne
        · exact h1
      obtain ⟨Q1, h1⟩ := tp_step_queue t t1 ev Q hs hinv hfresh
      exact ih t1 t2 Q1 h hm2 h1

theorem getD_replicate_idle (n w : Nat) :
    (List.replicate n worker_pc.idle).getD w worker_pc.exited = worker_pc.idle ∨
    (List.replicate n worker_pc.idle).getD w worker_pc.exited = worker_pc.exited := by
  rw [List.getD_eq_getElem?_getD, List.getElem?_replicate]
  by_cases h : w < n
  · rw [if_pos h]
    exact Or.inl rfl
  · rw [if_neg h]
    exact Or.inr rfl

theorem workers_ok_replicate (n : Nat) (nodes : Nat → Option task_node_t) :
    workers_ok (List.replicate n worker_pc.idle) nodes [] := by
  refine ⟨?_, ?_⟩
  · intro w a h
    rcases getD_replicate_idle n w with e | e
    · rw [e] at h
      cases h
    · rw [e] at h
      cases h
  · intro w1 w2 a h _
    rcases getD_replicate_idle n w1 with e | e
    · rw [e] at h
      cases h
    · rw [e] at h
      cases h

/-- C10: tasks leave the queue of the thread pool in FIFO order.  In every state reached from a
pool built by `prts_threadpool_create` through any sequence of submit calls and worker steps
(with an allocator that never returns the address of a live task node), the tasks dequeued so
far are a prefix of the tasks successfully submitted so far: the `k`-th dequeued task is the
`k`-th successfully submitted task. -/
theorem threadpool_dequeue_fifo (config : prts_threadpool_config_t) (pool_out calloc_pool : Bool)
    (nprocs : Nat) (calloc_threads : Bool) (threads_started : Nat)
    (nodes : Nat → Option task_node_t) (handles : Nat → Option Bool) (pool : prts_thread_pool)
    (events : List TpEvent) (t2 : TpTrace)
    (hc : prts_threadpool_create (some config) pool_out calloc_pool nprocs calloc_threads
      threads_started nodes handles = (PRTS_OK, some pool))
    (hsz : config.queue_size < SIZE_MOD)
    (hm : tp_malloc_ok (tp_fresh pool) events = true)
    (hrun : tp_run (tp_fresh pool) events = some t2) :
    t2.dequeued <+: t2.submitted ∧
    ∀ k, k < t2.dequeued.length → t2.dequeued[k]? = t2.submitted[k]? := by
  obtain ⟨f1, _, _, f4, f5, _, _, f8, f9⟩ := tp_create_fields config pool_out calloc_pool nprocs
    calloc_threads threads_started nodes handles pool hc
  have hinv0 : TpQueueInv (tp_fresh pool) [] := by
    refine ⟨?_, List.nodup_nil, ?_, ?_, ?_, ?_, ?_, ?_⟩
    · exact f4
    · exact f5
    · exact f1
    · show pool.queue_size < SIZE_MOD
      rw [f8]
      split_ifs
      · exact hsz
      · decide
    · show pool.task_count ≤ pool.queue_size
      omega
    · rfl
    · show workers_ok pool.workers pool.nodes []
      rw [f9]
      exact workers_ok_replicate _ _
  obtain ⟨Q, _, _, _, _, _, _, hsub, _⟩ := tp_run_queue events _ t2 [] hrun hm hinv0
  refine ⟨⟨_, hsub.symm⟩, ?_⟩
  intro k hk
  rw [hsub, List.getElem?_append_left hk]

/-- The quiet scenario for C9: of three submit calls two succeed, both tasks are run to
completion, and the wait loop of `prts_threadpool_wait_all` ends with `completed_count = 2`. -/
theorem threadpool_counters_sum_witness :
    prts_threadpool_create (some tp_cfg) true true 8 true 2 (fun _ => none) (fun _ => none)
      = (PRTS_OK, some tp_created) ∧
    tp_run (tp_fresh tp_created) tp_quiet_scenario = some tp_quiet_end ∧
    tp_quiet_end.results = [PRTS_OK, PRTS_ERROR_INVALID, PRTS_OK] ∧
    tp_quiet_end.submitted.length = 2 ∧
    wait_all_returns tp_quiet_end.pool ∧
    tp_quiet_end.pool.task_count + tp_quiet_end.pool.active_count
      + tp_quiet_end.pool.completed_count = tp_quiet_end.submitted.length ∧
    tp_quiet_end.pool.completed_count = tp_quiet_end.submitted.length :=
  have hw : wait_all_returns tp_quiet_end.pool := by
    show ¬ (tp_quiet_end.pool.task_count > 0 ∨ tp_quiet_end.pool.active_count > 0)
    decide
  have h := threadpool_counters_sum tp_cfg true true 8 true 2 (fun _ => none) (fun _ => none)
    tp_created tp_quiet_scenario tp_quiet_end rfl (by decide) rfl (by decide)
  ⟨rfl, rfl, rfl, rfl, hw, h.2.1, h.2.2 hw⟩

/-- The FIFO scenario for C10: four tasks are submitted, three are dequeued by two workers in
the order of their submission, the fourth still waits in the queue. -/
theorem threadpool_dequeue_fifo_witness :
    prts_threadpool_create (some tp_cfg) true true 8 true 2 (fun _ => none) (fun _ => none)
      = (PRTS_OK, some tp_created) ∧
    tp_malloc_ok (tp_fresh tp_created) tp_fifo_scenario = true ∧
    tp_run (tp_fresh tp_created) tp_fifo_scenario = some tp_fifo_end ∧
    tp_fifo_end.submitted = [(7, 1, 0), (8, 2, 0), (9, 3, 0), (7, 4, 0)] ∧
    tp_fifo_end.dequeued = [(7, 1, 0), (8, 2, 0), (9, 3, 0)] ∧
    tp_fifo_end.dequeued <+: tp_fifo_end.submitted ∧
    ∀ k, k < tp_fifo_end.dequeued.length →
      tp_fifo_end.dequeued[k]? = tp_fifo_end.submitted[k]? :=
  have h := threadpool_dequeue_fifo tp_cfg true true 8 true 2 (fun _ => none) (fun _ => none)
    tp_created tp_fifo_scenario tp_fifo_end rfl (by decide) rfl rfl
  ⟨rfl, rfl, rfl, rfl, rfl, h.1, h.2⟩

/-! ## Ring buffer: indices, rounding, result codes -/

theorem size_sub_pow (k : Nat) (hk : k ≤ 63) : size_sub (2 ^ k) 1 = 2 ^ k - 1 := by
  have hp : 2 ^ k ≤ 2 ^ 63 := Nat.pow_le_pow_right (by decide) hk
  have hpos : 0 < 2 ^ k := Nat.two_pow_pos k
  unfold size_sub SIZE_MOD
  have : 2 ^ k + 2 ^ 64 - 1 = (2 ^ k - 1) + 2 ^ 64 := by omega
  rw [this, Nat.add_mod_right]
  apply Nat.mod_eq_of_lt
  omega

theorem ring_mask_sub (k h t : Nat) (hk : k ≤ 63) (ht : t < 2 ^ k) :
    size_sub h t &&& size_sub (2 ^ k) 1 = (h + 2 ^ k - t) % 2 ^ k := by
  have hp : 2 ^ k ≤ 2 ^ 63 := Nat.pow_le_pow_right (by decide) hk
  rw [size_sub_pow k hk, Nat.and_pow_two_sub_one_eq_mod]
  unfold size_sub SIZE_MOD
  have hdvd : 2 ^ k ∣ 2 ^ 64 := Nat.pow_dvd_pow 2 (by omega)
  rw [Nat.mod_mod_of_dvd _ hdvd]
  obtain ⟨q, hq⟩ := hdvd
  have hq1 : 1 ≤ q := by
    rcases Nat.eq_zero_or_pos q with h0 | h0
    · rw [h0] at hq
      simp at hq
    · exact h0
  obtain ⟨q2, rfl⟩ : ∃ q2, q = q2 + 1 := ⟨q - 1, by omega⟩
  rw [Nat.mul_succ] at hq
  have e : h + 2 ^ 64 - t = (h + 2 ^ k - t) + 2 ^ k * q2 := by
    rw [hq]
    generalize 2 ^ k * q2 = m
    generalize 2 ^ k = p at ht ⊢
    omega
  rw [e, Nat.add_mul_mod_self_left]

theorem ring_size_eq (k h t : Nat) (hk : k ≤ 63) (hh : h < 2 ^ k) (ht : t < 2 ^ k) :
    size_sub h t &&& size_sub (2 ^ k) 1 = if t ≤ h then h - t else h + 2 ^ k - t := by
  rw [ring_mask_sub k h t hk ht]
  by_cases c : t ≤ h
  · rw [if_pos c]
    have : h + 2 ^ k - t = (h - t) + 2 ^ k := by omega
    rw [this, Nat.add_mod_right]
    exact Nat.mod_eq_of_lt (by omega)
  · rw [if_neg c]
    exact Nat.mod_eq_of_lt (by omega)

theorem ring_next_eq (k x : Nat) (hk : k ≤ 63) (hx : x < 2 ^ k) :
    size_add x 1 &&& size_sub (2 ^ k) 1 = if x + 1 = 2 ^ k then 0 else x + 1 := by
  rw [ring_mask k x hk hx]
  by_cases c : x + 1 = 2 ^ k
  · rw [if_pos c, c]
    exact Nat.mod_self _
  · rw [if_neg c]
    exact Nat.mod_eq_of_lt (by omega)

theorem ring_create_idx (fuel c es : Nat) (bo m1 m2 : Bool) (raw : Nat → Nat)
    (b : prts_ring_buffer)
    (hc : prts_ringbuf_create fuel c es bo m1 m2 raw = some (PRTS_OK, some b)) :
    RingIdx b := by
  unfold prts_ringbuf_create at hc
  split at hc
  · cases hc
  · split at hc
    · cases hc
    · rename_i r hr
      split at hc
      · cases hc
      · split at hc
        · cases hc
        · simp only [Option.some.injEq, Prod.mk.injEq, true_and] at hc
          subst hc
          obtain ⟨k, hk, rfl⟩ := round_capacity_pow fuel 0 c r (by decide) hr
          exact ⟨k, hk, rfl, Nat.two_pow_pos k, Nat.two_pow_pos k⟩

theorem ring_push_idx (buf : prts_ring_buffer) (element : Option (List Nat))
    (h : RingIdx buf) : RingIdx (prts_ringbuf_push buf element).2 := by
  obtain ⟨k, hk, hcap, hh, ht⟩ := h
  unfold prts_ringbuf_push
  cases element with
  | none => exact ⟨k, hk, hcap, hh, ht⟩
  | some e =>
    simp only
    split
    · exact ⟨k, hk, hcap, hh, ht⟩
    · refine ⟨k, hk, hcap, ?_, ht⟩
      show size_add buf.head 1 &&& size_sub buf.capacity 1 < buf.capacity
      rw [hcap] at hh ⊢
      rw [ring_mask k _ hk hh]
      exact Nat.mod_lt _ (Nat.two_pow_pos k)

theorem ring_pop_idx (buf : prts_ring_buffer) (element_out : Bool)
    (h : RingIdx buf) : RingIdx (prts_ringbuf_pop buf element_out).2.2 := by
  obtain ⟨k, hk, hcap, hh, ht⟩ := h
  unfold prts_ringbuf_pop
  split
  · exact ⟨k, hk, hcap, hh, ht⟩
  · simp only
    split
    · exact ⟨k, hk, hcap, hh, ht⟩
    · refine ⟨k, hk, hcap, hh, ?_⟩
      show size_add buf.tail 1 &&& size_sub buf.capacity 1 < buf.capacity
      rw [hcap] at ht ⊢
      rw [ring_mask k _ hk ht]
      exact Nat.mod_lt _ (Nat.two_pow_pos k)

theorem ring_step_idx (t : RingTrace) (op : RingOp) (h : RingIdx t.buf) :
    RingIdx (ring_step t op).buf := by
  cases op with
  | push element => exact ring_push_idx t.buf element h
  | pop element_out => exact ring_pop_idx t.buf element_out h

theorem ring_foldl_idx (ops : List RingOp) : ∀ (t : RingTrace), RingIdx t.buf →
    RingIdx (ops.foldl ring_step t).buf := by
  induction ops with
  | nil => intro t h; exact h
  | cons op rest ih =>
    intro t h
    exact ih _ (ring_step_idx t op h)

theorem ring_run_idx (fuel c es : Nat) (bo m1 m2 : Bool) (raw : Nat → Nat)
    (b : prts_ring_buffer) (ops : List RingOp)
    (hc : prts_ringbuf_create fuel c es bo m1 m2 raw = some (PRTS_OK, some b)) :
    RingIdx (ring_run b ops).buf :=
  ring_foldl_idx ops _ (ring_create_idx fuel c es bo m1 m2 raw b hc)

theorem ring_idx_empty_full (buf : prts_ring_buffer) (h : RingIdx buf) :
    1 ≤ buf.capacity ∧
    (prts_ringbuf_empty buf = true ↔ prts_ringbuf_size buf = 0) ∧
    (prts_ringbuf_full buf = true ↔ prts_ringbuf_size buf = buf.capacity - 1) := by
  obtain ⟨k, hk, hcap, hh, ht⟩ := h
  have hpos : 0 < 2 ^ k := Nat.two_pow_pos k
  unfold prts_ringbuf_empty prts_ringbuf_full prts_ringbuf_size
  rw [hcap] at hh ht ⊢
  rw [ring_size_eq k _ _ hk hh ht, ring_next_eq k _ hk hh, decide_eq_true_iff,
    decide_eq_true_iff]
  generalize 2 ^ k = p at hh ht hpos ⊢
  refine ⟨hpos, ?_, ?_⟩
  · split_ifs <;> omega
  · split_ifs <;> omega

theorem ring_idx_push (buf : prts_ring_buffer) (e : List Nat) (h : RingIdx buf) :
    ((prts_ringbuf_push buf (some e)).1 = PRTS_ERROR_FULL ↔
      (buf.head + 1) % buf.capacity = buf.tail) ∧
    ((prts_ringbuf_push buf (some e)).1 = PRTS_ERROR_FULL →
      (prts_ringbuf_push buf (some e)).2 = buf) ∧
    ((prts_ringbuf_push buf (some e)).1 ≠ PRTS_ERROR_FULL →
      (prts_ringbuf_push buf (some e)).1 = PRTS_OK ∧
      (prts_ringbuf_push buf (some e)).2.head = (buf.head + 1) % buf.capacity ∧
      (prts_ringbuf_push buf (some e)).2.tail = buf.tail ∧
      (prts_ringbuf_push buf (some e)).2.capacity = buf.capacity ∧
      (prts_ringbuf_push buf (some e)).2.element_size = buf.element_size) := by
  obtain ⟨k, hk, hcap, hh, ht⟩ := h
  have hm : size_add buf.head 1 &&& size_sub buf.capacity 1 = (buf.head + 1) % buf.capacity := by
    rw [hcap] at hh ⊢
    exact ring_mask k _ hk hh
  unfold prts_ringbuf_push
  simp only [hm]
  by_cases c : (buf.head + 1) % buf.capacity = buf.tail
  · rw [if_pos c]
    exact ⟨⟨fun _ => c, fun _ => rfl⟩, fun _ => rfl, fun hne => absurd rfl hne⟩
  · rw [if_neg c]
    refine ⟨⟨fun hf => ?_, fun hc => absurd hc c⟩, fun hf => ?_, fun _ => ⟨rfl, rfl, rfl, rfl, rfl⟩⟩
    · cases hf
    · cases hf

theorem ring_idx_pop (buf : prts_ring_buffer) (h : RingIdx buf) :
    ((prts_ringbuf_pop buf true).1 = PRTS_ERROR_EMPTY ↔ buf.head = buf.tail) ∧
    ((prts_ringbuf_pop buf true).1 = PRTS_ERROR_EMPTY →
      (prts_ringbuf_pop buf true).2.2 = buf ∧ (prts_ringbuf_pop buf true).2.1 = none) ∧
    ((prts_ringbuf_pop buf true).1 ≠ PRTS_ERROR_EMPTY →
      (prts_ringbuf_pop buf true).1 = PRTS_OK ∧
      (prts_ringbuf_pop buf true).2.2.tail = (buf.tail + 1) % buf.capacity ∧
      (prts_ringbuf_pop buf true).2.2.head = buf.head ∧
      (prts_ringbuf_pop buf true).2.2.buffer = buf.buffer ∧
      (prts_ringbuf_pop buf true).2.2.capacity = buf.capacity ∧
      (prts_ringbuf_pop buf true).2.2.element_size = buf.element_size) := by
  obtain ⟨k, hk, hcap, hh, ht⟩ := h
  have hm : size_add buf.tail 1 &&& size_sub buf.capacity 1 = (buf.tail + 1) % buf.capacity := by
    rw [hcap] at ht ⊢
    exact ring_mask k _ hk ht
  unfold prts_ringbuf_pop
  simp only [Bool.not_true, Bool.false_eq_true, if_false, hm]
  by_cases c : buf.tail = buf.head
  · rw [if_pos c]
    exact ⟨⟨fun _ => c.symm, fun _ => rfl⟩, fun _ => ⟨rfl, rfl⟩, fun hne => absurd rfl hne⟩
  · rw [if_neg c]
    refine ⟨⟨fun hf => ?_, fun hc => absurd hc.symm c⟩, fun hf => ?_,
      fun _ => ⟨rfl, rfl, rfl, rfl, rfl, rfl⟩⟩
    · cases hf
    · cases hf

/-- C11: in every ring-buffer state reached from `prts_ringbuf_create` by push and pop calls,
`head` and `tail` are below the capacity, `prts_ringbuf_empty` is true iff `prts_ringbuf_size`
is 0, and `prts_ringbuf_full` is true iff `prts_ringbuf_size` equals `capacity - 1`, the size
being `(head - tail) & (capacity - 1)`. -/
theorem ringbuf_empty_full_size (fuel c es : Nat) (buf_out m1 m2 : Bool) (raw : Nat → Nat)
    (b : prts_ring_buffer) (ops : List RingOp)
    (hc : prts_ringbuf_create fuel c es buf_out m1 m2 raw = some (PRTS_OK, some b)) :
    (ring_run b ops).buf.head < (ring_run b ops).buf.capacity ∧
    (ring_run b ops).buf.tail < (ring_run b ops).buf.capacity ∧
    1 ≤ (ring_run b ops).buf.capacity ∧
    (prts_ringbuf_empty (ring_run b ops).buf = true ↔
      prts_ringbuf_size (ring_run b ops).buf = 0) ∧
    (prts_ringbuf_full (ring_run b ops).buf = true ↔
      prts_ringbuf_size (ring_run b ops).buf = (ring_run b ops).buf.capacity - 1) := by
  have hidx := ring_run_idx fuel c es buf_out m1 m2 raw b ops hc
  obtain ⟨k, _, _, hh, ht⟩ := hidx
  exact ⟨hh, ht, ring_idx_empty_full _ (ring_run_idx fuel c es buf_out m1 m2 raw b ops hc)⟩

/-- C13: in every ring-buffer state reached from `prts_ringbuf_create` by push and pop calls,
`prts_ringbuf_push` (of a non-null element) returns full exactly when
`(head + 1) mod capacity == tail` and `prts_ringbuf_pop` (into a non-null output) returns empty
exactly when `head == tail`; a push that returns full and a pop that returns empty leave the
whole buffer unchanged; any other push returns ok, sets `head` to `(head + 1) mod capacity` and
keeps `tail`, any other pop returns ok, sets `tail` to `(tail + 1) mod capacity` and keeps `head`
and the stored bytes. -/
theorem ringbuf_full_empty_results (fuel c es : Nat) (buf_out m1 m2 : Bool) (raw : Nat → Nat)
    (b : prts_ring_buffer) (ops : List RingOp) (e : List Nat)
    (hc : prts_ringbuf_create fuel c es buf_out m1 m2 raw = some (PRTS_OK, some b)) :
    (((prts_ringbuf_push (ring_run b ops).buf (some e)).1 = PRTS_ERROR_FULL ↔
        ((ring_run b ops).buf.head + 1) % (ring_run b ops).buf.capacity
          = (ring_run b ops).buf.tail) ∧
      ((prts_ringbuf_push (ring_run b ops).buf (some e)).1 = PRTS_ERROR_FULL →
        (prts_ringbuf_push (ring_run b ops).buf (some e)).2 = (ring_run b ops).buf) ∧
      ((prts_ringbuf_push (ring_run b ops).buf (some e)).1 ≠ PRTS_ERROR_FULL →
        (prts_ringbuf_push (ring_run b ops).buf (some e)).1 = PRTS_OK ∧
        (prts_ringbuf_push (ring_run b ops).buf (some e)).2.head
          = ((ring_run b ops).buf.head + 1) % (ring_run b ops).buf.capacity ∧
        (prts_ringbuf_push (ring_run b ops).buf (some e)).2.tail = (ring_run b ops).buf.tail ∧
        (prts_ringbuf_push (ring_run b ops).buf (some e)).2.capacity
          = (ring_run b ops).buf.capacity ∧
        (prts_ringbuf_push (ring_run b ops).buf (some e)).2.element_size
          = (ring_run b ops).buf.element_size)) ∧
    (((prts_ringbuf_pop (ring_run b ops).buf true).1 = PRTS_ERROR_EMPTY ↔
        (ring_run b ops).buf.head = (ring_run b ops).buf.tail) ∧
      ((prts_ringbuf_pop (ring_run b ops).buf true).1 = PRTS_ERROR_EMPTY →
        (prts_ringbuf_pop (ring_run b ops).buf true).2.2 = (ring_run b ops).buf ∧
        (prts_ringbuf_pop (ring_run b ops).buf true).2.1 = none) ∧
      ((prts_ringbuf_pop (ring_run b ops).buf true).1 ≠ PRTS_ERROR_EMPTY →
        (prts_ringbuf_pop (ring_run b ops).buf true).1 = PRTS_OK ∧
        (prts_ringbuf_pop (ring_run b ops).buf true).2.2.tail
          = ((ring_run b ops).buf.tail + 1) % (ring_run b ops).buf.capacity ∧
        (prts_ringbuf_pop (ring_run b ops).buf true).2.2.head = (ring_run b ops).buf.head ∧
        (prts_ringbuf_pop (ring_run b ops).buf true).2.2.buffer = (ring_run b ops).buf.buffer ∧
        (prts_ringbuf_pop (ring_run b ops).buf true).2.2.capacity
          = (ring_run b ops).buf.capacity ∧
        (prts_ringbuf_pop (ring_run b ops).buf true).2.2.element_size
          = (ring_run b ops).buf.element_size)) :=
  ⟨ring_idx_push _ e (ring_run_idx fuel c es buf_out m1 m2 raw b ops hc),
   ring_idx_pop _ (ring_run_idx fuel c es buf_out m1 m2 raw b ops hc)⟩

theorem shift_pow (j : Nat) (hj : j < 63) : (2 ^ j <<< 1) % SIZE_MOD = 2 ^ (j + 1) := by
  rw [Nat.shiftLeft_eq, ← Nat.pow_succ]
  apply Nat.mod_eq_of_lt
  unfold SIZE_MOD
  exact Nat.pow_lt_pow_right (by decide) (by omega)

theorem round_capacity_spec (fuel : Nat) : ∀ (j c : Nat), j ≤ 63 → c ≤ 2 ^ 63 →
    63 - j < fuel →
    ∃ k, j ≤ k ∧ k ≤ 63 ∧ round_capacity fuel (2 ^ j) c = some (2 ^ k) ∧ c ≤ 2 ^ k ∧
      (k = j ∨ 2 ^ (k - 1) < c) := by
  induction fuel with
  | zero => intro j c _ _ hf; omega
  | succ n ih =>
    intro j c hj hc hf
    simp only [round_capacity]
    by_cases hlt : 2 ^ j < c
    · rw [if_pos hlt]
      have hj63 : j < 63 := by
        by_contra hge
        have : j = 63 := by omega
        subst this
        omega
      rw [shift_pow j hj63]
      obtain ⟨k, hjk, hk, hr, hck, hmin⟩ := ih (j + 1) c (by omega) hc (by omega)
      refine ⟨k, by omega, hk, hr, hck, Or.inr ?_⟩
      rcases hmin with e | h
      · subst e
        exact hlt
      · exact h
    · rw [if_neg hlt]
      exact ⟨j, le_refl j, hj, rfl, by omega, Or.inl rfl⟩

theorem round_capacity_diverges (fuel : Nat) : ∀ (j : Nat), j ≤ 63 →
    round_capacity fuel (2 ^ j) (2 ^ 63 + 1) = none := by
  induction fuel with
  | zero => intro j _; rfl
  | succ n ih =>
    intro j hj
    have hlt : 2 ^ j < 2 ^ 63 + 1 :=
      Nat.lt_succ_of_le (Nat.pow_le_pow_right (by decide) hj)
    simp only [round_capacity]
    rw [if_pos hlt]
    by_cases hj63 : j = 63
    · subst hj63
      have h0 : (2 ^ 63 <<< 1) % SIZE_MOD = 0 := by decide
      rw [h0]
      exact round_capacity_zero n _ (by decide)
    · rw [shift_pow j (by omega)]
      exact ih (j + 1) (by omega)

/-- C12 (amended): for every requested capacity `1 <= c <= 2^63` and every `element_size >= 1`
the rounding loop of `prts_ringbuf_create` exits (within 65 iterations) and, the allocations
succeeding, create returns ok with head and tail 0 and a stored capacity that is the smallest
power of two `>= c`; create returns invalid when `c == 0` or `element_size == 0`. -/
theorem ringbuf_create_rounds (fuel c es : Nat) (raw : Nat → Nat)
    (hc1 : 1 ≤ c) (hc : c ≤ 2 ^ 63) (hes : 1 ≤ es) (hf : 64 < fuel) :
    (∃ k, k ≤ 63 ∧ c ≤ 2 ^ k ∧ (∀ j, c ≤ 2 ^ j → 2 ^ k ≤ 2 ^ j) ∧
      round_capacity fuel 1 c = some (2 ^ k) ∧
      prts_ringbuf_create fuel c es true true true raw =
        some (PRTS_OK, some
          { buffer := (List.range (size_mul (2 ^ k) es)).map raw
            capacity := 2 ^ k
            element_size := es
            head := 0
            tail := 0 })) ∧
    (∀ fuel2 bo ma mb, prts_ringbuf_create fuel2 0 es bo ma mb raw
      = some (PRTS_ERROR_INVALID, none)) ∧
    (∀ fuel2 bo ma mb, prts_ringbuf_create fuel2 c 0 bo ma mb raw
      = some (PRTS_ERROR_INVALID, none)) := by
  refine ⟨?_, ?_, ?_⟩
  · obtain ⟨k, _, hk, hr, hck, hmin⟩ := round_capacity_spec fuel 0 c (by decide) hc (by omega)
    have hr1 : round_capacity fuel 1 c = some (2 ^ k) := hr
    refine ⟨k, hk, hck, ?_, hr1, ?_⟩
    · intro j hj
      apply Nat.pow_le_pow_right (by decide)
      rcases hmin with e | h
      · omega
      · by_contra hlt
        have hle : j ≤ k - 1 := by omega
        have : 2 ^ j ≤ 2 ^ (k - 1) := Nat.pow_le_pow_right (by decide) hle
        omega
    · unfold prts_ringbuf_create
      have h1 : c ≠ 0 := by omega
      have h2 : es ≠ 0 := by omega
      simp only [Bool.not_true, Bool.false_or, decide_eq_true_eq, Bool.or_eq_true, h1, h2,
        or_self, if_false, hr1, Bool.false_eq_true]
  · intro fuel2 bo ma mb
    unfold prts_ringbuf_create
    simp
  · intro fuel2 bo ma mb
    unfold prts_ringbuf_create
    simp

/-- Counterexample to C12 as stated: for the requested capacity `2^63 + 1` the rounding loop
never exits (`actual_capacity` wraps to 0 after `2^63`), so `prts_ringbuf_create` produces no
result, whatever the number of iterations allowed. -/
theorem ringbuf_create_overflow_counterexample :
    1 ≤ 2 ^ 63 + 1 ∧ 2 ^ 63 + 1 < SIZE_MOD ∧
    ¬ ∃ fuel r, prts_ringbuf_create fuel (2 ^ 63 + 1) 1 true true true (fun _ => 0) = some r := by
  refine ⟨by decide, by decide, ?_⟩
  rintro ⟨fuel, r, h⟩
  unfold prts_ringbuf_create at h
  have hd : round_capacity fuel 1 (2 ^ 63 + 1) = none := round_capacity_diverges fuel 0 (by decide)
  simp only [Bool.not_true, Bool.false_or, Bool.or_eq_true, decide_eq_true_eq] at h
  rw [if_neg (by decide), hd] at h
  cases h

/-- Requested capacity 3 is stored as 4, 4 as 4, 1 as 1; capacity 0 and element size 0 are
invalid. -/
theorem ringbuf_create_rounds_witness :
    (1 ≤ 3 ∧ 3 ≤ 2 ^ 63 ∧ 1 ≤ 4 ∧ 64 < 65) ∧
    round_capacity 65 1 3 = some 4 ∧ round_capacity 65 1 4 = some 4 ∧
    round_capacity 65 1 1 = some 1 ∧
    ((∃ k, k ≤ 63 ∧ 3 ≤ 2 ^ k ∧ (∀ j, 3 ≤ 2 ^ j → 2 ^ k ≤ 2 ^ j) ∧
      round_capacity 65 1 3 = some (2 ^ k) ∧
      prts_ringbuf_create 65 3 4 true true true (fun _ => 0) =
        some (PRTS_OK, some
          { buffer := (List.range (size_mul (2 ^ k) 4)).map (fun _ => 0)
            capacity := 2 ^ k
            element_size := 4
            head := 0
            tail := 0 })) ∧
    (∀ fuel2 bo ma mb, prts_ringbuf_create fuel2 0 4 bo ma mb (fun _ => 0)
      = some (PRTS_ERROR_INVALID, none)) ∧
    (∀ fuel2 bo ma mb, prts_ringbuf_create fuel2 3 0 bo ma mb (fun _ => 0)
      = some (PRTS_ERROR_INVALID, none))) :=
  ⟨⟨by decide, by decide, by decide, by decide⟩, by decide, by decide, by decide,
    ringbuf_create_rounds 65 3 4 (fun _ => 0) (by decide) (by decide) (by decide) (by decide)⟩

/-- The full buffer for C11: after three pushes into capacity four the size is 3, the buffer is
full and not empty. -/
theorem ringbuf_empty_full_size_witness :
    prts_ringbuf_create 65 3 4 true true true (fun _ => 0) = some (PRTS_OK, some ring_fresh) ∧
    prts_ringbuf_size (ring_run ring_fresh ring_three_pushes).buf = 3 ∧
    prts_ringbuf_full (ring_run ring_fresh ring_three_pushes).buf = true ∧
    prts_ringbuf_empty (ring_run ring_fresh ring_three_pushes).buf = false ∧
    ((ring_run ring_fresh ring_three_pushes).buf.head
        < (ring_run ring_fresh ring_three_pushes).buf.capacity ∧
      (ring_run ring_fresh ring_three_pushes).buf.tail
        < (ring_run ring_fresh ring_three_pushes).buf.capacity ∧
      1 ≤ (ring_run ring_fresh ring_three_pushes).buf.capacity ∧
      (prts_ringbuf_empty (ring_run ring_fresh ring_three_pushes).buf = true ↔
        prts_ringbuf_size (ring_run ring_fresh ring_three_pushes).buf = 0) ∧
      (prts_ringbuf_full (ring_run ring_fresh ring_three_pushes).buf = true ↔
        prts_ringbuf_size (ring_run ring_fresh ring_three_pushes).buf
          = (ring_run ring_fresh ring_three_pushes).buf.capacity - 1)) :=
  ⟨by decide, by decide, by decide, by decide,
    ringbuf_empty_full_size 65 3 4 true true true (fun _ => 0) ring_fresh ring_three_pushes
      (by decide)⟩

/-- The full buffer for C13: a fourth push into capacity four returns full and changes nothing,
a pop from the same state returns ok. -/
theorem ringbuf_full_empty_results_witness :
    prts_ringbuf_create 65 3 4 true true true (fun _ => 0) = some (PRTS_OK, some ring_fresh) ∧
    (prts_ringbuf_push (ring_run ring_fresh ring_three_pushes).buf (some (le32 4))).1
      = PRTS_ERROR_FULL ∧
    (prts_ringbuf_pop (ring_run ring_fresh ring_three_pushes).buf true).1 = PRTS_OK ∧
    (prts_ringbuf_pop ring_fresh true).1 = PRTS_ERROR_EMPTY ∧
    (prts_ringbuf_push (ring_run ring_fresh ring_three_pushes).buf (some (le32 4))).2
      = (ring_run ring_fresh ring_three_pushes).buf ∧
    (prts_ringbuf_pop (ring_run ring_fresh ring_three_pushes).buf true).2.2.tail = 1 :=
  have h := ringbuf_full_empty_results 65 3 4 true true true (fun _ => 0) ring_fresh
    ring_three_pushes (le32 4) (by decide)
  have hf : (prts_ringbuf_push (ring_run ring_fresh ring_three_pushes).buf (some (le32 4))).1
      = PRTS_ERROR_FULL := by decide
  have hp : (prts_ringbuf_pop (ring_run ring_fresh ring_three_pushes).buf true).1 = PRTS_OK := by
    decide
  ⟨by decide, hf, hp, by decide, h.1.2.1 hf,
    ((h.2.2.2 (by rw [hp]; decide)).2.1).trans (by decide)⟩

/-! ## Memory pool: layout, free-list length, reset -/

theorem pool_create_fields (config : prts_pool_config_t) (pool_out calloc_pool : Bool)
    (malloc_memory : Nat) (heap : Nat → Nat) (pool : prts_memory_pool)
    (hc : prts_pool_create (some config) pool_out calloc_pool malloc_memory heap
      = (PRTS_OK, some pool)) :
    config.block_size ≠ 0 ∧ malloc_memory ≠ 0 ∧
    pool.block_size = config.block_size ∧
    pool.initial_blocks = (if config.initial_blocks > 0 then config.initial_blocks else 64) ∧
    pool.max_blocks = config.max_blocks ∧ pool.memory = malloc_memory ∧
    pool.memory_size = size_mul (align_size (size_add config.block_size HEADER_SIZE))
      (if config.initial_blocks > 0 then config.initial_blocks else 64) ∧
    pool.total_blocks = (if config.initial_blocks > 0 then config.initial_blocks else 64) ∧
    pool.used_blocks = 0 ∧ pool.alloc_count = 0 ∧ pool.free_count = 0 ∧
    pool.free_list = (pool_build_free_list (align_size (size_add config.block_size HEADER_SIZE))
      (if config.initial_blocks > 0 then config.initial_blocks else 64) malloc_memory 0 heap).1 ∧
    pool.heap_next = (pool_build_free_list (align_size (size_add config.block_size HEADER_SIZE))
      (if config.initial_blocks > 0 then config.initial_blocks else 64) malloc_memory 0 heap).2 := by
  unfold prts_pool_create at hc
  dsimp only at hc
  by_cases c1 : (!pool_out || decide (config.block_size = 0)) = true
  · rw [if_pos c1] at hc
    cases hc
  rw [if_neg c1] at hc
  by_cases c2 : (!calloc_pool) = true
  · rw [if_pos c2] at hc
    cases hc
  rw [if_neg c2] at hc
  by_cases c3 : malloc_memory = 0
  · rw [if_pos c3] at hc
    cases hc
  rw [if_neg c3] at hc
  have hp := Option.some.inj (Prod.mk.inj hc).2
  subst hp
  have hb : config.block_size ≠ 0 := by
    intro h0
    apply c1
    simp [h0]
  exact ⟨hb, c3, rfl, rfl, rfl, rfl, rfl, rfl, rfl, rfl, rfl, rfl, rfl⟩

theorem pool_reached_inv (config : prts_pool_config_t) (pool_out calloc_pool : Bool)
    (malloc_memory : Nat) (heap : Nat → Nat) (pool : prts_memory_pool) (ops : List PoolOp)
    (hc : prts_pool_create (some config) pool_out calloc_pool malloc_memory heap
      = (PRTS_OK, some pool))
    (hok : pool_create_ok config malloc_memory)
    (hv : pool_valid (pool_fresh pool) ops) :
    PoolInv (pool_run (pool_fresh pool) ops) :=
  pool_run_inv ops _ hv
    (pool_create_inv config pool_out calloc_pool malloc_memory heap pool hc hok).1

theorem pool_inv_free_blocks (t : PoolTrace) (hinv : PoolInv t) :
    ∃ fl : List Nat, chain t.pool.heap_next t.pool.free_list fl ∧ fl.Nodup ∧
      fl.length + t.pool.used_blocks = t.pool.total_blocks ∧
      t.pool.used_blocks ≤ t.pool.total_blocks ∧
      size_sub t.pool.total_blocks t.pool.used_blocks = fl.length := by
  obtain ⟨hs, hb, _, fl, ob, hchain, _, hnd, hsub, hused, htotal⟩ := hinv
  have hlen := pool_inv_length_lt t.blocks (fl ++ ob) (pool_stride t.pool) hs hb hnd hsub
  rw [List.length_append] at hlen
  refine ⟨fl, hchain, (List.nodup_append.mp hnd).1, by omega, by omega, ?_⟩
  rw [hused, htotal]
  unfold size_sub
  have e : fl.length + ob.length + SIZE_MOD - ob.length = fl.length + SIZE_MOD := by omega
  rw [e, Nat.add_mod_right]
  exact Nat.mod_eq_of_lt (by omega)

/-- C15: in every pool state reached from `prts_pool_create` by alloc, free of a currently
outstanding block, and reset, the free list is a chain of distinct blocks whose number plus
`used_blocks` equals `total_blocks`, and the `free_blocks` that `prts_pool_stats` reports
(`total_blocks - used_blocks`) is exactly the length of the free list. -/
theorem pool_free_plus_used (config : prts_pool_config_t) (pool_out calloc_pool : Bool)
    (malloc_memory : Nat) (heap : Nat → Nat) (pool : prts_memory_pool) (ops : List PoolOp)
    (hc : prts_pool_create (some config) pool_out calloc_pool malloc_memory heap
      = (PRTS_OK, some pool))
    (hok : pool_create_ok config malloc_memory)
    (hv : pool_valid (pool_fresh pool) ops) :
    ∃ (fl : List Nat) (s : prts_pool_stats_t),
      chain (pool_run (pool_fresh pool) ops).pool.heap_next
        (pool_run (pool_fresh pool) ops).pool.free_list fl ∧ fl.Nodup ∧
      fl.length + (pool_run (pool_fresh pool) ops).pool.used_blocks
        = (pool_run (pool_fresh pool) ops).pool.total_blocks ∧
      prts_pool_stats (pool_run (pool_fresh pool) ops).pool true = (PRTS_OK, some s) ∧
      s.free_blocks = fl.length ∧ s.free_blocks + s.used_blocks = s.total_blocks := by
  obtain ⟨fl, hchain, hnd, hsum, _, hfree⟩ := pool_inv_free_blocks _
    (pool_reached_inv config pool_out calloc_pool malloc_memory heap pool ops hc hok hv)
  refine ⟨fl, _, hchain, hnd, hsum, rfl, hfree, ?_⟩
  show size_sub _ _ + _ = _
  rw [hfree]
  exact hsum

theorem pool_reset_chain (t : PoolTrace) (hinv : PoolInv t) :
    chain (prts_pool_reset t.pool).heap_next (prts_pool_reset t.pool).free_list
      (slab_blocks t.pool.memory (pool_stride t.pool) t.pool.initial_blocks).reverse := by
  obtain ⟨hs, hb, hslab, _⟩ := hinv
  by_cases hn : t.pool.initial_blocks = 0
  · simp [prts_pool_reset, hn, pool_build_free_list, slab_blocks, chain]
  · have hmem : 0 < t.pool.memory := by
      have h0 : t.pool.memory ∈ slab_blocks t.pool.memory (pool_stride t.pool)
          t.pool.initial_blocks := by
        rw [mem_slab_blocks]
        exact ⟨0, by omega, by simp⟩
      exact (hb _ (hslab _ h0)).1
    have := chain_build (pool_stride t.pool) hs t.pool.initial_blocks t.pool.memory 0
      t.pool.heap_next [] hmem rfl (by simp)
    simpa using this

theorem pool_alloc_chain (pool : prts_memory_pool) (b : Nat) (l : List Nat) (m : Nat)
    (hc : chain pool.heap_next pool.free_list (b :: l)) :
    (prts_pool_alloc pool m).1 = b + HEADER_SIZE ∧ b ≠ 0 ∧
    chain (prts_pool_alloc pool m).2.heap_next (prts_pool_alloc pool m).2.free_list l ∧
    (prts_pool_alloc pool m).2.total_blocks = pool.total_blocks ∧
    (prts_pool_alloc pool m).2.initial_blocks = pool.initial_blocks := by
  obtain ⟨e, hb, hrest⟩ := hc
  have hne : ¬ pool.free_list = 0 := by rw [e]; exact hb
  unfold prts_pool_alloc
  rw [if_neg hne]
  refine ⟨?_, hb, ?_, rfl, rfl⟩
  · show pool.free_list + HEADER_SIZE = _
    rw [e]
  · show chain pool.heap_next (pool.heap_next pool.free_list) l
    rw [e]
    exact hrest

theorem pool_allocs_chain (L : List Nat) : ∀ (ms : List Nat) (R : List Nat) (t : PoolTrace),
    chain t.pool.heap_next t.pool.free_list (L ++ R) → ms.length = L.length →
    (pool_run t (ms.map PoolOp.alloc)).returned = t.returned ++ L.map (fun b => b + HEADER_SIZE) ∧
    (∀ b ∈ L, b ≠ 0) ∧
    chain (pool_run t (ms.map PoolOp.alloc)).pool.heap_next
      (pool_run t (ms.map PoolOp.alloc)).pool.free_list R ∧
    (pool_run t (ms.map PoolOp.alloc)).pool.total_blocks = t.pool.total_blocks ∧
    (pool_run t (ms.map PoolOp.alloc)).pool.initial_blocks = t.pool.initial_blocks := by
  induction L with
  | nil =>
    intro ms R t hc hlen
    have hms : ms = [] := List.length_eq_zero.mp hlen
    subst hms
    refine ⟨?_, ?_, hc, rfl, rfl⟩
    · show t.returned = t.returned ++ []
      rw [List.append_nil]
    · intro b hb
      cases hb
  | cons b rest ih =>
    intro ms R t hc hlen
    cases ms with
    | nil => cases hlen
    | cons m ms2 =>
      have hlen2 : ms2.length = rest.length := by
        simp only [List.length_cons] at hlen
        omega
      obtain ⟨h1, hb, h2, h3, h4⟩ := pool_alloc_chain t.pool b (rest ++ R) m hc
      have hstep : (pool_step t (PoolOp.alloc m)).pool = (prts_pool_alloc t.pool m).2 := rfl
      have hret : (pool_step t (PoolOp.alloc m)).returned
          = t.returned ++ [(prts_pool_alloc t.pool m).1] := rfl
      have hc2 : chain (pool_step t (PoolOp.alloc m)).pool.heap_next
          (pool_step t (PoolOp.alloc m)).pool.free_list (rest ++ R) := by
        rw [hstep]
        exact h2
      obtain ⟨i1, i2, i3, i4, i5⟩ := ih ms2 R (pool_step t (PoolOp.alloc m)) hc2 hlen2
      have hrun : pool_run t ((m :: ms2).map PoolOp.alloc)
          = pool_run (pool_step t (PoolOp.alloc m)) (ms2.map PoolOp.alloc) := rfl
      rw [hrun]
      refine ⟨?_, ?_, i3, ?_, ?_⟩
      · rw [i1, hret, h1, List.map_cons, List.append_assoc]
        rfl
      · intro x hx
        rcases List.mem_cons.mp hx with rfl | hx
        · exact hb
        · exact i2 x hx
      · rw [i4, hstep, h3]
      · rw [i5, hstep, h4]

/-- C16: whatever valid allocs, frees, resets and overflow growth preceded it,
`prts_pool_reset` leaves `total_blocks = initial_blocks` and `used_blocks = 0`, keeps
`alloc_count` and `free_count`, and makes the free list the chain of exactly the
`initial_blocks` slab blocks `memory + i * stride`, each once; the next `initial_blocks` allocs
therefore return the payloads of these blocks, none `NULL`, without growing the pool. -/
theorem pool_reset_restores (config : prts_pool_config_t) (pool_out calloc_pool : Bool)
    (malloc_memory : Nat) (heap : Nat → Nat) (pool : prts_memory_pool) (ops : List PoolOp)
    (T : PoolTrace) (ms : List Nat)
    (hc : prts_pool_create (some config) pool_out calloc_pool malloc_memory heap
      = (PRTS_OK, some pool))
    (hok : pool_create_ok config malloc_memory)
    (hv : pool_valid (pool_fresh pool) ops)
    (hT : T = pool_run (pool_fresh pool) ops)
    (hms : ms.length = T.pool.initial_blocks) :
    (prts_pool_reset T.pool).total_blocks = T.pool.initial_blocks ∧
    (prts_pool_reset T.pool).used_blocks = 0 ∧
    (prts_pool_reset T.pool).alloc_count = T.pool.alloc_count ∧
    (prts_pool_reset T.pool).free_count = T.pool.free_count ∧
    chain (prts_pool_reset T.pool).heap_next (prts_pool_reset T.pool).free_list
      (slab_blocks T.pool.memory (pool_stride T.pool) T.pool.initial_blocks).reverse ∧
    (slab_blocks T.pool.memory (pool_stride T.pool) T.pool.initial_blocks).Nodup ∧
    (slab_blocks T.pool.memory (pool_stride T.pool) T.pool.initial_blocks).length
      = T.pool.initial_blocks ∧
    (pool_run (pool_step T PoolOp.reset) (ms.map PoolOp.alloc)).returned
      = T.returned ++
        (slab_blocks T.pool.memory (pool_stride T.pool) T.pool.initial_blocks).reverse.map
          (fun b => b + HEADER_SIZE) ∧
    (∀ b ∈ slab_blocks T.pool.memory (pool_stride T.pool) T.pool.initial_blocks, b ≠ 0) ∧
    (pool_run (pool_step T PoolOp.reset) (ms.map PoolOp.alloc)).pool.total_blocks
      = T.pool.initial_blocks ∧
    (pool_run (pool_step T PoolOp.reset) (ms.map PoolOp.alloc)).pool.free_list = 0 := by
  have hinv : PoolInv T := by
    rw [hT]
    exact pool_reached_inv config pool_out calloc_pool malloc_memory heap pool ops hc hok hv
  have hchain := pool_reset_chain T hinv
  have hlen : (slab_blocks T.pool.memory (pool_stride T.pool) T.pool.initial_blocks).length
      = T.pool.initial_blocks := by
    simp [slab_blocks]
  have hc2 : chain (pool_step T PoolOp.reset).pool.heap_next
      (pool_step T PoolOp.reset).pool.free_list
      ((slab_blocks T.pool.memory (pool_stride T.pool) T.pool.initial_blocks).reverse ++ []) := by
    rw [List.append_nil]
    exact hchain
  obtain ⟨a1, a2, a3, a4, _⟩ := pool_allocs_chain _ ms [] (pool_step T PoolOp.reset) hc2
    (by rw [List.length_reverse, hlen, hms])
  refine ⟨rfl, rfl, rfl, rfl, hchain, slab_blocks_nodup _ _ _ hinv.1, hlen, a1, ?_, a4, a3⟩
  intro b hb
  exact a2 b (List.mem_reverse.mpr hb)

theorem pool_alloc_static (pool : prts_memory_pool) (m : Nat) :
    (prts_pool_alloc pool m).2.initial_blocks = pool.initial_blocks ∧
    (prts_pool_alloc pool m).2.max_blocks = pool.max_blocks ∧
    (prts_pool_alloc pool m).2.block_size = pool.block_size ∧
    (prts_pool_alloc pool m).2.memory = pool.memory ∧
    (((prts_pool_alloc pool m).2.total_blocks = pool.total_blocks) ∨
      ((pool.max_blocks = 0 ∨ pool.total_blocks < pool.max_blocks) ∧
        (prts_pool_alloc pool m).2.total_blocks = size_add pool.total_blocks 1)) := by
  unfold prts_pool_alloc
  by_cases c1 : pool.free_list = 0
  · rw [if_pos c1]
    by_cases c2 : pool.max_blocks > 0 ∧ pool.total_blocks ≥ pool.max_blocks
    · rw [if_pos c2]
      exact ⟨rfl, rfl, rfl, rfl, Or.inl rfl⟩
    · rw [if_neg c2]
      dsimp only
      by_cases c3 : m = 0
      · rw [if_pos c3]
        exact ⟨rfl, rfl, rfl, rfl, Or.inl rfl⟩
      · rw [if_neg c3]
        refine ⟨rfl, rfl, rfl, rfl, Or.inr ⟨?_, rfl⟩⟩
        by_cases c4 : pool.max_blocks = 0
        · exact Or.inl c4
        · right
          by_contra hge
          exact c2 ⟨by omega, by omega⟩
  · rw [if_neg c1]
    exact ⟨rfl, rfl, rfl, rfl, Or.inl rfl⟩

theorem pool_free_static (pool : prts_memory_pool) (ptr : Nat) :
    (prts_pool_free pool ptr).initial_blocks = pool.initial_blocks ∧
    (prts_pool_free pool ptr).max_blocks = pool.max_blocks ∧
    (prts_pool_free pool ptr).block_size = pool.block_size ∧
    (prts_pool_free pool ptr).memory = pool.memory ∧
    (prts_pool_free pool ptr).total_blocks = pool.total_blocks := by
  unfold prts_pool_free
  by_cases c : ptr = 0
  · rw [if_pos c]
    exact ⟨rfl, rfl, rfl, rfl, rfl⟩
  · rw [if_neg c]
    exact ⟨rfl, rfl, rfl, rfl, rfl⟩

/-- With `initial_blocks <= max_blocks` no call raises `total_blocks` above a positive
`max_blocks`: alloc grows the pool only below the maximum and reset returns to
`initial_blocks`. -/
theorem pool_step_total_le (t : PoolTrace) (op : PoolOp)
    (h : t.pool.total_blocks ≤ t.pool.max_blocks ∧ t.pool.initial_blocks ≤ t.pool.max_blocks ∧
      0 < t.pool.max_blocks ∧ t.pool.max_blocks < SIZE_MOD) :
    (pool_step t op).pool.total_blocks ≤ (pool_step t op).pool.max_blocks ∧
    (pool_step t op).pool.initial_blocks ≤ (pool_step t op).pool.max_blocks ∧
    0 < (pool_step t op).pool.max_blocks ∧ (pool_step t op).pool.max_blocks < SIZE_MOD := by
  obtain ⟨h1, h2, h3, h4⟩ := h
  cases op with
  | alloc m =>
    have hp : (pool_step t (PoolOp.alloc m)).pool = (prts_pool_alloc t.pool m).2 := rfl
    obtain ⟨e1, e2, _, _, e5⟩ := pool_alloc_static t.pool m
    rw [hp, e1, e2]
    refine ⟨?_, h2, h3, h4⟩
    rcases e5 with e5 | ⟨hlt, e5⟩
    · rw [e5]
      exact h1
    · rw [e5, size_add_one _ _ (by omega) h4]
      omega
  | free ptr =>
    have hp : (pool_step t (PoolOp.free ptr)).pool = prts_pool_free t.pool ptr := rfl
    obtain ⟨e1, e2, _, _, e5⟩ := pool_free_static t.pool ptr
    rw [hp, e1, e2, e5]
    exact ⟨h1, h2, h3, h4⟩
  | reset =>
    exact ⟨h2, h2, h3, h4⟩

theorem pool_run_total_le (ops : List PoolOp) : ∀ (t : PoolTrace),
    t.pool.total_blocks ≤ t.pool.max_blocks ∧ t.pool.initial_blocks ≤ t.pool.max_blocks ∧
      0 < t.pool.max_blocks ∧ t.pool.max_blocks < SIZE_MOD →
    (pool_run t ops).pool.total_blocks ≤ (pool_run t ops).pool.max_blocks := by
  induction ops with
  | nil => intro t h; exact h.1
  | cons op rest ih =>
    intro t h
    exact ih _ (pool_step_total_le t op h)

/-- C14 fails at create: with `initial_blocks = 8` and `max_blocks = 4`, `prts_pool_create`
returns ok with a pool of `total_blocks = 8`, above its positive `max_blocks = 4`; the same
happens with `initial_blocks = 0`, which stands for 64 blocks. -/
theorem pool_create_exceeds_max :
    (∃ pool, prts_pool_create (some pool_cfg_over) true true 4096 (fun _ => 0)
        = (PRTS_OK, some pool) ∧
      pool.max_blocks = 4 ∧ pool.total_blocks = 8 ∧
      ¬ pool.total_blocks ≤ pool.max_blocks) ∧
    (∃ pool, prts_pool_create (some { pool_cfg_over with initial_blocks := 0 }) true true 4096
        (fun _ => 0) = (PRTS_OK, some pool) ∧
      pool.max_blocks = 4 ∧ pool.total_blocks = 64) :=
  ⟨⟨_, rfl, rfl, rfl, by decide⟩, ⟨_, rfl, rfl, rfl⟩⟩

theorem align_size_least (n : Nat) (hn : n + 7 < SIZE_MOD) :
    align_size n % 8 = 0 ∧ n ≤ align_size n ∧
    ∀ m, m % 8 = 0 → n ≤ m → align_size n ≤ m := by
  rw [align_size_eq n hn]
  refine ⟨by omega, by omega, ?_⟩
  intro m hm hle
  omega

theorem slot_payload_disjoint (i j s bs : Nat) (hs : bs + HEADER_SIZE ≤ s) (hij : i < j) :
    i * s + HEADER_SIZE + bs ≤ j * s + HEADER_SIZE := by
  have h1 : (i + 1) * s ≤ j * s := Nat.mul_le_mul_right s hij
  rw [Nat.succ_mul] at h1
  omega

/-- C17: `align_size(n) = (n + 7) & ~7` is the least multiple of 8 that is `>= n` (for
`n + 7 < 2^64`); hence in a created pool the stride `align_size(block_size + header size)` is a
multiple of 8 and at least `block_size + header size`, the slab has `initial_blocks * stride`
bytes, the free list is the chain of the slab blocks at `memory + i * stride`, and the payloads
of the slab blocks (from `i * stride + header size`, `block_size` bytes long) are 8-aligned
relative to the slab base, inside the slab and pairwise disjoint. -/
theorem pool_slab_layout (config : prts_pool_config_t) (pool_out calloc_pool : Bool)
    (malloc_memory : Nat) (heap : Nat → Nat) (pool : prts_memory_pool)
    (hc : prts_pool_create (some config) pool_out calloc_pool malloc_memory heap
      = (PRTS_OK, some pool))
    (hok : pool_create_ok config malloc_memory) :
    (∀ n, n + 7 < SIZE_MOD → align_size n % 8 = 0 ∧ n ≤ align_size n ∧
      ∀ m, m % 8 = 0 → n ≤ m → align_size n ≤ m) ∧
    pool_stride pool % 8 = 0 ∧ pool.block_size + HEADER_SIZE ≤ pool_stride pool ∧
    pool.memory_size = pool.initial_blocks * pool_stride pool ∧
    chain pool.heap_next pool.free_list
      (slab_blocks pool.memory (pool_stride pool) pool.initial_blocks).reverse ∧
    (∀ b, b ∈ slab_blocks pool.memory (pool_stride pool) pool.initial_blocks ↔
      ∃ i, i < pool.initial_blocks ∧ b = pool.memory + i * pool_stride pool) ∧
    (∀ i, i < pool.initial_blocks →
      (i * pool_stride pool + HEADER_SIZE) % 8 = 0 ∧
      i * pool_stride pool + HEADER_SIZE + pool.block_size
        ≤ pool.initial_blocks * pool_stride pool) ∧
    (∀ i j, i < pool.initial_blocks → j < pool.initial_blocks → i ≠ j →
      i * pool_stride pool + HEADER_SIZE + pool.block_size ≤ j * pool_stride pool + HEADER_SIZE ∨
      j * pool_stride pool + HEADER_SIZE + pool.block_size
        ≤ i * pool_stride pool + HEADER_SIZE) := by
  obtain ⟨h1, h2, h3⟩ := hok
  obtain ⟨_, _, e3, e4, _, e6, e7, _, _, _, _, e12, e13⟩ :=
    pool_create_fields config pool_out calloc_pool malloc_memory heap pool hc
  have hsa : size_add config.block_size HEADER_SIZE = config.block_size + HEADER_SIZE := by
    unfold size_add
    exact Nat.mod_eq_of_lt (by omega)
  have hstride : pool_stride pool = align_size (config.block_size + HEADER_SIZE) := by
    unfold pool_stride
    rw [e3, hsa]
  obtain ⟨a1, a2, _⟩ := align_size_least (config.block_size + HEADER_SIZE) h1
  rw [hsa] at h3 e7 e12 e13
  rw [← hstride] at a1 a2 h3 e7 e12 e13
  rw [← e4] at h3 e7 e12 e13
  rw [← e3] at a2
  have hs : 0 < pool_stride pool := by
    simp only [HEADER_SIZE] at a2
    omega
  have hmul : pool_stride pool * pool.initial_blocks < SIZE_MOD := by omega
  have hmod8 : ∀ i, (i * pool_stride pool + HEADER_SIZE) % 8 = 0 := by
    intro i
    have : i * pool_stride pool % 8 = 0 := by
      rw [Nat.mul_mod, a1, Nat.mul_zero]
    simp only [HEADER_SIZE]
    omega
  refine ⟨align_size_least, a1, a2, ?_, ?_, ?_, ?_, ?_⟩
  · rw [e7]
    unfold size_mul
    rw [Nat.mod_eq_of_lt hmul, Nat.mul_comm]
  · rw [e12, e13, e6]
    have := chain_build (pool_stride pool) hs pool.initial_blocks malloc_memory 0 heap []
      (by omega) rfl (by simp)
    simpa using this
  · intro b
    exact mem_slab_blocks _ _ _ b
  · intro i hi
    refine ⟨hmod8 i, ?_⟩
    have h5 : (i + 1) * pool_stride pool ≤ pool.initial_blocks * pool_stride pool :=
      Nat.mul_le_mul_right _ hi
    rw [Nat.succ_mul] at h5
    omega
  · intro i j _ _ hij
    rcases Nat.lt_or_gt_of_ne hij with h | h
    · exact Or.inl (slot_payload_disjoint i j _ _ a2 h)
    · exact Or.inr (slot_payload_disjoint j i _ _ a2 h)

/-- The pool of the overflow scenario for C17: `block_size = 64` gives stride 72, a slab of 288
bytes and payloads at offsets 8, 80, 152 and 224. -/
theorem pool_slab_layout_witness :
    prts_pool_create (some pool_cfg) true true 4096 (fun _ => 0) = (PRTS_OK, some pool_created) ∧
    pool_create_ok pool_cfg 4096 ∧
    pool_stride pool_created = 72 ∧ pool_created.memory_size = 288 ∧
    slab_blocks pool_created.memory (pool_stride pool_created) pool_created.initial_blocks
      = [4096, 4168, 4240, 4312] ∧
    pool_stride pool_created % 8 = 0 ∧
    pool_created.block_size + HEADER_SIZE ≤ pool_stride pool_created ∧
    chain pool_created.heap_next pool_created.free_list
      (slab_blocks pool_created.memory (pool_stride pool_created)
        pool_created.initial_blocks).reverse :=
  have h := pool_slab_layout pool_cfg true true 4096 (fun _ => 0) pool_created
    pool_scenario_create pool_scenario_ok
  ⟨pool_scenario_create, pool_scenario_ok, by decide, by decide, by decide, h.2.1, h.2.2.1,
    h.2.2.2.2.1⟩

/-- The overflow scenario for C15: after five allocs (one refused), a free and an alloc, the
four blocks are all in use, the free list is empty and `free_blocks` is 0. -/
theorem pool_free_plus_used_witness :
    pool_valid (pool_fresh pool_created) pool_scenario ∧
    (pool_run (pool_fresh pool_created) pool_scenario).pool.used_blocks = 4 ∧
    (pool_run (pool_fresh pool_created) pool_scenario).pool.total_blocks = 4 ∧
    ∃ (fl : List Nat) (s : prts_pool_stats_t),
      chain (pool_run (pool_fresh pool_created) pool_scenario).pool.heap_next
        (pool_run (pool_fresh pool_created) pool_scenario).pool.free_list fl ∧ fl.Nodup ∧
      fl.length + (pool_run (pool_fresh pool_created) pool_scenario).pool.used_blocks
        = (pool_run (pool_fresh pool_created) pool_scenario).pool.total_blocks ∧
      prts_pool_stats (pool_run (pool_fresh pool_created) pool_scenario).pool true
        = (PRTS_OK, some s) ∧
      s.free_blocks = fl.length ∧ s.free_blocks + s.used_blocks = s.total_blocks :=
  ⟨pool_scenario_valid, by decide, by decide,
    pool_free_plus_used pool_cfg true true 4096 (fun _ => 0) pool_created pool_scenario
      pool_scenario_create pool_scenario_ok pool_scenario_valid⟩

theorem pool_before_reset_valid :
    pool_valid (pool_fresh pool_created) pool_before_reset := by
  simp only [pool_before_reset, pool_four_allocs, List.cons_append, List.nil_append, pool_valid,
    fresh_region]
  decide

/-- The reset scenario for C16: after four allocs and a free, reset restores four free slab
blocks, and the next four allocs return their payloads 4320, 4248, 4176 and 4104 without
growing the pool. -/
theorem pool_reset_restores_witness :
    pool_valid (pool_fresh pool_created) pool_before_reset ∧
    (pool_run (pool_fresh pool_created) pool_before_reset).pool.used_blocks
      = 3 ∧
    (prts_pool_reset
      (pool_run (pool_fresh pool_created) pool_before_reset).pool
      ).total_blocks = 4 ∧
    (prts_pool_reset
      (pool_run (pool_fresh pool_created) pool_before_reset).pool
      ).used_blocks = 0 ∧
    (pool_run (pool_step
        (pool_run (pool_fresh pool_created) pool_before_reset)
        PoolOp.reset) ([0, 0, 0, 0].map PoolOp.alloc)).returned
      = [4320, 4248, 4176, 4104, 4320, 4248, 4176, 4104] ∧
    (pool_run (pool_step
        (pool_run (pool_fresh pool_created) pool_before_reset)
        PoolOp.reset) ([0, 0, 0, 0].map PoolOp.alloc)).pool.total_blocks = 4 :=
  have h := pool_reset_restores pool_cfg true true 4096 (fun _ => 0) pool_created
    pool_before_reset _ [0, 0, 0, 0]
    pool_scenario_create pool_scenario_ok pool_before_reset_valid rfl (by decide)
  ⟨pool_before_reset_valid, by decide, h.1.trans (by decide), h.2.1,
    h.2.2.2.2.2.2.2.1.trans (by decide), h.2.2.2.2.2.2.2.2.2.1.trans (by decide)⟩

/-! ## Metrics collector: updates of one metric, rejected updates -/

theorem list_getD_set_same {α : Type} (l : List α) (i : Nat) (x d : α) (h : i < l.length) :
    (l.set i x).getD i d = x := by
  rw [List.getD_eq_getElem?_getD, List.getElem?_set, if_pos rfl, if_pos h]
  rfl

theorem list_getD_set_diff {α : Type} (l : List α) (i j : Nat) (x d : α) (h : i ≠ j) :
    (l.set i x).getD j d = l.getD j d := by
  rw [List.getD_eq_getElem?_getD, List.getElem?_set, if_neg h, List.getD_eq_getElem?_getD]

theorem find_metric_loop_bound (ms : List metric_entry_t) (name : List Char) :
    ∀ (r i k : Nat), find_metric_loop ms name r i = some k → i ≤ k ∧ k < i + r := by
  intro r
  induction r with
  | zero => intro i k h; cases h
  | succ n ih =>
    intro i k h
    simp only [find_metric_loop] at h
    by_cases c : strcmp_eq (ms.getD i metric_entry_zero).name name = true
    · rw [if_pos c] at h
      cases h
      omega
    · rw [if_neg c] at h
      have := ih (i + 1) k h
      omega

theorem find_metric_loop_congr (ms ms2 : List metric_entry_t) (name : List Char)
    (hn : ∀ j, (ms2.getD j metric_entry_zero).name = (ms.getD j metric_entry_zero).name) :
    ∀ (r i : Nat), find_metric_loop ms2 name r i = find_metric_loop ms name r i := by
  intro r
  induction r with
  | zero => intro i; rfl
  | succ n ih =>
    intro i
    simp only [find_metric_loop]
    rw [hn i, ih (i + 1)]

theorem find_metric_lt (c : prts_metrics_collector) (name : List Char) (i : Nat)
    (h : find_metric c name = some i) : i < c.num_metrics := by
  have := find_metric_loop_bound c.metrics name c.num_metrics 0 i h
  omega

theorem metrics_create_eq (c0 : prts_metrics_collector)
    (h0 : prts_metrics_create true true = (PRTS_OK, some c0)) : c0 = metrics_fresh := by
  have h1 : prts_metrics_create true true = (PRTS_OK, some metrics_fresh) := rfl
  rw [h1] at h0
  exact (Option.some.inj (Prod.mk.inj h0).2).symm

theorem metrics_fresh_inv : MetricsInv 0 metrics_fresh := by
  refine ⟨List.length_replicate _ _, Nat.zero_le _, ?_⟩
  intro j
  have hz : metrics_fresh.metrics.getD j metric_entry_zero = metric_entry_zero := by
    show (List.replicate MAX_METRICS metric_entry_zero).getD j metric_entry_zero = _
    rw [List.getD_eq_getElem?_getD, List.getElem?_replicate]
    by_cases h : j < MAX_METRICS
    · rw [if_pos h]
      rfl
    · rw [if_neg h]
      rfl
  unfold metric_slot0
  rw [hz]
  exact ⟨List.length_replicate _ _, Nat.le_refl _⟩

theorem metrics_inv_mono (n m : Nat) (c : prts_metrics_collector) (h : MetricsInv n c)
    (hnm : n ≤ m) : MetricsInv m c :=
  ⟨h.1, h.2.1, fun j => ⟨(h.2.2 j).1, Nat.le_trans (h.2.2 j).2 hnm⟩⟩

theorem metrics_updated_spec (n : Nat) (c : prts_metrics_collector) (i : Nat)
    (f : metric_slot_t → metric_slot_t) (hinv : MetricsInv n c) (hi : i < c.num_metrics) :
    metric_slot0 (metrics_updated c i f) i = f (metric_slot0 c i) ∧
    (∀ j, j ≠ i → (metrics_updated c i f).metrics.getD j metric_entry_zero
      = c.metrics.getD j metric_entry_zero) ∧
    (∀ j, ((metrics_updated c i f).metrics.getD j metric_entry_zero).name
      = (c.metrics.getD j metric_entry_zero).name) ∧
    (∀ j, ((metrics_updated c i f).metrics.getD j metric_entry_zero).type
      = (c.metrics.getD j metric_entry_zero).type) ∧
    (∀ j, ((metrics_updated c i f).metrics.getD j metric_entry_zero).entries.length
      = MAX_LABEL_VALUES) ∧
    (metrics_updated c i f).num_metrics = c.num_metrics ∧
    (metrics_updated c i f).metrics.length = MAX_METRICS := by
  obtain ⟨hlen, hnum, hent⟩ := hinv
  have hil : i < c.metrics.length := by omega
  have hsame : (metrics_updated c i f).metrics.getD i metric_entry_zero
      = metric_update_slot0 (c.metrics.getD i metric_entry_zero) f :=
    list_getD_set_same c.metrics i _ _ hil
  have hdiff : ∀ j, j ≠ i → (metrics_updated c i f).metrics.getD j metric_entry_zero
      = c.metrics.getD j metric_entry_zero := by
    intro j hj
    exact list_getD_set_diff c.metrics i j _ _ (Ne.symm hj)
  have h0 : 0 < (c.metrics.getD i metric_entry_zero).entries.length := by
    rw [(hent i).1]
    decide
  refine ⟨?_, hdiff, ?_, ?_, ?_, rfl, ?_⟩
  · unfold metric_slot0
    rw [hsame]
    exact list_getD_set_same _ 0 _ _ h0
  · intro j
    by_cases hj : j = i
    · subst hj
      rw [hsame]
      rfl
    · rw [hdiff j hj]
  · intro j
    by_cases hj : j = i
    · subst hj
      rw [hsame]
      rfl
    · rw [hdiff j hj]
  · intro j
    by_cases hj : j = i
    · subst hj
      rw [hsame]
      show ((c.metrics.getD j metric_entry_zero).entries.set 0 _).length = _
      rw [List.length_set]
      exact (hent j).1
    · rw [hdiff j hj]
      exact (hent j).1
  · show (c.metrics.set i _).length = _
    rw [List.length_set]
    exact hlen

theorem metrics_updated_find (n : Nat) (c : prts_metrics_collector) (i : Nat)
    (f : metric_slot_t → metric_slot_t) (hinv : MetricsInv n c) (hi : i < c.num_metrics)
    (name : List Char) : find_metric (metrics_updated c i f) name = find_metric c name :=
  find_metric_loop_congr c.metrics _ name (metrics_updated_spec n c i f hinv hi).2.2.1 _ _

theorem metrics_updated_inv (n m : Nat) (c : prts_metrics_collector) (i : Nat)
    (f : metric_slot_t → metric_slot_t) (hinv : MetricsInv n c) (hi : i < c.num_metrics)
    (hf : (f (metric_slot0 c i)).histogram_count ≤ m) (hnm : n ≤ m) :
    MetricsInv m (metrics_updated c i f) := by
  obtain ⟨e1, e2, _, _, e5, e6, e7⟩ := metrics_updated_spec n c i f hinv hi
  refine ⟨e7, ?_, ?_⟩
  · rw [e6]
    exact hinv.2.1
  · intro j
    refine ⟨e5 j, ?_⟩
    by_cases hj : j = i
    · subst hj
      rw [e1]
      exact hf
    · have : metric_slot0 (metrics_updated c i f) j = metric_slot0 c j := by
        unfold metric_slot0
        rw [e2 j hj]
      rw [this]
      exact Nat.le_trans (hinv.2.2 j).2 hnm

theorem counter_inc_ok (c : prts_metrics_collector) (name : List Char)
    (lv : Option (List (List Char))) (delta i : Nat) (hfind : find_metric c name = some i)
    (htype : (c.metrics.getD i metric_entry_zero).type = PRTS_METRIC_COUNTER) :
    prts_metrics_counter_inc c (some name) lv delta
      = (PRTS_OK, metrics_updated c i (fun e => { e with counter := size_add e.counter delta })) := by
  unfold prts_metrics_counter_inc
  simp only [hfind]
  rw [if_neg (not_not.mpr htype)]
  rfl

theorem gauge_set_ok (c : prts_metrics_collector) (name : List Char)
    (lv : Option (List (List Char))) (value : Float) (i : Nat)
    (hfind : find_metric c name = some i)
    (htype : (c.metrics.getD i metric_entry_zero).type = PRTS_METRIC_GAUGE) :
    prts_metrics_gauge_set c (some name) lv value
      = (PRTS_OK, metrics_updated c i (fun e => { e with gauge := value })) := by
  unfold prts_metrics_gauge_set
  simp only [hfind]
  rw [if_neg (not_not.mpr htype)]
  rfl

theorem histogram_observe_ok (c : prts_metrics_collector) (name : List Char)
    (lv : Option (List (List Char))) (value : Float) (i : Nat)
    (hfind : find_metric c name = some i)
    (htype : (c.metrics.getD i metric_entry_zero).type = PRTS_METRIC_HISTOGRAM) :
    prts_metrics_histogram_observe c (some name) lv value
      = (PRTS_OK, metrics_updated c i (fun e =>
          { e with
            histogram_count := size_add e.histogram_count 1
            histogram_sum := e.histogram_sum + value })) := by
  unfold prts_metrics_histogram_observe
  simp only [hfind]
  rw [if_neg (not_not.mpr htype)]
  rfl

theorem counter_inc_cases (c : prts_metrics_collector) (name : Option (List Char))
    (lv : Option (List (List Char))) (delta : Nat) :
    prts_metrics_counter_inc c name lv delta = (PRTS_ERROR_INVALID, c) ∨
    ∃ nm i, name = some nm ∧ find_metric c nm = some i ∧
      (c.metrics.getD i metric_entry_zero).type = PRTS_METRIC_COUNTER := by
  cases name with
  | none => exact Or.inl rfl
  | some nm =>
    cases hf : find_metric c nm with
    | none =>
      left
      unfold prts_metrics_counter_inc
      simp only [hf]
    | some i =>
      by_cases ht : (c.metrics.getD i metric_entry_zero).type = PRTS_METRIC_COUNTER
      · exact Or.inr ⟨nm, i, rfl, hf, ht⟩
      · left
        unfold prts_metrics_counter_inc
        simp only [hf]
        rw [if_pos ht]

theorem gauge_set_cases (c : prts_metrics_collector) (name : Option (List Char))
    (lv : Option (List (List Char))) (value : Float) :
    prts_metrics_gauge_set c name lv value = (PRTS_ERROR_INVALID, c) ∨
    ∃ nm i, name = some nm ∧ find_metric c nm = some i ∧
      (c.metrics.getD i metric_entry_zero).type = PRTS_METRIC_GAUGE := by
  cases name with
  | none => exact Or.inl rfl
  | some nm =>
    cases hf : find_metric c nm with
    | none =>
      left
      unfold prts_metrics_gauge_set
      simp only [hf]
    | some i =>
      by_cases ht : (c.metrics.getD i metric_entry_zero).type = PRTS_METRIC_GAUGE
      · exact Or.inr ⟨nm, i, rfl, hf, ht⟩
      · left
        unfold prts_metrics_gauge_set
        simp only [hf]
        rw [if_pos ht]

theorem histogram_observe_cases (c : prts_metrics_collector) (name : Option (List Char))
    (lv : Option (List (List Char))) (value : Float) :
    prts_metrics_histogram_observe c name lv value = (PRTS_ERROR_INVALID, c) ∨
    ∃ nm i, name = some nm ∧ find_metric c nm = some i ∧
      (c.metrics.getD i metric_entry_zero).type = PRTS_METRIC_HISTOGRAM := by
  cases name with
  | none => exact Or.inl rfl
  | some nm =>
    cases hf : find_metric c nm with
    | none =>
      left
      unfold prts_metrics_histogram_observe
      simp only [hf]
    | some i =>
      by_cases ht : (c.metrics.getD i metric_entry_zero).type = PRTS_METRIC_HISTOGRAM
      · exact Or.inr ⟨nm, i, rfl, hf, ht⟩
      · left
        unfold prts_metrics_histogram_observe
        simp only [hf]
        rw [if_pos ht]

theorem register_cases (c : prts_metrics_collector) (config : Option prts_metric_config_t) :
    (prts_metrics_register c config).2 = c ∨
    (c.num_metrics < MAX_METRICS ∧
      ∃ m : metric_entry_t, m.entries = (c.metrics.getD c.num_metrics metric_entry_zero).entries ∧
        (prts_metrics_register c config).2 =
          { metrics := c.metrics.set c.num_metrics m
            num_metrics := size_add c.num_metrics 1 }) := by
  unfold prts_metrics_register
  cases config with
  | none => exact Or.inl rfl
  | some cfg =>
    dsimp only
    cases hn : cfg.name with
    | none => exact Or.inl rfl
    | some name =>
      dsimp only
      by_cases c1 : c.num_metrics ≥ MAX_METRICS
      · rw [if_pos c1]
        exact Or.inl rfl
      · rw [if_neg c1]
        by_cases c2 : (find_metric c name).isSome = true
        · rw [if_pos c2]
          exact Or.inl rfl
        · rw [if_neg c2]
          right
          refine ⟨by omega, _, ?_, rfl⟩
          cases cfg.description <;> cases cfg.labels <;> dsimp only <;>
            first
              | rfl
              | (split_ifs <;> rfl)

theorem register_inv (n : Nat) (c : prts_metrics_collector)
    (config : Option prts_metric_config_t) (hinv : MetricsInv n c) :
    MetricsInv n (prts_metrics_register c config).2 := by
  rcases register_cases c config with h | ⟨hlt, m, hm, h⟩
  · rw [h]
    exact hinv
  · rw [h]
    obtain ⟨hlen, hnum, hent⟩ := hinv
    have hget : ∀ j, ((c.metrics.set c.num_metrics m).getD j metric_entry_zero).entries
        = (c.metrics.getD j metric_entry_zero).entries := by
      intro j
      by_cases hj : c.num_metrics = j
      · subst hj
        rw [list_getD_set_same c.metrics _ _ _ (by omega), hm]
      · rw [list_getD_set_diff c.metrics _ j _ _ hj]
    refine ⟨?_, ?_, ?_⟩
    · show (c.metrics.set c.num_metrics m).length = _
      rw [List.length_set]
      exact hlen
    · show size_add c.num_metrics 1 ≤ MAX_METRICS
      rw [size_add_one c.num_metrics MAX_METRICS hlt (by decide)]
      omega
    · intro j
      unfold metric_slot0
      show ((c.metrics.set c.num_metrics m).getD j metric_entry_zero).entries.length = _ ∧
        (((c.metrics.set c.num_metrics m).getD j metric_entry_zero).entries.getD 0
          metric_slot_zero).histogram_count ≤ n
      rw [hget j]
      exact hent j

theorem metrics_step_inv (n : Nat) (c : prts_metrics_collector) (op : MetricsOp)
    (hinv : MetricsInv n c) : MetricsInv (n + 1) (metrics_step c op) := by
  have hmono := metrics_inv_mono n (n + 1) c hinv (Nat.le_succ n)
  cases op with
  | register config =>
    exact metrics_inv_mono n (n + 1) _ (register_inv n c config hinv) (Nat.le_succ n)
  | counter_inc name lv delta =>
    show MetricsInv (n + 1) (prts_metrics_counter_inc c name lv delta).2
    rcases counter_inc_cases c name lv delta with h | ⟨nm, i, rfl, hf, ht⟩
    · rw [h]
      exact hmono
    · rw [counter_inc_ok c nm lv delta i hf ht]
      exact metrics_updated_inv n (n + 1) c i _ hinv (find_metric_lt c nm i hf)
        (Nat.le_trans (hinv.2.2 i).2 (Nat.le_succ n)) (Nat.le_succ n)
  | gauge_set name lv value =>
    show MetricsInv (n + 1) (prts_metrics_gauge_set c name lv value).2
    rcases gauge_set_cases c name lv value with h | ⟨nm, i, rfl, hf, ht⟩
    · rw [h]
      exact hmono
    · rw [gauge_set_ok c nm lv value i hf ht]
      exact metrics_updated_inv n (n + 1) c i _ hinv (find_metric_lt c nm i hf)
        (Nat.le_trans (hinv.2.2 i).2 (Nat.le_succ n)) (Nat.le_succ n)
  | histogram_observe name lv value =>
    show MetricsInv (n + 1) (prts_metrics_histogram_observe c name lv value).2
    rcases histogram_observe_cases c name lv value with h | ⟨nm, i, rfl, hf, ht⟩
    · rw [h]
      exact hmono
    · rw [histogram_observe_ok c nm lv value i hf ht]
      refine metrics_updated_inv n (n + 1) c i _ hinv (find_metric_lt c nm i hf) ?_
        (Nat.le_succ n)
      show size_add (metric_slot0 c i).histogram_count 1 ≤ n + 1
      have := (hinv.2.2 i).2
      unfold size_add
      exact Nat.le_trans (Nat.mod_le _ _) (by omega)

theorem metrics_run_inv (ops : List MetricsOp) : ∀ (n : Nat) (c : prts_metrics_collector),
    MetricsInv n c → MetricsInv (n + ops.length) (metrics_run c ops) := by
  induction ops with
  | nil => intro n c h; exact h
  | cons op rest ih =>
    intro n c h
    have := ih (n + 1) (metrics_step c op) (metrics_step_inv n c op h)
    rw [List.length_cons, show n + (rest.length + 1) = n + 1 + rest.length by omega]
    exact this

theorem metrics_reached_inv (ops : List MetricsOp) (c0 c : prts_metrics_collector)
    (h0 : prts_metrics_create true true = (PRTS_OK, some c0)) (hc : c = metrics_run c0 ops) :
    MetricsInv ops.length c := by
  rw [hc, metrics_create_eq c0 h0]
  have := metrics_run_inv ops 0 metrics_fresh metrics_fresh_inv
  rw [Nat.zero_add] at this
  exact this

/-- C18 (amended): for every registered counter, in every collector state reached from
`prts_metrics_create`, `prts_metrics_counter_inc` with any delta returns ok and leaves the
counter at `(value + delta) mod 2^64`; whenever `value + delta < 2^64` that is `value + delta`,
which is greater than or equal to the value before the call. -/
theorem metrics_counter_inc_value (ops : List MetricsOp) (c0 c : prts_metrics_collector)
    (name : List Char) (lv : Option (List (List Char))) (delta i : Nat)
    (h0 : prts_metrics_create true true = (PRTS_OK, some c0)) (hc : c = metrics_run c0 ops)
    (hfind : find_metric c name = some i)
    (htype : (c.metrics.getD i metric_entry_zero).type = PRTS_METRIC_COUNTER) :
    (prts_metrics_counter_inc c (some name) lv delta).1 = PRTS_OK ∧
    find_metric (prts_metrics_counter_inc c (some name) lv delta).2 name = some i ∧
    (metric_slot0 (prts_metrics_counter_inc c (some name) lv delta).2 i).counter
      = ((metric_slot0 c i).counter + delta) % SIZE_MOD ∧
    ((metric_slot0 c i).counter + delta < SIZE_MOD →
      (metric_slot0 (prts_metrics_counter_inc c (some name) lv delta).2 i).counter
        = (metric_slot0 c i).counter + delta ∧
      (metric_slot0 c i).counter
        ≤ (metric_slot0 (prts_metrics_counter_inc c (some name) lv delta).2 i).counter) := by
  have hinv := metrics_reached_inv ops c0 c h0 hc
  have hi := find_metric_lt c name i hfind
  rw [counter_inc_ok c name lv delta i hfind htype]
  obtain ⟨e1, _⟩ := metrics_updated_spec _ c i
    (fun e => { e with counter := size_add e.counter delta }) hinv hi
  have hval : (metric_slot0 (metrics_updated c i
      (fun e => { e with counter := size_add e.counter delta })) i).counter
      = ((metric_slot0 c i).counter + delta) % SIZE_MOD := by
    rw [e1]
    rfl
  refine ⟨rfl, ?_, hval, ?_⟩
  · show find_metric (metrics_updated c i _) name = some i
    rw [metrics_updated_find _ c i _ hinv hi name]
    exact hfind
  · intro hlt
    show (metric_slot0 (metrics_updated c i _) i).counter = _ ∧
      _ ≤ (metric_slot0 (metrics_updated c i _) i).counter
    rw [hval, Nat.mod_eq_of_lt hlt]
    exact ⟨rfl, Nat.le_add_right _ _⟩

/-- Counterexample to C18 as stated: the registered counter `http_requests` holding 1 is
incremented by the `uint64` delta `2^64 - 1`; the call returns ok and the counter is 0
afterwards, less than before. -/
theorem counter_inc_wraps_counterexample :
    find_metric (metrics_run metrics_fresh metrics_three_ops) "http_requests".toList = some 0 ∧
    ((metrics_run metrics_fresh metrics_three_ops).metrics.getD 0 metric_entry_zero).type
      = PRTS_METRIC_COUNTER ∧
    (metric_slot0 (metrics_run metrics_fresh metrics_three_ops) 0).counter = 1 ∧
    2 ^ 64 - 1 < SIZE_MOD ∧
    (prts_metrics_counter_inc (metrics_run metrics_fresh metrics_three_ops)
      (some "http_requests".toList) none (2 ^ 64 - 1)).1 = PRTS_OK ∧
    (metric_slot0 (prts_metrics_counter_inc (metrics_run metrics_fresh metrics_three_ops)
      (some "http_requests".toList) none (2 ^ 64 - 1)).2 0).counter = 0 ∧
    ¬ (metric_slot0 (metrics_run metrics_fresh metrics_three_ops) 0).counter
      ≤ (metric_slot0 (prts_metrics_counter_inc (metrics_run metrics_fresh metrics_three_ops)
          (some "http_requests".toList) none (2 ^ 64 - 1)).2 0).counter := by
  refine ⟨by decide, by decide, by decide, by decide, by decide, by decide, by decide⟩

/-- The counter `http_requests` holding 1, incremented by 41, holds 42 afterwards. -/
theorem metrics_counter_inc_value_witness :
    prts_metrics_create true true = (PRTS_OK, some metrics_fresh) ∧
    find_metric (metrics_run metrics_fresh metrics_three_ops) "http_requests".toList = some 0 ∧
    (metric_slot0 (metrics_run metrics_fresh metrics_three_ops) 0).counter = 1 ∧
    (prts_metrics_counter_inc (metrics_run metrics_fresh metrics_three_ops)
      (some "http_requests".toList) none 41).1 = PRTS_OK ∧
    (metric_slot0 (prts_metrics_counter_inc (metrics_run metrics_fresh metrics_three_ops)
      (some "http_requests".toList) none 41).2 0).counter = 42 :=
  have h := metrics_counter_inc_value metrics_three_ops metrics_fresh
    (metrics_run metrics_fresh metrics_three_ops) "http_requests".toList none 41 0 rfl rfl
    (by decide) (by decide)
  ⟨rfl, by decide, by decide, h.1, h.2.2.1.trans (by decide)⟩

/-- C19: in every collector state reached from `prts_metrics_create` by fewer than `2^64 - 1`
calls, for every registered histogram a `prts_metrics_histogram_observe(name, v)` returns ok,
raises that metric's count by exactly 1 and its sum by `v` (in `double` arithmetic), and leaves
every other metric and `num_metrics` unchanged; for every registered gauge a
`prts_metrics_gauge_set(name, v)` returns ok, stores exactly `v` whatever the previous value,
and leaves every other metric unchanged. -/
theorem metrics_histogram_gauge_update (ops : List MetricsOp) (c0 c : prts_metrics_collector)
    (name : List Char) (lv : Option (List (List Char))) (v : Float) (i : Nat)
    (h0 : prts_metrics_create true true = (PRTS_OK, some c0)) (hc : c = metrics_run c0 ops)
    (hops : ops.length + 1 < SIZE_MOD)
    (hfind : find_metric c name = some i) :
    ((c.metrics.getD i metric_entry_zero).type = PRTS_METRIC_HISTOGRAM →
      (prts_metrics_histogram_observe c (some name) lv v).1 = PRTS_OK ∧
      (metric_slot0 (prts_metrics_histogram_observe c (some name) lv v).2 i).histogram_count
        = (metric_slot0 c i).histogram_count + 1 ∧
      (metric_slot0 (prts_metrics_histogram_observe c (some name) lv v).2 i).histogram_sum
        = (metric_slot0 c i).histogram_sum + v ∧
      (∀ j, j ≠ i →
        (prts_metrics_histogram_observe c (some name) lv v).2.metrics.getD j metric_entry_zero
          = c.metrics.getD j metric_entry_zero) ∧
      (prts_metrics_histogram_observe c (some name) lv v).2.num_metrics = c.num_metrics ∧
      find_metric (prts_metrics_histogram_observe c (some name) lv v).2 name = some i) ∧
    ((c.metrics.getD i metric_entry_zero).type = PRTS_METRIC_GAUGE →
      (prts_metrics_gauge_set c (some name) lv v).1 = PRTS_OK ∧
      (metric_slot0 (prts_metrics_gauge_set c (some name) lv v).2 i).gauge = v ∧
      (∀ j, j ≠ i →
        (prts_metrics_gauge_set c (some name) lv v).2.metrics.getD j metric_entry_zero
          = c.metrics.getD j metric_entry_zero) ∧
      (prts_metrics_gauge_set c (some name) lv v).2.num_metrics = c.num_metrics ∧
      find_metric (prts_metrics_gauge_set c (some name) lv v).2 name = some i) := by
  have hinv := metrics_reached_inv ops c0 c h0 hc
  have hi := find_metric_lt c name i hfind
  refine ⟨?_, ?_⟩
  · intro htype
    rw [histogram_observe_ok c name lv v i hfind htype]
    obtain ⟨e1, e2, _, _, _, e6, _⟩ := metrics_updated_spec _ c i
      (fun e => { e with
        histogram_count := size_add e.histogram_count 1
        histogram_sum := e.histogram_sum + v }) hinv hi
    have hcount := (hinv.2.2 i).2
    refine ⟨rfl, ?_, ?_, e2, e6, ?_⟩
    · show (metric_slot0 (metrics_updated c i _) i).histogram_count = _
      rw [e1]
      show size_add (metric_slot0 c i).histogram_count 1 = _
      unfold size_add
      exact Nat.mod_eq_of_lt (by omega)
    · show (metric_slot0 (metrics_updated c i _) i).histogram_sum = _
      rw [e1]
    · show find_metric (metrics_updated c i _) name = some i
      rw [metrics_updated_find _ c i _ hinv hi name]
      exact hfind
  · intro htype
    rw [gauge_set_ok c name lv v i hfind htype]
    obtain ⟨e1, e2, _, _, _, e6, _⟩ := metrics_updated_spec _ c i
      (fun e => { e with gauge := v }) hinv hi
    refine ⟨rfl, ?_, e2, e6, ?_⟩
    · show (metric_slot0 (metrics_updated c i _) i).gauge = _
      rw [e1]
    · show find_metric (metrics_updated c i _) name = some i
      rw [metrics_updated_find _ c i _ hinv hi name]
      exact hfind

/-- C20: on any collector, `prts_metrics_counter_inc` on a name that is not registered or whose
metric is not a counter, `prts_metrics_gauge_set` on one that is not registered or not a gauge,
and `prts_metrics_histogram_observe` on one that is not registered or not a histogram return
invalid and leave the whole collector unchanged. -/
theorem metrics_update_invalid (c : prts_metrics_collector) (name : List Char)
    (lv : Option (List (List Char))) (delta : Nat) (v : Float) :
    ((find_metric c name = none ∨ ∃ i, find_metric c name = some i ∧
        (c.metrics.getD i metric_entry_zero).type ≠ PRTS_METRIC_COUNTER) →
      prts_metrics_counter_inc c (some name) lv delta = (PRTS_ERROR_INVALID, c)) ∧
    ((find_metric c name = none ∨ ∃ i, find_metric c name = some i ∧
        (c.metrics.getD i metric_entry_zero).type ≠ PRTS_METRIC_GAUGE) →
      prts_metrics_gauge_set c (some name) lv v = (PRTS_ERROR_INVALID, c)) ∧
    ((find_metric c name = none ∨ ∃ i, find_metric c name = some i ∧
        (c.metrics.getD i metric_entry_zero).type ≠ PRTS_METRIC_HISTOGRAM) →
      prts_metrics_histogram_observe c (some name) lv v = (PRTS_ERROR_INVALID, c)) := by
  refine ⟨?_, ?_, ?_⟩
  · intro h
    unfold prts_metrics_counter_inc
    rcases h with h | ⟨i, h, ht⟩
    · simp only [h]
    · simp only [h]
      rw [if_pos ht]
  · intro h
    unfold prts_metrics_gauge_set
    rcases h with h | ⟨i, h, ht⟩
    · simp only [h]
    · simp only [h]
      rw [if_pos ht]
  · intro h
    unfold prts_metrics_histogram_observe
    rcases h with h | ⟨i, h, ht⟩
    · simp only [h]
    · simp only [h]
      rw [if_pos ht]

/-- The three-metric collector for C19: observing 2.5 on the histogram `latency` makes its
count 1 and adds 2.5 to its sum; setting the gauge `temperature` to 21.5 stores 21.5; the
counter `http_requests` keeps its slot in both cases. -/
theorem metrics_histogram_gauge_update_witness :
    prts_metrics_create true true = (PRTS_OK, some metrics_fresh) ∧
    metrics_three_ops.length + 1 < SIZE_MOD ∧
    find_metric (metrics_run metrics_fresh metrics_three_ops) "latency".toList = some 2 ∧
    find_metric (metrics_run metrics_fresh metrics_three_ops) "temperature".toList = some 1 ∧
    (prts_metrics_histogram_observe (metrics_run metrics_fresh metrics_three_ops)
      (some "latency".toList) none 2.5).1 = PRTS_OK ∧
    (metric_slot0 (prts_metrics_histogram_observe (metrics_run metrics_fresh metrics_three_ops)
      (some "latency".toList) none 2.5).2 2).histogram_count = 1 ∧
    (metric_slot0 (prts_metrics_histogram_observe (metrics_run metrics_fresh metrics_three_ops)
      (some "latency".toList) none 2.5).2 2).histogram_sum
      = (metric_slot0 (metrics_run metrics_fresh metrics_three_ops) 2).histogram_sum + 2.5 ∧
    (prts_metrics_histogram_observe (metrics_run metrics_fresh metrics_three_ops)
      (some "latency".toList) none 2.5).2.metrics.getD 0 metric_entry_zero
      = (metrics_run metrics_fresh metrics_three_ops).metrics.getD 0 metric_entry_zero ∧
    (metric_slot0 (prts_metrics_gauge_set (metrics_run metrics_fresh metrics_three_ops)
      (some "temperature".toList) none 21.5).2 1).gauge = 21.5 :=
  have hh := (metrics_histogram_gauge_update metrics_three_ops metrics_fresh
    (metrics_run metrics_fresh metrics_three_ops) "latency".toList none 2.5 2 rfl rfl
    (by decide) (by decide)).1 (by decide)
  have hg := (metrics_histogram_gauge_update metrics_three_ops metrics_fresh
    (metrics_run metrics_fresh metrics_three_ops) "temperature".toList none 21.5 1 rfl rfl
    (by decide) (by decide)).2 (by decide)
  ⟨rfl, by decide, by decide, by decide, hh.1, hh.2.1.trans (by decide), hh.2.2.1,
    hh.2.2.2.1 0 (by decide), hg.2.1⟩

/-- The three-metric collector for C20: a gauge set and a histogram observation on the counter
`http_requests`, and a counter increment on the unregistered name `other`, return invalid and
change nothing. -/
theorem metrics_update_invalid_witness :
    find_metric (metrics_run metrics_fresh metrics_three_ops) "other".toList = none ∧
    find_metric (metrics_run metrics_fresh metrics_three_ops) "http_requests".toList = some 0 ∧
    prts_metrics_counter_inc (metrics_run metrics_fresh metrics_three_ops)
      (some "other".toList) none 1
      = (PRTS_ERROR_INVALID, metrics_run metrics_fresh metrics_three_ops) ∧
    prts_metrics_gauge_set (metrics_run metrics_fresh metrics_three_ops)
      (some "http_requests".toList) none 1.5
      = (PRTS_ERROR_INVALID, metrics_run metrics_fresh metrics_three_ops) ∧
    prts_metrics_histogram_observe (metrics_run metrics_fresh metrics_three_ops)
      (some "http_requests".toList) none 1.5
      = (PRTS_ERROR_INVALID, metrics_run metrics_fresh metrics_three_ops) :=
  have hn : find_metric (metrics_run metrics_fresh metrics_three_ops) "other".toList = none := by
    decide
  have hf : find_metric (metrics_run metrics_fresh metrics_three_ops) "http_requests".toList
      = some 0 := by decide
  ⟨hn, hf,
    (metrics_update_invalid (metrics_run metrics_fresh metrics_three_ops) "other".toList none 1
      1.5).1 (Or.inl hn),
    (metrics_update_invalid (metrics_run metrics_fresh metrics_three_ops)
      "http_requests".toList none 1 1.5).2.1 (Or.inr ⟨0, hf, by decide⟩),
    (metrics_update_invalid (metrics_run metrics_fresh metrics_three_ops)
      "http_requests".toList none 1 1.5).2.2 (Or.inr ⟨0, hf, by decide⟩)⟩

/-! ## Metrics collector: registry capacity, label values, name uniqueness, export bounds -/

theorem find_metric_loop_none (ms : List metric_entry_t) (name : List Char) :
    ∀ (r i : Nat),
    (∀ k, i ≤ k → k < i + r → strcmp_eq (ms.getD k metric_entry_zero).name name = false) →
    find_metric_loop ms name r i = none := by
  intro r
  induction r with
  | zero => intro i _; rfl
  | succ n ih =>
    intro i h
    rw [find_metric_loop, if_neg]
    · exact ih (i + 1) (fun k h1 h2 => h k (by omega) (by omega))
    · rw [h i (Nat.le_refl _) (by omega)]
      exact Bool.false_ne_true

theorem find_metric_loop_found (ms : List metric_entry_t) (name : List Char) :
    ∀ (r i k : Nat), find_metric_loop ms name r i = some k →
    strcmp_eq (ms.getD k metric_entry_zero).name name = true := by
  intro r
  induction r with
  | zero => intro i k h; cases h
  | succ n ih =>
    intro i k h
    simp only [find_metric_loop] at h
    by_cases c : strcmp_eq (ms.getD i metric_entry_zero).name name = true
    · rw [if_pos c] at h
      cases h
      exact c
    · rw [if_neg c] at h
      exact ih (i + 1) k h

theorem find_metric_loop_none_all (ms : List metric_entry_t) (name : List Char) :
    ∀ (r i : Nat), find_metric_loop ms name r i = none →
    ∀ k, i ≤ k → k < i + r → strcmp_eq (ms.getD k metric_entry_zero).name name = false := by
  intro r
  induction r with
  | zero => intro i _ k h1 h2; omega
  | succ n ih =>
    intro i h k h1 h2
    simp only [find_metric_loop] at h
    by_cases c : strcmp_eq (ms.getD i metric_entry_zero).name name = true
    · rw [if_pos c] at h
      cases h
    · rw [if_neg c] at h
      by_cases hk : k = i
      · subst hk
        exact Bool.eq_false_iff.mpr c
      · exact ih (i + 1) h k (by omega) (by omega)

theorem find_metric_none_iff (c : prts_metrics_collector) (name : List Char) :
    find_metric c name = none ↔
      ∀ i, i < c.num_metrics → c_str (c.metrics.getD i metric_entry_zero).name ≠ c_str name := by
  constructor
  · intro h i hi he
    have := find_metric_loop_none_all c.metrics name c.num_metrics 0 h i (Nat.zero_le _)
      (by omega)
    unfold strcmp_eq at this
    rw [he] at this
    simp at this
  · intro h
    apply find_metric_loop_none
    intro k _ hk
    have := h k (by omega)
    simpa [strcmp_eq] using this

theorem register_outcomes (c : prts_metrics_collector) (cfg : prts_metric_config_t)
    (nm : List Char) (hname : cfg.name = some nm) :
    (MAX_METRICS ≤ c.num_metrics →
      prts_metrics_register c (some cfg) = (PRTS_ERROR_FULL, c)) ∧
    (c.num_metrics < MAX_METRICS → (find_metric c nm).isSome = true →
      prts_metrics_register c (some cfg) = (PRTS_ERROR_INVALID, c)) ∧
    (c.num_metrics < MAX_METRICS → find_metric c nm = none →
      ∃ m : metric_entry_t,
        m.name = strncpy (c.metrics.getD c.num_metrics metric_entry_zero).name nm
          (MAX_NAME_LEN - 1) ∧
        m.type = cfg.type ∧ m.num_entries = 0 ∧
        m.entries = (c.metrics.getD c.num_metrics metric_entry_zero).entries ∧
        prts_metrics_register c (some cfg) =
          (PRTS_OK, { metrics := c.metrics.set c.num_metrics m
                      num_metrics := size_add c.num_metrics 1 })) := by
  unfold prts_metrics_register
  dsimp only
  rw [hname]
  dsimp only
  refine ⟨?_, ?_, ?_⟩
  · intro h
    rw [if_pos h]
  · intro h1 h2
    rw [if_neg (by omega), if_pos h2]
  · intro h1 h2
    rw [if_neg (by omega), if_neg (by rw [h2]; exact Bool.false_ne_true)]
    cases cfg.description <;> cases cfg.labels <;> dsimp only
    · refine ⟨_, ?_, ?_, ?_, ?_, rfl⟩ <;> rfl
    · split_ifs
      · refine ⟨_, ?_, ?_, ?_, ?_, rfl⟩ <;> rfl
      · refine ⟨_, ?_, ?_, ?_, ?_, rfl⟩ <;> rfl
    · refine ⟨_, ?_, ?_, ?_, ?_, rfl⟩ <;> rfl
    · split_ifs
      · refine ⟨_, ?_, ?_, ?_, ?_, rfl⟩ <;> rfl
      · refine ⟨_, ?_, ?_, ?_, ?_, rfl⟩ <;> rfl

/-- C22: the registry holds at most 256 metrics.  In every collector state reached from
`prts_metrics_create`, `num_metrics <= 256`; with 256 metrics registered,
`prts_metrics_register` (given a configuration with a name) returns full and leaves the
collector unchanged; with fewer than 256 and a name that no registered metric carries, it returns
ok and increases `num_metrics` by exactly one. -/
theorem metrics_register_capacity (ops : List MetricsOp) (c0 c : prts_metrics_collector)
    (cfg : prts_metric_config_t) (nm : List Char)
    (h0 : prts_metrics_create true true = (PRTS_OK, some c0)) (hc : c = metrics_run c0 ops)
    (hname : cfg.name = some nm) :
    MAX_METRICS = 256 ∧ c.num_metrics ≤ MAX_METRICS ∧
    (c.num_metrics = MAX_METRICS →
      prts_metrics_register c (some cfg) = (PRTS_ERROR_FULL, c)) ∧
    (c.num_metrics < MAX_METRICS →
      (∀ i, i < c.num_metrics →
        c_str (c.metrics.getD i metric_entry_zero).name ≠ c_str nm) →
      (prts_metrics_register c (some cfg)).1 = PRTS_OK ∧
      (prts_metrics_register c (some cfg)).2.num_metrics = c.num_metrics + 1) := by
  have hinv := metrics_reached_inv ops c0 c h0 hc
  obtain ⟨o1, _, o3⟩ := register_outcomes c cfg nm hname
  refine ⟨rfl, hinv.2.1, ?_, ?_⟩
  · intro h
    exact o1 (by omega)
  · intro hlt hnew
    obtain ⟨m, _, _, _, _, hr⟩ := o3 hlt ((find_metric_none_iff c nm).mpr hnew)
    rw [hr]
    exact ⟨rfl, size_add_one c.num_metrics MAX_METRICS hlt (by decide)⟩

/-- A registration for C22: after the counter `http_requests`, registering the gauge
`temperature` returns ok and raises `num_metrics` from 1 to 2. -/
theorem metrics_register_capacity_witness :
    (metrics_run metrics_fresh [MetricsOp.register (some http_requests_cfg)]).num_metrics = 1 ∧
    (prts_metrics_register
        (metrics_run metrics_fresh [MetricsOp.register (some http_requests_cfg)])
        (some temperature_cfg)).1 = PRTS_OK ∧
    (prts_metrics_register
        (metrics_run metrics_fresh [MetricsOp.register (some http_requests_cfg)])
        (some temperature_cfg)).2.num_metrics
      = (metrics_run metrics_fresh [MetricsOp.register (some http_requests_cfg)]).num_metrics
        + 1 :=
  ⟨rfl,
    (metrics_register_capacity [MetricsOp.register (some http_requests_cfg)] metrics_fresh
      (metrics_run metrics_fresh [MetricsOp.register (some http_requests_cfg)])
      temperature_cfg "temperature".toList rfl rfl rfl).2.2.2 (by decide) (by
        intro i hi
        have h1 : (metrics_run metrics_fresh
            [MetricsOp.register (some http_requests_cfg)]).num_metrics = 1 := rfl
        have h2 : i = 0 := by omega
        subst h2
        decide)⟩

theorem register_cases_names (c : prts_metrics_collector)
    (config : Option prts_metric_config_t) :
    (prts_metrics_register c config).2 = c ∨
    ∃ cfg nm m, config = some cfg ∧ cfg.name = some nm ∧ c.num_metrics < MAX_METRICS ∧
      find_metric c nm = none ∧
      m.name = strncpy (c.metrics.getD c.num_metrics metric_entry_zero).name nm
        (MAX_NAME_LEN - 1) ∧
      m.num_entries = 0 ∧
      m.entries = (c.metrics.getD c.num_metrics metric_entry_zero).entries ∧
      (prts_metrics_register c config).2 =
        { metrics := c.metrics.set c.num_metrics m
          num_metrics := size_add c.num_metrics 1 } := by
  cases config with
  | none => exact Or.inl rfl
  | some cfg =>
    cases hn : cfg.name with
    | none =>
      left
      unfold prts_metrics_register
      dsimp only
      rw [hn]
    | some nm =>
      obtain ⟨o1, o2, o3⟩ := register_outcomes c cfg nm hn
      by_cases h1 : MAX_METRICS ≤ c.num_metrics
      · left
        rw [o1 h1]
      · cases hf : find_metric c nm with
        | some i =>
          left
          rw [o2 (by omega) (by rw [hf]; rfl)]
        | none =>
          right
          obtain ⟨m, m1, _, m3, m4, hr⟩ := o3 (by omega) hf
          exact ⟨cfg, nm, m, rfl, hn, by omega, hf, m1, m3, m4, by rw [hr]⟩

theorem metrics_fresh_getD (j : Nat) :
    metrics_fresh.metrics.getD j metric_entry_zero = metric_entry_zero := by
  show (List.replicate MAX_METRICS metric_entry_zero).getD j metric_entry_zero = _
  rw [List.getD_eq_getElem?_getD, List.getElem?_replicate]
  by_cases h : j < MAX_METRICS
  · rw [if_pos h]
    rfl
  · rw [if_neg h]
    rfl

theorem slot_zero_getD (k : Nat) :
    metric_entry_zero.entries.getD k metric_slot_zero = metric_slot_zero := by
  show (List.replicate MAX_LABEL_VALUES metric_slot_zero).getD k metric_slot_zero = _
  rw [List.getD_eq_getElem?_getD, List.getElem?_replicate]
  by_cases h : k < MAX_LABEL_VALUES
  · rw [if_pos h]
    rfl
  · rw [if_neg h]
    rfl

theorem metrics_fresh_slots : SlotInv metrics_fresh := by
  intro j
  rw [metrics_fresh_getD]
  exact ⟨Nat.zero_le _, fun k _ => slot_zero_getD k⟩

theorem metrics_updated_slots (n : Nat) (c : prts_metrics_collector) (i : Nat)
    (f : metric_slot_t → metric_slot_t) (hinv : MetricsInv n c) (hi : i < c.num_metrics)
    (hs : SlotInv c) : SlotInv (metrics_updated c i f) := by
  obtain ⟨hlen, hnum, _⟩ := hinv
  intro j
  by_cases hj : j = i
  · subst hj
    have hsame : (metrics_updated c j f).metrics.getD j metric_entry_zero
        = metric_update_slot0 (c.metrics.getD j metric_entry_zero) f :=
      list_getD_set_same c.metrics j _ _ (by omega)
    rw [hsame]
    refine ⟨?_, ?_⟩
    · show (if (c.metrics.getD j metric_entry_zero).num_entries = 0 then 1
        else (c.metrics.getD j metric_entry_zero).num_entries) ≤ 1
      have := (hs j).1
      split_ifs <;> omega
    · intro k hk
      show ((c.metrics.getD j metric_entry_zero).entries.set 0 _).getD k metric_slot_zero = _
      rw [list_getD_set_diff _ 0 k _ _ (by omega)]
      exact (hs j).2 k hk
  · have hdiff : (metrics_updated c i f).metrics.getD j metric_entry_zero
        = c.metrics.getD j metric_entry_zero :=
      list_getD_set_diff c.metrics i j _ _ (Ne.symm hj)
    rw [hdiff]
    exact hs j

theorem register_slots (n : Nat) (c : prts_metrics_collector)
    (config : Option prts_metric_config_t) (hinv : MetricsInv n c) (hs : SlotInv c) :
    SlotInv (prts_metrics_register c config).2 := by
  rcases register_cases_names c config with h | ⟨cfg, nm, m, _, _, hlt, _, _, m3, m4, h⟩
  · rw [h]
    exact hs
  · rw [h]
    intro j
    show ((c.metrics.set c.num_metrics m).getD j metric_entry_zero).num_entries ≤ 1 ∧
      ∀ k, 0 < k → ((c.metrics.set c.num_metrics m).getD j metric_entry_zero).entries.getD k
        metric_slot_zero = metric_slot_zero
    by_cases hj : c.num_metrics = j
    · subst hj
      rw [list_getD_set_same c.metrics _ _ _ (by rw [hinv.1]; exact hlt), m3, m4]
      exact ⟨Nat.zero_le _, (hs _).2⟩
    · rw [list_getD_set_diff c.metrics _ j _ _ hj]
      exact hs j

theorem metrics_step_slots (n : Nat) (c : prts_metrics_collector) (op : MetricsOp)
    (hinv : MetricsInv n c) (hs : SlotInv c) : SlotInv (metrics_step c op) := by
  cases op with
  | register config => exact register_slots n c config hinv hs
  | counter_inc name lv delta =>
    show SlotInv (prts_metrics_counter_inc c name lv delta).2
    rcases counter_inc_cases c name lv delta with h | ⟨nm, i, rfl, hf, ht⟩
    · rw [h]
      exact hs
    · rw [counter_inc_ok c nm lv delta i hf ht]
      exact metrics_updated_slots n c i _ hinv (find_metric_lt c nm i hf) hs
  | gauge_set name lv value =>
    show SlotInv (prts_metrics_gauge_set c name lv value).2
    rcases gauge_set_cases c name lv value with h | ⟨nm, i, rfl, hf, ht⟩
    · rw [h]
      exact hs
    · rw [gauge_set_ok c nm lv value i hf ht]
      exact metrics_updated_slots n c i _ hinv (find_metric_lt c nm i hf) hs
  | histogram_observe name lv value =>
    show SlotInv (prts_metrics_histogram_observe c name lv value).2
    rcases histogram_observe_cases c name lv value with h | ⟨nm, i, rfl, hf, ht⟩
    · rw [h]
      exact hs
    · rw [histogram_observe_ok c nm lv value i hf ht]
      exact metrics_updated_slots n c i _ hinv (find_metric_lt c nm i hf) hs

theorem metrics_run_slots (ops : List MetricsOp) : ∀ (n : Nat) (c : prts_metrics_collector),
    MetricsInv n c → SlotInv c → SlotInv (metrics_run c ops) := by
  induction ops with
  | nil => intro n c _ h; exact h
  | cons op rest ih =>
    intro n c hinv hs
    exact ih (n + 1) (metrics_step c op) (metrics_step_inv n c op hinv)
      (metrics_step_slots n c op hinv hs)

theorem metrics_reached_slots (ops : List MetricsOp) (c0 c : prts_metrics_collector)
    (h0 : prts_metrics_create true true = (PRTS_OK, some c0)) (hc : c = metrics_run c0 ops) :
    SlotInv c := by
  rw [hc, metrics_create_eq c0 h0]
  exact metrics_run_slots ops 0 metrics_fresh metrics_fresh_inv metrics_fresh_slots

/-- C24: the return code and the resulting collector of `prts_metrics_counter_inc`,
`prts_metrics_gauge_set` and `prts_metrics_histogram_observe` do not depend on `label_values`
(a null pointer included): two calls on the same collector with different label values give
equal results.  In every state reached from `prts_metrics_create`, before and after such a call,
every metric has `num_entries` at most 1 and only its slot 0 differs from the zeroed state. -/
theorem metrics_label_values_ignored (ops : List MetricsOp) (c0 c : prts_metrics_collector)
    (name : Option (List Char)) (lv1 lv2 : Option (List (List Char))) (delta : Nat)
    (value : Float)
    (h0 : prts_metrics_create true true = (PRTS_OK, some c0)) (hc : c = metrics_run c0 ops) :
    prts_metrics_counter_inc c name lv1 delta = prts_metrics_counter_inc c name lv2 delta ∧
    prts_metrics_gauge_set c name lv1 value = prts_metrics_gauge_set c name lv2 value ∧
    prts_metrics_histogram_observe c name lv1 value
      = prts_metrics_histogram_observe c name lv2 value ∧
    SlotInv c ∧
    SlotInv (prts_metrics_counter_inc c name lv1 delta).2 ∧
    SlotInv (prts_metrics_gauge_set c name lv1 value).2 ∧
    SlotInv (prts_metrics_histogram_observe c name lv1 value).2 := by
  have hinv := metrics_reached_inv ops c0 c h0 hc
  have hs := metrics_reached_slots ops c0 c h0 hc
  exact ⟨rfl, rfl, rfl, hs,
    metrics_step_slots _ c (MetricsOp.counter_inc name lv1 delta) hinv hs,
    metrics_step_slots _ c (MetricsOp.gauge_set name lv1 value) hinv hs,
    metrics_step_slots _ c (MetricsOp.histogram_observe name lv1 value) hinv hs⟩

/-- Updates for C24: after the three registrations, incrementing `http_requests` with a null
`label_values` and with the label value `GET` gives the same result. -/
theorem metrics_label_values_ignored_witness :
    prts_metrics_counter_inc (metrics_run metrics_fresh metrics_three_ops)
        (some "http_requests".toList) none 2
      = prts_metrics_counter_inc (metrics_run metrics_fresh metrics_three_ops)
        (some "http_requests".toList) (some ["GET".toList]) 2 ∧
    SlotInv (prts_metrics_counter_inc (metrics_run metrics_fresh metrics_three_ops)
        (some "http_requests".toList) none 2).2 :=
  ⟨(metrics_label_values_ignored metrics_three_ops metrics_fresh
      (metrics_run metrics_fresh metrics_three_ops) (some "http_requests".toList) none
      (some ["GET".toList]) 2 0 rfl rfl).1,
    (metrics_label_values_ignored metrics_three_ops metrics_fresh
      (metrics_run metrics_fresh metrics_three_ops) (some "http_requests".toList) none
      (some ["GET".toList]) 2 0 rfl rfl).2.2.2.2.1⟩

theorem c_str_no_nul (s : List Char) : NUL ∉ c_str s := by
  intro h
  have := List.mem_takeWhile_imp h
  simp at this

theorem strncpy_tail (dst src : List Char) (n : Nat) :
    (strncpy dst src n).drop n = dst.drop n := by
  unfold strncpy
  apply List.drop_left'
  rw [List.length_append, List.length_take, List.length_replicate]
  omega

theorem strncpy_short (dst src : List Char) (n : Nat) (hl : (c_str src).length ≤ n)
    (hd : dst.drop n = [NUL]) : c_str (strncpy dst src n) = c_str src := by
  unfold strncpy
  rw [List.take_of_length_le hl, List.append_assoc, hd]
  apply c_str_append_nuls _ _ (c_str_no_nul src)
  intro x hx
  rw [List.mem_append] at hx
  rcases hx with h | h
  · exact List.eq_of_mem_replicate h
  · exact List.mem_singleton.mp h

theorem metrics_fresh_names : NamesUnique metrics_fresh := by
  refine ⟨?_, ?_⟩
  · intro j
    rw [metrics_fresh_getD]
    rfl
  · intro i j _ hj
    exact absurd hj (Nat.not_lt_zero _)

theorem metrics_updated_names (n : Nat) (c : prts_metrics_collector) (i : Nat)
    (f : metric_slot_t → metric_slot_t) (hinv : MetricsInv n c) (hi : i < c.num_metrics)
    (hu : NamesUnique c) : NamesUnique (metrics_updated c i f) := by
  obtain ⟨_, _, e3, _, _, e6, _⟩ := metrics_updated_spec n c i f hinv hi
  refine ⟨?_, ?_⟩
  · intro j
    rw [e3 j]
    exact hu.1 j
  · intro a b hab hb
    rw [e3 a, e3 b]
    rw [e6] at hb
    exact hu.2 a b hab hb

theorem register_names (n : Nat) (c : prts_metrics_collector)
    (config : Option prts_metric_config_t) (hinv : MetricsInv n c) (hu : NamesUnique c)
    (hshort : op_name_short (MetricsOp.register config)) :
    NamesUnique (prts_metrics_register c config).2 := by
  rcases register_cases_names c config with h | ⟨cfg, nm, m, hcfg, hnm, hlt, hfind, m1, _, _, h⟩
  · rw [h]
    exact hu
  · rw [h]
    subst hcfg
    have hs : (c_str nm).length < MAX_NAME_LEN := by
      simp only [op_name_short, hnm] at hshort
      exact hshort
    have hlen : c.num_metrics < c.metrics.length := by
      rw [hinv.1]
      exact hlt
    have hnew : c_str m.name = c_str nm := by
      rw [m1]
      apply strncpy_short
      · simp only [MAX_NAME_LEN] at hs ⊢
        omega
      · exact hu.1 _
    have hnum : size_add c.num_metrics 1 = c.num_metrics + 1 :=
      size_add_one c.num_metrics MAX_METRICS hlt (by decide)
    refine ⟨?_, ?_⟩
    · intro j
      show ((c.metrics.set c.num_metrics m).getD j metric_entry_zero).name.drop _ = _
      by_cases hj : c.num_metrics = j
      · subst hj
        rw [list_getD_set_same c.metrics _ _ _ hlen, m1, strncpy_tail]
        exact hu.1 _
      · rw [list_getD_set_diff c.metrics _ j _ _ hj]
        exact hu.1 j
    · intro a b hab hb
      show c_str ((c.metrics.set c.num_metrics m).getD a metric_entry_zero).name
        ≠ c_str ((c.metrics.set c.num_metrics m).getD b metric_entry_zero).name
      have hb2 : b < c.num_metrics + 1 := by
        rw [← hnum]
        exact hb
      rw [list_getD_set_diff c.metrics _ a _ _ (by omega)]
      by_cases hbn : c.num_metrics = b
      · subst hbn
        rw [list_getD_set_same c.metrics _ _ _ hlen, hnew]
        exact (find_metric_none_iff c nm).mp hfind a hab
      · rw [list_getD_set_diff c.metrics _ b _ _ hbn]
        exact hu.2 a b hab (by omega)

theorem metrics_step_names (n : Nat) (c : prts_metrics_collector) (op : MetricsOp)
    (hinv : MetricsInv n c) (hu : NamesUnique c) (hshort : op_name_short op) :
    NamesUnique (metrics_step c op) := by
  cases op with
  | register config => exact register_names n c config hinv hu hshort
  | counter_inc name lv delta =>
    show NamesUnique (prts_metrics_counter_inc c name lv delta).2
    rcases counter_inc_cases c name lv delta with h | ⟨nm, i, rfl, hf, ht⟩
    · rw [h]
      exact hu
    · rw [counter_inc_ok c nm lv delta i hf ht]
      exact metrics_updated_names n c i _ hinv (find_metric_lt c nm i hf) hu
  | gauge_set name lv value =>
    show NamesUnique (prts_metrics_gauge_set c name lv value).2
    rcases gauge_set_cases c name lv value with h | ⟨nm, i, rfl, hf, ht⟩
    · rw [h]
      exact hu
    · rw [gauge_set_ok c nm lv value i hf ht]
      exact metrics_updated_names n c i _ hinv (find_metric_lt c nm i hf) hu
  | histogram_observe name lv value =>
    show NamesUnique (prts_metrics_histogram_observe c name lv value).2
    rcases histogram_observe_cases c name lv value with h | ⟨nm, i, rfl, hf, ht⟩
    · rw [h]
      exact hu
    · rw [histogram_observe_ok c nm lv value i hf ht]
      exact metrics_updated_names n c i _ hinv (find_metric_lt c nm i hf) hu

theorem metrics_run_names (ops : List MetricsOp) : ∀ (n : Nat) (c : prts_metrics_collector),
    MetricsInv n c → NamesUnique c → (∀ op ∈ ops, op_name_short op) →
    NamesUnique (metrics_run c ops) := by
  induction ops with
  | nil => intro n c _ h _; exact h
  | cons op rest ih =>
    intro n c hinv hu hshort
    exact ih (n + 1) (metrics_step c op) (metrics_step_inv n c op hinv)
      (metrics_step_names n c op hinv hu (hshort op (List.mem_cons_self _ _)))
      (fun o ho => hshort o (List.mem_cons_of_mem _ ho))

/-- Uniqueness of short names: after every sequence of calls that registers only names shorter
than `MAX_NAME_LEN` bytes, the stored names of the registered metrics are pairwise distinct, and
registering a name that a registered metric carries changes nothing and does not return ok. -/
theorem metrics_short_names_unique (ops : List MetricsOp) (c0 c : prts_metrics_collector)
    (h0 : prts_metrics_create true true = (PRTS_OK, some c0)) (hc : c = metrics_run c0 ops)
    (hshort : ∀ op ∈ ops, op_name_short op) :
    (∀ i j, i < j → j < c.num_metrics →
      c_str (c.metrics.getD i metric_entry_zero).name
        ≠ c_str (c.metrics.getD j metric_entry_zero).name) ∧
    (∀ cfg nm i, cfg.name = some nm → i < c.num_metrics →
      c_str (c.metrics.getD i metric_entry_zero).name = c_str nm →
      (prts_metrics_register c (some cfg)).2 = c ∧
      ((prts_metrics_register c (some cfg)).1 = PRTS_ERROR_INVALID ∨
        (prts_metrics_register c (some cfg)).1 = PRTS_ERROR_FULL)) := by
  have hinv := metrics_reached_inv ops c0 c h0 hc
  have hu : NamesUnique c := by
    rw [hc, metrics_create_eq c0 h0]
    exact metrics_run_names ops 0 metrics_fresh metrics_fresh_inv metrics_fresh_names hshort
  refine ⟨hu.2, ?_⟩
  intro cfg nm i hnm hi heq
  obtain ⟨o1, o2, _⟩ := register_outcomes c cfg nm hnm
  by_cases hfull : MAX_METRICS ≤ c.num_metrics
  · rw [o1 hfull]
    exact ⟨rfl, Or.inr rfl⟩
  · have hsome : (find_metric c nm).isSome = true := by
      cases hf : find_metric c nm with
      | some k => rfl
      | none => exact absurd heq ((find_metric_none_iff c nm).mp hf i hi)
    rw [o2 (by omega) hsome]
    exact ⟨rfl, Or.inl rfl⟩

/-- Short names stay unique: after the three registrations the stored names differ pairwise. -/
theorem metrics_short_names_unique_witness :
    ∀ i j, i < j → j < (metrics_run metrics_fresh metrics_three_ops).num_metrics →
      c_str ((metrics_run metrics_fresh metrics_three_ops).metrics.getD i metric_entry_zero).name
        ≠ c_str
          ((metrics_run metrics_fresh metrics_three_ops).metrics.getD j metric_entry_zero).name :=
  (metrics_short_names_unique metrics_three_ops metrics_fresh
    (metrics_run metrics_fresh metrics_three_ops) rfl rfl (by
      intro op hop
      simp only [metrics_three_ops, List.mem_cons, List.mem_singleton, List.not_mem_nil,
        or_false] at hop
      rcases hop with h | h | h | h <;> subst h
      · show (c_str "http_requests".toList).length < MAX_NAME_LEN
        decide
      · show (c_str "temperature".toList).length < MAX_NAME_LEN
        decide
      · show (c_str "latency".toList).length < MAX_NAME_LEN
        decide
      · trivial)).1

set_option maxRecDepth 100000 in
/-- C21 fails for long names: registering the same 128-byte name twice on a fresh collector
returns ok both times and leaves two registered metrics whose stored names are the same 127
bytes.  `strncpy` stores the name cut to `MAX_NAME_LEN - 1` bytes, while `find_metric` compares
the stored names with the uncut name, so it never finds a name of 128 bytes or more. -/
theorem register_long_name_twice :
    prts_metrics_create true true = (PRTS_OK, some metrics_fresh) ∧
    metrics_long_twice.1 = PRTS_OK ∧ metrics_long_twice.2.1 = PRTS_OK ∧
    metrics_long_twice.2.2.num_metrics = 2 ∧
    c_str (metrics_long_twice.2.2.metrics.getD 0 metric_entry_zero).name
      = c_str (metrics_long_twice.2.2.metrics.getD 1 metric_entry_zero).name ∧
    c_str (metrics_long_twice.2.2.metrics.getD 0 metric_entry_zero).name
      = List.replicate 127 'a' := by
  refine ⟨rfl, rfl, rfl, rfl, rfl, rfl⟩

/-- C23 fails on a buffer smaller than the first line: exporting the single counter
`http_requests` with `buffer_size = 10` returns ok with `written_out = 52`, which exceeds
`buffer_size`; the HELP line is cut to 9 bytes and a terminator, and the TYPE line is then
stored at offset 23, past the end of the buffer, because `buffer_size - offset` wraps around. -/
theorem export_small_buffer_overrun :
    export_small.1 = PRTS_OK ∧
    export_small.2.map (fun r => r.2) = some 52 ∧
    export_small.2.map (fun r => mem_read r.1 0 10) = some ("# HELP ht".toList ++ [NUL]) ∧
    export_small.2.map (fun r => mem_read r.1 23 30)
      = some ("# TYPE http_requests counter\n".toList ++ [NUL]) := by
  refine ⟨by decide, by decide, by decide, by decide⟩

/-- A cut export without overrun still reports the uncut length: with `buffer_size = 30` the
HELP line fits, the TYPE line is cut to 6 bytes and a terminator, nothing is stored from offset
30 on, and `written_out` is 52. -/
theorem export_cut_reports_uncut_length :
    (prts_metrics_export_prometheus (fun _ => []) metrics_one_counter (some (fun _ => '.')) 30
        true).2.map (fun r => (r.2, mem_read r.1 0 34))
      = some (52, "# HELP http_requests n\n# TYPE".toList ++ [NUL] ++ "....".toList) := by
  decide

/-! ## Log parser: level names, format detection, syslog lines, trailing segments -/

theorem detect_format_cases (mem : List Char) (len : Nat) :
    (detect_format mem len = PRTS_LOG_FORMAT_JSON ↔ 0 < len ∧ mem.headD NUL = '{') ∧
    (detect_format mem len = PRTS_LOG_FORMAT_SYSLOG ↔ 0 < len ∧ mem.headD NUL = '<') ∧
    (detect_format mem len = PRTS_LOG_FORMAT_TEXT ↔
      ¬ (0 < len ∧ (mem.headD NUL = '{' ∨ mem.headD NUL = '<'))) := by
  unfold detect_format
  generalize mem.headD NUL = c
  have hne : ('{' : Char) ≠ '<' := by decide
  by_cases h0 : 0 < len
  · by_cases h1 : c = '{'
    · subst h1
      simp [h0, hne]
    · by_cases h2 : c = '<'
      · subst h2
        simp [h0, hne.symm]
      · simp [h0, h1, h2]
  · have : len = 0 := by omega
    subst this
    simp

theorem parse_format_congr (p1 p2 : prts_log_parser_t) (mem : List Char) (line : Option Nat)
    (line_len : Nat) (entry_out : Bool)
    (h : (if p1.format = PRTS_LOG_FORMAT_AUTO then
            detect_format (mem.drop (line.getD 0)) line_len else p1.format)
       = (if p2.format = PRTS_LOG_FORMAT_AUTO then
            detect_format (mem.drop (line.getD 0)) line_len else p2.format)) :
    prts_parser_parse p1 mem line line_len entry_out
      = prts_parser_parse p2 mem line line_len entry_out := by
  cases line with
  | none => rfl
  | some l =>
    simp only [Option.getD_some] at h
    unfold prts_parser_parse
    simp only []
    rw [h]

theorem match_level_name_none (p : List Char) (remaining : Nat) :
    ∀ (names : List (List Char)) (i : Nat),
    (∀ name ∈ names, strncasecmp_eq p name name.length = false) →
    match_level_name p remaining names i = none := by
  intro names
  induction names with
  | nil => intro i _; rfl
  | cons name rest ih =>
    intro i h
    rw [match_level_name, if_neg]
    · exact ih (i + 1) (fun n hn => h n (List.mem_cons_of_mem _ hn))
    · rintro ⟨_, h2⟩
      rw [h name (List.mem_cons_self _ _)] at h2
      cases h2

theorem parse_text_plain_eq (mem : List Char) (line line_len : Nat) (entry : prts_log_entry_t)
    (k1 k2 s3 : Nat)
    (h1 : skip_n is_timestamp_char (mem.drop line) line_len = k1)
    (h2 : skip_n c_isspace (mem.drop (line + k1)) (line_len - k1) = k2)
    (h3 : mem.getD (line + k1 + k2) NUL ≠ '[')
    (h4 : match_level_name (mem.drop (line + k1 + k2)) (line_len - k1 - k2) level_names 0 = none)
    (h5 : skip_n c_isspace (mem.drop (line + k1 + k2)) (line_len - k1 - k2) = s3) :
    parse_text mem line line_len entry =
      { entry with
        message := some (line + k1 + k2 + s3)
        message_len := line_len - k1 - k2 - s3 } := by
  unfold parse_text
  simp only [h1, h2, h3, h4, h5, if_false]

theorem parse_text_named_eq (mem : List Char) (line line_len : Nat) (entry : prts_log_entry_t)
    (k1 k2 i level_len s3 : Nat)
    (h1 : skip_n is_timestamp_char (mem.drop line) line_len = k1)
    (h2 : skip_n c_isspace (mem.drop (line + k1)) (line_len - k1) = k2)
    (h3 : mem.getD (line + k1 + k2) NUL ≠ '[')
    (h4 : match_level_name (mem.drop (line + k1 + k2)) (line_len - k1 - k2) level_names 0
      = some (i, level_len))
    (h5 : skip_n c_isspace (mem.drop (line + k1 + k2 + level_len))
      (size_sub line_len (line + k1 + k2 + level_len - line)) = s3) :
    parse_text mem line line_len entry =
      { entry with
        level := level_of_index i
        message := some (line + k1 + k2 + level_len + s3)
        message_len := size_sub line_len (line + k1 + k2 + level_len - line) - s3 } := by
  unfold parse_text
  simp only [h1, h2, h3, h4, h5, if_false]

theorem parse_text_angle (mem : List Char) (line line_len : Nat) (entry : prts_log_entry_t)
    (h : mem.getD line NUL = '<') :
    parse_text mem line line_len entry =
      { entry with message := some line, message_len := line_len } := by
  have hd : (mem.drop line).headD NUL = '<' := by
    rw [← getD_eq_headD_drop]
    exact h
  obtain ⟨t, ht⟩ : ∃ t, mem.drop line = '<' :: t := by
    cases hl : mem.drop line with
    | nil =>
      rw [hl] at hd
      exact absurd hd (by decide)
    | cons c t =>
      rw [hl] at hd
      exact ⟨t, by rw [show c = '<' from hd]⟩
  have h1 : skip_n is_timestamp_char (mem.drop line) line_len = 0 := by
    rw [ht, skip_n, if_neg]
    rintro ⟨_, h⟩
    revert h
    decide
  have h2 : skip_n c_isspace (mem.drop (line + 0)) (line_len - 0) = 0 := by
    rw [Nat.add_zero, ht, skip_n, if_neg]
    rintro ⟨_, h⟩
    revert h
    decide
  have h3 : mem.getD (line + 0 + 0) NUL ≠ '[' := by
    show mem.getD line NUL ≠ '['
    rw [h]
    decide
  have h4 : match_level_name (mem.drop (line + 0 + 0)) (line_len - 0 - 0) level_names 0
      = none := by
    apply match_level_name_none
    intro name hn
    show strncasecmp_eq (mem.drop line) name name.length = false
    rw [ht]
    simp only [level_names, List.mem_cons, List.mem_singleton, List.not_mem_nil, or_false] at hn
    rcases hn with h | h | h | h | h | h <;> subst h <;> rfl
  have h5 : skip_n c_isspace (mem.drop (line + 0 + 0)) (line_len - 0 - 0) = 0 := h2
  rw [parse_text_plain_eq mem line line_len entry 0 0 0 h1 h2 h3 h4 h5]
  rfl

/-- C27: with format auto, `prts_parser_parse` handles a line exactly as a parser configured
with the detected format does, and the detected format is JSON iff the line is non-empty and its
first byte is an opening brace, syslog iff it is non-empty and its first byte is `<`, and text in
every other case, among them the empty line and lines with leading whitespace. -/
theorem parse_auto_detects (parser : prts_log_parser_t) (mem : List Char) (line line_len : Nat)
    (hauto : parser.format = PRTS_LOG_FORMAT_AUTO) :
    prts_parser_parse parser mem (some line) line_len true
      = prts_parser_parse (parser_with (detect_format (mem.drop line) line_len)) mem (some line)
          line_len true ∧
    (detect_format (mem.drop line) line_len = PRTS_LOG_FORMAT_JSON ↔
      0 < line_len ∧ mem.getD line NUL = '{') ∧
    (detect_format (mem.drop line) line_len = PRTS_LOG_FORMAT_SYSLOG ↔
      0 < line_len ∧ mem.getD line NUL = '<') ∧
    (detect_format (mem.drop line) line_len = PRTS_LOG_FORMAT_TEXT ↔
      ¬ (0 < line_len ∧ (mem.getD line NUL = '{' ∨ mem.getD line NUL = '<'))) ∧
    (line_len = 0 → detect_format (mem.drop line) line_len = PRTS_LOG_FORMAT_TEXT) ∧
    (c_isspace (mem.getD line NUL) = true →
      detect_format (mem.drop line) line_len = PRTS_LOG_FORMAT_TEXT) := by
  have hd := detect_format_cases (mem.drop line) line_len
  rw [← getD_eq_headD_drop] at hd
  refine ⟨?_, hd.1, hd.2.1, hd.2.2, ?_, ?_⟩
  · apply parse_format_congr
    rw [hauto, if_pos rfl, Option.getD_some]
    have hne : ∀ f, f ≠ PRTS_LOG_FORMAT_AUTO →
        (if (parser_with f).format = PRTS_LOG_FORMAT_AUTO then
          detect_format (mem.drop line) line_len else (parser_with f).format) = f := by
      intro f hf
      show (if f = PRTS_LOG_FORMAT_AUTO then _ else f) = f
      rw [if_neg hf]
    symm
    apply hne
    unfold detect_format
    split_ifs <;> decide
  · intro h0
    rw [hd.2.2]
    omega
  · intro hs
    rw [hd.2.2]
    rintro ⟨_, h | h⟩ <;> rw [h] at hs <;> revert hs <;> decide

/-- An auto-format parse for C27: `<34>boot` is handled as by a syslog parser, and a line that
starts with an opening brace as by a JSON parser. -/
theorem parse_auto_detects_witness :
    detect_format ("<34>boot".toList.drop 0) 8 = PRTS_LOG_FORMAT_SYSLOG ∧
    detect_format ("\x7b\"msg\":\"x\"\x7d".toList.drop 0) 11 = PRTS_LOG_FORMAT_JSON ∧
    detect_format (" \x7b".toList.drop 0) 2 = PRTS_LOG_FORMAT_TEXT ∧
    prts_parser_parse (parser_with PRTS_LOG_FORMAT_AUTO) "<34>boot".toList (some 0) 8 true
      = prts_parser_parse (parser_with PRTS_LOG_FORMAT_SYSLOG) "<34>boot".toList (some 0) 8
          true :=
  ⟨by decide, by decide, by decide,
    (parse_auto_detects (parser_with PRTS_LOG_FORMAT_AUTO) "<34>boot".toList 0 8 rfl).1⟩

/-- C28 (amended): a line whose first byte is `<`, as is every line that auto-detection sends to
the syslog path, parsed with format syslog or auto, returns ok with level INFO and a message view
equal to the full line (`message = line`, `message_len = line_len`); under an explicitly
configured syslog format every line is parsed exactly as under the text format. -/
theorem parse_syslog_lines (parser : prts_log_parser_t) (mem : List Char) (line line_len : Nat)
    (hpath : parser.format = PRTS_LOG_FORMAT_SYSLOG ∨
      (parser.format = PRTS_LOG_FORMAT_AUTO ∧
        detect_format (mem.drop line) line_len = PRTS_LOG_FORMAT_SYSLOG)) :
    (parser.format = PRTS_LOG_FORMAT_AUTO → mem.getD line NUL = '<') ∧
    (mem.getD line NUL = '<' →
      ∃ e, prts_parser_parse parser mem (some line) line_len true = (PRTS_OK, some e) ∧
        e.level = PRTS_LOG_INFO ∧ e.message = some line ∧ e.message_len = line_len ∧
        view mem e.message e.message_len = (mem.drop line).take line_len) ∧
    (parser.format = PRTS_LOG_FORMAT_SYSLOG →
      prts_parser_parse parser mem (some line) line_len true
        = prts_parser_parse (parser_with PRTS_LOG_FORMAT_TEXT) mem (some line) line_len true) := by
  have hd := detect_format_cases (mem.drop line) line_len
  rw [← getD_eq_headD_drop] at hd
  have hfmt : (if parser.format = PRTS_LOG_FORMAT_AUTO then
      detect_format (mem.drop line) line_len else parser.format) = PRTS_LOG_FORMAT_SYSLOG := by
    rcases hpath with h | ⟨h, h2⟩
    · rw [h]
      rfl
    · rw [if_pos h, h2]
  refine ⟨?_, ?_, ?_⟩
  · intro ha
    rcases hpath with h | ⟨_, h2⟩
    · rw [h] at ha
      cases ha
    · exact (hd.2.1.mp h2).2
  · intro hfirst
    have hp : prts_parser_parse parser mem (some line) line_len true
        = (PRTS_OK, some
          { timestamp := 0, level := PRTS_LOG_INFO, message := some line, message_len := line_len,
            source := none, source_len := 0, raw := some line, raw_len := line_len,
            num_fields := 0 }) := by
      simp only [prts_parser_parse, Bool.not_true, Bool.false_eq_true, if_false, hfmt]
      rw [parse_text_angle mem line line_len _ hfirst]
    exact ⟨_, hp, rfl, rfl, rfl, rfl⟩
  · intro _
    simp only [prts_parser_parse, Bool.not_true, Bool.false_eq_true, if_false, hfmt]
    rfl

/-- A syslog line for C28: `<34>boot` under format auto gives INFO and the whole line. -/
theorem parse_syslog_lines_witness :
    "<34>boot".toList.getD 0 NUL = '<' ∧
    ∃ e, prts_parser_parse (parser_with PRTS_LOG_FORMAT_AUTO) "<34>boot".toList (some 0) 8 true
        = (PRTS_OK, some e) ∧
      e.level = PRTS_LOG_INFO ∧ e.message = some 0 ∧ e.message_len = 8 ∧
      view "<34>boot".toList e.message e.message_len = ("<34>boot".toList.drop 0).take 8 :=
  ⟨rfl, (parse_syslog_lines (parser_with PRTS_LOG_FORMAT_AUTO) "<34>boot".toList 0 8
    (Or.inr ⟨rfl, by decide⟩)).2.1 rfl⟩

theorem parse_level_unfold (str : List Char) (len : Nat) :
    parse_level str len =
      if 5 ≤ len ∧ (str.take 5).map c_tolower = "TRACE".toList.map c_tolower then PRTS_LOG_TRACE
      else if 5 ≤ len ∧ (str.take 5).map c_tolower = "DEBUG".toList.map c_tolower then
        PRTS_LOG_DEBUG
      else if 4 ≤ len ∧ (str.take 4).map c_tolower = "INFO".toList.map c_tolower then
        PRTS_LOG_INFO
      else if 4 ≤ len ∧ (str.take 4).map c_tolower = "WARN".toList.map c_tolower then
        PRTS_LOG_WARN
      else if 5 ≤ len ∧ (str.take 5).map c_tolower = "ERROR".toList.map c_tolower then
        PRTS_LOG_ERROR
      else if 5 ≤ len ∧ (str.take 5).map c_tolower = "FATAL".toList.map c_tolower then
        PRTS_LOG_FATAL
      else PRTS_LOG_INFO := by
  have e1 := strncasecmp_eq_spec "TRACE".toList (by decide) str
  have e2 := strncasecmp_eq_spec "DEBUG".toList (by decide) str
  have e3 := strncasecmp_eq_spec "INFO".toList (by decide) str
  have e4 := strncasecmp_eq_spec "WARN".toList (by decide) str
  have e5 := strncasecmp_eq_spec "ERROR".toList (by decide) str
  have e6 := strncasecmp_eq_spec "FATAL".toList (by decide) str
  have l1 : "TRACE".toList.length = 5 := rfl
  have l2 : "DEBUG".toList.length = 5 := rfl
  have l3 : "INFO".toList.length = 4 := rfl
  have l4 : "WARN".toList.length = 4 := rfl
  have l5 : "ERROR".toList.length = 5 := rfl
  have l6 : "FATAL".toList.length = 5 := rfl
  rw [l1] at e1; rw [l2] at e2; rw [l3] at e3; rw [l4] at e4; rw [l5] at e5; rw [l6] at e6
  unfold parse_level
  rw [e1, e2, e3, e4, e5, e6]
  simp only [ge_iff_le, Bool.and_eq_true, decide_eq_true_eq]

theorem ci_head (str name : List Char) (n : Nat) (hn : 0 < n) (hname : name ≠ [])
    (h : (str.take n).map c_tolower = name.map c_tolower) :
    c_tolower (str.headD NUL) = c_tolower (name.headD NUL) := by
  obtain ⟨m, rfl⟩ := Nat.exists_eq_succ_of_ne_zero (Nat.pos_iff_ne_zero.mp hn)
  cases name with
  | nil => exact absurd rfl hname
  | cons y name =>
    cases str with
    | nil => simp at h
    | cons x str =>
      rw [List.take_succ_cons, List.map_cons, List.map_cons] at h
      exact (List.cons.inj h).1

/-- C26: `parse_level(s, len)` returns the level whose name is a prefix of the first `len`
bytes of `s` up to letter case, and INFO when none of the six names is such a prefix; so
`warning` gives WARN, `Error` gives ERROR, and `err` and the empty span give INFO. -/
theorem parse_level_case_insensitive (str : List Char) (len : Nat) :
    (∀ name lvl, (name, lvl) ∈ level_table → name.length ≤ len →
      (str.take name.length).map c_tolower = name.map c_tolower →
      parse_level str len = lvl) ∧
    ((∀ name lvl, (name, lvl) ∈ level_table →
        ¬ (name.length ≤ len ∧ (str.take name.length).map c_tolower = name.map c_tolower)) →
      parse_level str len = PRTS_LOG_INFO) ∧
    parse_level "warning".toList 7 = PRTS_LOG_WARN ∧
    parse_level "Error".toList 5 = PRTS_LOG_ERROR ∧
    parse_level "err".toList 3 = PRTS_LOG_INFO ∧
    parse_level [] 0 = PRTS_LOG_INFO := by
  refine ⟨?_, ?_, by decide, by decide, by decide, by decide⟩
  · intro name lvl hmem hlen hm
    have hhead : ∀ other : List Char, other ≠ [] →
        c_tolower (other.headD NUL) ≠ c_tolower (name.headD NUL) → ∀ k, 0 < k →
        ¬ (k ≤ len ∧ (str.take k).map c_tolower = other.map c_tolower) := by
      intro other hne hdiff k hk hc
      have h1 := ci_head str other k hk hne hc.2
      have hnpos : 0 < name.length := by
        simp only [level_table, List.mem_cons, Prod.mk.injEq, List.mem_singleton,
          List.not_mem_nil, or_false] at hmem
        rcases hmem with h | h | h | h | h | h <;> rw [h.1] <;> decide
      have hnne : name ≠ [] := List.length_pos.mp hnpos
      have h2 := ci_head str name name.length hnpos hnne hm
      exact hdiff (h1.symm.trans h2)
    rw [parse_level_unfold]
    simp only [level_table, List.mem_cons, Prod.mk.injEq, List.mem_singleton,
      List.not_mem_nil, or_false] at hmem
    rcases hmem with h | h | h | h | h | h <;> obtain ⟨hn, hl⟩ := h <;> subst hn <;> subst hl
    · rw [if_pos ⟨hlen, hm⟩]
    · rw [if_neg (hhead "TRACE".toList (by decide) (by decide) 5 (by decide)),
        if_pos ⟨hlen, hm⟩]
    · rw [if_neg (hhead "TRACE".toList (by decide) (by decide) 5 (by decide)),
        if_neg (hhead "DEBUG".toList (by decide) (by decide) 5 (by decide)),
        if_pos ⟨hlen, hm⟩]
    · rw [if_neg (hhead "TRACE".toList (by decide) (by decide) 5 (by decide)),
        if_neg (hhead "DEBUG".toList (by decide) (by decide) 5 (by decide)),
        if_neg (hhead "INFO".toList (by decide) (by decide) 4 (by decide)),
        if_pos ⟨hlen, hm⟩]
    · rw [if_neg (hhead "TRACE".toList (by decide) (by decide) 5 (by decide)),
        if_neg (hhead "DEBUG".toList (by decide) (by decide) 5 (by decide)),
        if_neg (hhead "INFO".toList (by decide) (by decide) 4 (by decide)),
        if_neg (hhead "WARN".toList (by decide) (by decide) 4 (by decide)),
        if_pos ⟨hlen, hm⟩]
    · rw [if_neg (hhead "TRACE".toList (by decide) (by decide) 5 (by decide)),
        if_neg (hhead "DEBUG".toList (by decide) (by decide) 5 (by decide)),
        if_neg (hhead "INFO".toList (by decide) (by decide) 4 (by decide)),
        if_neg (hhead "WARN".toList (by decide) (by decide) 4 (by decide)),
        if_neg (hhead "ERROR".toList (by decide) (by decide) 5 (by decide)),
        if_pos ⟨hlen, hm⟩]
  · intro hno
    rw [parse_level_unfold]
    have n1 : ¬ (5 ≤ len ∧ (str.take 5).map c_tolower = "TRACE".toList.map c_tolower) :=
      hno "TRACE".toList PRTS_LOG_TRACE (by decide)
    have n2 : ¬ (5 ≤ len ∧ (str.take 5).map c_tolower = "DEBUG".toList.map c_tolower) :=
      hno "DEBUG".toList PRTS_LOG_DEBUG (by decide)
    have n3 : ¬ (4 ≤ len ∧ (str.take 4).map c_tolower = "INFO".toList.map c_tolower) :=
      hno "INFO".toList PRTS_LOG_INFO (by decide)
    have n4 : ¬ (4 ≤ len ∧ (str.take 4).map c_tolower = "WARN".toList.map c_tolower) :=
      hno "WARN".toList PRTS_LOG_WARN (by decide)
    have n5 : ¬ (5 ≤ len ∧ (str.take 5).map c_tolower = "ERROR".toList.map c_tolower) :=
      hno "ERROR".toList PRTS_LOG_ERROR (by decide)
    have n6 : ¬ (5 ≤ len ∧ (str.take 5).map c_tolower = "FATAL".toList.map c_tolower) :=
      hno "FATAL".toList PRTS_LOG_FATAL (by decide)
    rw [if_neg n1, if_neg n2, if_neg n3, if_neg n4, if_neg n5, if_neg n6]

/-- Levels for C26: `warning` has the prefix `WARN` up to letter case, and no name is a prefix
of `err`. -/
theorem parse_level_case_insensitive_witness :
    parse_level "warning".toList 7 = PRTS_LOG_WARN ∧
    parse_level "err".toList 3 = PRTS_LOG_INFO :=
  ⟨(parse_level_case_insensitive "warning".toList 7).1 "WARN".toList PRTS_LOG_WARN (by decide)
      (by decide) (by decide),
    (parse_level_case_insensitive "err".toList 3).2.1 (by
      intro name lvl hmem
      simp only [level_table, List.mem_cons, Prod.mk.injEq, List.mem_singleton,
        List.not_mem_nil, or_false] at hmem
      rcases hmem with h | h | h | h | h | h <;> rw [h.1] <;> decide)⟩

theorem batch_loop_tail (parser : prts_log_parser_t) (t post : List Char) (max_entries : Nat)
    (ht : NEWLINE ∉ t) :
    ∀ (lines : List (List Char)) (done : List Char) (acc : List prts_log_entry_t) (fuel : Nat),
    lines.length + 1 < fuel → (∀ l ∈ lines, NEWLINE ∉ l) →
    ∃ out, parse_batch_loop parser (done ++ (batch_data lines ++ (t ++ post)))
        (done.length + ((batch_data lines).length + t.length)) max_entries fuel done.length acc
          = some out ∧
      out.map (fun e => view (done ++ (batch_data lines ++ (t ++ post))) e.raw e.raw_len)
        = acc.map (fun e => view (done ++ (batch_data lines ++ (t ++ post))) e.raw e.raw_len) ++
          (nonempty_lines (lines ++ [t])).take (max_entries - acc.length) := by
  intro lines
  induction lines with
  | nil =>
    intro done acc fuel hf _
    obtain ⟨f, rfl⟩ := Nat.exists_eq_succ_of_ne_zero (by omega : fuel ≠ 0)
    obtain ⟨f2, rfl⟩ := Nat.exists_eq_succ_of_ne_zero (by simp at hf; omega : f ≠ 0)
    by_cases hte : t = []
    · subst hte
      refine ⟨acc, ?_, by simp [nonempty_lines]⟩
      simp [parse_batch_loop, batch_data]
    · by_cases hacc : acc.length < max_entries
      · have htpos : 0 < t.length := List.length_pos.mpr hte
        have hskip : skip_n (fun c => c ≠ '\n')
            ((done ++ (batch_data [] ++ (t ++ post))).drop done.length)
            (done.length + ((batch_data []).length + t.length) - done.length) = t.length := by
          rw [List.drop_left, Nat.add_sub_cancel_left]
          show skip_n (fun c => c ≠ '\n') (t ++ post) (0 + t.length) = t.length
          rw [Nat.zero_add]
          apply skip_n_run
          · intro c hc
            have : c ≠ NEWLINE := by intro e; subst e; exact ht hc
            simpa using this
          · exact Nat.le_refl _
          · left; rfl
        have hcond : done.length < done.length + ((batch_data []).length + t.length) ∧
            acc.length < max_entries := by
          refine ⟨?_, hacc⟩
          simp [batch_data]
          omega
        obtain ⟨e, he1, he2, he3⟩ := parse_raw parser (done ++ (batch_data [] ++ (t ++ post)))
          done.length t.length
        have hview : view (done ++ (batch_data [] ++ (t ++ post))) e.raw e.raw_len = t := by
          rw [he2, he3]
          simp [view, batch_data]
        refine ⟨acc ++ [e], ?_, ?_⟩
        · rw [parse_batch_loop, if_pos hcond, hskip]
          have hgt : done.length + t.length > done.length := by omega
          simp only [hgt, if_true, Nat.add_sub_cancel_left, he1]
          rw [parse_batch_loop, if_neg]
          rintro ⟨h, _⟩
          simp [batch_data] at h
        · rw [List.map_append, List.map_cons, List.map_nil, hview]
          congr 1
          have hne : nonempty_lines ([] ++ [t]) = [t] := by
            simp [nonempty_lines, hte]
          obtain ⟨k, hk⟩ : ∃ k, max_entries - acc.length = k + 1 :=
            ⟨max_entries - acc.length - 1, by omega⟩
          rw [hne, hk, List.take_succ_cons, List.take_nil]
      · refine ⟨acc, ?_, ?_⟩
        · rw [parse_batch_loop, if_neg]
          rintro ⟨_, h⟩
          exact hacc h
        · have : max_entries - acc.length = 0 := by omega
          simp [this]
  | cons l rest ih =>
    intro done acc fuel hf hnl
    obtain ⟨f, rfl⟩ := Nat.exists_eq_succ_of_ne_zero (by omega : fuel ≠ 0)
    have hl : NEWLINE ∉ l := hnl l (List.mem_cons_self _ _)
    have hrest : ∀ x ∈ rest, NEWLINE ∉ x := fun x hx => hnl x (List.mem_cons_of_mem _ hx)
    have hmem : done ++ (batch_data (l :: rest) ++ (t ++ post))
        = (done ++ l ++ [NEWLINE]) ++ (batch_data rest ++ (t ++ post)) := by
      simp [batch_data]
    have hend : done.length + ((batch_data (l :: rest)).length + t.length)
        = (done ++ l ++ [NEWLINE]).length + ((batch_data rest).length + t.length) := by
      simp [batch_data]
      omega
    by_cases hacc : acc.length < max_entries
    · have hskip : skip_n (fun c => c ≠ '\n')
          ((done ++ (batch_data (l :: rest) ++ (t ++ post))).drop done.length)
          (done.length + ((batch_data (l :: rest)).length + t.length) - done.length)
            = l.length := by
        rw [List.drop_left, Nat.add_sub_cancel_left]
        have e : batch_data (l :: rest) ++ (t ++ post)
            = l ++ (NEWLINE :: (batch_data rest ++ (t ++ post))) := by
          simp [batch_data]
        rw [e]
        apply skip_n_run
        · intro c hc
          have : c ≠ NEWLINE := by intro e; subst e; exact hl hc
          simpa using this
        · simp only [batch_data, List.length_append, List.length_cons]; omega
        · right; right
          show decide (NEWLINE ≠ '\n') = false
          decide
      have hcond : done.length < done.length + ((batch_data (l :: rest)).length + t.length) ∧
          acc.length < max_entries := by
        refine ⟨?_, hacc⟩
        simp [batch_data]
      by_cases hle : l = []
      · subst hle
        obtain ⟨out, ho1, ho2⟩ := ih (done ++ [] ++ [NEWLINE]) acc f (by simpa using hf) hrest
        refine ⟨out, ?_, ?_⟩
        · rw [parse_batch_loop, if_pos hcond, hskip]
          simp only [List.length_nil, Nat.add_zero, gt_iff_lt, Nat.lt_irrefl, if_false]
          rw [hmem, hend]
          simpa using ho1
        · rw [hmem]
          simpa [nonempty_lines] using ho2
      · have hlpos : 0 < l.length := List.length_pos.mpr hle
        obtain ⟨e, he1, he2, he3⟩ := parse_raw parser
          (done ++ (batch_data (l :: rest) ++ (t ++ post))) done.length l.length
        obtain ⟨out, ho1, ho2⟩ := ih (done ++ l ++ [NEWLINE]) (acc ++ [e]) f
          (by simpa using hf) hrest
        have hview : view (done ++ (batch_data (l :: rest) ++ (t ++ post))) e.raw e.raw_len
            = l := by
          rw [he2, he3]
          simp [view, batch_data]
        refine ⟨out, ?_, ?_⟩
        · rw [parse_batch_loop, if_pos hcond, hskip]
          have hgt : done.length + l.length > done.length := by omega
          simp only [hgt, if_true, Nat.add_sub_cancel_left, he1]
          rw [hmem, hend]
          simpa using ho1
        · rw [← hmem] at ho2
          rw [ho2, List.map_append, List.map_cons, List.map_nil, hview, List.append_assoc]
          congr 1
          have hne : nonempty_lines (l :: rest ++ [t]) = l :: nonempty_lines (rest ++ [t]) := by
            simp [nonempty_lines, hle]
          obtain ⟨k, hk⟩ : ∃ k, max_entries - acc.length = k + 1 := ⟨max_entries - acc.length - 1,
            by omega⟩
          rw [hne, hk, List.take_succ_cons, List.length_append, List.length_singleton]
          have hk2 : max_entries - (acc.length + 1) = k := by omega
          rw [hk2]
          rfl
    · refine ⟨acc, ?_, ?_⟩
      · rw [parse_batch_loop, if_neg]
        rintro ⟨_, h⟩
        exact hacc h
      · have : max_entries - acc.length = 0 := by omega
        simp [this]

theorem nonempty_lines_snoc (lines : List (List Char)) (t : List Char) (hte : t ≠ []) :
    nonempty_lines (lines ++ [t]) = nonempty_lines lines ++ [t] := by
  unfold nonempty_lines
  rw [List.filter_append]
  congr 1
  simp [hte]

/-- C29 (amended): `prts_parser_parse_batch` does not ignore a trailing line that is not
terminated by a newline: for data made of newline-terminated lines followed by a non-empty last
segment without a newline, the entries' raw views are the non-empty lines followed by that
segment, cut at `max_entries`, and `count_out` counts the segment as well whenever `max_entries`
leaves room for it. -/
theorem parse_batch_trailing_line (parser : prts_log_parser_t) (lines : List (List Char))
    (t pre post : List Char) (max_entries fuel : Nat)
    (hnl : ∀ l ∈ lines, NEWLINE ∉ l) (ht : NEWLINE ∉ t) (hte : t ≠ [])
    (hf : lines.length + 1 < fuel) :
    ∃ entries,
      prts_parser_parse_batch fuel parser (pre ++ (batch_data lines ++ (t ++ post)))
          (some pre.length) ((batch_data lines).length + t.length) true max_entries true
        = some (PRTS_OK, entries, min max_entries ((nonempty_lines lines).length + 1)) ∧
      entries.map (fun e => view (pre ++ (batch_data lines ++ (t ++ post))) e.raw e.raw_len)
        = (nonempty_lines lines ++ [t]).take max_entries ∧
      ((nonempty_lines lines).length < max_entries →
        entries.length = (nonempty_lines lines).length + 1 ∧
        entries.map (fun e => view (pre ++ (batch_data lines ++ (t ++ post))) e.raw e.raw_len)
          = nonempty_lines lines ++ [t]) := by
  obtain ⟨out, h1, h2⟩ := batch_loop_tail parser t post max_entries ht lines pre [] fuel hf hnl
  simp only [List.map_nil, List.nil_append, List.length_nil, Nat.sub_zero] at h2
  rw [nonempty_lines_snoc lines t hte] at h2
  have hlen : out.length = min max_entries ((nonempty_lines lines).length + 1) := by
    have := congrArg List.length h2
    simpa using this
  refine ⟨out, ?_, h2, ?_⟩
  · simp only [prts_parser_parse_batch, Bool.not_true, Bool.or_self, Bool.false_eq_true,
      if_false, h1, hlen]
  · intro hroom
    refine ⟨by rw [hlen]; omega, ?_⟩
    rw [h2, List.take_of_length_le]
    simp only [List.length_append, List.length_singleton]
    omega

/-- Counterexample to C29 as stated: for the data `a`, newline, `b`, whose last segment `b` has
no terminating newline, `prts_parser_parse_batch` stores 2 in `count_out` and the second entry
views `b`; the segment is not ignored. -/
theorem parse_batch_trailing_counterexample :
    (prts_parser_parse_batch 4 (parser_with PRTS_LOG_FORMAT_TEXT) "a\nb".toList (some 0) 3 true 8
        true).map (fun r =>
          (r.1, r.2.2, r.2.1.map (fun e => view "a\nb".toList e.raw e.raw_len)))
      = some (PRTS_OK, 2, ["a".toList, "b".toList]) ∧
    ¬ ∃ entries, prts_parser_parse_batch 4 (parser_with PRTS_LOG_FORMAT_TEXT) "a\nb".toList
        (some 0) 3 true 8 true = some (PRTS_OK, entries, 1) := by
  have h : (prts_parser_parse_batch 4 (parser_with PRTS_LOG_FORMAT_TEXT) "a\nb".toList (some 0) 3
      true 8 true).map (fun r => r.2.2) = some 2 := rfl
  refine ⟨rfl, ?_⟩
  rintro ⟨entries, he⟩
  rw [he] at h
  have h2 : (1 : Nat) = 2 := Option.some.inj h
  exact absurd h2 (by decide)

/-- A batch for C29: in `a`, newline, `b` the unterminated segment `b` gives the second of two
entries. -/
theorem parse_batch_trailing_line_witness :
    batch_data ["a".toList] ++ ("b".toList ++ []) = "a\nb".toList ∧
    ∃ entries,
      prts_parser_parse_batch 4 (parser_with PRTS_LOG_FORMAT_TEXT)
          ([] ++ (batch_data ["a".toList] ++ ("b".toList ++ []))) (some 0)
          ((batch_data ["a".toList]).length + "b".toList.length) true 8 true
        = some (PRTS_OK, entries, 2) ∧
      entries.map (fun e =>
          view ([] ++ (batch_data ["a".toList] ++ ("b".toList ++ []))) e.raw e.raw_len)
        = ["a".toList, "b".toList] := by
  obtain ⟨entries, h1, h2, _⟩ := parse_batch_trailing_line (parser_with PRTS_LOG_FORMAT_TEXT)
    ["a".toList] "b".toList [] [] 8 4 (by decide) (by decide) (by decide) (by decide)
  exact ⟨rfl, entries, h1, h2⟩

theorem ci_mismatch (str name other : List Char) (r : Nat) (hname : name ≠ [])
    (hother : other ≠ []) (hnul : NUL ∉ other)
    (hm : (str.take name.length).map c_tolower = name.map c_tolower)
    (hdiff : c_tolower (other.headD NUL) ≠ c_tolower (name.headD NUL)) :
    ¬ (r ≥ other.length ∧ strncasecmp_eq str other other.length = true) := by
  rintro ⟨_, h⟩
  rw [strncasecmp_eq_spec other hnul str, decide_eq_true_eq] at h
  have h1 := ci_head str other other.length (List.length_pos.mpr hother) hother h
  have h2 := ci_head str name name.length (List.length_pos.mpr hname) hname hm
  exact hdiff (h1.symm.trans h2)

theorem match_level_name_found (str name : List Char) (lvl : prts_log_level_t) (r : Nat)
    (hmem : (name, lvl) ∈ level_table) (hlen : name.length ≤ r)
    (hm : (str.take name.length).map c_tolower = name.map c_tolower) :
    match_level_name str r level_names 0 = some (lvl.toNat, name.length) := by
  have hnul : ∀ o ∈ level_names, NUL ∉ o := by decide
  have hyes : r ≥ name.length ∧ strncasecmp_eq str name name.length = true := by
    refine ⟨hlen, ?_⟩
    have hn : NUL ∉ name := by
      simp only [level_table, List.mem_cons, Prod.mk.injEq, List.mem_singleton,
        List.not_mem_nil, or_false] at hmem
      rcases hmem with h | h | h | h | h | h <;> rw [h.1] <;> decide
    rw [strncasecmp_eq_spec name hn str, decide_eq_true_eq]
    exact hm
  have hno : ∀ other : List Char, other ≠ [] → NUL ∉ other → name ≠ [] →
      c_tolower (other.headD NUL) ≠ c_tolower (name.headD NUL) →
      ¬ (r ≥ other.length ∧ strncasecmp_eq str other other.length = true) :=
    fun other h1 h2 h3 h4 => ci_mismatch str name other r h3 h1 h2 hm h4
  simp only [level_table, List.mem_cons, Prod.mk.injEq, List.mem_singleton,
    List.not_mem_nil, or_false] at hmem
  unfold level_names
  rcases hmem with h | h | h | h | h | h <;> obtain ⟨hn, hl⟩ := h <;> subst hn <;> subst hl
  · rw [match_level_name, if_pos hyes]
    rfl
  · rw [match_level_name, if_neg (hno _ (by decide) (by decide) (by decide) (by decide)),
      match_level_name, if_pos hyes]
    rfl
  · rw [match_level_name, if_neg (hno _ (by decide) (by decide) (by decide) (by decide)),
      match_level_name, if_neg (hno _ (by decide) (by decide) (by decide) (by decide)),
      match_level_name, if_pos hyes]
    rfl
  · rw [match_level_name, if_neg (hno _ (by decide) (by decide) (by decide) (by decide)),
      match_level_name, if_neg (hno _ (by decide) (by decide) (by decide) (by decide)),
      match_level_name, if_neg (hno _ (by decide) (by decide) (by decide) (by decide)),
      match_level_name, if_pos hyes]
    rfl
  · rw [match_level_name, if_neg (hno _ (by decide) (by decide) (by decide) (by decide)),
      match_level_name, if_neg (hno _ (by decide) (by decide) (by decide) (by decide)),
      match_level_name, if_neg (hno _ (by decide) (by decide) (by decide) (by decide)),
      match_level_name, if_neg (hno _ (by decide) (by decide) (by decide) (by decide)),
      match_level_name, if_pos hyes]
    rfl
  · rw [match_level_name, if_neg (hno _ (by decide) (by decide) (by decide) (by decide)),
      match_level_name, if_neg (hno _ (by decide) (by decide) (by decide) (by decide)),
      match_level_name, if_neg (hno _ (by decide) (by decide) (by decide) (by decide)),
      match_level_name, if_neg (hno _ (by decide) (by decide) (by decide) (by decide)),
      match_level_name, if_neg (hno _ (by decide) (by decide) (by decide) (by decide)),
      match_level_name, if_pos hyes]
    rfl

theorem level_of_index_toNat (lvl : prts_log_level_t) : level_of_index lvl.toNat = lvl := by
  cases lvl <;> rfl

theorem bare_line_length (ts L m : List Char) :
    (bare_line ts L m).length = ts.length + L.length + m.length + 2 := by
  simp only [bare_line, List.length_append, List.length_cons, List.length_nil]
  omega

/-- Bare level names other than an upper-case `T...`: for every level name `L`, in any letter
case, whose first byte the timestamp skip leaves alone, every timestamp prefix `ts` and every
message `m` that does not begin with whitespace, parsing the NUL-terminated text line `ts L m`
with format text returns level `L` and a message view equal to `m`. -/
theorem parse_text_bare_level (parser : prts_log_parser_t) (ts L m : List Char)
    (lvl : prts_log_level_t)
    (hfmt : parser.format = PRTS_LOG_FORMAT_TEXT)
    (hts : ∀ c ∈ ts, is_timestamp_char c = true)
    (hL : is_level_name L lvl) (hT : is_timestamp_char (L.headD NUL) = false)
    (hm : c_isspace (m.headD NUL) = false)
    (hsize : (bare_line ts L m).length < SIZE_MOD) :
    ∃ e, prts_parser_parse parser (bare_line ts L m) (some 0)
        (ts.length + L.length + 1 + m.length) true = (PRTS_OK, some e) ∧
      e.level = lvl ∧ view (bare_line ts L m) e.message e.message_len = m ∧
      e.message_len = m.length := by
  obtain ⟨hLl, hL4, hL5⟩ := level_name_cases L lvl hL
  obtain ⟨name, hmem, hmap⟩ := hL
  have hnl : name.length = L.length := by
    have := congrArg List.length hmap
    simpa using this.symm
  obtain ⟨c0, L2, rfl⟩ : ∃ c0 L2, L = c0 :: L2 := by
    cases L with
    | nil => simp at hL4
    | cons c0 L2 => exact ⟨c0, L2, rfl⟩
  have hc0 := letter_facts c0 (hLl c0 (List.mem_cons_self _ _))
  have hc0s : c_isspace c0 = false := by
    have h1 := hLl c0 (List.mem_cons_self _ _)
    cases hs : c_isspace c0 with
    | false => rfl
    | true =>
      exfalso
      exact alpha_ne c0 c0 h1 (by
        simp only [c_isspace, Bool.or_eq_true, decide_eq_true_eq, Bool.and_eq_true] at hs
        rcases hs with h | ⟨h2, h3⟩
        · exact absurd h hc0.2.2.2.1
        · simp only [is_letter, Bool.or_eq_false_iff, Bool.and_eq_false_iff,
            decide_eq_false_iff_not]
          omega) rfl
  have hlen := bare_line_length ts (c0 :: L2) m
  set len := ts.length + (c0 :: L2).length + 1 + m.length with hlendef
  have d1 : (bare_line ts (c0 :: L2) m).drop (0 + ts.length + 0)
      = (c0 :: L2) ++ (' ' :: (m ++ [NUL])) := by
    rw [Nat.add_zero, Nat.zero_add, bare_line, List.drop_left]
  have d2 : (bare_line ts (c0 :: L2) m).drop (0 + ts.length + 0 + (c0 :: L2).length)
      = ' ' :: (m ++ [NUL]) := by
    rw [← List.drop_drop, d1, List.drop_left]
  have hsub : size_sub len (0 + ts.length + 0 + (c0 :: L2).length - 0) = m.length + 1 := by
    rw [hlen] at hsize
    simp only [size_sub, SIZE_MOD, hlendef] at hsize ⊢
    omega
  have hpt := parse_text_named_eq (bare_line ts (c0 :: L2) m) 0 len
    { timestamp := 0, level := PRTS_LOG_INFO, message := none, message_len := 0, source := none,
      source_len := 0, raw := some 0, raw_len := len, num_fields := 0 }
    ts.length 0 lvl.toNat (c0 :: L2).length 1
    (by
      rw [List.drop_zero, bare_line]
      apply skip_n_run _ _ _ _ hts (by omega)
      right; right
      exact hT)
    (by
      have := d1
      rw [Nat.add_zero] at this
      rw [this, List.cons_append, skip_n, if_neg]
      rintro ⟨_, h⟩
      rw [hc0s] at h
      cases h)
    (by
      rw [getD_eq_headD_drop, d1]
      exact hc0.2.2.2.2.2.2.2)
    (by
      rw [d1, ← hnl]
      apply match_level_name_found _ _ _ _ hmem (by omega)
      rw [hnl, List.take_left, hmap])
    (by
      rw [d2, hsub]
      have := skip_n_run c_isspace [' '] (m ++ [NUL]) (m.length + 1) (by decide) (by simp)
        (by
          right; right
          cases m with
          | nil => decide
          | cons a m => exact hm)
      simpa using this)
  have hparse : prts_parser_parse parser (bare_line ts (c0 :: L2) m) (some 0) len true
      = (PRTS_OK, some
        { timestamp := 0, level := level_of_index lvl.toNat,
          message := some (0 + ts.length + 0 + (c0 :: L2).length + 1),
          message_len := size_sub len (0 + ts.length + 0 + (c0 :: L2).length - 0) - 1,
          source := none, source_len := 0, raw := some 0,
          raw_len := len, num_fields := 0 }) := by
    simp only [prts_parser_parse, Bool.not_true, Bool.false_eq_true, if_false, hfmt]
    rw [hpt]
    rfl
  refine ⟨_, hparse, level_of_index_toNat lvl, ?_, ?_⟩
  · show ((bare_line ts (c0 :: L2) m).drop (0 + ts.length + 0 + (c0 :: L2).length + 1)).take
      (size_sub len (0 + ts.length + 0 + (c0 :: L2).length - 0) - 1) = m
    rw [hsub, ← List.drop_drop, d2]
    simp
  · show size_sub len (0 + ts.length + 0 + (c0 :: L2).length - 0) - 1 = m.length
    rw [hsub]
    simp

/-- A bare level after a timestamp: `2024-01-01T10:00:00Z ERROR boom` gives ERROR and `boom`. -/
theorem parse_text_bare_level_witness :
    bare_line "2024-01-01T10:00:00Z ".toList "ERROR".toList "boom".toList
      = "2024-01-01T10:00:00Z ERROR boom".toList ++ [NUL] ∧
    ∃ e, prts_parser_parse (parser_with PRTS_LOG_FORMAT_TEXT)
        (bare_line "2024-01-01T10:00:00Z ".toList "ERROR".toList "boom".toList) (some 0)
        ("2024-01-01T10:00:00Z ".toList.length + "ERROR".toList.length + 1
          + "boom".toList.length) true = (PRTS_OK, some e) ∧
      e.level = PRTS_LOG_ERROR ∧
      view (bare_line "2024-01-01T10:00:00Z ".toList "ERROR".toList "boom".toList)
        e.message e.message_len = "boom".toList ∧
      e.message_len = "boom".toList.length :=
  ⟨by decide,
    parse_text_bare_level (parser_with PRTS_LOG_FORMAT_TEXT) "2024-01-01T10:00:00Z ".toList
      "ERROR".toList "boom".toList PRTS_LOG_ERROR rfl (by decide) is_level_name_error
      (by decide) (by decide) (by decide)⟩

/-- C25 fails for TRACE: parsing the NUL-terminated text line `TRACE boom` with format text
returns level INFO and the message view `RACE boom`.  The timestamp skip consumes the upper-case
`T`, after which no level name matches. -/
theorem parse_text_trace_line :
    (trace_line.take 10 = "TRACE".toList ++ ' ' :: "boom".toList) ∧
    prts_parser_parse (parser_with PRTS_LOG_FORMAT_TEXT) trace_line (some 0) 10 true
      = (PRTS_OK, some
          { timestamp := 0, level := PRTS_LOG_INFO, message := some 1, message_len := 9,
            source := none, source_len := 0, raw := some 0, raw_len := 10, num_fields := 0 }) ∧
    view trace_line (some 1) 9 = "RACE boom".toList := by
  refine ⟨by decide, by decide, by decide⟩

/-- Counterexample to C28 as stated: with format syslog configured explicitly, the line
`ERROR boom` is parsed as text and gives level ERROR and the message `boom`, not level INFO and
the full line. -/
theorem parse_syslog_counterexample :
    (parser_with PRTS_LOG_FORMAT_SYSLOG).format = PRTS_LOG_FORMAT_SYSLOG ∧
    ¬ ∃ e, prts_parser_parse (parser_with PRTS_LOG_FORMAT_SYSLOG) "ERROR boom".toList (some 0) 10
          true = (PRTS_OK, some e) ∧
        e.level = PRTS_LOG_INFO ∧ e.message = some 0 ∧ e.message_len = 10 := by
  have h : prts_parser_parse (parser_with PRTS_LOG_FORMAT_SYSLOG) "ERROR boom".toList (some 0) 10
      true = (PRTS_OK, some
        { timestamp := 0, level := PRTS_LOG_ERROR, message := some 6, message_len := 4,
          source := none, source_len := 0, raw := some 0, raw_len := 10, num_fields := 0 }) := by
    decide
  refine ⟨rfl, ?_⟩
  rintro ⟨e, he, hl, _⟩
  rw [h] at he
  cases he
  exact absurd hl (by decide)

/-- C30 fails on the JSON path: for the first of two JSON lines, a line of 2 bytes without a
message key, `prts_parser_parse` returns ok with a message view at offset 11 of length 1, inside
the second line and outside the range of the input line; `strstr` searches up to the terminator
of the buffer, not up to `line_len`.  `prts_parser_parse_batch` hands over exactly such lines:
its first entry has that message view. -/
theorem parse_json_message_outside_line :
    prts_parser_parse (parser_with PRTS_LOG_FORMAT_JSON) json_two_lines (some 0) 2 true
      = (PRTS_OK, some
          { timestamp := 0, level := PRTS_LOG_INFO, message := some 11, message_len := 1,
            source := none, source_len := 0, raw := some 0, raw_len := 2, num_fields := 0 }) ∧
    ¬ (11 + 1 ≤ 0 + 2) ∧
    (prts_parser_parse_batch 3 (parser_with PRTS_LOG_FORMAT_AUTO) json_two_lines (some 0)
        json_two_lines.length true 8 true).map (fun r =>
          (r.1, r.2.2, r.2.1.map (fun e => (e.raw, e.raw_len, e.message, e.message_len))))
      = some (PRTS_OK, 2, [(some 0, 2, some 11, 1), (some 3, 11, some 11, 1)]) := by
  refine ⟨by decide, by decide, rfl⟩

/-- The bracket branch of the text path reads past `line_len` as well: for the buffer `12[ab]cd`
with `line_len = 2` the timestamp skip uses up the line, `remaining--` wraps around, `strchr`
finds the closing bracket outside the line, and the message view starts at offset 6 with length
`2^64 - 4`. -/
theorem parse_text_bracket_outside_line :
    prts_parser_parse (parser_with PRTS_LOG_FORMAT_TEXT) "12[ab]cd".toList (some 0) 2 true
      = (PRTS_OK, some
          { timestamp := 0, level := PRTS_LOG_INFO, message := some 6,
            message_len := 2 ^ 64 - 4, source := none, source_len := 0, raw := some 0,
            raw_len := 2, num_fields := 0 }) := by
  decide

/-! ## Log indexer: text filter, appends and flushes -/

theorem indexer_search_entries (indexer : prts_log_indexer_t) (mem : List Char)
    (query : prts_search_query_t)
    (hcount : indexer.buffer_count ≤ indexer.buffer.length) :
    ∃ res, prts_indexer_search indexer mem (some query) true true true
        = (PRTS_OK, some res, indexer) ∧
      res.entries =
        (((indexer.buffer.take indexer.buffer_count).drop query.offset).filter
          (search_match mem query)).take (if query.limit > 0 then query.limit else 100) ∧
      res.count = res.entries.length ∧ res.total_matches = res.entries.length ∧
      res.entries.length ≤ (if query.limit > 0 then query.limit else 100) := by
  have h := search_loop_spec mem query indexer (if query.limit > 0 then query.limit else 100)
    hcount (indexer.buffer_count - query.offset) query.offset [] rfl
  simp only [List.nil_append, List.length_nil, Nat.sub_zero] at h
  refine ⟨_, rfl, h, rfl, rfl, ?_⟩
  show (search_loop mem query indexer _ _ _ []).length ≤ _
  rw [h]
  exact List.length_take_le _ _

theorem prefix_of_terminated (q s rest : List Char) (hq : NUL ∉ q) (hr : rest.headD NUL = NUL)
    (h : q <+: s ++ rest) : q <+: s := by
  by_cases hl : q.length ≤ s.length
  · exact List.prefix_of_prefix_length_le h (List.prefix_append s rest) hl
  · exfalso
    obtain ⟨t, ht⟩ := h
    have hs : s <+: q := by
      apply List.prefix_of_prefix_length_le (List.prefix_append s rest) ⟨t, ht⟩
      omega
    obtain ⟨u, hu⟩ := hs
    subst hu
    rw [List.append_assoc] at ht
    have ht2 := List.append_cancel_left ht
    cases u with
    | nil => simp at hl
    | cons x u =>
      cases rest with
      | nil => simp at ht2
      | cons y rest =>
        rw [List.cons_append] at ht2
        have hxy : x = y := (List.cons.inj ht2).1
        have hy : y = NUL := hr
        apply hq
        rw [← hy, ← hxy]
        simp

theorem strstr_isSome_iff (q : List Char) (hq : NUL ∉ q) (rest : List Char)
    (hr : rest.headD NUL = NUL) :
    ∀ s : List Char, NUL ∉ s → ((strstr (s ++ rest) q).isSome = true ↔ q <:+: s) := by
  intro s
  induction s with
  | nil =>
    intro _
    rw [List.nil_append, List.infix_nil]
    cases rest with
    | nil =>
      rw [strstr]
      by_cases hqe : q = []
      · simp [hqe]
      · simp [hqe]
    | cons y rest =>
      have hy : y = NUL := hr
      subst hy
      rw [strstr]
      by_cases hp : q.isPrefixOf (NUL :: rest) = true
      · rw [if_pos hp]
        have := prefix_of_terminated q [] (NUL :: rest) hq rfl
          (by rw [List.nil_append]; exact List.isPrefixOf_iff_prefix.mp hp)
        simp [List.prefix_nil.mp this]
      · rw [if_neg hp, if_pos rfl]
        have : q ≠ [] := by
          intro e
          apply hp
          rw [e]
          rfl
        simp [this]
  | cons a s ih =>
    intro hs
    have ha : a ≠ NUL := fun e => hs (by rw [e]; exact List.mem_cons_self _ _)
    have hs2 : NUL ∉ s := fun e => hs (List.mem_cons_of_mem _ e)
    rw [List.cons_append, strstr, List.infix_cons_iff]
    by_cases hp : q.isPrefixOf (a :: (s ++ rest)) = true
    · rw [if_pos hp]
      have := prefix_of_terminated q (a :: s) rest hq hr
        (by rw [List.cons_append]; exact List.isPrefixOf_iff_prefix.mp hp)
      simp [this]
    · rw [if_neg hp, if_neg ha]
      have hnp : ¬ q <+: a :: s := by
        intro h
        apply hp
        rw [List.isPrefixOf_iff_prefix]
        exact h.trans (by rw [← List.cons_append]; exact List.prefix_append _ _)
      rw [Option.isSome_map', ih hs2]
      simp [hnp]

theorem search_keeps_level_time (mem : List Char) (query : prts_search_query_t)
    (entry : prts_log_entry_t) :
    search_keeps mem query entry = true ↔
      search_level_time query entry ∧
      (match query.query, entry.message with
        | some q, some m => (strstr (mem.drop m) q).isSome = true
        | _, _ => True) := by
  rw [search_keeps_eq]
  unfold search_match search_level_time
  simp only [Bool.and_eq_true, decide_eq_true_eq, Bool.or_eq_true, Bool.not_eq_true',
    decide_eq_false_iff_not, and_assoc]
  refine and_congr Iff.rfl (and_congr ?_ (and_congr ?_ ?_))
  · constructor
    · rintro (h | h)
      · exact fun h2 => absurd h2 h
      · exact fun _ => h
    · intro h
      by_cases h0 : query.start_time > 0
      · exact Or.inr (h h0)
      · exact Or.inl h0
  · constructor
    · rintro (h | h)
      · exact fun h2 => absurd h2 h
      · exact fun _ => h
    · intro h
      by_cases h0 : query.end_time > 0
      · exact Or.inr (h h0)
      · exact Or.inl h0
  · generalize query.query = a
    generalize entry.message = b
    cases a <;> cases b <;> simp

/-- C31 (amended): for a search whose `query.query` is non-null (a text `q` without `NUL`), the
entries returned are the first `limit` (default 100) matches among the buffered entries from
`query.offset` on, where an entry is a match iff it passes the level and time filters and either
its message is null or, for a message view that is a C string (no `NUL` inside, a `NUL` after
its `message_len` bytes), `q` occurs as a substring of the message; every returned entry with
such a message therefore contains the query text inside its message. -/
theorem indexer_search_text_filter (indexer : prts_log_indexer_t) (mem : List Char)
    (query : prts_search_query_t) (q : List Char)
    (hcount : indexer.buffer_count ≤ indexer.buffer.length)
    (hq : query.query = some q) (hqn : NUL ∉ q) :
    ∃ res, prts_indexer_search indexer mem (some query) true true true
        = (PRTS_OK, some res, indexer) ∧
      res.entries =
        (((indexer.buffer.take indexer.buffer_count).drop query.offset).filter
          (search_keeps mem query)).take (if query.limit > 0 then query.limit else 100) ∧
      (∀ e : prts_log_entry_t, e.message = none →
        (search_keeps mem query e = true ↔ search_level_time query e)) ∧
      (∀ e : prts_log_entry_t, message_terminated mem e →
        (search_keeps mem query e = true ↔
          search_level_time query e ∧ q <:+: view mem e.message e.message_len)) ∧
      (∀ e ∈ res.entries, message_terminated mem e →
        q <:+: view mem e.message e.message_len) := by
  obtain ⟨res, h1, h2, _⟩ := indexer_search_entries indexer mem query hcount
  have hfun : search_match mem query = search_keeps mem query := by
    funext e
    exact (search_keeps_eq mem query e).symm
  rw [hfun] at h2
  have hnone : ∀ e : prts_log_entry_t, e.message = none →
      (search_keeps mem query e = true ↔ search_level_time query e) := by
    intro e he
    rw [search_keeps_level_time, hq, he]
    simp
  have hterm : ∀ e : prts_log_entry_t, message_terminated mem e →
      (search_keeps mem query e = true ↔
        search_level_time query e ∧ q <:+: view mem e.message e.message_len) := by
    rintro e ⟨m, hm, hnul, hend⟩
    rw [search_keeps_level_time, hq, hm]
    refine and_congr Iff.rfl ?_
    show (strstr (mem.drop m) q).isSome = true ↔ q <:+: (mem.drop m).take e.message_len
    have hsplit : mem.drop m
        = (mem.drop m).take e.message_len ++ mem.drop (m + e.message_len) := by
      rw [← List.drop_drop, List.take_append_drop]
    have hnul2 : NUL ∉ (mem.drop m).take e.message_len := by
      rw [hm] at hnul
      exact hnul
    have hr : (mem.drop (m + e.message_len)).headD NUL = NUL := by
      rw [← getD_eq_headD_drop]
      exact hend
    conv_lhs => rw [hsplit]
    exact strstr_isSome_iff q hqn _ hr _ hnul2
  refine ⟨res, h1, h2, hnone, hterm, ?_⟩
  intro e he ht
  rw [h2] at he
  have hk := (List.mem_filter.mp (List.mem_of_mem_take he)).2
  exact ((hterm e ht).mp hk).2

/-- Counterexample to C31 as stated: a search for `full` returns an entry whose message is null
and an entry whose 4-byte message is `disk` (the text is found behind the view, in the C string
`disk full`), although `full` occurs in neither message; and with `limit = 1` the third buffered
entry of `search_indexer` is not returned although it passes every filter and its message
`disk full` contains the query `disk`. -/
theorem indexer_search_text_counterexample :
    (prts_indexer_search search_odd_indexer search_mem (some search_full_query) true true
        true).2.1.map (fun r => r.entries) = some search_odd_indexer.buffer ∧
    (∀ e ∈ search_odd_indexer.buffer,
      ¬ "full".toList <:+: view search_mem e.message e.message_len) ∧
    (prts_indexer_search search_indexer search_mem (some search_one_query) true true
        true).2.1.map (fun r => r.entries) = some (search_indexer.buffer.take 1) ∧
    "disk".toList <:+: view search_mem (search_indexer.buffer.getD 2 log_entry_zero).message
      (search_indexer.buffer.getD 2 log_entry_zero).message_len ∧
    search_indexer.buffer.getD 2 log_entry_zero ∉ search_indexer.buffer.take 1 := by
  refine ⟨by decide, by decide, by decide, by decide, by decide⟩

/-- A search for C31: in `search_indexer` the query `disk` with minimum level WARN returns the
WARN entry, whose message `disk full` is a C string that contains `disk`. -/
theorem indexer_search_text_filter_witness :
    message_terminated search_mem (search_indexer.buffer.getD 0 log_entry_zero) ∧
    ∃ res, prts_indexer_search search_indexer search_mem (some search_query) true true true
        = (PRTS_OK, some res, search_indexer) ∧
      res.entries = [search_indexer.buffer.getD 0 log_entry_zero] ∧
      ∀ e ∈ res.entries, message_terminated search_mem e →
        "disk".toList <:+: view search_mem e.message e.message_len := by
  obtain ⟨res, h1, h2, _, _, h5⟩ := indexer_search_text_filter search_indexer search_mem
    search_query "disk".toList (by decide) rfl (by decide)
  refine ⟨⟨0, rfl, by decide, by decide⟩, res, h1, ?_, h5⟩
  rw [h2]
  decide

theorem indexer_create_inv (config : prts_indexer_config_t) (indexer : prts_log_indexer_t)
    (h : prts_indexer_create (some config) true true true = (PRTS_OK, some indexer)) :
    IndexerInv 0 indexer ∧
    indexer.shard_size = (if config.shard_size > 0 then config.shard_size else 10000) ∧
    indexer.buffer_capacity = 1024 ∧ indexer.buffer_count = 0 := by
  simp only [prts_indexer_create, Bool.not_true, Bool.false_eq_true, if_false, Prod.mk.injEq,
    Option.some.injEq, true_and] at h
  subst h
  refine ⟨⟨?_, ?_, Nat.zero_le _, List.length_replicate _ _, (by show 0 < 1024; decide),
    Nat.le_refl _⟩,
    rfl, rfl, rfl⟩
  · show 0 < (if config.shard_size > 0 then config.shard_size else 10000)
    split_ifs <;> omega
  · show 0 < (if config.shard_size > 0 then config.shard_size else 10000)
    split_ifs <;> omega

theorem indexer_inv_mono (n m : Nat) (indexer : prts_log_indexer_t) (h : IndexerInv n indexer)
    (hnm : n ≤ m) : IndexerInv m indexer :=
  ⟨h.1, h.2.1, h.2.2.1, h.2.2.2.1, h.2.2.2.2.1, Nat.le_trans h.2.2.2.2.2 hnm⟩

/-- What one call of `prts_indexer_add` with a non-null entry does to an indexer of good shape
that holds fewer than `2^63` entries. -/
theorem indexer_add_spec (n : Nat) (indexer : prts_log_indexer_t) (entry : prts_log_entry_t)
    (realloc_ok : Bool) (fresh : Nat → prts_log_entry_t)
    (hinv : IndexerInv n indexer) (hn : indexer.buffer_count < 2 ^ 63) :
    ((indexer.buffer_count ≥ indexer.buffer_capacity ∧ realloc_ok = false) →
      prts_indexer_add indexer (some entry) realloc_ok fresh = (PRTS_ERROR_NOMEM, indexer)) ∧
    (¬ (indexer.buffer_count ≥ indexer.buffer_capacity ∧ realloc_ok = false) →
      ∃ buffer : List prts_log_entry_t,
        buffer.length = (if indexer.buffer_count ≥ indexer.buffer_capacity then
          2 * indexer.buffer_capacity else indexer.buffer_capacity) ∧
        buffer.getD indexer.buffer_count log_entry_zero = entry ∧
        (∀ i, i < indexer.buffer_count →
          buffer.getD i log_entry_zero = indexer.buffer.getD i log_entry_zero) ∧
        prts_indexer_add indexer (some entry) realloc_ok fresh =
          (PRTS_OK,
            { indexer with
              buffer := buffer
              buffer_capacity := (if indexer.buffer_count ≥ indexer.buffer_capacity then
                2 * indexer.buffer_capacity else indexer.buffer_capacity)
              buffer_count := (if indexer.buffer_count + 1 ≥ indexer.shard_size then 0
                else indexer.buffer_count + 1) })) := by
  obtain ⟨hs0, hlt, hle, hlen, hcap, hcn⟩ := hinv
  have hadd : size_add indexer.buffer_count 1 = indexer.buffer_count + 1 := by
    unfold size_add SIZE_MOD
    apply Nat.mod_eq_of_lt
    have h64 : (2 : Nat) ^ 64 = 2 * 2 ^ 63 := by norm_num
    generalize (2 : Nat) ^ 63 = p at hn h64
    omega
  unfold prts_indexer_add
  dsimp only
  by_cases hfull : indexer.buffer_count ≥ indexer.buffer_capacity
  · have hmul : size_mul indexer.buffer_capacity 2 = 2 * indexer.buffer_capacity := by
      unfold size_mul SIZE_MOD
      rw [Nat.mul_comm]
      apply Nat.mod_eq_of_lt
      have h64 : (2 : Nat) ^ 64 = 2 * 2 ^ 63 := by norm_num
      generalize (2 : Nat) ^ 63 = p at hn h64
      omega
    rw [if_pos hfull, hmul]
    cases realloc_ok with
    | false =>
      refine ⟨fun _ => rfl, fun h => absurd ⟨hfull, rfl⟩ h⟩
    | true =>
      refine ⟨fun h => absurd h.2 (by decide), fun _ => ?_⟩
      simp only [Bool.not_true, Bool.false_eq_true, if_false, hadd, if_pos hfull]
      have hg : (indexer.buffer.take (2 * indexer.buffer_capacity) ++
          (List.range (2 * indexer.buffer_capacity - indexer.buffer.length)).map fresh).length
            = 2 * indexer.buffer_capacity := by
        rw [List.length_append, List.length_take, List.length_map, List.length_range, hlen]
        omega
      refine ⟨(indexer.buffer.take (2 * indexer.buffer_capacity) ++
          (List.range (2 * indexer.buffer_capacity - indexer.buffer.length)).map fresh).set
            indexer.buffer_count entry, ?_, ?_, ?_, ?_⟩
      · rw [List.length_set, hg]
      · exact list_getD_set_same _ _ _ _ (by rw [hg]; omega)
      · intro i hi
        rw [list_getD_set_diff _ _ i _ _ (by omega), List.getD_eq_getElem?_getD,
          List.getElem?_append_left (by rw [List.length_take, hlen]; omega),
          List.getElem?_take_of_lt (by omega), List.getD_eq_getElem?_getD]
      · by_cases hsh : indexer.buffer_count + 1 ≥ indexer.shard_size
        · rw [if_pos hsh, if_pos hsh]
          rfl
        · rw [if_neg hsh, if_neg hsh]
  · rw [if_neg hfull]
    refine ⟨fun h => absurd h.1 hfull, fun _ => ?_⟩
    simp only [hadd, if_neg hfull]
    refine ⟨indexer.buffer.set indexer.buffer_count entry, ?_, ?_, ?_, ?_⟩
    · rw [List.length_set, hlen]
    · exact list_getD_set_same _ _ _ _ (by omega)
    · intro i hi
      rw [list_getD_set_diff _ _ i _ _ (by omega)]
    · by_cases hsh : indexer.buffer_count + 1 ≥ indexer.shard_size
      · rw [if_pos hsh, if_pos hsh]
        rfl
      · rw [if_neg hsh, if_neg hsh]

theorem indexer_add_step (n : Nat) (indexer : prts_log_indexer_t)
    (entry : Option prts_log_entry_t) (realloc_ok : Bool) (fresh : Nat → prts_log_entry_t)
    (hinv : IndexerInv n indexer) (hn : indexer.buffer_count < 2 ^ 63) :
    IndexerInv (n + 1) (prts_indexer_add indexer entry realloc_ok fresh).2 ∧
    indexer.buffer_capacity ≤ (prts_indexer_add indexer entry realloc_ok fresh).2.buffer_capacity ∧
    (prts_indexer_add indexer entry realloc_ok fresh).2.shard_size = indexer.shard_size ∧
    ((prts_indexer_add indexer entry realloc_ok fresh).1 = PRTS_OK ∨
      (prts_indexer_add indexer entry realloc_ok fresh).2 = indexer) := by
  have hmono := indexer_inv_mono n (n + 1) indexer hinv (Nat.le_succ n)
  cases entry with
  | none => exact ⟨hmono, Nat.le_refl _, rfl, Or.inr rfl⟩
  | some e =>
    obtain ⟨s1, s2⟩ := indexer_add_spec n indexer e realloc_ok fresh hinv hn
    by_cases hfail : indexer.buffer_count ≥ indexer.buffer_capacity ∧ realloc_ok = false
    · rw [s1 hfail]
      exact ⟨hmono, Nat.le_refl _, rfl, Or.inr rfl⟩
    · obtain ⟨buffer, b1, _, _, hr⟩ := s2 hfail
      rw [hr]
      obtain ⟨hs0, hlt, hle, hlen, hcap, hcn⟩ := hinv
      refine ⟨⟨hs0, ?_, ?_, b1, ?_, ?_⟩, ?_, rfl, Or.inl rfl⟩
      · show (if indexer.buffer_count + 1 ≥ indexer.shard_size then 0
          else indexer.buffer_count + 1) < indexer.shard_size
        split_ifs <;> omega
      · show (if indexer.buffer_count + 1 ≥ indexer.shard_size then 0
          else indexer.buffer_count + 1) ≤ (if indexer.buffer_count ≥ indexer.buffer_capacity
            then 2 * indexer.buffer_capacity else indexer.buffer_capacity)
        split_ifs <;> omega
      · show 0 < (if indexer.buffer_count ≥ indexer.buffer_capacity
          then 2 * indexer.buffer_capacity else indexer.buffer_capacity)
        split_ifs <;> omega
      · show (if indexer.buffer_count + 1 ≥ indexer.shard_size then 0
          else indexer.buffer_count + 1) ≤ n + 1
        split_ifs <;> omega
      · show indexer.buffer_capacity ≤ (if indexer.buffer_count ≥ indexer.buffer_capacity
          then 2 * indexer.buffer_capacity else indexer.buffer_capacity)
        split_ifs <;> omega

theorem indexer_count_small (n : Nat) (indexer : prts_log_indexer_t) (k : Nat)
    (hinv : IndexerInv n indexer) (hk : 0 < k)
    (hn : indexer.shard_size ≤ 2 ^ 63 ∨ n + k ≤ 2 ^ 63) : indexer.buffer_count < 2 ^ 63 := by
  obtain ⟨_, hlt, _, _, _, hcn⟩ := hinv
  rcases hn with h | h <;> omega

theorem indexer_batch_loop_step (realloc_ok : Nat → Bool)
    (fresh : Nat → Nat → prts_log_entry_t) :
    ∀ (entries : List prts_log_entry_t) (i n : Nat) (indexer : prts_log_indexer_t),
    IndexerInv n indexer → (indexer.shard_size ≤ 2 ^ 63 ∨ n + entries.length ≤ 2 ^ 63) →
    IndexerInv (n + entries.length)
      (indexer_add_batch_loop realloc_ok fresh entries i indexer).2 ∧
    indexer.buffer_capacity
      ≤ (indexer_add_batch_loop realloc_ok fresh entries i indexer).2.buffer_capacity ∧
    (indexer_add_batch_loop realloc_ok fresh entries i indexer).2.shard_size
      = indexer.shard_size := by
  intro entries
  induction entries with
  | nil =>
    intro i n indexer hinv _
    exact ⟨hinv, Nat.le_refl _, rfl⟩
  | cons e rest ih =>
    intro i n indexer hinv hn
    rw [List.length_cons] at hn
    obtain ⟨a1, a2, a3, a4⟩ := indexer_add_step n indexer (some e) (realloc_ok i) (fresh i) hinv
      (indexer_count_small n indexer (rest.length + 1) hinv (Nat.succ_pos _) hn)
    rw [indexer_add_batch_loop]
    by_cases hok : (prts_indexer_add indexer (some e) (realloc_ok i) (fresh i)).1 ≠ PRTS_OK
    · rw [if_pos hok]
      exact ⟨indexer_inv_mono _ _ _ a1 (by rw [List.length_cons]; omega), a2, a3⟩
    · rw [if_neg hok]
      obtain ⟨b1, b2, b3⟩ := ih (i + 1) (n + 1) _ a1 (by rw [a3]; omega)
      refine ⟨?_, Nat.le_trans a2 b2, b3.trans a3⟩
      rw [List.length_cons, show n + (rest.length + 1) = n + 1 + rest.length by omega]
      exact b1

theorem indexer_search_state (indexer : prts_log_indexer_t) (mem : List Char)
    (query : Option prts_search_query_t) (result_out calloc_result calloc_entries : Bool) :
    (prts_indexer_search indexer mem query result_out calloc_result calloc_entries).2.2
      = indexer := by
  unfold prts_indexer_search
  cases query with
  | none => rfl
  | some q =>
    dsimp only
    split_ifs <;> rfl

theorem indexer_step_inv (n : Nat) (indexer : prts_log_indexer_t) (op : IndexerOp)
    (hinv : IndexerInv n indexer)
    (hn : indexer.shard_size ≤ 2 ^ 63 ∨ n + op_entries op ≤ 2 ^ 63) :
    IndexerInv (n + op_entries op) (indexer_step indexer op) ∧
    indexer.buffer_capacity ≤ (indexer_step indexer op).buffer_capacity ∧
    (indexer_step indexer op).shard_size = indexer.shard_size := by
  cases op with
  | add entry realloc_ok fresh =>
    obtain ⟨a1, a2, a3, _⟩ := indexer_add_step n indexer entry realloc_ok fresh hinv
      (indexer_count_small n indexer 1 hinv Nat.one_pos hn)
    exact ⟨a1, a2, a3⟩
  | add_batch entries count realloc_ok fresh =>
    cases entries with
    | none =>
      exact ⟨indexer_inv_mono _ _ _ hinv (Nat.le_add_right _ _), Nat.le_refl _, rfl⟩
    | some es =>
      exact indexer_batch_loop_step realloc_ok fresh (es.take count) 0 n indexer hinv hn
  | flush =>
    obtain ⟨hs0, hlt, hle, hlen, hcap, hcn⟩ := hinv
    exact ⟨⟨hs0, hs0, Nat.zero_le _, hlen, hcap, Nat.zero_le _⟩, Nat.le_refl _, rfl⟩
  | search mem query result_out calloc_result calloc_entries =>
    show IndexerInv (n + 0) (prts_indexer_search indexer mem query result_out calloc_result
      calloc_entries).2.2 ∧ _ ≤ (prts_indexer_search indexer mem query result_out calloc_result
      calloc_entries).2.2.buffer_capacity ∧ (prts_indexer_search indexer mem query result_out
      calloc_result calloc_entries).2.2.shard_size = _
    rw [indexer_search_state]
    exact ⟨hinv, Nat.le_refl _, rfl⟩
  | compact => exact ⟨hinv, Nat.le_refl _, rfl⟩

theorem indexer_run_inv (ops : List IndexerOp) : ∀ (n : Nat) (indexer : prts_log_indexer_t),
    IndexerInv n indexer → (indexer.shard_size ≤ 2 ^ 63 ∨ n + ops_entries ops ≤ 2 ^ 63) →
    IndexerInv (n + ops_entries ops) (indexer_run indexer ops) ∧
    indexer.buffer_capacity ≤ (indexer_run indexer ops).buffer_capacity ∧
    (indexer_run indexer ops).shard_size = indexer.shard_size := by
  induction ops with
  | nil =>
    intro n indexer hinv _
    exact ⟨hinv, Nat.le_refl _, rfl⟩
  | cons op rest ih =>
    intro n indexer hinv hn
    have he : ops_entries (op :: rest) = op_entries op + ops_entries rest := by
      simp [ops_entries]
    rw [he] at hn ⊢
    obtain ⟨a1, a2, a3⟩ := indexer_step_inv n indexer op hinv (by omega)
    obtain ⟨b1, b2, b3⟩ := ih (n + op_entries op) (indexer_step indexer op) a1
      (by rw [a3]; omega)
    refine ⟨?_, Nat.le_trans a2 b2, b3.trans a3⟩
    rw [← Nat.add_assoc]
    exact b1

theorem indexer_reached_inv (config : prts_indexer_config_t) (ops : List IndexerOp)
    (indexer0 indexer : prts_log_indexer_t)
    (h0 : prts_indexer_create (some config) true true true = (PRTS_OK, some indexer0))
    (hc : indexer = indexer_run indexer0 ops)
    (hn : config.shard_size ≤ 2 ^ 63 ∨ ops_entries ops ≤ 2 ^ 63) :
    IndexerInv (ops_entries ops) indexer ∧
    indexer.shard_size = (if config.shard_size > 0 then config.shard_size else 10000) ∧
    1024 ≤ indexer.buffer_capacity := by
  obtain ⟨c1, c2, c3, _⟩ := indexer_create_inv config indexer0 h0
  have hs0 : indexer0.shard_size ≤ 2 ^ 63 ∨ 0 + ops_entries ops ≤ 2 ^ 63 := by
    rcases hn with h | h
    · left
      rw [c2]
      split_ifs
      · exact h
      · norm_num
    · right
      omega
  obtain ⟨r1, r2, r3⟩ := indexer_run_inv ops 0 indexer0 c1 hs0
  rw [Nat.zero_add] at r1
  rw [hc]
  exact ⟨r1, r3.trans c2, by omega⟩

/-- C32: in every indexer state reached from `prts_indexer_create` (a configured `shard_size` of
0 standing for 10000; the threshold being at most `2^63`, or fewer than `2^63` entries having
been offered), `buffer_count < shard_size`.  A call of `prts_indexer_add` with a non-null entry
returns ok or, when the buffer is full and `realloc` fails, nomem with the indexer unchanged; a
successful call stores the entry at index `buffer_count`, having doubled `buffer_capacity` if
the buffer was full, and leaves the earlier entries unchanged; it then sets `buffer_count` to 0
if `buffer_count + 1` has reached `shard_size`, and otherwise increases `buffer_count` by
exactly one; either way `buffer_count < shard_size` holds afterwards. -/
theorem indexer_add_below_shard (config : prts_indexer_config_t) (ops : List IndexerOp)
    (indexer0 indexer : prts_log_indexer_t) (entry : prts_log_entry_t) (realloc_ok : Bool)
    (fresh : Nat → prts_log_entry_t)
    (h0 : prts_indexer_create (some config) true true true = (PRTS_OK, some indexer0))
    (hc : indexer = indexer_run indexer0 ops)
    (hn : config.shard_size ≤ 2 ^ 63 ∨ ops_entries ops < 2 ^ 63) :
    indexer.shard_size = (if config.shard_size > 0 then config.shard_size else 10000) ∧
    indexer.buffer_count < indexer.shard_size ∧
    ((prts_indexer_add indexer (some entry) realloc_ok fresh).1 = PRTS_OK ∨
      prts_indexer_add indexer (some entry) realloc_ok fresh = (PRTS_ERROR_NOMEM, indexer)) ∧
    (prts_indexer_add indexer (some entry) realloc_ok fresh).2.shard_size
      = indexer.shard_size ∧
    (prts_indexer_add indexer (some entry) realloc_ok fresh).2.buffer_count
      < indexer.shard_size ∧
    ((prts_indexer_add indexer (some entry) realloc_ok fresh).1 = PRTS_OK →
      (prts_indexer_add indexer (some entry) realloc_ok fresh).2.buffer_capacity
        = (if indexer.buffer_count ≥ indexer.buffer_capacity then 2 * indexer.buffer_capacity
            else indexer.buffer_capacity) ∧
      (prts_indexer_add indexer (some entry) realloc_ok fresh).2.buffer.getD
        indexer.buffer_count log_entry_zero = entry ∧
      (∀ i, i < indexer.buffer_count →
        (prts_indexer_add indexer (some entry) realloc_ok fresh).2.buffer.getD i log_entry_zero
          = indexer.buffer.getD i log_entry_zero) ∧
      (indexer.buffer_count + 1 ≥ indexer.shard_size →
        (prts_indexer_add indexer (some entry) realloc_ok fresh).2.buffer_count = 0) ∧
      (indexer.buffer_count + 1 < indexer.shard_size →
        (prts_indexer_add indexer (some entry) realloc_ok fresh).2.buffer_count
          = indexer.buffer_count + 1)) := by
  obtain ⟨hinv, hsh, _⟩ := indexer_reached_inv config ops indexer0 indexer h0 hc (by omega)
  have hb : indexer.buffer_count < 2 ^ 63 := by
    apply indexer_count_small _ indexer 1 hinv Nat.one_pos
    rcases hn with h | h
    · left
      rw [hsh]
      split_ifs
      · exact h
      · norm_num
    · right
      omega
  obtain ⟨s1, s2⟩ := indexer_add_spec _ indexer entry realloc_ok fresh hinv hb
  obtain ⟨a1, _, a3, _⟩ := indexer_add_step _ indexer (some entry) realloc_ok fresh hinv hb
  refine ⟨hsh, hinv.2.1, ?_, a3, ?_, ?_⟩
  · by_cases hfail : indexer.buffer_count ≥ indexer.buffer_capacity ∧ realloc_ok = false
    · exact Or.inr (s1 hfail)
    · obtain ⟨buffer, _, _, _, hr⟩ := s2 hfail
      rw [hr]
      exact Or.inl rfl
  · have := a1.2.1
    rw [a3] at this
    exact this
  · intro hok
    by_cases hfail : indexer.buffer_count ≥ indexer.buffer_capacity ∧ realloc_ok = false
    · rw [s1 hfail] at hok
      cases hok
    · obtain ⟨buffer, _, b2, b3, hr⟩ := s2 hfail
      rw [hr]
      refine ⟨rfl, b2, b3, ?_, ?_⟩
      · intro h
        show (if indexer.buffer_count + 1 ≥ indexer.shard_size then 0
          else indexer.buffer_count + 1) = 0
        rw [if_pos h]
      · intro h
        show (if indexer.buffer_count + 1 ≥ indexer.shard_size then 0
          else indexer.buffer_count + 1) = indexer.buffer_count + 1
        rw [if_neg (by omega)]

/-- C33: `prts_indexer_flush` returns ok, sets `buffer_count` to 0 and leaves `buffer_capacity`
as it is, so that a search after it returns no entry; and over every sequence of add,
add_batch, flush, search and compact calls on an indexer from `prts_indexer_create` (with a
shard threshold of at most `2^63`, or offering fewer than `2^63` entries in all)
`buffer_capacity` never decreases and `buffer_count <= buffer_capacity`. -/
theorem indexer_flush_capacity (config : prts_indexer_config_t) (ops ops2 : List IndexerOp)
    (indexer0 indexer : prts_log_indexer_t)
    (h0 : prts_indexer_create (some config) true true true = (PRTS_OK, some indexer0))
    (hc : indexer = indexer_run indexer0 ops)
    (hn : config.shard_size ≤ 2 ^ 63 ∨ ops_entries ops + ops_entries ops2 < 2 ^ 63) :
    (prts_indexer_flush indexer).1 = PRTS_OK ∧
    (prts_indexer_flush indexer).2.buffer_count = 0 ∧
    (prts_indexer_flush indexer).2.buffer_capacity = indexer.buffer_capacity ∧
    (prts_indexer_flush indexer).2.buffer = indexer.buffer ∧
    (∀ (mem : List Char) (query : prts_search_query_t),
      ∃ res, prts_indexer_search (prts_indexer_flush indexer).2 mem (some query) true true true
          = (PRTS_OK, some res, (prts_indexer_flush indexer).2) ∧
        res.entries = [] ∧ res.count = 0) ∧
    indexer.buffer_count ≤ indexer.buffer_capacity ∧
    indexer0.buffer_capacity ≤ indexer.buffer_capacity ∧
    indexer.buffer_capacity ≤ (indexer_run indexer ops2).buffer_capacity ∧
    (indexer_run indexer ops2).buffer_count ≤ (indexer_run indexer ops2).buffer_capacity := by
  obtain ⟨c1, c2, _, _⟩ := indexer_create_inv config indexer0 h0
  have hs0 : indexer0.shard_size ≤ 2 ^ 63 ∨
      0 + ops_entries ops + ops_entries ops2 < 2 ^ 63 := by
    rcases hn with h | h
    · left
      rw [c2]
      split_ifs
      · exact h
      · norm_num
    · right
      omega
  obtain ⟨r1, r2, r3⟩ := indexer_run_inv ops 0 indexer0 c1 (by omega)
  rw [← hc] at r1 r2 r3
  obtain ⟨q1, q2, _⟩ := indexer_run_inv ops2 _ indexer r1 (by rw [r3]; omega)
  refine ⟨rfl, rfl, rfl, rfl, ?_, r1.2.2.1, r2, q2, q1.2.2.1⟩
  intro mem query
  obtain ⟨res, h1, h2, h3, _⟩ := indexer_search_entries (prts_indexer_flush indexer).2 mem
    query (Nat.zero_le _)
  refine ⟨res, h1, ?_, ?_⟩
  · rw [h2]
    show (((indexer.buffer.take 0).drop query.offset).filter _).take _ = []
    simp
  · rw [h3, h2]
    show ((((indexer.buffer.take 0).drop query.offset).filter _).take _).length = 0
    simp

/-- Two adds for C32: with `shard_size = 2` the first add leaves one buffered entry and the
second one reaches the threshold and flushes. -/
theorem indexer_add_below_shard_witness :
    prts_indexer_create (some indexer_small_cfg) true true true = (PRTS_OK, some indexer_small) ∧
    (indexer_run indexer_small indexer_one_add).buffer_count = 1 ∧
    (prts_indexer_add (indexer_run indexer_small indexer_one_add)
      (some { log_entry_zero with timestamp := 6 }) true (fun _ => log_entry_zero)).2.buffer_count
        < (indexer_run indexer_small indexer_one_add).shard_size ∧
    (prts_indexer_add (indexer_run indexer_small indexer_one_add)
      (some { log_entry_zero with timestamp := 6 }) true (fun _ => log_entry_zero)).2.buffer_count
        = 0 :=
  ⟨rfl, rfl,
    (indexer_add_below_shard indexer_small_cfg indexer_one_add indexer_small
      (indexer_run indexer_small indexer_one_add) { log_entry_zero with timestamp := 6 } true
      (fun _ => log_entry_zero) rfl rfl (Or.inl (by decide))).2.2.2.2.1,
    ((indexer_add_below_shard indexer_small_cfg indexer_one_add indexer_small
      (indexer_run indexer_small indexer_one_add) { log_entry_zero with timestamp := 6 } true
      (fun _ => log_entry_zero) rfl rfl (Or.inl (by decide))).2.2.2.2.2 rfl).2.2.2.1 (by decide)⟩

/-- A flush for C33: after one add, flush leaves no buffered entry and the capacity of 1024. -/
theorem indexer_flush_capacity_witness :
    (prts_indexer_flush (indexer_run indexer_small indexer_one_add)).2.buffer_count = 0 ∧
    (prts_indexer_flush (indexer_run indexer_small indexer_one_add)).2.buffer_capacity
      = (indexer_run indexer_small indexer_one_add).buffer_capacity ∧
    indexer_small.buffer_capacity
      ≤ (indexer_run (indexer_run indexer_small indexer_one_add)
          [IndexerOp.flush, IndexerOp.compact]).buffer_capacity :=
  ⟨(indexer_flush_capacity indexer_small_cfg indexer_one_add
      [IndexerOp.flush, IndexerOp.compact] indexer_small
      (indexer_run indexer_small indexer_one_add) rfl rfl (Or.inl (by decide))).2.1,
    (indexer_flush_capacity indexer_small_cfg indexer_one_add
      [IndexerOp.flush, IndexerOp.compact] indexer_small
      (indexer_run indexer_small indexer_one_add) rfl rfl (Or.inl (by decide))).2.2.1,
    Nat.le_trans
      (indexer_flush_capacity indexer_small_cfg indexer_one_add
        [IndexerOp.flush, IndexerOp.compact] indexer_small
        (indexer_run indexer_small indexer_one_add) rfl rfl (Or.inl (by decide))).2.2.2.2.2.2.1
      (indexer_flush_capacity indexer_small_cfg indexer_one_add
        [IndexerOp.flush, IndexerOp.compact] indexer_small
        (indexer_run indexer_small indexer_one_add) rfl rfl (Or.inl (by decide))).2.2.2.2.2.2.2.1⟩

/-! ## Memory pool: distinct outstanding blocks -/

theorem pool_step_stride (t : PoolTrace) (op : PoolOp) :
    (pool_step t op).pool.block_size = t.pool.block_size ∧
    pool_stride (pool_step t op).pool = pool_stride t.pool := by
  have h : (pool_step t op).pool.block_size = t.pool.block_size := by
    cases op with
    | alloc m => exact (pool_alloc_static t.pool m).2.2.1
    | free ptr => exact (pool_free_static t.pool ptr).2.2.1
    | reset => rfl
  refine ⟨h, ?_⟩
  unfold pool_stride
  rw [h]

theorem pool_alloc_grow_ne (pool : prts_memory_pool) (m : Nat)
    (h : (prts_pool_alloc pool m).1 ≠ 0) (hfl : pool.free_list = 0) : m ≠ 0 := by
  intro hm
  apply h
  unfold prts_pool_alloc
  rw [if_pos hfl]
  by_cases hmax : pool.max_blocks > 0 ∧ pool.total_blocks ≥ pool.max_blocks
  · rw [if_pos hmax]
  · rw [if_neg hmax]
    dsimp only
    rw [if_pos hm]

theorem pool_step_apart (t : PoolTrace) (op : PoolOp) (rest : List PoolOp)
    (hv : pool_valid t (op :: rest)) (ha : PoolApart t) : PoolApart (pool_step t op) := by
  obtain ⟨hbs, hap⟩ := ha
  obtain ⟨e1, e2⟩ := pool_step_stride t op
  refine ⟨by rw [e1, e2]; exact hbs, ?_⟩
  rw [e2]
  cases op with
  | alloc m =>
    show ∀ b1 ∈ (if (prts_pool_alloc t.pool m).1 ≠ 0 ∧ t.pool.free_list = 0 then m :: t.blocks
      else t.blocks), ∀ b2 ∈ (if (prts_pool_alloc t.pool m).1 ≠ 0 ∧ t.pool.free_list = 0 then
        m :: t.blocks else t.blocks), b1 ≠ b2 → _
    by_cases hg : (prts_pool_alloc t.pool m).1 ≠ 0 ∧ t.pool.free_list = 0
    · rw [if_pos hg]
      have hm : m ≠ 0 := pool_alloc_grow_ne t.pool m hg.1 hg.2
      have hfresh : fresh_region t.blocks (pool_stride t.pool) m := hv.1 hm
      intro b1 h1 b2 h2 hne
      rw [List.mem_cons] at h1 h2
      rcases h1 with h1 | h1 <;> rcases h2 with h2 | h2
      · exact absurd (h1.trans h2.symm) hne
      · rw [h1]
        exact hfresh.2.2 b2 h2
      · rw [h2]
        exact (hfresh.2.2 b1 h1).symm
      · exact hap b1 h1 b2 h2 hne
    · rw [if_neg hg]
      exact hap
  | free ptr => exact hap
  | reset => exact hap

theorem pool_run_apart (ops : List PoolOp) : ∀ (t : PoolTrace), pool_valid t ops →
    PoolApart t → PoolApart (pool_run t ops) := by
  induction ops with
  | nil => intro t _ h; exact h
  | cons op rest ih =>
    intro t hv ha
    exact ih (pool_step t op) hv.2 (pool_step_apart t op rest hv ha)

theorem pool_stride_ge (config : prts_pool_config_t) (pool_out calloc_pool : Bool)
    (malloc_memory : Nat) (heap : Nat → Nat) (pool : prts_memory_pool)
    (hc : prts_pool_create (some config) pool_out calloc_pool malloc_memory heap
      = (PRTS_OK, some pool))
    (hok : pool_create_ok config malloc_memory) :
    pool.block_size + HEADER_SIZE ≤ pool_stride pool := by
  obtain ⟨h1, _, _⟩ := hok
  obtain ⟨_, _, e3, _⟩ :=
    pool_create_fields config pool_out calloc_pool malloc_memory heap pool hc
  have hsa : size_add config.block_size HEADER_SIZE = config.block_size + HEADER_SIZE := by
    unfold size_add
    exact Nat.mod_eq_of_lt (by omega)
  have hstride : pool_stride pool = align_size (config.block_size + HEADER_SIZE) := by
    unfold pool_stride
    rw [e3, hsa]
  obtain ⟨_, a2, _⟩ := align_size_least (config.block_size + HEADER_SIZE) h1
  rw [hstride, e3]
  exact a2

theorem pool_create_apart (config : prts_pool_config_t) (pool_out calloc_pool : Bool)
    (malloc_memory : Nat) (heap : Nat → Nat) (pool : prts_memory_pool)
    (hc : prts_pool_create (some config) pool_out calloc_pool malloc_memory heap
      = (PRTS_OK, some pool))
    (hok : pool_create_ok config malloc_memory) : PoolApart (pool_fresh pool) := by
  have hbs := pool_stride_ge config pool_out calloc_pool malloc_memory heap pool hc hok
  refine ⟨hbs, ?_⟩
  intro b1 h1 b2 h2 hne
  obtain ⟨i, _, rfl⟩ := (mem_slab_blocks _ _ _ _).mp h1
  obtain ⟨j, _, rfl⟩ := (mem_slab_blocks _ _ _ _).mp h2
  show pool.memory + i * pool_stride pool + pool_stride pool ≤ pool.memory + j * pool_stride pool ∨
    pool.memory + j * pool_stride pool + pool_stride pool ≤ pool.memory + i * pool_stride pool
  have hij : i ≠ j := fun e => hne (by rw [e])
  rcases Nat.lt_or_gt_of_ne hij with h | h
  · left
    have : (i + 1) * pool_stride pool ≤ j * pool_stride pool := Nat.mul_le_mul_right _ h
    rw [Nat.add_mul, Nat.one_mul] at this
    omega
  · right
    have : (j + 1) * pool_stride pool ≤ i * pool_stride pool := Nat.mul_le_mul_right _ h
    rw [Nat.add_mul, Nat.one_mul] at this
    omega

theorem map_header_injective : Function.Injective (fun b : Nat => b + HEADER_SIZE) :=
  fun _ _ h => Nat.add_right_cancel h

/-- C39: in every pool state reached from `prts_pool_create` by valid use (every free returns a
currently outstanding pointer, the system allocator hands out fresh regions; a reset ends the
life of all outstanding pointers), the free list holds no block twice and no outstanding block,
the outstanding pointers are pairwise different, `prts_pool_alloc` never returns a pointer that
is currently outstanding, and the payloads of any two outstanding allocations do not overlap. -/
theorem pool_outstanding_distinct (config : prts_pool_config_t) (pool_out calloc_pool : Bool)
    (malloc_memory : Nat) (heap : Nat → Nat) (pool : prts_memory_pool) (ops : List PoolOp)
    (hc : prts_pool_create (some config) pool_out calloc_pool malloc_memory heap
      = (PRTS_OK, some pool))
    (hok : pool_create_ok config malloc_memory)
    (hv : pool_valid (pool_fresh pool) ops) :
    (∃ fl : List Nat,
      chain (pool_run (pool_fresh pool) ops).pool.heap_next
        (pool_run (pool_fresh pool) ops).pool.free_list fl ∧
      fl.Nodup ∧
      ∀ b ∈ fl, b + HEADER_SIZE ∉ (pool_run (pool_fresh pool) ops).outstanding) ∧
    (pool_run (pool_fresh pool) ops).outstanding.Nodup ∧
    (∀ m, pool_valid (pool_run (pool_fresh pool) ops) [PoolOp.alloc m] →
      (prts_pool_alloc (pool_run (pool_fresh pool) ops).pool m).1 ≠ 0 →
      (prts_pool_alloc (pool_run (pool_fresh pool) ops).pool m).1
        ∉ (pool_run (pool_fresh pool) ops).outstanding) ∧
    (∀ p ∈ (pool_run (pool_fresh pool) ops).outstanding,
      ∀ q ∈ (pool_run (pool_fresh pool) ops).outstanding, p ≠ q →
        p + (pool_run (pool_fresh pool) ops).pool.block_size ≤ q ∨
        q + (pool_run (pool_fresh pool) ops).pool.block_size ≤ p) := by
  have hinv := pool_reached_inv config pool_out calloc_pool malloc_memory heap pool ops hc hok hv
  have hap := pool_run_apart ops _ hv
    (pool_create_apart config pool_out calloc_pool malloc_memory heap pool hc hok)
  generalize pool_run (pool_fresh pool) ops = t at hinv hap
  have hnodup : ∀ t2 : PoolTrace, PoolInv t2 → t2.outstanding.Nodup := by
    intro t2 h2
    obtain ⟨_, _, _, fl, ob, _, hout, hnd, _, _, _⟩ := h2
    rw [hout]
    exact List.Nodup.map map_header_injective (List.Nodup.of_append_right hnd)
  obtain ⟨hs, hb, hslab, fl, ob, hchain, hout, hnd, hsub, hused, htotal⟩ := id hinv
  refine ⟨⟨fl, hchain, List.Nodup.of_append_left hnd, ?_⟩, hnodup t hinv, ?_, ?_⟩
  · intro b hb1 hb2
    rw [hout, List.mem_map] at hb2
    obtain ⟨b', hb', he⟩ := hb2
    have : b' = b := map_header_injective he
    subst this
    exact (List.nodup_append.mp hnd).2.2 hb1 hb'
  · intro m hvm hne
    have hinv2 := pool_step_inv t (PoolOp.alloc m) [] hvm hinv
    have hnd2 := hnodup _ hinv2
    have ho : (pool_step t (PoolOp.alloc m)).outstanding
        = (prts_pool_alloc t.pool m).1 :: t.outstanding := by
      show (if (prts_pool_alloc t.pool m).1 = 0 then t.outstanding
        else (prts_pool_alloc t.pool m).1 :: t.outstanding) = _
      rw [if_neg hne]
    rw [ho] at hnd2
    exact (List.nodup_cons.mp hnd2).1
  · intro p hp q hq hpq
    rw [hout, List.mem_map] at hp hq
    obtain ⟨bp, hbp, rfl⟩ := hp
    obtain ⟨bq, hbq, rfl⟩ := hq
    have hne : bp ≠ bq := fun e => hpq (by rw [e])
    have h1 := hsub bp (List.mem_append_right _ hbp)
    have h2 := hsub bq (List.mem_append_right _ hbq)
    have hbs := hap.1
    rcases hap.2 bp h1 bq h2 hne with h | h
    · left
      show bp + HEADER_SIZE + t.pool.block_size ≤ bq + HEADER_SIZE
      omega
    · right
      show bq + HEADER_SIZE + t.pool.block_size ≤ bp + HEADER_SIZE
      omega

/-- A pool for C39: at the end of the pool-overflow scenario the four outstanding pointers are
pairwise different and their 64-byte payloads do not overlap. -/
theorem pool_outstanding_distinct_witness :
    (pool_run (pool_fresh pool_created) pool_scenario).outstanding.length = 4 ∧
    (pool_run (pool_fresh pool_created) pool_scenario).outstanding.Nodup ∧
    ∀ p ∈ (pool_run (pool_fresh pool_created) pool_scenario).outstanding,
      ∀ q ∈ (pool_run (pool_fresh pool_created) pool_scenario).outstanding, p ≠ q →
        p + (pool_run (pool_fresh pool_created) pool_scenario).pool.block_size ≤ q ∨
        q + (pool_run (pool_fresh pool_created) pool_scenario).pool.block_size ≤ p :=
  ⟨by decide,
    (pool_outstanding_distinct pool_cfg true true 4096 (fun _ => 0) pool_created pool_scenario
      pool_scenario_create pool_scenario_ok pool_scenario_valid).2.1,
    (pool_outstanding_distinct pool_cfg true true 4096 (fun _ => 0) pool_created pool_scenario
      pool_scenario_create pool_scenario_ok pool_scenario_valid).2.2.2⟩

/-! ## Metrics collector: exposition in registration order -/

theorem mem_read_congr (m1 m2 : Nat → Char) (off n : Nat)
    (h : ∀ i, off ≤ i → i < off + n → m2 i = m1 i) : mem_read m2 off n = mem_read m1 off n := by
  simp only [mem_read]
  apply List.map_congr_left
  intro i hi
  rw [List.mem_range] at hi
  exact h (off + i) (by omega) (by omega)

theorem mem_appended_nil (mem : Nat → Char) (off : Nat) : mem_appended mem mem off [] :=
  ⟨rfl, fun h => absurd rfl h, fun _ => rfl, fun _ _ => rfl⟩

theorem mem_appended_snprintf (mem : Nat → Char) (off size : Nat) (s : List Char)
    (hs : s ≠ []) (h : s.length < size) :
    mem_appended mem (snprintf mem off size s).1 off s ∧ (snprintf mem off size s).2 = s.length := by
  rw [snprintf_fit mem off size s h]
  refine ⟨⟨ mem_read_write_prefix _ _ _ _, fun _ => mem_write_at_end _ _ _,
    fun e => absurd e hs, ?_⟩, rfl⟩
  intro i hi
  simp only [mem_write]
  rw [if_neg (by omega)]

theorem mem_appended_trans (m0 m1 m2 : Nat → Char) (off : Nat) (s1 s2 : List Char)
    (h1 : mem_appended m0 m1 off s1) (h2 : mem_appended m1 m2 (off + s1.length) s2) :
    mem_appended m0 m2 off (s1 ++ s2) := by
  obtain ⟨a1, a2, a3, a4⟩ := h1
  obtain ⟨b1, b2, b3, b4⟩ := h2
  by_cases e2 : s2 = []
  · have hm : m2 = m1 := b3 e2
    subst e2
    rw [hm, List.append_nil]
    exact ⟨a1, a2, a3, a4⟩
  · refine ⟨?_, ?_, ?_, ?_⟩
    · rw [List.length_append, mem_read_add, b1]
      congr 1
      rw [mem_read_congr m1 m2 off s1.length (fun i _ hi => b4 i hi)]
      exact a1
    · intro _
      rw [List.length_append, ← Nat.add_assoc]
      exact b2 e2
    · intro e
      exact absurd (List.append_eq_nil.mp e).2 e2
    · intro i hi
      rw [b4 i (by omega)]
      exact a4 i hi

theorem sample_text_ne_nil (fmt_g : Float → List Char) (m : metric_entry_t)
    (e : metric_slot_t) : sample_text fmt_g m e ≠ [] := by
  unfold sample_text
  cases m.type <;> simp

theorem export_entries_fit (fmt_g : Float → List Char) (buffer_size : Nat) (m : metric_entry_t)
    (hbs : buffer_size < SIZE_MOD) :
    ∀ (remaining j : Nat) (mem : Nat → Char) (offset : Nat),
    offset + (samples_text fmt_g m remaining j).length < buffer_size →
    ∃ mem2, export_entries fmt_g buffer_size m remaining j mem offset
        = (mem2, offset + (samples_text fmt_g m remaining j).length) ∧
      mem_appended mem mem2 offset (samples_text fmt_g m remaining j) := by
  intro remaining
  induction remaining with
  | zero =>
    intro j mem offset _
    exact ⟨mem, rfl, mem_appended_nil mem offset⟩
  | succ r ih =>
    intro j mem offset hfit
    rw [samples_text, List.length_append] at hfit
    have hsub : size_sub buffer_size offset = buffer_size - offset := by
      simp only [size_sub, SIZE_MOD] at hbs ⊢
      omega
    obtain ⟨w1, w2⟩ := mem_appended_snprintf mem offset (size_sub buffer_size offset)
      (sample_text fmt_g m (m.entries.getD j metric_slot_zero)) (sample_text_ne_nil _ _ _)
      (by rw [hsub]; omega)
    have hadd : size_add offset (sample_text fmt_g m (m.entries.getD j metric_slot_zero)).length
        = offset + (sample_text fmt_g m (m.entries.getD j metric_slot_zero)).length := by
      simp only [size_add, SIZE_MOD] at hbs ⊢
      omega
    obtain ⟨mem2, e1, e2⟩ := ih (j + 1) _
      (offset + (sample_text fmt_g m (m.entries.getD j metric_slot_zero)).length)
      (by omega)
    refine ⟨mem2, ?_, ?_⟩
    · rw [export_entries, if_pos (by omega)]
      simp only [w2, hadd]
      rw [e1, samples_text, List.length_append, Nat.add_assoc]
    · rw [samples_text]
      exact mem_appended_trans _ _ _ _ _ _ w1 e2

theorem help_line_ne_nil (m : metric_entry_t) : help_line m ≠ [] := by
  unfold help_line
  simp

theorem type_line_ne_nil (m : metric_entry_t) : type_line m ≠ [] := by
  unfold type_line
  simp

theorem export_metrics_succ (fmt_g : Float → List Char) (buffer_size : Nat)
    (metrics : List metric_entry_t) (r i : Nat) (mem : Nat → Char) (offset : Nat)
    (h : offset < buffer_size) :
    export_metrics fmt_g buffer_size metrics (r + 1) i mem offset =
      export_metrics fmt_g buffer_size metrics r (i + 1)
        (export_entries fmt_g buffer_size (metrics.getD i metric_entry_zero)
          (metrics.getD i metric_entry_zero).num_entries 0
          (snprintf (snprintf mem offset (size_sub buffer_size offset)
              (help_line (metrics.getD i metric_entry_zero))).1
            (size_add offset (snprintf mem offset (size_sub buffer_size offset)
              (help_line (metrics.getD i metric_entry_zero))).2)
            (size_sub buffer_size (size_add offset (snprintf mem offset
              (size_sub buffer_size offset) (help_line (metrics.getD i metric_entry_zero))).2))
            (type_line (metrics.getD i metric_entry_zero))).1
          (size_add (size_add offset (snprintf mem offset (size_sub buffer_size offset)
              (help_line (metrics.getD i metric_entry_zero))).2)
            (snprintf (snprintf mem offset (size_sub buffer_size offset)
              (help_line (metrics.getD i metric_entry_zero))).1
            (size_add offset (snprintf mem offset (size_sub buffer_size offset)
              (help_line (metrics.getD i metric_entry_zero))).2)
            (size_sub buffer_size (size_add offset (snprintf mem offset
              (size_sub buffer_size offset) (help_line (metrics.getD i metric_entry_zero))).2))
            (type_line (metrics.getD i metric_entry_zero))).2)).1
        (export_entries fmt_g buffer_size (metrics.getD i metric_entry_zero)
          (metrics.getD i metric_entry_zero).num_entries 0
          (snprintf (snprintf mem offset (size_sub buffer_size offset)
              (help_line (metrics.getD i metric_entry_zero))).1
            (size_add offset (snprintf mem offset (size_sub buffer_size offset)
              (help_line (metrics.getD i metric_entry_zero))).2)
            (size_sub buffer_size (size_add offset (snprintf mem offset
              (size_sub buffer_size offset) (help_line (metrics.getD i metric_entry_zero))).2))
            (type_line (metrics.getD i metric_entry_zero))).1
          (size_add (size_add offset (snprintf mem offset (size_sub buffer_size offset)
              (help_line (metrics.getD i metric_entry_zero))).2)
            (snprintf (snprintf mem offset (size_sub buffer_size offset)
              (help_line (metrics.getD i metric_entry_zero))).1
            (size_add offset (snprintf mem offset (size_sub buffer_size offset)
              (help_line (metrics.getD i metric_entry_zero))).2)
            (size_sub buffer_size (size_add offset (snprintf mem offset
              (size_sub buffer_size offset) (help_line (metrics.getD i metric_entry_zero))).2))
            (type_line (metrics.getD i metric_entry_zero))).2)).2 := by
  rw [export_metrics, if_pos h]
  rfl

theorem export_metrics_fit (fmt_g : Float → List Char) (buffer_size : Nat)
    (metrics : List metric_entry_t) (hbs : buffer_size < SIZE_MOD) :
    ∀ (remaining i : Nat) (mem : Nat → Char) (offset : Nat),
    offset + (exposition fmt_g metrics remaining i).length < buffer_size →
    ∃ mem2, export_metrics fmt_g buffer_size metrics remaining i mem offset
        = (mem2, offset + (exposition fmt_g metrics remaining i).length) ∧
      mem_appended mem mem2 offset (exposition fmt_g metrics remaining i) := by
  intro remaining
  induction remaining with
  | zero =>
    intro i mem offset _
    exact ⟨mem, rfl, mem_appended_nil mem offset⟩
  | succ r ih =>
    intro i mem offset hfit
    rw [exposition, metric_exposition, List.length_append, List.length_append,
      List.length_append] at hfit
    generalize hm : metrics.getD i metric_entry_zero = m at hfit
    have hsub : ∀ o, o < buffer_size → size_sub buffer_size o = buffer_size - o := by
      intro o ho
      simp only [size_sub, SIZE_MOD] at hbs ⊢
      omega
    have hadd : ∀ a b, a + b < buffer_size → size_add a b = a + b := by
      intro a b hab
      simp only [size_add, SIZE_MOD] at hbs ⊢
      omega
    obtain ⟨w1, w2⟩ := mem_appended_snprintf mem offset (size_sub buffer_size offset)
      (help_line m) (help_line_ne_nil m) (by rw [hsub _ (by omega)]; omega)
    generalize hr1 : snprintf mem offset (size_sub buffer_size offset) (help_line m) = r1
      at w1 w2
    obtain ⟨x1, x2⟩ := mem_appended_snprintf r1.1 (offset + (help_line m).length)
      (size_sub buffer_size (offset + (help_line m).length))
      (type_line m) (type_line_ne_nil m) (by rw [hsub _ (by omega)]; omega)
    generalize hr2 : snprintf r1.1 (offset + (help_line m).length)
      (size_sub buffer_size (offset + (help_line m).length)) (type_line m) = r2 at x1 x2
    obtain ⟨mem3, y1, y2⟩ := export_entries_fit fmt_g buffer_size m hbs m.num_entries 0 r2.1
      (offset + (help_line m).length + (type_line m).length) (by omega)
    obtain ⟨mem4, z1, z2⟩ := ih (i + 1) mem3
      (offset + (help_line m).length + (type_line m).length
        + (samples_text fmt_g m m.num_entries 0).length) (by omega)
    refine ⟨mem4, ?_, ?_⟩
    · rw [export_metrics_succ _ _ _ _ _ _ _ (by omega), hm]
      rw [hr1, w2, hadd _ _ (by omega), hr2, x2, hadd _ _ (by omega), y1]
      rw [z1, exposition, metric_exposition, hm]
      simp only [List.length_append]
      congr 1
      omega
    · rw [exposition, metric_exposition, hm, List.append_assoc, List.append_assoc]
      exact mem_appended_trans _ _ _ _ _ _ w1
        (mem_appended_trans _ _ _ _ _ _ x1
          (mem_appended_trans _ _ _ _ _ _ y2 z2))

theorem exposition_snoc (fmt_g : Float → List Char) (metrics : List metric_entry_t) :
    ∀ (r i : Nat), exposition fmt_g metrics (r + 1) i =
      exposition fmt_g metrics r i
        ++ metric_exposition fmt_g (metrics.getD (i + r) metric_entry_zero) := by
  intro r
  induction r with
  | zero =>
    intro i
    simp [exposition]
  | succ r ih =>
    intro i
    rw [exposition, ih (i + 1), exposition, List.append_assoc]
    have : i + 1 + r = i + (r + 1) := by omega
    rw [this]

theorem exposition_congr (fmt_g : Float → List Char) (ms ms2 : List metric_entry_t) :
    ∀ (r i : Nat), (∀ k, i ≤ k → k < i + r →
        ms2.getD k metric_entry_zero = ms.getD k metric_entry_zero) →
      exposition fmt_g ms2 r i = exposition fmt_g ms r i := by
  intro r
  induction r with
  | zero =>
    intro i _
    rfl
  | succ r ih =>
    intro i h
    rw [exposition, exposition, h i (Nat.le_refl i) (by omega),
      ih (i + 1) (fun k h1 h2 => h k (by omega) (by omega))]

theorem export_fit (fmt_g : Float → List Char) (c : prts_metrics_collector)
    (mem : Nat → Char) (buffer_size : Nat) (hbs : buffer_size < SIZE_MOD)
    (hfit : (exposition fmt_g c.metrics c.num_metrics 0).length < buffer_size) :
    ∃ mem2, prts_metrics_export_prometheus fmt_g c (some mem) buffer_size true
        = (PRTS_OK, some (mem2, (exposition fmt_g c.metrics c.num_metrics 0).length)) ∧
      mem_read mem2 0 (exposition fmt_g c.metrics c.num_metrics 0).length
        = exposition fmt_g c.metrics c.num_metrics 0 := by
  obtain ⟨mem2, e1, e2, _⟩ := export_metrics_fit fmt_g buffer_size c.metrics hbs c.num_metrics 0
    mem 0 (by omega)
  rw [Nat.zero_add] at e1
  refine ⟨mem2, ?_, e2⟩
  unfold prts_metrics_export_prometheus
  dsimp only
  rw [e1]
  rfl

/-- C40: `prts_metrics_export_prometheus` emits the metrics in registration order, and a
metric with `num_entries == 0` contributes only its HELP and TYPE lines.  For an export whose
text fits the buffer the bytes written are the exposition texts of the metrics `0, 1, ...,
num_metrics - 1` one after the other, each the HELP line, the TYPE line and one sample text per
entry; in every collector reached from `prts_metrics_create`, a successful
`prts_metrics_register` stores the new metric at index `num_metrics` with `num_entries = 0`, so
the export after it is the export before it followed by exactly the HELP and TYPE lines of the
new metric, with no sample line. -/
theorem metrics_export_registration_order (fmt_g : Float → List Char) (ops : List MetricsOp)
    (c0 c : prts_metrics_collector) (cfg : prts_metric_config_t) (nm : List Char)
    (mem : Nat → Char) (buffer_size : Nat)
    (h0 : prts_metrics_create true true = (PRTS_OK, some c0)) (hc : c = metrics_run c0 ops)
    (hname : cfg.name = some nm) (hroom : c.num_metrics < MAX_METRICS)
    (hnew : ∀ i, i < c.num_metrics →
      c_str (c.metrics.getD i metric_entry_zero).name ≠ c_str nm)
    (hbs : buffer_size < SIZE_MOD)
    (hfit : (exposition fmt_g (prts_metrics_register c (some cfg)).2.metrics
      (prts_metrics_register c (some cfg)).2.num_metrics 0).length < buffer_size) :
    (∀ (ms : List metric_entry_t) (r i : Nat), exposition fmt_g ms (r + 1) i =
      metric_exposition fmt_g (ms.getD i metric_entry_zero) ++ exposition fmt_g ms r (i + 1)) ∧
    (∀ m : metric_entry_t, m.num_entries = 0 →
      metric_exposition fmt_g m = help_line m ++ type_line m) ∧
    (∃ mem1, prts_metrics_export_prometheus fmt_g c (some mem) buffer_size true
        = (PRTS_OK, some (mem1, (exposition fmt_g c.metrics c.num_metrics 0).length)) ∧
      mem_read mem1 0 (exposition fmt_g c.metrics c.num_metrics 0).length
        = exposition fmt_g c.metrics c.num_metrics 0) ∧
    ∃ m mem2, prts_metrics_register c (some cfg)
        = (PRTS_OK, { metrics := c.metrics.set c.num_metrics m
                      num_metrics := c.num_metrics + 1 }) ∧
      m.type = cfg.type ∧ m.num_entries = 0 ∧
      prts_metrics_export_prometheus fmt_g (prts_metrics_register c (some cfg)).2 (some mem)
          buffer_size true
        = (PRTS_OK, some (mem2, (exposition fmt_g c.metrics c.num_metrics 0).length
            + (help_line m ++ type_line m).length)) ∧
      mem_read mem2 0 ((exposition fmt_g c.metrics c.num_metrics 0).length
            + (help_line m ++ type_line m).length)
        = exposition fmt_g c.metrics c.num_metrics 0 ++ (help_line m ++ type_line m) := by
  have hinv := metrics_reached_inv ops c0 c h0 hc
  obtain ⟨_, _, o3⟩ := register_outcomes c cfg nm hname
  obtain ⟨m, _, m2, m3, _, hr⟩ := o3 hroom ((find_metric_none_iff c nm).mpr hnew)
  rw [size_add_one c.num_metrics MAX_METRICS hroom (by decide)] at hr
  have hz : ∀ m : metric_entry_t, m.num_entries = 0 →
      metric_exposition fmt_g m = help_line m ++ type_line m := by
    intro m hm
    rw [metric_exposition, hm, samples_text, List.append_nil]
  have hexp : exposition fmt_g (c.metrics.set c.num_metrics m) (c.num_metrics + 1) 0
      = exposition fmt_g c.metrics c.num_metrics 0 ++ (help_line m ++ type_line m) := by
    rw [exposition_snoc, Nat.zero_add,
      list_getD_set_same _ _ _ _ (by rw [hinv.1]; exact hroom), hz m m3]
    congr 1
    apply exposition_congr
    intro k _ hk
    exact list_getD_set_diff _ _ _ _ _ (by omega)
  rw [hr] at hfit
  dsimp only at hfit
  rw [hexp] at hfit
  refine ⟨fun _ _ _ => rfl, hz, ?_, m, ?_⟩
  · exact export_fit fmt_g c mem buffer_size hbs (by
      rw [List.length_append] at hfit
      omega)
  · obtain ⟨mem2, e1, e2⟩ := export_fit fmt_g (prts_metrics_register c (some cfg)).2 mem
      buffer_size hbs (by
        rw [hr]
        dsimp only
        rw [hexp]
        exact hfit)
    rw [hr] at e1 e2
    dsimp only at e1 e2
    rw [hexp, List.length_append] at e1 e2
    refine ⟨mem2, hr, m2, m3, ?_, e2⟩
    rw [hr]
    exact e1

set_option maxRecDepth 100000 in
/-- An export for C40: with the gauge `temperature` registered first and the counter
`http_requests` second, the export is the HELP and TYPE lines of the gauge followed by the HELP
and TYPE lines of the counter; no sample line with value 0 appears. -/
theorem metrics_export_registration_order_witness :
    exposition (fun _ => []) metrics_one_gauge.metrics metrics_one_gauge.num_metrics 0
      = "# HELP temperature t\n# TYPE temperature gauge\n".toList ∧
    exposition (fun _ => [])
        (prts_metrics_register metrics_one_gauge (some http_requests_cfg)).2.metrics
        (prts_metrics_register metrics_one_gauge (some http_requests_cfg)).2.num_metrics 0
      = ("# HELP temperature t\n# TYPE temperature gauge\n"
          ++ "# HELP http_requests n\n# TYPE http_requests counter\n").toList ∧
    ∃ m mem2, prts_metrics_register metrics_one_gauge (some http_requests_cfg)
        = (PRTS_OK, { metrics := metrics_one_gauge.metrics.set metrics_one_gauge.num_metrics m
                      num_metrics := metrics_one_gauge.num_metrics + 1 }) ∧
      m.type = http_requests_cfg.type ∧ m.num_entries = 0 ∧
      prts_metrics_export_prometheus (fun _ => [])
          (prts_metrics_register metrics_one_gauge (some http_requests_cfg)).2
          (some (fun _ => NUL)) 128 true
        = (PRTS_OK, some (mem2,
            (exposition (fun _ => []) metrics_one_gauge.metrics
                metrics_one_gauge.num_metrics 0).length
              + (help_line m ++ type_line m).length)) ∧
      mem_read mem2 0
          ((exposition (fun _ => []) metrics_one_gauge.metrics
                metrics_one_gauge.num_metrics 0).length
              + (help_line m ++ type_line m).length)
        = exposition (fun _ => []) metrics_one_gauge.metrics metrics_one_gauge.num_metrics 0
            ++ (help_line m ++ type_line m) :=
  ⟨by rfl, by rfl,
    (metrics_export_registration_order (fun _ => [])
      [MetricsOp.register (some temperature_cfg)] metrics_fresh metrics_one_gauge
      http_requests_cfg "http_requests".toList (fun _ => NUL) 128 rfl rfl rfl (by decide)
      (by
        intro i hi
        have h1 : metrics_one_gauge.num_metrics = 1 := rfl
        have h2 : i = 0 := by omega
        subst h2
        decide)
      (by decide)
      (by
        have h : exposition (fun _ => [])
            (prts_metrics_register metrics_one_gauge (some http_requests_cfg)).2.metrics
            (prts_metrics_register metrics_one_gauge (some http_requests_cfg)).2.num_metrics 0
          = ("# HELP temperature t\n# TYPE temperature gauge\n"
              ++ "# HELP http_requests n\n# TYPE http_requests counter\n").toList := by rfl
        rw [h]
        decide)).2.2.2⟩

/-! ## Thread pool: shutdown, submit, task wait and wait_all -/

theorem worker_exit_guard (pool p2 : prts_thread_pool) (w : Nat)
    (h : worker_exit pool w = some p2) : pool.shutdown = true ∧ pool.task_count = 0 := by
  unfold worker_exit at h
  by_cases c : pool.workers.getD w worker_pc.exited = worker_pc.idle
  · rw [if_neg (not_not.mpr c)] at h
    by_cases c2 : pool.shutdown = true ∧ pool.task_count = 0
    · exact c2
    · rw [if_neg c2] at h
      cases h
  · rw [if_pos c] at h
    cases h

theorem exited_of_mem_set (ws : List worker_pc) (w : Nat) (x : worker_pc)
    (hx : x ≠ worker_pc.exited) (h : worker_pc.exited ∈ ws.set w x) : worker_pc.exited ∈ ws := by
  rcases List.mem_or_eq_of_mem_set h with h1 | h1
  · exact h1
  · exact absurd h1.symm hx

theorem exit_inv_finish (pool : prts_thread_pool) (sub deq : List (Nat × Nat × Nat))
    (res : List prts_result_t) (a cc : Nat) (ws : List worker_pc)
    (h : worker_pc.exited ∈ ws → pool.shutdown = true ∧ pool.task_count = 0) :
    ExitInv
      { pool := { pool with active_count := a, completed_count := cc, workers := ws }
        submitted := sub, dequeued := deq, results := res } :=
  h

theorem executions_finish (pool : prts_thread_pool) (sub deq : List (Nat × Nat × Nat))
    (res : List prts_result_t) (a cc n k : Nat) (ws : List worker_pc)
    (h : deq.length + n = k + ws.countP worker_running + 0) :
    ({ pool := { pool with active_count := a, completed_count := cc, workers := ws }
       submitted := sub, dequeued := deq, results := res } : TpTrace).dequeued.length + n
      = k + ({ pool := { pool with active_count := a, completed_count := cc, workers := ws }
               submitted := sub, dequeued := deq, results := res } : TpTrace).pool.workers.countP
                worker_running + 0 :=
  h

theorem tp_step_exit_inv (t t2 : TpTrace) (ev : TpEvent) (h : tp_step t ev = some t2)
    (hinv : ExitInv t) : ExitInv t2 := by
  unfold ExitInv at hinv ⊢
  cases ev with
  | submit fn arg task_out malloc_task malloc_handle =>
    simp only [tp_step] at h
    cases hs : prts_threadpool_submit_wait t.pool fn arg task_out malloc_task malloc_handle with
    | none => rw [hs] at h; cases h
    | some r =>
      obtain ⟨r, pool, ho⟩ := r
      rw [hs] at h
      simp only [Option.some.injEq] at h
      subst h
      obtain ⟨_, _, _, e4, e5, e6⟩ := submit_counters _ _ _ _ _ _ _ _ _ hs
      intro hm
      have hm2 : worker_pc.exited ∈ pool.workers := hm
      rw [e4] at hm2
      obtain ⟨s, z⟩ := hinv hm2
      rcases e6 with ⟨_, e6⟩ | ⟨_, hsd, _, _⟩
      · refine ⟨?_, ?_⟩
        · show pool.shutdown = true
          rw [e5]
          exact s
        · show pool.task_count = 0
          rw [e6]
          exact z
      · rw [s] at hsd
        cases hsd
  | dequeue w =>
    simp only [tp_step] at h
    cases hs : worker_dequeue t.pool w with
    | none => rw [hs] at h; cases h
    | some pool =>
      rw [hs] at h
      simp only [Option.some.injEq] at h
      subst h
      obtain ⟨_, hne, rfl⟩ := worker_dequeue_spec _ _ _ hs
      intro hm
      have hm2 : worker_pc.exited ∈ t.pool.workers.set w (worker_pc.running t.pool.head) := hm
      exact absurd (hinv (exited_of_mem_set _ _ _ (by simp) hm2)).2 hne
  | execute w =>
    simp only [tp_step] at h
    cases hs : worker_execute t.pool w with
    | none => rw [hs] at h; cases h
    | some pool =>
      rw [hs] at h
      simp only [Option.map_some', Option.some.injEq] at h
      subst h
      obtain ⟨task, _, rfl⟩ := worker_execute_spec _ _ _ hs
      intro hm
      have hm2 : worker_pc.exited ∈ t.pool.workers.set w worker_pc.done := hm
      exact hinv (exited_of_mem_set _ _ _ (by simp) hm2)
  | finish w =>
    simp only [tp_step] at h
    cases hs : worker_finish t.pool w with
    | none => rw [hs] at h; cases h
    | some pool =>
      rw [hs] at h
      simp only [Option.map_some', Option.some.injEq] at h
      subst h
      obtain ⟨_, rfl⟩ := worker_finish_spec _ _ _ hs
      exact exit_inv_finish t.pool t.submitted t.dequeued t.results _ _ _
        (fun hm => hinv (exited_of_mem_set _ _ _ (by simp) hm))
  | exit w =>
    simp only [tp_step] at h
    cases hs : worker_exit t.pool w with
    | none => rw [hs] at h; cases h
    | some pool =>
      rw [hs] at h
      simp only [Option.map_some', Option.some.injEq] at h
      subst h
      have hg := worker_exit_guard _ _ _ hs
      obtain ⟨_, rfl⟩ := worker_exit_spec _ _ _ hs
      intro _
      exact hg
  | destroy =>
    simp only [tp_step, Option.some.injEq] at h
    subst h
    intro hm
    exact ⟨rfl, (hinv hm).2⟩

theorem tp_run_exit_inv (evs : List TpEvent) : ∀ (t t2 : TpTrace),
    tp_run t evs = some t2 → ExitInv t → ExitInv t2 := by
  induction evs with
  | nil =>
    intro t t2 h hinv
    simp only [tp_run, Option.some.injEq] at h
    subst h
    exact hinv
  | cons ev rest ih =>
    intro t t2 h hinv
    simp only [tp_run] at h
    cases hs : tp_step t ev with
    | none => rw [hs] at h; cases h
    | some t1 =>
      rw [hs] at h
      exact ih t1 t2 h (tp_step_exit_inv t t1 ev hs hinv)

theorem countP_running_set (ws : List worker_pc) (w : Nat) (x : worker_pc)
    (hw : w < ws.length) :
    (ws.set w x).countP worker_running
        + (if worker_running (ws.getD w worker_pc.exited) then 1 else 0)
      = ws.countP worker_running + (if worker_running x then 1 else 0) := by
  induction ws generalizing w with
  | nil => simp at hw
  | cons a ws ih =>
    cases w with
    | zero =>
      simp only [List.set_cons_zero, List.countP_cons, List.getD_cons_zero]
      omega
    | succ w =>
      simp only [List.length_cons, Nat.add_lt_add_iff_right] at hw
      have := ih w hw
      simp only [List.set_cons_succ, List.countP_cons, List.getD_cons_succ]
      omega

theorem tp_step_executions (t t2 : TpTrace) (ev : TpEvent) (h : tp_step t ev = some t2) :
    t2.dequeued.length + t.pool.workers.countP worker_running
      = t.dequeued.length + t2.pool.workers.countP worker_running + executions [ev] := by
  cases ev with
  | submit fn arg task_out malloc_task malloc_handle =>
    simp only [tp_step] at h
    cases hs : prts_threadpool_submit_wait t.pool fn arg task_out malloc_task malloc_handle with
    | none => rw [hs] at h; cases h
    | some r =>
      obtain ⟨r, pool, ho⟩ := r
      rw [hs] at h
      simp only [Option.some.injEq] at h
      subst h
      obtain ⟨_, _, _, e4, _, _⟩ := submit_counters _ _ _ _ _ _ _ _ _ hs
      show t.dequeued.length + _ = t.dequeued.length + pool.workers.countP worker_running + 0
      rw [e4, Nat.add_zero]
  | dequeue w =>
    simp only [tp_step] at h
    cases hs : worker_dequeue t.pool w with
    | none => rw [hs] at h; cases h
    | some pool =>
      rw [hs] at h
      simp only [Option.some.injEq] at h
      subst h
      obtain ⟨hidle, _, rfl⟩ := worker_dequeue_spec _ _ _ hs
      have hw : w < t.pool.workers.length := getD_lt_of_ne _ _ (by rw [hidle]; decide)
      have hcp := countP_running_set t.pool.workers w (worker_pc.running t.pool.head) hw
      rw [hidle] at hcp
      simp only [worker_running, Bool.false_eq_true, if_false, if_true, Nat.add_zero] at hcp
      show (t.dequeued ++ [_]).length + _
        = t.dequeued.length
          + (t.pool.workers.set w (worker_pc.running t.pool.head)).countP worker_running + 0
      rw [List.length_append, List.length_singleton, hcp]
      omega
  | execute w =>
    simp only [tp_step] at h
    cases hs : worker_execute t.pool w with
    | none => rw [hs] at h; cases h
    | some pool =>
      rw [hs] at h
      simp only [Option.map_some', Option.some.injEq] at h
      subst h
      obtain ⟨task, hrun, rfl⟩ := worker_execute_spec _ _ _ hs
      have hw : w < t.pool.workers.length := getD_lt_of_ne _ _ (by rw [hrun]; simp)
      have hcp := countP_running_set t.pool.workers w worker_pc.done hw
      rw [hrun] at hcp
      simp only [worker_running, Bool.false_eq_true, if_false, if_true, Nat.add_zero] at hcp
      show t.dequeued.length + _
        = t.dequeued.length + (t.pool.workers.set w worker_pc.done).countP worker_running + 1
      omega
  | finish w =>
    simp only [tp_step] at h
    cases hs : worker_finish t.pool w with
    | none => rw [hs] at h; cases h
    | some pool =>
      rw [hs] at h
      simp only [Option.map_some', Option.some.injEq] at h
      subst h
      obtain ⟨hdone, rfl⟩ := worker_finish_spec _ _ _ hs
      have hw : w < t.pool.workers.length := getD_lt_of_ne _ _ (by rw [hdone]; decide)
      have hcp := countP_running_set t.pool.workers w worker_pc.idle hw
      rw [hdone] at hcp
      simp only [worker_running, Bool.false_eq_true, if_false, Nat.add_zero] at hcp
      exact executions_finish t.pool t.submitted t.dequeued t.results _ _ _ _ _ (by omega)
  | exit w =>
    simp only [tp_step] at h
    cases hs : worker_exit t.pool w with
    | none => rw [hs] at h; cases h
    | some pool =>
      rw [hs] at h
      simp only [Option.map_some', Option.some.injEq] at h
      subst h
      obtain ⟨hidle, rfl⟩ := worker_exit_spec _ _ _ hs
      have hw : w < t.pool.workers.length := getD_lt_of_ne _ _ (by rw [hidle]; decide)
      have hcp := countP_running_set t.pool.workers w worker_pc.exited hw
      rw [hidle] at hcp
      simp only [worker_running, Bool.false_eq_true, if_false, Nat.add_zero] at hcp
      show t.dequeued.length + _
        = t.dequeued.length + (t.pool.workers.set w worker_pc.exited).countP worker_running + 0
      omega
  | destroy =>
    simp only [tp_step, Option.some.injEq] at h
    subst h
    rfl

theorem executions_cons (ev : TpEvent) (rest : List TpEvent) :
    executions (ev :: rest) = executions [ev] + executions rest := by
  cases ev <;> simp only [executions] <;> omega

theorem tp_run_executions (evs : List TpEvent) : ∀ (t t2 : TpTrace),
    tp_run t evs = some t2 →
    t2.dequeued.length + t.pool.workers.countP worker_running
      = t.dequeued.length + t2.pool.workers.countP worker_running + executions evs := by
  induction evs with
  | nil =>
    intro t t2 h
    simp only [tp_run, Option.some.injEq] at h
    subst h
    rfl
  | cons ev rest ih =>
    intro t t2 h
    simp only [tp_run] at h
    cases hs : tp_step t ev with
    | none => rw [hs] at h; cases h
    | some t1 =>
      rw [hs] at h
      have h1 := tp_step_executions t t1 ev hs
      have h2 := ih t1 t2 h
      rw [executions_cons]
      omega

theorem tp_create_count_inv (config : prts_threadpool_config_t) (pool_out calloc_pool : Bool)
    (nprocs : Nat) (calloc_threads : Bool) (threads_started : Nat)
    (nodes : Nat → Option task_node_t) (handles : Nat → Option Bool) (pool : prts_thread_pool)
    (hc : prts_threadpool_create (some config) pool_out calloc_pool nprocs calloc_threads
      threads_started nodes handles = (PRTS_OK, some pool))
    (hsz : config.num_threads < SIZE_MOD ∧ config.queue_size < SIZE_MOD ∧ nprocs < SIZE_MOD) :
    TpCountInv (tp_fresh pool) 0 := by
  obtain ⟨f1, f2, f3, _, _, _, _, f8, f9⟩ := tp_create_fields config pool_out calloc_pool nprocs
    calloc_threads threads_started nodes handles pool hc
  refine ⟨?_, ?_, ?_, ?_, ?_, ?_⟩
  · show pool.task_count + pool.active_count + 0 = 0
    omega
  · show pool.active_count = pool.workers.countP worker_active
    rw [f2, f9, List.countP_replicate]
    simp [worker_active]
  · show pool.completed_count = 0 % SIZE_MOD
    rw [f3]
    exact (Nat.zero_mod _).symm
  · show pool.queue_size < SIZE_MOD
    rw [f8]
    split_ifs
    · exact hsz.2.1
    · decide
  · show pool.workers.length < SIZE_MOD
    rw [f9, List.length_replicate]
    split_ifs
    · exact hsz.2.2
    · exact hsz.1
  · show pool.task_count ≤ pool.queue_size
    omega

theorem tp_create_queue_inv (config : prts_threadpool_config_t) (pool_out calloc_pool : Bool)
    (nprocs : Nat) (calloc_threads : Bool) (threads_started : Nat)
    (nodes : Nat → Option task_node_t) (handles : Nat → Option Bool) (pool : prts_thread_pool)
    (hc : prts_threadpool_create (some config) pool_out calloc_pool nprocs calloc_threads
      threads_started nodes handles = (PRTS_OK, some pool))
    (hsz : config.queue_size < SIZE_MOD) :
    TpQueueInv (tp_fresh pool) [] := by
  obtain ⟨f1, _, _, f4, f5, _, _, f8, f9⟩ := tp_create_fields config pool_out calloc_pool nprocs
    calloc_threads threads_started nodes handles pool hc
  refine ⟨?_, List.nodup_nil, ?_, ?_, ?_, ?_, ?_, ?_⟩
  · exact f4
  · exact f5
  · exact f1
  · show pool.queue_size < SIZE_MOD
    rw [f8]
    split_ifs
    · exact hsz
    · decide
  · show pool.task_count ≤ pool.queue_size
    omega
  · rfl
  · show workers_ok pool.workers pool.nodes []
    rw [f9]
    exact workers_ok_replicate _ _

theorem tp_create_exit_inv (config : prts_threadpool_config_t) (pool_out calloc_pool : Bool)
    (nprocs : Nat) (calloc_threads : Bool) (threads_started : Nat)
    (nodes : Nat → Option task_node_t) (handles : Nat → Option Bool) (pool : prts_thread_pool)
    (hc : prts_threadpool_create (some config) pool_out calloc_pool nprocs calloc_threads
      threads_started nodes handles = (PRTS_OK, some pool)) :
    ExitInv (tp_fresh pool) ∧ (tp_fresh pool).pool.workers.countP worker_running = 0 := by
  obtain ⟨_, _, _, _, _, _, _, _, f9⟩ := tp_create_fields config pool_out calloc_pool nprocs
    calloc_threads threads_started nodes handles pool hc
  refine ⟨?_, ?_⟩
  · intro hm
    have hm2 : worker_pc.exited ∈ pool.workers := hm
    rw [f9] at hm2
    have := List.eq_of_mem_replicate hm2
    cases this
  · show pool.workers.countP worker_running = 0
    rw [f9, List.countP_replicate]
    simp [worker_running]

theorem all_joined_spec (pool : prts_thread_pool) (h : all_joined pool = true) :
    worker_pc.exited ∈ pool.workers ∧ pool.workers.countP worker_running = 0 ∧
    pool.workers.countP worker_active = 0 := by
  unfold all_joined at h
  simp only [Bool.and_eq_true, Bool.not_eq_true', List.all_eq_true, decide_eq_true_eq] at h
  obtain ⟨h1, h2⟩ := h
  refine ⟨?_, ?_, ?_⟩
  · cases hw : pool.workers with
    | nil => rw [hw] at h1; simp at h1
    | cons a rest =>
      have := h2 a (by rw [hw]; exact List.mem_cons_self _ _)
      rw [this]
      exact List.mem_cons_self _ _
  · rw [List.countP_eq_zero]
    intro a ha
    rw [h2 a ha]
    simp [worker_running]
  · rw [List.countP_eq_zero]
    intro a ha
    rw [h2 a ha]
    simp [worker_active]

theorem worker_dequeue_enabled (pool : prts_thread_pool) (w : Nat)
    (hidle : pool.workers.getD w worker_pc.exited = worker_pc.idle)
    (hne : pool.task_count ≠ 0) :
    worker_dequeue pool w = some
      { pool with
        head := ((pool.nodes pool.head).map (fun n => n.next)).getD 0
        tail := if ((pool.nodes pool.head).map (fun n => n.next)).getD 0 = 0 then 0 else pool.tail
        task_count := size_sub pool.task_count 1
        active_count := size_add pool.active_count 1
        workers := pool.workers.set w (worker_pc.running pool.head) } := by
  unfold worker_dequeue
  rw [if_neg (not_not.mpr hidle), if_neg hne]

theorem worker_exit_blocked (pool : prts_thread_pool) (w : Nat) (hne : pool.task_count ≠ 0) :
    worker_exit pool w = none := by
  unfold worker_exit
  by_cases c : pool.workers.getD w worker_pc.exited = worker_pc.idle
  · rw [if_neg (not_not.mpr c), if_neg (fun h => hne h.2)]
  · rw [if_pos c]

theorem worker_execute_enabled (pool : prts_thread_pool) (w task : Nat)
    (h : pool.workers.getD w worker_pc.exited = worker_pc.running task) :
    ∃ p4, worker_execute pool w = some p4 ∧
      p4.workers = pool.workers.set w worker_pc.done ∧ p4.nodes task = none := by
  unfold worker_execute
  rw [h]
  exact ⟨_, rfl, rfl, Function.update_same _ _ _⟩

theorem dequeue_then_execute (pool : prts_thread_pool) (hd tl tc ac : Nat) (w : Nat)
    (hw : w < pool.workers.length) :
    ∃ p4, worker_execute
        { pool with head := hd, tail := tl, task_count := tc, active_count := ac
                    workers := pool.workers.set w (worker_pc.running pool.head) } w = some p4 ∧
      p4.workers.getD w worker_pc.exited = worker_pc.done ∧ p4.nodes pool.head = none := by
  obtain ⟨p4, e1, e2, e3⟩ := worker_execute_enabled
    { pool with head := hd, tail := tl, task_count := tc, active_count := ac
                workers := pool.workers.set w (worker_pc.running pool.head) } w pool.head
    (getD_set_self _ _ _ hw)
  refine ⟨p4, e1, ?_, e3⟩
  rw [e2]
  exact getD_set_self _ _ _ (by
    show w < (pool.workers.set w (worker_pc.running pool.head)).length
    rw [List.length_set]
    exact hw)

theorem destroy_free_empty (pool : prts_thread_pool) (h : pool.head = 0) :
    ∀ fuel, destroy_free_tasks fuel pool = some (pool, []) := by
  intro fuel
  cases fuel with
  | zero =>
    unfold destroy_free_tasks
    rw [if_neg (not_not.mpr h)]
  | succ n =>
    unfold destroy_free_tasks
    rw [if_neg (not_not.mpr h)]

theorem length_zero_nil {α : Type} (Q : List α) (h : 0 = Q.length) : Q = [] :=
  List.length_eq_zero.mp h.symm

/-- C35: `prts_threadpool_destroy` waits for all pending tasks.  In every state reached from a
pool built by `prts_threadpool_create` (with an allocator that never returns the address of a
live task node), a worker can return only when `shutdown` is set and `task_count == 0`, and as
soon as one worker has returned `shutdown` is set and the queue is empty; when every worker has
returned (the pool having at least one), which is when the join loop of destroy is over, the
queue is empty (`head` and `tail` null, `task_count == 0`), no task is active, every
successfully submitted task has been dequeued and the number of task executions equals the
number of successfully submitted tasks. -/
theorem threadpool_destroy_waits (config : prts_threadpool_config_t)
    (pool_out calloc_pool : Bool) (nprocs : Nat) (calloc_threads : Bool) (threads_started : Nat)
    (nodes : Nat → Option task_node_t) (handles : Nat → Option Bool) (pool : prts_thread_pool)
    (events : List TpEvent) (t2 : TpTrace)
    (hc : prts_threadpool_create (some config) pool_out calloc_pool nprocs calloc_threads
      threads_started nodes handles = (PRTS_OK, some pool))
    (hsz : config.num_threads < SIZE_MOD ∧ config.queue_size < SIZE_MOD ∧ nprocs < SIZE_MOD)
    (hm : tp_malloc_ok (tp_fresh pool) events = true)
    (hrun : tp_run (tp_fresh pool) events = some t2) :
    (∀ w p2, worker_exit t2.pool w = some p2 →
      t2.pool.shutdown = true ∧ t2.pool.task_count = 0) ∧
    (worker_pc.exited ∈ t2.pool.workers →
      t2.pool.shutdown = true ∧ t2.pool.task_count = 0 ∧ t2.pool.head = 0) ∧
    (all_joined t2.pool = true →
      t2.pool.head = 0 ∧ t2.pool.tail = 0 ∧ t2.pool.task_count = 0 ∧
      t2.pool.active_count = 0 ∧ t2.dequeued = t2.submitted ∧
      executions events = t2.submitted.length) := by
  obtain ⟨x1, x2⟩ := tp_create_exit_inv config pool_out calloc_pool nprocs calloc_threads
    threads_started nodes handles pool hc
  have hexit := tp_run_exit_inv events _ t2 hrun x1
  obtain ⟨Q, q1, _, q3, q4, _, _, q7, _⟩ := tp_run_queue events _ t2 [] hrun hm
    (tp_create_queue_inv config pool_out calloc_pool nprocs calloc_threads threads_started
      nodes handles pool hc hsz.2.1)
  obtain ⟨c, _, c2, _, _, _, _⟩ := tp_run_count events _ t2 0 hrun
    (tp_create_count_inv config pool_out calloc_pool nprocs calloc_threads threads_started
      nodes handles pool hc hsz)
  have hexec := tp_run_executions events _ t2 hrun
  rw [x2] at hexec
  have hempty : t2.pool.task_count = 0 → Q = [] := by
    intro hz
    rw [hz] at q4
    exact length_zero_nil Q q4
  refine ⟨fun w p2 h => worker_exit_guard _ _ _ h, ?_, ?_⟩
  · intro hmem
    obtain ⟨s, z⟩ := hexit hmem
    have hQ := hempty z
    subst hQ
    exact ⟨s, z, q1⟩
  · intro hall
    obtain ⟨j1, j2, j3⟩ := all_joined_spec t2.pool hall
    obtain ⟨_, z⟩ := hexit j1
    have hQ := hempty z
    subst hQ
    rw [j3] at c2
    rw [j2] at hexec
    have hsub : t2.submitted = t2.dequeued := by
      rw [q7, List.map_nil, List.append_nil]
    refine ⟨q1, q3, z, c2, hsub.symm, ?_⟩
    rw [hsub]
    have : (tp_fresh pool).dequeued.length = 0 := rfl
    omega

/-- A shutdown for C35: a task is queued when destroy sets `shutdown`; worker 0 takes it and
runs it before both workers return, and the queue is empty when they have. -/
theorem threadpool_destroy_waits_witness :
    tp_run (tp_fresh tp_created) tp_drain_scenario = some tp_drain_end ∧
    all_joined tp_drain_end.pool = true ∧
    tp_drain_end.submitted = [(7, 1, 0)] ∧
    tp_drain_end.pool.head = 0 ∧ tp_drain_end.pool.tail = 0 ∧
    tp_drain_end.pool.task_count = 0 ∧ tp_drain_end.pool.active_count = 0 ∧
    tp_drain_end.dequeued = tp_drain_end.submitted ∧
    executions tp_drain_scenario = tp_drain_end.submitted.length :=
  ⟨rfl, by decide, rfl,
    (threadpool_destroy_waits tp_cfg true true 8 true 2 (fun _ => none) (fun _ => none)
      tp_created tp_drain_scenario tp_drain_end rfl (by decide) (by decide) rfl).2.2
      (by decide)⟩

/-- C34 (counterexample): a task still queued when destroy sets `shutdown` is executed.  After
a submit and the critical section of destroy the pool has `shutdown` set and the task at address
4096 in the queue; worker 0 then dequeues and runs it, both workers return, and the final loop
of destroy finds the queue empty and frees no task. -/
theorem threadpool_destroy_drop_counterexample :
    tp_run (tp_fresh tp_created) tp_shutdown_scenario = some tp_shutdown_end ∧
    tp_shutdown_end.pool.shutdown = true ∧ tp_shutdown_end.pool.task_count = 1 ∧
    tp_shutdown_end.pool.head = 4096 ∧ tp_shutdown_end.dequeued = [] ∧
    tp_run tp_shutdown_end
      [TpEvent.dequeue 0, TpEvent.execute 0, TpEvent.finish 0, TpEvent.exit 1, TpEvent.exit 0]
      = some tp_drain_end ∧
    tp_drain_end.dequeued = [(7, 1, 0)] ∧ executions tp_drain_scenario = 1 ∧
    tp_drain_end.pool.completed_count = 1 ∧ all_joined tp_drain_end.pool = true ∧
    destroy_free_tasks 0 tp_drain_end.pool = some (tp_drain_end.pool, []) :=
  ⟨rfl, rfl, rfl, rfl, rfl, rfl, rfl, rfl, rfl, by decide, rfl⟩

/-- C34 (amended): `prts_threadpool_destroy` drains the pending tasks instead of dropping them.
In every state reached from a pool built by `prts_threadpool_create` (with an allocator that
never returns the address of a live task node) in which `shutdown` is set and the queue is not
empty, an idle worker cannot return; it dequeues the task at the head of the queue, whose node
is allocated, and then runs it and frees the node.  When every worker has returned (the pool
having at least one), the loop of destroy that frees the remaining tasks ends at once and frees
no task. -/
theorem threadpool_destroy_runs_queued (config : prts_threadpool_config_t)
    (pool_out calloc_pool : Bool) (nprocs : Nat) (calloc_threads : Bool) (threads_started : Nat)
    (nodes : Nat → Option task_node_t) (handles : Nat → Option Bool) (pool : prts_thread_pool)
    (events : List TpEvent) (t2 : TpTrace)
    (hc : prts_threadpool_create (some config) pool_out calloc_pool nprocs calloc_threads
      threads_started nodes handles = (PRTS_OK, some pool))
    (hsz : config.queue_size < SIZE_MOD)
    (hm : tp_malloc_ok (tp_fresh pool) events = true)
    (hrun : tp_run (tp_fresh pool) events = some t2) :
    (t2.pool.shutdown = true → t2.pool.task_count ≠ 0 →
      ∀ w, t2.pool.workers.getD w worker_pc.exited = worker_pc.idle →
        worker_exit t2.pool w = none ∧ t2.pool.head ≠ 0 ∧ t2.pool.nodes t2.pool.head ≠ none ∧
        ∃ p3 p4, worker_dequeue t2.pool w = some p3 ∧
          p3.workers.getD w worker_pc.exited = worker_pc.running t2.pool.head ∧
          worker_execute p3 w = some p4 ∧
          p4.workers.getD w worker_pc.exited = worker_pc.done ∧
          p4.nodes t2.pool.head = none) ∧
    (all_joined t2.pool = true →
      ∀ fuel, destroy_free_tasks fuel t2.pool = some (t2.pool, [])) := by
  obtain ⟨x1, _⟩ := tp_create_exit_inv config pool_out calloc_pool nprocs calloc_threads
    threads_started nodes handles pool hc
  have hexit := tp_run_exit_inv events _ t2 hrun x1
  obtain ⟨Q, q1, _, _, q4, _, _, _, _⟩ := tp_run_queue events _ t2 [] hrun hm
    (tp_create_queue_inv config pool_out calloc_pool nprocs calloc_threads threads_started
      nodes handles pool hc hsz)
  refine ⟨?_, ?_⟩
  · intro _ hne w hidle
    have hw : w < t2.pool.workers.length := getD_lt_of_ne _ _ (by rw [hidle]; decide)
    have hhead : t2.pool.head ≠ 0 ∧ t2.pool.nodes t2.pool.head ≠ none := by
      cases Q with
      | nil => exact absurd q4 hne
      | cons a rest =>
        obtain ⟨e1, e2, n, e3, _⟩ := q1
        rw [e1]
        refine ⟨e2, ?_⟩
        rw [e3]
        exact Option.some_ne_none n
    obtain ⟨p4, e1, e2, e3⟩ := dequeue_then_execute t2.pool
      (((t2.pool.nodes t2.pool.head).map (fun n => n.next)).getD 0)
      (if ((t2.pool.nodes t2.pool.head).map (fun n => n.next)).getD 0 = 0 then 0
        else t2.pool.tail)
      (size_sub t2.pool.task_count 1) (size_add t2.pool.active_count 1) w hw
    exact ⟨worker_exit_blocked _ _ hne, hhead.1, hhead.2, _, p4,
      worker_dequeue_enabled _ _ hidle hne, getD_set_self _ _ _ hw, e1, e2, e3⟩
  · intro hall
    obtain ⟨j1, _, _⟩ := all_joined_spec t2.pool hall
    obtain ⟨_, z⟩ := hexit j1
    rw [z] at q4
    have hQ := length_zero_nil Q q4
    subst hQ
    exact destroy_free_empty t2.pool q1

/-- A shutdown for C34: with `shutdown` set and one task queued, worker 0 cannot return; it
dequeues the task at address 4096 and runs it. -/
theorem threadpool_destroy_runs_queued_witness :
    tp_run (tp_fresh tp_created) tp_shutdown_scenario = some tp_shutdown_end ∧
    tp_shutdown_end.pool.shutdown = true ∧ tp_shutdown_end.pool.task_count ≠ 0 ∧
    tp_shutdown_end.pool.workers.getD 0 worker_pc.exited = worker_pc.idle ∧
    worker_exit tp_shutdown_end.pool 0 = none ∧ tp_shutdown_end.pool.head ≠ 0 ∧
    tp_shutdown_end.pool.nodes tp_shutdown_end.pool.head ≠ none ∧
    ∃ p3 p4, worker_dequeue tp_shutdown_end.pool 0 = some p3 ∧
      p3.workers.getD 0 worker_pc.exited = worker_pc.running tp_shutdown_end.pool.head ∧
      worker_execute p3 0 = some p4 ∧
      p4.workers.getD 0 worker_pc.exited = worker_pc.done ∧
      p4.nodes tp_shutdown_end.pool.head = none :=
  ⟨rfl, rfl, by decide, rfl,
    (threadpool_destroy_runs_queued tp_cfg true true 8 true 2 (fun _ => none) (fun _ => none)
      tp_created tp_shutdown_scenario tp_shutdown_end rfl (by decide) (by decide) rfl).1
      rfl (by decide) 0 rfl⟩

theorem submit_shutdown_returns (pool : prts_thread_pool) (f arg : Nat) (task_out : Bool)
    (malloc_task malloc_handle : Nat) (hmt : malloc_task ≠ 0)
    (hmh : task_out = true → malloc_handle ≠ 0) (hsd : pool.shutdown = true) :
    ∃ p2 ho, prts_threadpool_submit_wait pool (some f) arg task_out malloc_task malloc_handle
      = some (PRTS_ERROR, p2, ho) := by
  unfold prts_threadpool_submit_wait
  simp only
  rw [if_neg hmt, if_neg (fun h => hmh h.1 h.2), if_neg (fun h => h.2 hsd), if_pos hsd]
  exact ⟨_, _, rfl⟩

theorem submit_open_returns (pool : prts_thread_pool) (f arg : Nat) (task_out : Bool)
    (malloc_task malloc_handle : Nat) (hmt : malloc_task ≠ 0)
    (hmh : task_out = true → malloc_handle ≠ 0) (hsd : pool.shutdown = false)
    (hlt : pool.task_count < pool.queue_size) :
    ∃ p2 ho, prts_threadpool_submit_wait pool (some f) arg task_out malloc_task malloc_handle
      = some (PRTS_OK, p2, ho) := by
  unfold prts_threadpool_submit_wait
  simp only
  rw [if_neg hmt, if_neg (fun h => hmh h.1 h.2), if_neg (fun h => by omega),
    if_neg (by rw [hsd]; exact Bool.false_ne_true)]
  exact ⟨_, _, rfl⟩

/-- C36: on a pool whose `shutdown` flag is set, `prts_threadpool_submit` and
`prts_threadpool_submit_wait` (given a function, their allocations succeeding) return the generic
error, whose code is -1, and leave `head`, `tail`, `task_count`, `active_count`,
`completed_count` and `shutdown` as they were; with a null pool or a null function they return
invalid; every call that returns ok has increased `task_count` by exactly one, to a value that
is at most `queue_size`, and a call on a pool that is open and not full does return ok. -/
theorem threadpool_submit_shutdown (pool : prts_thread_pool) (f arg : Nat) (task_out : Bool)
    (malloc_task malloc_handle : Nat)
    (hq : pool.queue_size < SIZE_MOD) (hmt : malloc_task ≠ 0)
    (hmh : task_out = true → malloc_handle ≠ 0) :
    PRTS_ERROR.code = -1 ∧
    (pool.shutdown = true →
      (∃ p2 ho, prts_threadpool_submit_wait pool (some f) arg task_out malloc_task malloc_handle
          = some (PRTS_ERROR, p2, ho) ∧
        p2.head = pool.head ∧ p2.tail = pool.tail ∧ p2.task_count = pool.task_count ∧
        p2.active_count = pool.active_count ∧ p2.completed_count = pool.completed_count ∧
        p2.shutdown = true) ∧
      (∃ p2 ho, prts_threadpool_submit pool (some f) arg malloc_task
          = some (PRTS_ERROR, p2, ho) ∧
        p2.head = pool.head ∧ p2.tail = pool.tail ∧ p2.task_count = pool.task_count ∧
        p2.active_count = pool.active_count ∧ p2.completed_count = pool.completed_count ∧
        p2.shutdown = true)) ∧
    submit_wait_call none (some f) arg task_out malloc_task malloc_handle
      = some (PRTS_ERROR_INVALID, none, none) ∧
    prts_threadpool_submit_wait pool none arg task_out malloc_task malloc_handle
      = some (PRTS_ERROR_INVALID, pool, none) ∧
    prts_threadpool_submit pool none arg malloc_task = some (PRTS_ERROR_INVALID, pool, none) ∧
    (∀ fn p2 ho, prts_threadpool_submit_wait pool fn arg task_out malloc_task malloc_handle
        = some (PRTS_OK, p2, ho) →
      p2.task_count = pool.task_count + 1 ∧ p2.task_count ≤ p2.queue_size) ∧
    (pool.shutdown = false → pool.task_count < pool.queue_size →
      ∃ p2 ho, prts_threadpool_submit_wait pool (some f) arg task_out malloc_task malloc_handle
          = some (PRTS_OK, p2, ho) ∧
        p2.task_count = pool.task_count + 1 ∧ p2.task_count ≤ p2.queue_size) := by
  have hfail : ∀ (tout : Bool) (mh : Nat) (p2 : prts_thread_pool) (ho : Option Nat),
      pool.shutdown = true →
      prts_threadpool_submit_wait pool (some f) arg tout malloc_task mh
        = some (PRTS_ERROR, p2, ho) →
      p2.head = pool.head ∧ p2.tail = pool.tail ∧ p2.task_count = pool.task_count ∧
      p2.active_count = pool.active_count ∧ p2.completed_count = pool.completed_count ∧
      p2.shutdown = true := by
    intro tout mh p2 ho hsd h
    obtain ⟨e1, e2, _, _, e5, _⟩ := submit_counters _ _ _ _ _ _ _ _ _ h
    obtain ⟨_, _, e6⟩ := submit_queue_spec _ _ _ _ _ _ _ _ _ h
    rcases e6 with ⟨_, a1, a2, a3, _⟩ | ⟨hr, _⟩
    · exact ⟨a1, a2, a3, e1, e2, by rw [e5]; exact hsd⟩
    · cases hr
  have hok : ∀ fn p2 ho, prts_threadpool_submit_wait pool fn arg task_out malloc_task
      malloc_handle = some (PRTS_OK, p2, ho) →
      p2.task_count = pool.task_count + 1 ∧ p2.task_count ≤ p2.queue_size := by
    intro fn p2 ho h
    obtain ⟨_, _, e3, _, _, e6⟩ := submit_counters _ _ _ _ _ _ _ _ _ h
    rcases e6 with ⟨hr, _⟩ | ⟨_, _, hlt, e⟩
    · exact absurd rfl hr
    · rw [e, e3, size_add_one _ _ hlt hq]
      exact ⟨rfl, hlt⟩
  refine ⟨rfl, ?_, rfl, rfl, rfl, hok, ?_⟩
  · intro hsd
    refine ⟨?_, ?_⟩
    · obtain ⟨p2, ho, h⟩ := submit_shutdown_returns pool f arg task_out malloc_task
        malloc_handle hmt hmh hsd
      exact ⟨p2, ho, h, hfail _ _ _ _ hsd h⟩
    · obtain ⟨p2, ho, h⟩ := submit_shutdown_returns pool f arg false malloc_task 0 hmt
        (fun h => absurd h Bool.false_ne_true) hsd
      exact ⟨p2, ho, h, hfail _ _ _ _ hsd h⟩
  · intro hsd hlt
    obtain ⟨p2, ho, h⟩ := submit_open_returns pool f arg task_out malloc_task malloc_handle
      hmt hmh hsd hlt
    exact ⟨p2, ho, h, hok _ _ _ h⟩

/-- A submit for C36: on the pool of the scenarios after destroy has set `shutdown`, a submit
with a wait handle returns the generic error and leaves the queue and the counters alone. -/
theorem threadpool_submit_shutdown_witness :
    tp_closed.queue_size < SIZE_MOD ∧ tp_closed.shutdown = true ∧
    ∃ p2 ho, prts_threadpool_submit_wait tp_closed (some 7) 1 true 4096 4128
        = some (PRTS_ERROR, p2, ho) ∧
      p2.head = tp_closed.head ∧ p2.tail = tp_closed.tail ∧
      p2.task_count = tp_closed.task_count ∧ p2.active_count = tp_closed.active_count ∧
      p2.completed_count = tp_closed.completed_count ∧ p2.shutdown = true :=
  ⟨by decide, rfl,
    ((threadpool_submit_shutdown tp_closed 7 1 true 4096 4128 (by decide) (by decide)
      (fun _ => by decide)).2.1 rfl).1⟩

theorem task_wait_forever_some (wakes : List (Nat × Bool)) :
    ∀ (c b : Bool), task_wait_forever c wakes = some b → b = true := by
  induction wakes with
  | nil =>
    intro c b h
    cases c
    · simp [task_wait_forever] at h
    · simp only [task_wait_forever, Option.some.injEq] at h
      exact h.symm
  | cons w rest ih =>
    intro c b h
    cases c
    · obtain ⟨rc, c2⟩ := w
      simp only [task_wait_forever] at h
      exact ih c2 b h
    · simp only [task_wait_forever, Option.some.injEq] at h
      exact h.symm

theorem task_wait_forever_progress (wakes : List (Nat × Bool)) :
    ∀ (c : Bool), (c = true ∨ ∃ w ∈ wakes, w.2 = true) →
      task_wait_forever c wakes = some true := by
  induction wakes with
  | nil =>
    intro c h
    rcases h with h | ⟨w, hw, _⟩
    · subst h
      rfl
    · cases hw
  | cons w rest ih =>
    intro c h
    cases c
    · obtain ⟨rc, c2⟩ := w
      simp only [task_wait_forever]
      apply ih
      rcases h with h | ⟨w, hw, hc⟩
      · cases h
      · rcases List.mem_cons.mp hw with e | e
        · subst e
          exact Or.inl hc
        · exact Or.inr ⟨w, e, hc⟩
    · rfl

theorem task_wait_timed_some (wakes : List (Nat × Bool)) :
    ∀ (c : Bool) (e : Option prts_result_t) (b : Bool),
      task_wait_timed c wakes = some (e, b) →
      (e = none ∧ b = true) ∨ e = some PRTS_ERROR_TIMEOUT := by
  induction wakes with
  | nil =>
    intro c e b h
    cases c
    · simp [task_wait_timed] at h
    · simp only [task_wait_timed, Option.some.injEq, Prod.mk.injEq] at h
      exact Or.inl ⟨h.1.symm, h.2.symm⟩
  | cons w rest ih =>
    intro c e b h
    cases c
    · obtain ⟨rc, c2⟩ := w
      simp only [task_wait_timed] at h
      by_cases hrc : rc ≠ 0
      · rw [if_pos hrc] at h
        simp only [Option.some.injEq, Prod.mk.injEq] at h
        exact Or.inr h.1.symm
      · rw [if_neg hrc] at h
        exact ih c2 e b h
    · simp only [task_wait_timed, Option.some.injEq, Prod.mk.injEq] at h
      exact Or.inl ⟨h.1.symm, h.2.symm⟩

theorem task_wait_timed_progress (wakes : List (Nat × Bool)) :
    ∀ (c : Bool), (c = true ∨ ∃ w ∈ wakes, w.2 = true ∨ w.1 ≠ 0) →
      (task_wait_timed c wakes).isSome = true := by
  induction wakes with
  | nil =>
    intro c h
    rcases h with h | ⟨w, hw, _⟩
    · subst h
      rfl
    · cases hw
  | cons w rest ih =>
    intro c h
    cases c
    · obtain ⟨rc, c2⟩ := w
      simp only [task_wait_timed]
      by_cases hrc : rc ≠ 0
      · rw [if_pos hrc]
        rfl
      · rw [if_neg hrc]
        apply ih
        rcases h with h | ⟨w, hw, hc⟩
        · cases h
        · rcases List.mem_cons.mp hw with e | e
          · subst e
            rcases hc with hc | hc
            · exact Or.inl hc
            · exact absurd hc hrc
          · exact Or.inr ⟨w, e, hc⟩
    · rfl

/-- C37: `prts_task_wait` on a handle returns ok or timeout, and ok only with the `completed`
flag of the handle set at the return (with the flag clear it returns timeout); with
`timeout_ms == 0` it returns at once, ok if and only if the flag is already set; with
`timeout_ms < 0` every return is ok, and the call does return once the flag is set; with
`timeout_ms > 0` the call returns as soon as the flag is set or the timed wait fails; with a null
handle it returns invalid. -/
theorem task_wait_result (completed : Bool) (timeout_ms : Int) (wakes : List (Nat × Bool)) :
    (∀ r c, prts_task_wait (some completed) timeout_ms wakes = some (r, c) →
      (r = PRTS_OK ∨ r = PRTS_ERROR_TIMEOUT) ∧ (r = PRTS_OK → c = some true) ∧
      (c = some false → r = PRTS_ERROR_TIMEOUT)) ∧
    prts_task_wait (some completed) 0 wakes
      = some (if completed then PRTS_OK else PRTS_ERROR_TIMEOUT, some completed) ∧
    (timeout_ms < 0 → ∀ r c, prts_task_wait (some completed) timeout_ms wakes = some (r, c) →
      r = PRTS_OK ∧ c = some true) ∧
    (timeout_ms < 0 → (completed = true ∨ ∃ w ∈ wakes, w.2 = true) →
      prts_task_wait (some completed) timeout_ms wakes = some (PRTS_OK, some true)) ∧
    (timeout_ms > 0 → (completed = true ∨ ∃ w ∈ wakes, w.2 = true ∨ w.1 ≠ 0) →
      (prts_task_wait (some completed) timeout_ms wakes).isSome = true) ∧
    prts_task_wait none timeout_ms wakes = some (PRTS_ERROR_INVALID, none) := by
  have hneg : timeout_ms < 0 → ∀ r c,
      prts_task_wait (some completed) timeout_ms wakes = some (r, c) →
      r = PRTS_OK ∧ c = some true := by
    intro ht r c h
    unfold prts_task_wait at h
    simp only at h
    rw [if_pos ht] at h
    cases hf : task_wait_forever completed wakes with
    | none => rw [hf] at h; cases h
    | some b =>
      rw [hf] at h
      have hb := task_wait_forever_some wakes completed b hf
      subst hb
      simp only [Option.map_some', if_true, Option.some.injEq, Prod.mk.injEq] at h
      exact ⟨h.1.symm, h.2.symm⟩
  refine ⟨?_, rfl, hneg, ?_, ?_, rfl⟩
  · intro r c h
    by_cases ht : timeout_ms < 0
    · obtain ⟨e1, e2⟩ := hneg ht r c h
      subst e1 e2
      exact ⟨Or.inl rfl, fun _ => rfl, fun hc => absurd hc (by decide)⟩
    · unfold prts_task_wait at h
      simp only at h
      rw [if_neg ht] at h
      by_cases hp : timeout_ms > 0
      · rw [if_pos hp] at h
        cases hf : task_wait_timed completed wakes with
        | none => rw [hf] at h; cases h
        | some v =>
          obtain ⟨e, b⟩ := v
          rw [hf] at h
          rcases task_wait_timed_some wakes completed e b hf with ⟨he, hb⟩ | he
          · subst he hb
            simp only [Option.map_some', if_true, Option.some.injEq, Prod.mk.injEq] at h
            obtain ⟨e1, e2⟩ := h
            subst e1 e2
            exact ⟨Or.inl rfl, fun _ => rfl, fun hc => absurd hc (by decide)⟩
          · subst he
            simp only [Option.map_some', Option.some.injEq, Prod.mk.injEq] at h
            obtain ⟨e1, e2⟩ := h
            subst e1 e2
            exact ⟨Or.inr rfl, fun hc => absurd hc (by decide), fun _ => rfl⟩
      · rw [if_neg hp] at h
        simp only [Option.some.injEq, Prod.mk.injEq] at h
        obtain ⟨e1, e2⟩ := h
        subst e1 e2
        cases completed
        · exact ⟨Or.inr rfl, fun hc => absurd hc (by decide), fun _ => rfl⟩
        · exact ⟨Or.inl rfl, fun _ => rfl, fun hc => absurd hc (by decide)⟩
  · intro ht hw
    unfold prts_task_wait
    simp only
    rw [if_pos ht, task_wait_forever_progress wakes completed hw]
    rfl
  · intro hp hw
    unfold prts_task_wait
    simp only
    rw [if_neg (by omega), if_pos hp, Option.isSome_map']
    exact task_wait_timed_progress wakes completed hw

/-- A wait for C37: with an infinite timeout the call returns ok at the wake that finds the flag
set; a poll of an unfinished task and a timed wait that expires return timeout. -/
theorem task_wait_result_witness :
    prts_task_wait (some false) (-1) [(0, false), (0, true)] = some (PRTS_OK, some true) ∧
    prts_task_wait (some false) 0 [(0, true)] = some (PRTS_ERROR_TIMEOUT, some false) ∧
    prts_task_wait (some true) 0 [] = some (PRTS_OK, some true) ∧
    prts_task_wait (some false) 50 [(0, false), (110, false)]
      = some (PRTS_ERROR_TIMEOUT, some false) :=
  ⟨(task_wait_result false (-1) [(0, false), (0, true)]).2.2.2.1 (by decide)
      (Or.inr ⟨(0, true), by simp, rfl⟩),
    (task_wait_result false 0 [(0, true)]).2.1, rfl, rfl⟩

/-- The wake-ups of `prts_threadpool_wait_all` that the code does provide: every dequeue
signals `not_full`, and a blocked thread that is woken when `task_count == 0` and
`active_count == 0` returns. -/
theorem wait_all_woken_returns (pool pool2 : prts_thread_pool) (w : Nat)
    (h1 : pool2.task_count = 0) (h2 : pool2.active_count = 0) :
    tp_signal pool (TpEvent.dequeue w) = some tp_cond.not_full ∧
    wait_all_wake pool2 wait_all_pc.blocked (some tp_cond.not_full) = wait_all_pc.returned := by
  refine ⟨rfl, ?_⟩
  show wait_all_enter pool2 = _
  unfold wait_all_enter
  rw [if_neg (by omega)]

/-- C38: a missed wake-up of `prts_threadpool_wait_all`.  A task is submitted and worker 0
dequeues it; a thread that calls `prts_threadpool_wait_all` now blocks on `not_full`, since
`active_count` is 1.  The worker runs the task and lowers `active_count` to 0 without
signalling `not_full`: both counters are 0, the loop condition of wait_all is false, yet the
thread is still blocked, and no worker step is enabled that could signal it. -/
theorem wait_all_missed_wakeup :
    tp_run (tp_fresh tp_created) tp_busy_scenario = some tp_busy_end ∧
    tp_busy_end.pool.task_count = 0 ∧ tp_busy_end.pool.active_count = 1 ∧
    wait_all_enter tp_busy_end.pool = wait_all_pc.blocked ∧
    tp_signal tp_busy_end.pool (TpEvent.execute 0) = none ∧
    (∀ pool w, tp_signal pool (TpEvent.finish w) = none) ∧
    wait_all_run tp_busy_end wait_all_pc.blocked [TpEvent.execute 0, TpEvent.finish 0]
      = some (tp_idle_end, wait_all_pc.blocked) ∧
    tp_idle_end.pool.task_count = 0 ∧ tp_idle_end.pool.active_count = 0 ∧
    tp_idle_end.pool.completed_count = 1 ∧
    wait_all_enter tp_idle_end.pool = wait_all_pc.returned ∧
    (∀ w, tp_step tp_idle_end (TpEvent.dequeue w) = none ∧
      tp_step tp_idle_end (TpEvent.execute w) = none ∧
      tp_step tp_idle_end (TpEvent.finish w) = none ∧
      tp_step tp_idle_end (TpEvent.exit w) = none) := by
  refine ⟨rfl, rfl, rfl, rfl, rfl, fun _ _ => rfl, rfl, rfl, rfl, rfl, rfl, ?_⟩
  intro w
  have hw : tp_idle_end.pool.workers = [worker_pc.idle, worker_pc.idle] := rfl
  have htc : tp_idle_end.pool.task_count = 0 := rfl
  have hsd : tp_idle_end.pool.shutdown = false := rfl
  have hpc : tp_idle_end.pool.workers.getD w worker_pc.exited = worker_pc.idle ∨
      tp_idle_end.pool.workers.getD w worker_pc.exited = worker_pc.exited := by
    rw [hw]
    rcases w with _ | _ | w
    · exact Or.inl rfl
    · exact Or.inl rfl
    · exact Or.inr rfl
  refine ⟨?_, ?_, ?_, ?_⟩
  · simp only [tp_step]
    unfold worker_dequeue
    rw [htc]
    simp
  · simp only [tp_step]
    unfold worker_execute
    rcases hpc with e | e <;> rw [e] <;> rfl
  · simp only [tp_step]
    unfold worker_finish
    rcases hpc with e | e <;> rw [e] <;> rfl
  · simp only [tp_step]
    unfold worker_exit
    rw [hsd]
    simp

end PRTS
